import Mathlib

/-!
# Hermes2D hp-adaptivity driver

A shallow embedding of `hermes2d/src/adapt/adapt.cpp` (class `Adapt`) and the
properties of its adaptivity step, followed by the constructors and the
marker cache of `hermes2d/src/boundaryconditions/essential_bcs.cpp`.

Conventions of the embedding.

* `double` values (element errors, thresholds) are elements of a linearly
  ordered field `α`, i.e. exact arithmetic; `sqrt`, which is not a field
  operation, is supplied by the collaborators.  A division of doubles by zero
  gives inf or NaN, which a field does not have.  The source divides in two
  places: the relative change of strategy 0, whose test is modelled with its
  IEEE outcome (see `rel_change_exceeds`), and the error pass, which divides by
  the accumulated norms (lines 776, 793, 803, 828); the state returned by
  `calc_err_internal` records in `non_finite` whether one of these divisions had
  a zero divisor, and the values of the model describe the source when it is
  false (see `calc_err_internal_non_finite`).
* Pointers to meshes are handles (`Nat`); two components share a mesh when
  their handles are equal (`meshes[j] == meshes[i]` in the source).
* `error(...)` and `error_if(cond, ...)` abort the process; the embedding
  returns `Outcome.fatal` carrying the message and the state at the abort.
* Reading `regular_queue` past its end and dereferencing a missing son are
  reported as `Outcome.invalid_access`.  In the reconciliation the decision
  list is read through the table `idx` with a default value; what is proved
  about it assumes that the table points into the list.
* The reconciliation keeps a reference into the vector of decisions across
  `push_back` (lines 322 and 375).  `fix_shared_mesh_refinements` therefore
  takes the capacity of the vector: an append at full capacity moves the
  storage, and the next read through the reference is undefined behaviour,
  reported as `none` (`Outcome.invalid_access` in `adapt`).  The values the pass
  computes when the storage never moves are `reconciliation_values`.
* The virtual hooks, the refinement selectors, the mesh primitives and the
  order-encoding macros live outside `adapt.cpp`; they are the fields of
  `Collaborators`.
-/

namespace Hermes2D

/-! ## Data model -/

/-- Modelled from the spec: split code of a P-only refinement; the enum is
declared in `refinement_type.h`, which is not part of the sources. -/
def H2D_REFINEMENT_P : Int := -1

/-- Modelled from the spec: split code of the isotropic H refinement (four
sons); the enum is declared in `refinement_type.h`. -/
def H2D_REFINEMENT_H : Int := 0

/-- Modelled from the spec: split code of the anisotropic refinement along
the horizontal axis (two sons); `apply_refinement` tests it as `split == 1`. -/
def H2D_REFINEMENT_ANISO_H : Int := 1

/-- Modelled from the spec: split code of the anisotropic refinement along
the vertical axis (two sons); the enum is declared in `refinement_type.h`. -/
def H2D_REFINEMENT_ANISO_V : Int := 2

/-- Modelled from the spec: the fixed maximum of the component count
(`num` is bounded by a system-wide constant, e.g. 10). -/
def H2D_MAX_COMPONENTS : Nat := 10

/-- A handle `(id, comp)` of one (element, component) pair, as stored in the
queues. -/
structure ElementReference where
  id : Nat
  comp : Nat
deriving DecidableEq, Repr, Inhabited

/-- A refinement decision: element id, component, split code, the degrees
`p` of the sons and the degrees `q` suggested for an H split. -/
structure ElementToRefine where
  id : Nat
  comp : Nat
  split : Int
  p : List Int
  q : List Int
deriving DecidableEq, Repr, Inhabited

/-- Modelled from the spec: the constructor `ElementToRefine(id, comp)` of
`element_to_refine.h` (not part of the sources); it fixes the element and the
component and leaves the degree arrays to be filled by the selector. -/
def ElementToRefine.init (id comp : Nat) : ElementToRefine :=
  { id := id, comp := comp, split := H2D_REFINEMENT_H, p := [], q := [] }

/-- Modelled from the spec: an element of the mesh tree (`mesh.h` is not part
of the sources): used slot or not, active (leaf) or not, up to four son ids,
curved or not. -/
structure Element where
  used : Bool
  active : Bool
  sons : List (Option Nat)
  curved : Bool
deriving DecidableEq, Repr, Inhabited

/-- Modelled from the spec: a mesh is an arena of elements indexed by their
integer id (`mesh.h` is not part of the sources). -/
structure Mesh where
  elements : List Element
deriving DecidableEq, Repr, Inhabited

/-- Modelled from the spec: `Mesh::get_max_element_id`, the size of the
element arena. -/
def Mesh.get_max_element_id (m : Mesh) : Nat := m.elements.length

/-- Modelled from the spec: `Mesh::get_element(id)`. -/
def Mesh.get_element (m : Mesh) (id : Nat) : Element := m.elements.getD id default

/-- Modelled from the spec: the ids visited by `for_all_active_elements`,
in increasing order. -/
def Mesh.active_ids (m : Mesh) : List Nat :=
  (List.range m.get_max_element_id).filter
    (fun i => (m.get_element i).used && (m.get_element i).active)

/-- What `adapt.cpp` consumes from outside: `sqrt`, the two virtual hooks of
`Adapt`, the refinement selectors (indexed by their position in the vector
handed to `adapt`), the mesh primitives, the redistribution of degrees and the
order-encoding macros. -/
structure Collaborators (α : Type) where
  /-- The function `sqrt` of `<cmath>`. -/
  sqrt : α → α
  /-- The hook `should_ignore_element(inx_element, mesh, e)`: index in the regular
  queue (`-1` for a priority element), mesh handle, element id. -/
  should_ignore_element : Int → Nat → Nat → Bool
  /-- The call `refinement_selectors[comp]->select_refinement(e, current, rsln[comp],
  elem_ref)`: selector index, element id, current order, the decision to
  fill; returns the flag and the filled decision. -/
  select_refinement : Nat → Nat → Int → ElementToRefine → Bool × ElementToRefine
  /-- The hook `can_refine_element(mesh, e, refined, elem_ref)`. -/
  can_refine_element : Nat → Nat → Bool → ElementToRefine → Bool
  /-- The call `refinement_selectors[j]->generate_shared_mesh_orders(element,
  orig_quad_order, refinement, tgt_quad_orders, suggested_quad_orders)`:
  selector index, element id, order, split, the array to fill, the suggested
  orders (`none` for `NULL`); returns the filled array. -/
  generate_shared_mesh_orders :
    Nat → Nat → Int → Int → List Int → Option (List Int) → List Int
  /-- The primitive `Mesh::refine_element_id(id, refinement)`. -/
  refine_element_id : Mesh → Nat → Int → Mesh
  /-- The primitive `Mesh::regularize(n)`: the regularized mesh and the parent table. -/
  regularize : Mesh → Int → Mesh × List Int
  /-- The method `Space::distribute_orders(mesh, parents)` on the degrees of one component. -/
  distribute_orders : (Nat → Int) → Mesh → List Int → (Nat → Int)
  /-- The macro `H2D_GET_H_ORDER`. -/
  get_h_order : Int → Int
  /-- The macro `H2D_GET_V_ORDER`. -/
  get_v_order : Int → Int
  /-- The macro `H2D_MAKE_QUAD_ORDER`. -/
  make_quad_order : Int → Int → Int

/-- The state of an `Adapt` object together with the spaces and meshes it
points to. -/
structure AdaptState (α : Type) where
  /-- Number of components (`spaces.size()`). -/
  num : Nat
  /-- The handle of the mesh of component `j`, `spaces[j]->get_mesh()`. -/
  mesh_of : Nat → Nat
  /-- The meshes, by handle. -/
  meshes : Nat → Mesh
  /-- The stored degrees, `spaces[j]->get_element_order(id)`. -/
  orders : Nat → Nat → Int
  num_act_elems : Int
  have_errors : Bool
  /-- The element errors `errors[comp][id]`. -/
  errors : Nat → Nat → α
  errors_squared_sum : α
  regular_queue : List ElementReference
  priority_queue : List ElementReference
  last_refinements : List ElementToRefine

/-- Result of a call into the engine. -/
inductive Outcome (α : Type) where
  /-- Aborted by `error`/`error_if`; the state is the one at the abort. -/
  | fatal (msg : String) (st : AdaptState α)
  /-- An unchecked access left its container or followed a missing son. -/
  | invalid_access
  /-- The loop model ran out of fuel (never the case, see
  `adapt_never_out_of_fuel`). -/
  | out_of_fuel
  /-- Returned `done` in state `st`. -/
  | returned (done : Bool) (st : AdaptState α)

/-! ## The examination loop of `Adapt::adapt` (lines 156-243) -/

/-- The local variables of `adapt` that the loop reads and writes, with the
priority queue the loop pops from. -/
structure LoopVars (α : Type) where
  /-- The table `idx[id][comp]`: position of the decision of `(id, comp)`, `-1` if none.
  The source allocates it for the element ids below the largest
  `get_max_element_id()` of the meshes and the components below `num`. -/
  idx : Nat → Nat → Int
  err0_squared : α
  processed_error_squared : α
  elem_inx_to_proc : List ElementToRefine
  error_squared_threshod : α
  num_exam_elem : Nat
  num_ignored_elem : Nat
  num_not_changed : Nat
  num_priority_elem : Nat
  first_regular_element : Bool
  inx_regular_element : Nat
  priority_queue : List ElementReference

/-- The values of the locals before the loop (lines 152-170). -/
def LoopVars.init {α : Type} [LinearOrderedField α] (st : AdaptState α) : LoopVars α :=
  { idx := fun _ _ => -1
    err0_squared := 1000
    processed_error_squared := 0
    elem_inx_to_proc := []
    error_squared_threshod := -1
    num_exam_elem := 0
    num_ignored_elem := 0
    num_not_changed := 0
    num_priority_elem := 0
    first_regular_element := true
    inx_regular_element := 0
    priority_queue := st.priority_queue }

/-- The test `fabs((err_squared - err0_squared)/err0_squared) > 1e-3` of
line 209.  For a non-zero `err0_squared` this is the field expression.  For
`err0_squared = 0` IEEE arithmetic gives an infinite quotient when the
numerator is non-zero (the test holds) and NaN when it is zero (the test
fails). -/
def rel_change_exceeds {α : Type} [LinearOrderedField α] (err_squared err0_squared : α) : Bool :=
  if err0_squared = 0 then decide (err_squared ≠ 0)
  else decide (|(err_squared - err0_squared) / err0_squared| > 1 / 1000)

/-- The four `break` tests of lines 205-219, evaluated for an element of the
regular queue after the threshold of strategy 1 has been prepared. -/
def stopping_rule {α : Type} [LinearOrderedField α] (c : Collaborators α) (st : AdaptState α)
    (thr : α) (strat : Int) (to_be_processed : α) (v : LoopVars α) (err_squared : α) : Bool :=
  (decide (strat = 0)
      && decide (v.processed_error_squared > c.sqrt thr * st.errors_squared_sum)
      && rel_change_exceeds err_squared v.err0_squared)
  || (decide (strat = 1) && decide (err_squared < v.error_squared_threshod))
  || (decide (strat = 2) && decide (err_squared < thr))
  || (decide (strat = 3)
      && (decide (err_squared < v.error_squared_threshod)
          || decide (v.processed_error_squared > (3 / 2) * to_be_processed)))

/-- Lines 199-203: the first element of the regular queue that reaches the
stopping check fixes the threshold of strategies 1 and 3. -/
def prepare_threshold {α : Type} [LinearOrderedField α] (thr : α) (v : LoopVars α)
    (err_squared : α) : LoopVars α :=
  if v.first_regular_element then
    { v with error_squared_threshod := thr * err_squared, first_regular_element := false }
  else v

/-- Lines 222-238: ask the selector of the component for a suggestion and
record it when `can_refine_element` agrees. -/
def refinement_suggestion {α : Type} [LinearOrderedField α] (c : Collaborators α)
    (st : AdaptState α) (v : LoopVars α) (id comp : Nat) : LoopVars α :=
  let err_squared := st.errors comp id
  let current := st.orders comp id
  let r := c.select_refinement comp id current (ElementToRefine.init id comp)
  if c.can_refine_element (st.mesh_of comp) id r.1 r.2 then
    { v with
      idx := fun i k => if i = id ∧ k = comp then (v.elem_inx_to_proc.length : Int) else v.idx i k
      elem_inx_to_proc := v.elem_inx_to_proc ++ [r.2]
      err0_squared := err_squared
      processed_error_squared := v.processed_error_squared + err_squared }
  else
    { v with num_not_changed := v.num_not_changed + 1 }

/-- What one pass through the loop body does. -/
inductive Step (α : Type) where
  /-- A `break`: the loop is left with these locals. -/
  | stop (v : LoopVars α)
  /-- The body ran to its end. -/
  | next (v : LoopVars α)
  /-- The read `regular_queue[inx_regular_element]` was past the end. -/
  | invalid

/-- Lines 189-242: the element `(id, comp)` has been taken from a queue
(`inx_element` is its index in the regular queue, `-1` for a priority
element) and is examined. -/
def examine {α : Type} [LinearOrderedField α] (c : Collaborators α) (st : AdaptState α)
    (thr : α) (strat : Int) (to_be_processed : α) (v : LoopVars α)
    (id comp : Nat) (inx_element : Int) : Step α :=
  let v1 := { v with num_exam_elem := v.num_exam_elem + 1 }
  let err_squared := st.errors comp id
  if c.should_ignore_element inx_element (st.mesh_of comp) id then
    Step.next { v1 with num_ignored_elem := v1.num_ignored_elem + 1 }
  else if inx_element ≥ 0 then
    let v2 := prepare_threshold thr v1 err_squared
    if stopping_rule c st thr strat to_be_processed v2 err_squared then Step.stop v2
    else Step.next (refinement_suggestion c st v2 id comp)
  else
    Step.next (refinement_suggestion c st v1 id comp)

/-- Lines 173-242: one pass through the body of the `while` loop. -/
def adapt_iteration {α : Type} [LinearOrderedField α] (c : Collaborators α) (st : AdaptState α)
    (thr : α) (strat : Int) (to_be_processed : α) (v : LoopVars α) : Step α :=
  match v.priority_queue with
  | [] =>
    match st.regular_queue[v.inx_regular_element]? with
    | none => Step.invalid
    | some r =>
      examine c st thr strat to_be_processed
        { v with inx_regular_element := v.inx_regular_element + 1 }
        r.id r.comp (v.inx_regular_element : Int)
  | front :: rest =>
    examine c st thr strat to_be_processed
      { v with priority_queue := rest, num_priority_elem := v.num_priority_elem + 1 }
      front.id front.comp (-1)

/-- The loop condition of line 171. -/
def loop_condition {α : Type} (st : AdaptState α) (v : LoopVars α) : Bool :=
  decide ((v.inx_regular_element : Int) < st.num_act_elems) || !v.priority_queue.isEmpty

/-- How the loop is left. -/
inductive LoopExit (α : Type) where
  | finished (v : LoopVars α)
  | invalid
  | out_of_fuel

/-- Lines 171-243: the `while` loop, iterated at most `fuel` times. -/
def adapt_loop {α : Type} [LinearOrderedField α] (c : Collaborators α) (st : AdaptState α)
    (thr : α) (strat : Int) (to_be_processed : α) : Nat → LoopVars α → LoopExit α
  | 0, v => if loop_condition st v then LoopExit.out_of_fuel else LoopExit.finished v
  | fuel + 1, v =>
    if loop_condition st v then
      match adapt_iteration c st thr strat to_be_processed v with
      | Step.stop v1 => LoopExit.finished v1
      | Step.next v1 => adapt_loop c st thr strat to_be_processed fuel v1
      | Step.invalid => LoopExit.invalid
    else LoopExit.finished v

/-- The number of passes the loop can still make: the regular-queue entries
not yet taken plus the priority entries not yet popped. -/
def loop_measure {α : Type} (st : AdaptState α) (v : LoopVars α) : Nat :=
  (st.num_act_elems - (v.inx_regular_element : Int)).toNat + v.priority_queue.length

/-! ## Shared-mesh reconciliation (lines 318-381) -/

/-- Lines 330-342: the body of the selection loop for component `j`.  Once
the selection is the H split the loop is left, so the remaining components
leave it as it is. -/
def select_step (meshes : Nat → Nat) (idx : Nat → Nat → Int) (elems : List ElementToRefine)
    (elem_ref : ElementToRefine) (selected_refinement : Int) (j : Nat) : Int :=
  if selected_refinement = H2D_REFINEMENT_H then selected_refinement
  else if j ≠ elem_ref.comp ∧ meshes j = meshes elem_ref.comp then
    let ii := idx elem_ref.id j
    if ii ≥ 0 then
      let split_ii := (elems.getD ii.toNat default).split
      if split_ii ≠ selected_refinement ∧ split_ii ≠ H2D_REFINEMENT_P then
        if (split_ii = H2D_REFINEMENT_ANISO_H ∨ split_ii = H2D_REFINEMENT_ANISO_V)
            ∧ selected_refinement = H2D_REFINEMENT_P then split_ii
        else H2D_REFINEMENT_H
      else selected_refinement
    else selected_refinement
  else selected_refinement

/-- Lines 327-343 with the components visited in the order `js`. -/
def selected_refinement_over (js : List Nat) (meshes : Nat → Nat) (idx : Nat → Nat → Int)
    (elems : List ElementToRefine) (elem_ref : ElementToRefine) : Int :=
  js.foldl (select_step meshes idx elems elem_ref) elem_ref.split

/-- Lines 327-343: the refinement used by all components that share the
mesh of `elem_ref`; the source visits the components `0, ..., num - 1`. -/
def selected_refinement (num : Nat) (meshes : Nat → Nat) (idx : Nat → Nat → Int)
    (elems : List ElementToRefine) (elem_ref : ElementToRefine) : Int :=
  selected_refinement_over (List.range num) meshes idx elems elem_ref

/-- Lines 357-360 and 366-369: the decision at position `i` gets the split
`selected_refinement` and its orders are generated anew by `gen`; nothing is
done when it has that split already. -/
def set_split (elems : List ElementToRefine) (i : Nat) (selected_refinement : Int)
    (gen : List Int → List Int) : List ElementToRefine :=
  let elem_ref := elems.getD i default
  if elem_ref.split ≠ selected_refinement then
    elems.set i { elem_ref with split := selected_refinement, p := gen elem_ref.p }
  else elems

/-- Lines 355-377: the body of the update loop for component `j`, acting on
the decision at position `inx` (the reference `elem_ref` of the source). -/
def update_step {α : Type} (c : Collaborators α) (meshes : Nat → Nat) (idx : Nat → Nat → Int)
    (inx : Nat) (selected_refinement : Int) (suggested_orders : Option (List Int))
    (current_quad_order : Int) (elems : List ElementToRefine) (j : Nat) :
    List ElementToRefine :=
  let elem_ref := elems.getD inx default
  let gen := fun p =>
    c.generate_shared_mesh_orders j elem_ref.id current_quad_order selected_refinement p
      suggested_orders
  if j ≠ elem_ref.comp ∧ meshes j = meshes elem_ref.comp then
    let elems1 := set_split elems inx selected_refinement gen
    let ii := idx elem_ref.id j
    if ii ≥ 0 then set_split elems1 ii.toNat selected_refinement gen
    else
      elems1 ++
        [{ ElementToRefine.init elem_ref.id j with
            split := selected_refinement
            p := gen (ElementToRefine.init elem_ref.id j).p }]
  else elems

/-- Lines 322-379: the body of the outer loop for the decision at position
`inx`. -/
def fix_iteration {α : Type} (c : Collaborators α) (st : AdaptState α) (meshes : Nat → Nat)
    (idx : Nat → Nat → Int) (elems : List ElementToRefine) (inx : Nat) :
    List ElementToRefine :=
  let elem_ref := elems.getD inx default
  let current_quad_order := st.orders elem_ref.comp elem_ref.id
  let selected := selected_refinement st.num meshes idx elems elem_ref
  if selected ≠ H2D_REFINEMENT_P then
    let suggested_orders := if selected = H2D_REFINEMENT_H then some elem_ref.q else none
    (List.range st.num).foldl
      (update_step c meshes idx inx selected suggested_orders current_quad_order) elems
  else elems

/-- Lines 320-380 as a function on the entries of the vector: the decisions
present at the call (`num_elem_to_proc` of them) are visited in order and
synthesized decisions are appended behind them.  These are the entries that
`fix_shared_mesh_refinements` leaves when no `push_back` moves the storage of
the vector under the reference `elem_ref`. -/
def reconciliation_values {α : Type} (c : Collaborators α) (st : AdaptState α)
    (meshes : Nat → Nat) (elems_to_refine : List ElementToRefine) (idx : Nat → Nat → Int) :
    List ElementToRefine :=
  (List.range elems_to_refine.length).foldl (fix_iteration c st meshes idx) elems_to_refine

/-- Lines 371-376: whether the body of the update loop for component `j`
reaches `elems_to_refine.push_back(elem_ref_new)`. -/
def update_step_appends (meshes : Nat → Nat) (idx : Nat → Nat → Int) (inx : Nat)
    (elems : List ElementToRefine) (j : Nat) : Bool :=
  let elem_ref := elems.getD inx default
  decide (j ≠ elem_ref.comp ∧ meshes j = meshes elem_ref.comp ∧ ¬ idx elem_ref.id j ≥ 0)

/-- The vector `elems_to_refine` during one visit of the outer loop: its
entries, and whether a `push_back` of this visit may have moved its storage,
so that the reference `elem_ref` (line 322) and the pointer `suggested_orders`
(line 351) dangle. -/
structure VisitState where
  elems : List ElementToRefine
  dangling : Bool

/-- Lines 355-377 with the storage of the vector.  The body starts by reading
`elem_ref.comp` (line 356); through a dangling reference this read is
undefined (`none`).  A `push_back` keeps the storage in place as long as the
size is below `capacity`, the capacity that the source guarantees for the
vector; a `push_back` at a size that has reached it may move the storage. -/
def update_step_checked {α : Type} (c : Collaborators α) (meshes : Nat → Nat)
    (idx : Nat → Nat → Int) (inx : Nat) (selected_refinement : Int)
    (suggested_orders : Option (List Int)) (current_quad_order : Int) (capacity : Nat)
    (s : Option VisitState) (j : Nat) : Option VisitState :=
  match s with
  | none => none
  | some s =>
    if s.dangling then none
    else
      some
        { elems :=
            update_step c meshes idx inx selected_refinement suggested_orders current_quad_order
              s.elems j
          dangling := update_step_appends meshes idx inx s.elems j
            && decide (capacity ≤ s.elems.length) }

/-- Lines 322-379 with the storage of the vector: the reference `elem_ref` is
bound anew at the start of the visit, so a visit starts without a dangling
reference. -/
def fix_iteration_checked {α : Type} (c : Collaborators α) (st : AdaptState α)
    (meshes : Nat → Nat) (idx : Nat → Nat → Int) (capacity : Nat)
    (elems : Option (List ElementToRefine)) (inx : Nat) : Option (List ElementToRefine) :=
  match elems with
  | none => none
  | some elems =>
    let elem_ref := elems.getD inx default
    let current_quad_order := st.orders elem_ref.comp elem_ref.id
    let selected := selected_refinement st.num meshes idx elems elem_ref
    if selected ≠ H2D_REFINEMENT_P then
      let suggested_orders := if selected = H2D_REFINEMENT_H then some elem_ref.q else none
      match (List.range st.num).foldl
          (update_step_checked c meshes idx inx selected suggested_orders current_quad_order
            capacity)
          (some { elems := elems, dangling := false }) with
      | none => none
      | some s => some s.elems
    else some elems

/-- The method `Adapt::fix_shared_mesh_refinements` (lines 318-381) on a
vector with the entries `elems_to_refine` and the guaranteed capacity
`capacity`.  The result is `none` when a pass of the update loop reads through
the reference `elem_ref` after a `push_back` that may have moved the storage
(undefined behaviour); otherwise it is the list of the entries at the end. -/
def fix_shared_mesh_refinements {α : Type} (c : Collaborators α) (st : AdaptState α)
    (meshes : Nat → Nat) (elems_to_refine : List ElementToRefine) (idx : Nat → Nat → Int)
    (capacity : Nat) : Option (List ElementToRefine) :=
  (List.range elems_to_refine.length).foldl (fix_iteration_checked c st meshes idx capacity)
    (some elems_to_refine)

/-! ## Applying the decisions (lines 383-436) -/

/-- Modelled from the spec: `Space::set_element_order_internal(id, order)`
stores the degree of one element of one component (`space.h` is not part of
the sources). -/
def set_element_order_internal {α : Type} (st : AdaptState α) (comp id : Nat) (order : Int) :
    AdaptState α :=
  { st with orders := fun k i => if k = comp ∧ i = id then order else st.orders k i }

/-- One assignment `space->set_element_order_internal(e->sons[slot]->id,
order)`; following a missing son is an invalid access. -/
def set_son_order {α : Type} (st : AdaptState α) (comp id slot : Nat) (order : Int) :
    Option (AdaptState α) :=
  match ((st.meshes (st.mesh_of comp)).get_element id).sons.getD slot none with
  | none => none
  | some son => some (set_element_order_internal st comp son order)

/-- The call `mesh->refine_element_id(id, refinement)` on the mesh with
handle `h`. -/
def refine_mesh {α : Type} (c : Collaborators α) (st : AdaptState α) (h id : Nat)
    (refinement : Int) : AdaptState α :=
  { st with
    meshes := fun k => if k = h then c.refine_element_id (st.meshes h) id refinement
                       else st.meshes k }

/-- The method `Adapt::apply_refinement` (lines 415-436). -/
def apply_refinement {α : Type} (c : Collaborators α) (st : AdaptState α)
    (elem_ref : ElementToRefine) : Option (AdaptState α) :=
  let h := st.mesh_of elem_ref.comp
  let e := (st.meshes h).get_element elem_ref.id
  if elem_ref.split = H2D_REFINEMENT_P then
    some (set_element_order_internal st elem_ref.comp elem_ref.id (elem_ref.p.getD 0 0))
  else if elem_ref.split = H2D_REFINEMENT_H then
    let st1 := if e.active then refine_mesh c st h elem_ref.id 0 else st
    (List.range 4).foldlM
      (fun s j => set_son_order s elem_ref.comp elem_ref.id j (elem_ref.p.getD j 0)) st1
  else
    let st1 := if e.active then refine_mesh c st h elem_ref.id elem_ref.split else st
    (List.range 2).foldlM
      (fun s j =>
        set_son_order s elem_ref.comp elem_ref.id (if elem_ref.split = 1 then j else j + 2)
          (elem_ref.p.getD j 0)) st1

/-- The method `Adapt::apply_refinements` (lines 407-413). -/
def apply_refinements {α : Type} (c : Collaborators α) (st : AdaptState α)
    (elems_to_refine : List ElementToRefine) : Option (AdaptState α) :=
  elems_to_refine.foldlM (apply_refinement c) st

/-- Lines 387-398: the new order of component `i` on element `id`: the
maximum, separately for the horizontal and the vertical order, over the
components sharing the mesh, read from the current state. -/
def homogenized_order {α : Type} (c : Collaborators α) (st : AdaptState α)
    (meshes : Nat → Nat) (i id : Nat) : Int :=
  let current_quad_order := st.orders i id
  let hv :=
    (List.range st.num).foldl
      (fun (acc : Int × Int) j =>
        if j ≠ i ∧ meshes j = meshes i then
          (max acc.1 (c.get_h_order (st.orders j id)), max acc.2 (c.get_v_order (st.orders j id)))
        else acc)
      (c.get_h_order current_quad_order, c.get_v_order current_quad_order)
  c.make_quad_order hv.1 hv.2

/-- The method `Adapt::homogenize_shared_mesh_orders` (lines 383-401): components in
increasing order, active elements of the component's mesh in increasing id,
each update done in place. -/
def homogenize_shared_mesh_orders {α : Type} (c : Collaborators α) (st : AdaptState α)
    (meshes : Nat → Nat) : AdaptState α :=
  (List.range st.num).foldl
    (fun s i =>
      (s.meshes (meshes i)).active_ids.foldl
        (fun s1 id => set_element_order_internal s1 i id (homogenized_order c s1 meshes i id)) s)
    st

/-- Lines 268-283: mesh regularization; level 0 is replaced by level 1, a
negative level skips the phase. -/
def regularize_meshes {α : Type} (c : Collaborators α) (st : AdaptState α)
    (meshes : Nat → Nat) (regularize : Int) : AdaptState α :=
  if regularize ≥ 0 then
    let level := if regularize = 0 then 1 else regularize
    (List.range st.num).foldl
      (fun s i =>
        let r := c.regularize (s.meshes (meshes i)) level
        { s with
          meshes := fun k => if k = meshes i then r.1 else s.meshes k
          orders := fun k => if k = i then c.distribute_orders (s.orders i) r.1 r.2
                             else s.orders k })
      st
  else st

/-! ## `Adapt::adapt` (lines 126-308) -/

/-- The method `Adapt::adapt(refinement_selectors, thr, strat, regularize,
to_be_processed)`; `num_selectors` is the length of the selector vector, whose
entries act through `Collaborators`.  The degree-of-freedom numbering
(`Space::assign_dofs`) and the transform flags of the reference solutions are
not part of the state.  Line 160 reserves `num_act_elems` entries for the
vector of decisions, and a vector holds at least its size: the maximum of the
two is the capacity that the source guarantees at the call of
`fix_shared_mesh_refinements` (line 260). -/
def adapt {α : Type} [LinearOrderedField α] (c : Collaborators α) (st : AdaptState α)
    (num_selectors : Nat) (thr : α) (strat : Int) (regularize : Int) (to_be_processed : α) :
    Outcome α :=
  if !st.have_errors then
    Outcome.fatal "element errors have to be calculated first, call Adapt::calc_err_est()." st
  else if num_selectors = 0 then Outcome.fatal "selector not provided" st
  else if st.num ≠ num_selectors then Outcome.fatal "Wrong number of refinement selectors." st
  else
    match adapt_loop c st thr strat to_be_processed
        (loop_measure st (LoopVars.init st)) (LoopVars.init st) with
    | LoopExit.invalid => Outcome.invalid_access
    | LoopExit.out_of_fuel => Outcome.out_of_fuel
    | LoopExit.finished v =>
      let done := decide (v.num_exam_elem = 0) || v.elem_inx_to_proc.isEmpty
      match fix_shared_mesh_refinements c st st.mesh_of v.elem_inx_to_proc v.idx
          (max st.num_act_elems.toNat v.elem_inx_to_proc.length) with
      | none => Outcome.invalid_access
      | some elems =>
        match apply_refinements c st elems with
        | none => Outcome.invalid_access
        | some st1 =>
          let st2 := homogenize_shared_mesh_orders c st1 st.mesh_of
          let st3 := regularize_meshes c st2 st.mesh_of regularize
          Outcome.returned done
            { st3 with
              last_refinements := elems
              have_errors := decide (strat = 2) && done
              priority_queue := v.priority_queue }

/-! ## Concrete collaborators and states used to exercise the model -/

/-- A selector that raises the degree of every element by one (P-only
refinement) and hooks with the behaviour of the base class: nothing is
ignored, the answer of the selector is final.  The mesh primitives leave the
mesh as it is, orders are encoded with five bits per direction, and `sqrt` is
tabulated on the thresholds used below. -/
def demo_collaborators : Collaborators ℚ :=
  { sqrt := fun x => if x = 1 / 100 then 1 / 10 else if x = 1 / 4 then 1 / 2 else if x = 1 then 1 else 0
    should_ignore_element := fun _ _ _ => false
    select_refinement := fun _ _ current elem_ref =>
      (true, { elem_ref with split := H2D_REFINEMENT_P, p := [current + 1], q := [] })
    can_refine_element := fun _ _ refined _ => refined
    generate_shared_mesh_orders := fun _ _ _ _ p _ => p
    refine_element_id := fun m _ _ => m
    regularize := fun m _ => (m, [])
    distribute_orders := fun o _ _ => o
    get_h_order := fun o => o % 32
    get_v_order := fun o => o / 32
    make_quad_order := fun h v => v * 32 + h }

/-- One component on a mesh of four active elements of degree 1 whose errors
are 5, 1, 1/2 and 1/4 (total 27/4), right after a storing error pass. -/
def demo_state : AdaptState ℚ :=
  { num := 1
    mesh_of := fun _ => 0
    meshes := fun _ =>
      { elements := List.replicate 4
          { used := true, active := true, sons := [none, none, none, none], curved := false } }
    orders := fun _ _ => 1
    num_act_elems := 4
    have_errors := true
    errors := fun _ id => if id = 0 then 5 else if id = 1 then 1 else if id = 2 then 1 / 2 else 1 / 4
    errors_squared_sum := 27 / 4
    regular_queue := [⟨0, 0⟩, ⟨1, 0⟩, ⟨2, 0⟩, ⟨3, 0⟩]
    priority_queue := []
    last_refinements := [] }

/-- The states of the locals at the head of the `while` loop of `adapt`: the
initial one and every one reached by a completed pass through the body. -/
inductive loop_reachable {α : Type} [LinearOrderedField α] (c : Collaborators α)
    (st : AdaptState α) (thr : α) (strat : Int) (to_be_processed : α) : LoopVars α → Prop where
  | init : loop_reachable c st thr strat to_be_processed (LoopVars.init st)
  | step (v w : LoopVars α) :
      loop_reachable c st thr strat to_be_processed v →
      loop_condition st v = true →
      adapt_iteration c st thr strat to_be_processed v = Step.next w →
      loop_reachable c st thr strat to_be_processed w

/-- The demo state with element 1 waiting in the priority queue. -/
def rise_state : AdaptState ℚ :=
  { demo_state with priority_queue := [⟨1, 0⟩] }

/-- The decision the selector of the component produces for a queue entry
(lines 223-226). -/
def decision_of {α : Type} (c : Collaborators α) (st : AdaptState α) (r : ElementReference) :
    ElementToRefine :=
  (c.select_refinement r.comp r.id (st.orders r.comp r.id) (ElementToRefine.init r.id r.comp)).2

/-- Whether `can_refine_element` accepts the suggestion of the selector for a
queue entry (line 229). -/
def accepted {α : Type} (c : Collaborators α) (st : AdaptState α) (r : ElementReference) : Bool :=
  c.can_refine_element (st.mesh_of r.comp) r.id
    (c.select_refinement r.comp r.id (st.orders r.comp r.id) (ElementToRefine.init r.id r.comp)).1
    (c.select_refinement r.comp r.id (st.orders r.comp r.id) (ElementToRefine.init r.id r.comp)).2

/-! ## Notions used to state the properties of the reconciliation -/

/-- The precedence of the specification on split codes, as an order: the
P-only code is below every code, the H split is above every code, and the two
anisotropic codes are comparable only with themselves, P-only and H. -/
def split_le (a b : Int) : Prop :=
  a = b ∨ a = H2D_REFINEMENT_P ∨ b = H2D_REFINEMENT_H

instance (a b : Int) : Decidable (split_le a b) := by
  unfold split_le
  infer_instance

/-- The four split codes of the enum. -/
def valid_split (s : Int) : Prop :=
  s = H2D_REFINEMENT_P ∨ s = H2D_REFINEMENT_H ∨ s = H2D_REFINEMENT_ANISO_H
    ∨ s = H2D_REFINEMENT_ANISO_V

instance (s : Int) : Decidable (valid_split s) := by
  unfold valid_split
  infer_instance

/-- The splits of the pending decisions for the element of `elem_ref` held by
the other components of `js` that share its mesh, in the order of `js`. -/
def consulted_splits (js : List Nat) (meshes : Nat → Nat) (idx : Nat → Nat → Int)
    (elems : List ElementToRefine) (elem_ref : ElementToRefine) : List Int :=
  (js.filter (fun j => decide (j ≠ elem_ref.comp ∧ meshes j = meshes elem_ref.comp
      ∧ idx elem_ref.id j ≥ 0))).map
    (fun j => (elems.getD (idx elem_ref.id j).toNat default).split)

/-- Lines 330 and 335-340: what one consulted split makes of the selection. -/
def merge_split (selected_refinement split_ii : Int) : Int :=
  if selected_refinement = H2D_REFINEMENT_H then selected_refinement
  else if split_ii ≠ selected_refinement ∧ split_ii ≠ H2D_REFINEMENT_P then
    if (split_ii = H2D_REFINEMENT_ANISO_H ∨ split_ii = H2D_REFINEMENT_ANISO_V)
        ∧ selected_refinement = H2D_REFINEMENT_P then split_ii
    else H2D_REFINEMENT_H
  else selected_refinement

/-- Two components on one mesh whose decisions for element 5 ask for the two
different anisotropic splits; `shared_idx` is their position table. -/
def shared_elems : List ElementToRefine :=
  [{ id := 5, comp := 0, split := H2D_REFINEMENT_ANISO_H, p := [2, 2], q := [1, 1, 1, 1] },
   { id := 5, comp := 1, split := H2D_REFINEMENT_ANISO_V, p := [3, 3], q := [1, 1, 1, 1] }]

/-- The position table of `shared_elems`. -/
def shared_idx : Nat → Nat → Int :=
  fun id j => if id = 5 ∧ j = 0 then 0 else if id = 5 ∧ j = 1 then 1 else -1

/-- The table `idx` points into `elems`: every entry that is not negative is
the position of a decision of `elems` with that element id and component. -/
def idx_points_into (idx : Nat → Nat → Int) (elems : List ElementToRefine) : Prop :=
  ∀ id j, 0 ≤ idx id j →
    (idx id j).toNat < elems.length
    ∧ (elems.getD (idx id j).toNat default).id = id
    ∧ (elems.getD (idx id j).toNat default).comp = j

/-- The table `idx` is the position table of `elems`, as `adapt` builds it
(line 230) when no (element, component) pair is recorded twice: it points into
`elems`, and the entry of every decision is its position. -/
def idx_position_table (idx : Nat → Nat → Int) (elems : List ElementToRefine) : Prop :=
  idx_points_into idx elems
  ∧ ∀ i, i < elems.length →
      idx (elems.getD i default).id (elems.getD i default).comp = (i : Int)

/-- All decisions for one element id held by components on one mesh carry
the same split. -/
def unified (meshes : Nat → Nat) (elems : List ElementToRefine) : Prop :=
  ∀ a ∈ elems, ∀ b ∈ elems, a.id = b.id → meshes a.comp = meshes b.comp → a.split = b.split

/-- Every decision whose split is not P-only is accompanied by a decision for
the same element id of every component that shares its mesh. -/
def mirrored (num : Nat) (meshes : Nat → Nat) (elems : List ElementToRefine) : Prop :=
  ∀ a ∈ elems, a.split ≠ H2D_REFINEMENT_P →
    ∀ j, j < num → meshes j = meshes a.comp → ∃ b ∈ elems, b.id = a.id ∧ b.comp = j

/-- The list `elems'` arises from `elems` by steps of the update loop for the
element `gid` on the mesh `gm` with selection `U`: the decisions keep their
positions, ids and components; a split changes only to `U` and only for a
decision of that element on that mesh; what is appended is a decision of that
element on that mesh with split `U`. -/
def updated_from (meshes : Nat → Nat) (U : Int) (gid gm : Nat)
    (elems elems' : List ElementToRefine) : Prop :=
  elems.length ≤ elems'.length
  ∧ (∀ i, i < elems.length →
      (elems'.getD i default).id = (elems.getD i default).id
      ∧ (elems'.getD i default).comp = (elems.getD i default).comp
      ∧ ((elems'.getD i default).split = (elems.getD i default).split
          ∨ ((elems'.getD i default).split = U ∧ (elems.getD i default).id = gid
              ∧ meshes (elems.getD i default).comp = gm)))
  ∧ (∀ i, elems.length ≤ i → i < elems'.length →
      (elems'.getD i default).id = gid ∧ meshes (elems'.getD i default).comp = gm
      ∧ (elems'.getD i default).split = U)

/-- The split `r` is the least upper bound, under the precedence, of the
splits that the decisions of `elems0` carry for the element and the mesh of
the decision at position `i`. -/
def group_lub (meshes : Nat → Nat) (elems0 : List ElementToRefine) (i : Nat) (r : Int) : Prop :=
  (∀ b, b < elems0.length →
      (elems0.getD b default).id = (elems0.getD i default).id →
      meshes (elems0.getD b default).comp = meshes (elems0.getD i default).comp →
      split_le (elems0.getD b default).split r)
  ∧ ∀ u, (∀ b, b < elems0.length →
      (elems0.getD b default).id = (elems0.getD i default).id →
      meshes (elems0.getD b default).comp = meshes (elems0.getD i default).comp →
      split_le (elems0.getD b default).split u) → split_le r u

/-- What holds in `reconciliation_values` after the first `k` of the
decisions `elems0` given to it have been visited and the list has become
`elems`: the given decisions are in place with their ids and components; the
group (same element, same mesh) of every visited decision carries one split;
every appended decision belongs to the group of a visited one; a visited
decision whose split is not P-only has a decision of every component on its
mesh beside it; a given decision whose group has not been visited has its
split untouched; and, on codes of the enum, the split of a visited decision is
the least upper bound of the splits given for its group. -/
def pass_invariant (num : Nat) (meshes : Nat → Nat) (elems0 : List ElementToRefine) (k : Nat)
    (elems : List ElementToRefine) : Prop :=
  elems0.length ≤ elems.length
  ∧ (∀ i, i < elems0.length →
      (elems.getD i default).id = (elems0.getD i default).id
      ∧ (elems.getD i default).comp = (elems0.getD i default).comp)
  ∧ (∀ i b, i < k → b < elems.length →
      (elems.getD b default).id = (elems.getD i default).id →
      meshes (elems.getD b default).comp = meshes (elems.getD i default).comp →
      (elems.getD b default).split = (elems.getD i default).split)
  ∧ (∀ b, elems0.length ≤ b → b < elems.length →
      ∃ i, i < k ∧ (elems.getD b default).id = (elems.getD i default).id
        ∧ meshes (elems.getD b default).comp = meshes (elems.getD i default).comp)
  ∧ (∀ i, i < k → (elems.getD i default).split ≠ H2D_REFINEMENT_P →
      ∀ j, j < num → meshes j = meshes (elems.getD i default).comp →
        ∃ b, b < elems.length ∧ (elems.getD b default).id = (elems.getD i default).id
          ∧ (elems.getD b default).comp = j)
  ∧ (∀ b, b < elems0.length →
      (∀ i, i < k → ¬ ((elems0.getD i default).id = (elems0.getD b default).id
        ∧ meshes (elems0.getD i default).comp = meshes (elems0.getD b default).comp)) →
      (elems.getD b default).split = (elems0.getD b default).split)
  ∧ ((∀ i, i < elems0.length → valid_split (elems0.getD i default).split) →
      ∀ i, i < k → group_lub meshes elems0 i (elems.getD i default).split)

/-- The demo state with a second component on the same mesh. -/
def shared_state : AdaptState ℚ :=
  { demo_state with num := 2 }

/-! ## Mesh primitives modelled from the specification -/

/-- A fresh active element without sons. -/
def fresh_element : Element :=
  { used := true, active := true, sons := [none, none, none, none], curved := false }

/-- Modelled from the spec: `Mesh::refine_element_id(id, refinement)`, which is
not part of the sources.  The H split (code 0) gives the element four sons,
the anisotropic split with code 1 two sons in the first two slots, the other
anisotropic split two sons in the last two slots; the sons are new active
elements with the next free ids and the element becomes inactive. -/
def spec_refine_element_id (m : Mesh) (id : Nat) (refinement : Int) : Mesh :=
  let n := m.elements.length
  let e := m.get_element id
  if refinement = 0 then
    { elements :=
        m.elements.set id
            { e with active := false, sons := [some n, some (n + 1), some (n + 2), some (n + 3)] }
          ++ [fresh_element, fresh_element, fresh_element, fresh_element] }
  else if refinement = 1 then
    { elements :=
        m.elements.set id { e with active := false, sons := [some n, some (n + 1), none, none] }
          ++ [fresh_element, fresh_element] }
  else
    { elements :=
        m.elements.set id { e with active := false, sons := [none, none, some n, some (n + 1)] }
          ++ [fresh_element, fresh_element] }

/-- The demo collaborators with the refinement primitive modelled from the
specification. -/
def refining_collaborators : Collaborators ℚ :=
  { demo_collaborators with refine_element_id := spec_refine_element_id }

/-- A P-only decision for element 2 of component 0 of the demo state. -/
def p_decision : ElementToRefine :=
  { id := 2, comp := 0, split := H2D_REFINEMENT_P, p := [3], q := [] }

/-- An H decision for element 0 of component 0 of the demo state. -/
def h_decision : ElementToRefine :=
  { id := 0, comp := 0, split := H2D_REFINEMENT_H, p := [2, 3, 4, 5], q := [] }

/-- An anisotropic decision (vertical split) for element 1 of component 0 of
the demo state. -/
def aniso_decision : ElementToRefine :=
  { id := 1, comp := 0, split := H2D_REFINEMENT_ANISO_V, p := [2, 3], q := [] }

/-! ## The method `Adapt::unrefine` (lines 440-546) -/

/-- Modelled from the spec: the number of son slots of an element (`sons[≤4]`);
the constant is declared in `mesh.h`, which is not part of the sources. -/
def H2D_MAX_ELEMENT_SONS : Nat := 4

/-- Result of a call of a method that returns nothing. -/
inductive Completion (α : Type) where
  /-- Aborted by `error`; the state is the one at the abort. -/
  | fatal (msg : String) (st : AdaptState α)
  /-- An unchecked access left its container. -/
  | invalid_access
  /-- Ran to its end in state `st`. -/
  | finished (st : AdaptState α)

/-- Lines 457-460 and 504-507: `found`, no existing son in the first `bound`
slots is inactive or curved. -/
def sons_mergeable (bound : Nat) (m : Mesh) (e : Element) : Bool :=
  (List.range bound).all
    (fun i =>
      match e.sons.getD i none with
      | none => true
      | some s => (m.get_element s).active && !(m.get_element s).curved)

/-- Lines 464-476: the accumulators `sum1_squared`, `sum2_squared`, `max1`,
`max2` of the single-mesh branch after the loop over the son slots. -/
def single_mesh_sums {α : Type} [LinearOrderedField α] (st : AdaptState α) (e : Element) :
    α × α × Int × Int :=
  (List.range H2D_MAX_ELEMENT_SONS).foldl
    (fun (acc : α × α × Int × Int) i =>
      match e.sons.getD i none with
      | none => acc
      | some s =>
        (acc.1 + st.errors 0 s, acc.2.1 + st.errors 1 s,
          if st.orders 0 s > acc.2.2.1 then st.orders 0 s else acc.2.2.1,
          if st.orders 1 s > acc.2.2.2 then st.orders 1 s else acc.2.2.2))
    (0, 0, 0, 0)

/-- Lines 511-519: the accumulators `sum_squared` and `max` of the multimesh
branch for component `m`. -/
def multi_mesh_sums {α : Type} [LinearOrderedField α] (st : AdaptState α) (m : Nat)
    (e : Element) : α × Int :=
  (List.range 4).foldl
    (fun (acc : α × Int) i =>
      match e.sons.getD i none with
      | none => acc
      | some s =>
        (acc.1 + st.errors m s, if st.orders m s > acc.2 then st.orders m s else acc.2))
    (0, 0)

/-- The call `mesh->unrefine_element_id(id)` on the mesh with handle `h`; the
primitive itself is a parameter. -/
def unrefine_mesh {α : Type} (unrefine_element_id : Mesh → Nat → Mesh) (st : AdaptState α)
    (h id : Nat) : AdaptState α :=
  { st with
    meshes := fun k => if k = h then unrefine_element_id (st.meshes h) id else st.meshes k }

/-- The assignment `errors[comp][id] = v`. -/
def set_error {α : Type} (st : AdaptState α) (comp id : Nat) (v : α) : AdaptState α :=
  { st with errors := fun k i => if k = comp ∧ i = id then v else st.errors k i }

/-- Lines 454-488: one pass through the body of the loop over the inactive
elements of `mesh[0]` in the single-mesh branch, for the element slot `id`.
Reading `regular_queue[0]` of an empty queue is an invalid access. -/
def merge_single_step {α : Type} [LinearOrderedField α]
    (unrefine_element_id : Mesh → Nat → Mesh) (thr : α) (st : AdaptState α) (id : Nat) :
    Option (AdaptState α) :=
  let e := (st.meshes (st.mesh_of 0)).get_element id
  if e.used && !e.active then
    if sons_mergeable 4 (st.meshes (st.mesh_of 0)) e then
      let sums := single_mesh_sums st e
      match st.regular_queue.head? with
      | none => none
      | some r =>
        if sums.1 < thr * st.errors r.comp r.id ∧ sums.2.1 < thr * st.errors r.comp r.id then
          let s1 := unrefine_mesh unrefine_element_id st (st.mesh_of 0) id
          let s2 := unrefine_mesh unrefine_element_id s1 (st.mesh_of 1) id
          let s3 := set_error s2 0 id sums.1
          let s4 := set_error s3 1 id sums.2.1
          let s5 := set_element_order_internal s4 0 id sums.2.2.1
          some (set_element_order_internal s5 1 id sums.2.2.2)
        else some st
    else some st
  else some st

/-- Lines 502-528: one pass through the body of the loop over the inactive
elements of `mesh[m]` in the multimesh branch, for the element slot `id`. -/
def merge_multi_step {α : Type} [LinearOrderedField α]
    (unrefine_element_id : Mesh → Nat → Mesh) (thr : α) (m : Nat) (st : AdaptState α)
    (id : Nat) : Option (AdaptState α) :=
  let e := (st.meshes (st.mesh_of m)).get_element id
  if e.used && !e.active then
    if sons_mergeable H2D_MAX_ELEMENT_SONS (st.meshes (st.mesh_of m)) e then
      let sums := multi_mesh_sums st m e
      match st.regular_queue.head? with
      | none => none
      | some r =>
        if sums.1 < thr * st.errors r.comp r.id then
          let s1 := unrefine_mesh unrefine_element_id st (st.mesh_of m) id
          let s2 := set_error s1 m id sums.1
          some (set_element_order_internal s2 m id sums.2)
        else some st
    else some st
  else some st

/-- Lines 491-497 and 532-537: the test and the assignment for one active
element and one component. -/
def lower_step {α : Type} [LinearOrderedField α] (c : Collaborators α) (thr : α)
    (st : AdaptState α) (comp id : Nat) : Option (AdaptState α) :=
  match st.regular_queue.head? with
  | none => none
  | some r =>
    if st.errors comp id < thr / 4 * st.errors r.comp r.id then
      let oo := c.get_h_order (st.orders comp id)
      some (set_element_order_internal st comp id (max (oo - 1) 1))
    else some st

/-- Lines 489-498 (`comps = [0, 1]`) and 530-538 (`comps = [m]`): the loop over
the active elements `ids` of the mesh, which this loop does not change. -/
def lower_phase {α : Type} [LinearOrderedField α] (c : Collaborators α) (thr : α)
    (comps ids : List Nat) (st : AdaptState α) : Option (AdaptState α) :=
  ids.foldlM (fun s id => comps.foldlM (fun s1 i => lower_step c thr s1 i id) s) st

/-- Lines 451-499: the single-mesh branch.  The loop over the inactive
elements runs over the ids below the element count read at its start and tests
each slot on the current mesh. -/
def unrefine_single {α : Type} [LinearOrderedField α] (c : Collaborators α)
    (unrefine_element_id : Mesh → Nat → Mesh) (thr : α) (st : AdaptState α) :
    Option (AdaptState α) :=
  ((List.range (st.meshes (st.mesh_of 0)).get_max_element_id).foldlM
      (merge_single_step unrefine_element_id thr) st).bind
    (fun s1 => lower_phase c thr (List.range 2) (s1.meshes (s1.mesh_of 0)).active_ids s1)

/-- Lines 500-540: the multimesh branch, for `m = 0, 1`. -/
def unrefine_multi {α : Type} [LinearOrderedField α] (c : Collaborators α)
    (unrefine_element_id : Mesh → Nat → Mesh) (thr : α) (st : AdaptState α) :
    Option (AdaptState α) :=
  (List.range 2).foldlM
    (fun s m =>
      ((List.range (s.meshes (s.mesh_of m)).get_max_element_id).foldlM
          (merge_multi_step unrefine_element_id thr m) s).bind
        (fun s1 => lower_phase c thr [m] (s1.meshes (s1.mesh_of m)).active_ids s1))
    st

/-- The method `Adapt::unrefine` (lines 440-546).  With fewer than two
components `spaces[1]` does not exist; the counter `k` only feeds a log
message and is left out. -/
def unrefine {α : Type} [LinearOrderedField α] (c : Collaborators α)
    (unrefine_element_id : Mesh → Nat → Mesh) (st : AdaptState α) (thr : α) : Completion α :=
  if !st.have_errors then
    Completion.fatal "Element errors have to be calculated first, see Adapt::calc_err_est()." st
  else if st.num > 2 then
    Completion.fatal "Unrefine implemented for two spaces only." st
  else if st.num < 2 then
    Completion.invalid_access
  else
    let r :=
      if st.mesh_of 0 = st.mesh_of 1 then unrefine_single c unrefine_element_id thr st
      else unrefine_multi c unrefine_element_id thr st
    match r with
    | none => Completion.invalid_access
    | some s => Completion.finished { s with have_errors := false }

/-- The sons of an element, in slot order. -/
def sons_of (e : Element) : List Nat :=
  (List.range 4).filterMap (fun i => e.sons.getD i none)

/-- The summed error of the sons of `e` in component `comp`. -/
def sons_error_sum {α : Type} [LinearOrderedField α] (st : AdaptState α) (comp : Nat)
    (e : Element) : α :=
  ((sons_of e).map (st.errors comp)).sum

/-- The maximum of 0 and the degrees of the sons of `e` in component `comp`. -/
def sons_max_order {α : Type} (st : AdaptState α) (comp : Nat) (e : Element) : Int :=
  ((sons_of e).map (st.orders comp)).foldl max 0

/-- Modelled from the spec: `Mesh::unrefine_element_id(id)`, which is not part
of the sources: the sons of an inactive element are retired and the element
becomes an active leaf again; an active element is left as it is. -/
def spec_unrefine_element_id (m : Mesh) (id : Nat) : Mesh :=
  let e := m.get_element id
  if e.active then m
  else
    { elements :=
        ((sons_of e).foldl
          (fun (l : List Element) s => l.set s { (l.getD s default) with used := false })
          m.elements).set id { e with active := true, sons := [none, none, none, none] } }

/-- Two components on one mesh: element 0 was split into the active sons
1..4, element 5 is an active leaf that heads the regular queue with the squared
error 100.  The sons carry the squared errors 1 (component 0) and 1/2
(component 1) and the degrees 2, 3, 2, 1 (component 0) and 1, 1, 2, 1
(component 1). -/
def coarsen_state : AdaptState ℚ :=
  { num := 2
    mesh_of := fun _ => 0
    meshes := fun _ =>
      { elements :=
          [{ used := true, active := false, sons := [some 1, some 2, some 3, some 4],
             curved := false },
           fresh_element, fresh_element, fresh_element, fresh_element, fresh_element] }
    orders := fun k i =>
      if i = 5 then 4
      else if k = 0 then (if i = 2 then 3 else if i = 4 then 1 else 2)
      else (if i = 3 then 2 else 1)
    num_act_elems := 10
    have_errors := true
    errors := fun k i => if i = 5 then (if k = 0 then 100 else 50) else if k = 0 then 1 else 1 / 2
    errors_squared_sum := 156
    regular_queue := [⟨5, 0⟩, ⟨5, 1⟩, ⟨1, 0⟩, ⟨2, 0⟩, ⟨3, 0⟩, ⟨4, 0⟩, ⟨1, 1⟩, ⟨2, 1⟩, ⟨3, 1⟩, ⟨4, 1⟩]
    priority_queue := []
    last_refinements := [] }

/-- The state `coarsen_state` with the two components on meshes of their own. -/
def coarsen_state_multi : AdaptState ℚ :=
  { coarsen_state with mesh_of := fun j => j }

/-- The state `t` differs from `s` at most in the stored degrees. -/
def same_but_orders {α : Type} (s t : AdaptState α) : Prop :=
  t.num = s.num ∧ t.mesh_of = s.mesh_of ∧ t.meshes = s.meshes
  ∧ t.num_act_elems = s.num_act_elems ∧ t.have_errors = s.have_errors
  ∧ t.errors = s.errors ∧ t.errors_squared_sum = s.errors_squared_sum
  ∧ t.regular_queue = s.regular_queue ∧ t.priority_queue = s.priority_queue
  ∧ t.last_refinements = s.last_refinements

/-- The degree of component `k` on element `i` after the degree-lowering test
against the error of the queue entry `r`. -/
def lowered_order {α : Type} [LinearOrderedField α] (c : Collaborators α) (thr : α)
    (st : AdaptState α) (r : ElementReference) (k i : Nat) : Int :=
  if st.errors k i < thr / 4 * st.errors r.comp r.id then
    max (c.get_h_order (st.orders k i) - 1) 1
  else st.orders k i

/-! ## The error pass `Adapt::calc_err_internal` (lines 689-833) -/

/-- The codes of the error flags, which are declared in `adapt.h` (not part of
the sources): the two masks and the mode codes that `adapt.cpp` compares
with. -/
structure ErrorFlagCodes where
  HERMES_TOTAL_ERROR_MASK : Nat
  HERMES_TOTAL_ERROR_ABS : Nat
  HERMES_TOTAL_ERROR_REL : Nat
  HERMES_ELEMENT_ERROR_MASK : Nat
  HERMES_ELEMENT_ERROR_REL : Nat

/-- Modelled from the spec: a solution (coarse or reference field) as far as
the error pass reads it, the handle of its mesh (`solution.h` is not part of
the sources). -/
structure Solution where
  mesh : Nat
deriving DecidableEq, Repr, Inhabited

/-- Modelled from the spec: one state (leaf) of the multi-mesh traversal
(`traverse.h` is not part of the sources): the ids `ee[i]->id` of the current
element of each mesh, and the value `res` that `form->value` yields at this
state for the error and for the norm of the pair `(i, j)`. -/
structure TraverseState (α : Type) where
  id : Nat → Nat
  err_value : Nat → Nat → α
  norm_value : Nat → Nat → α

/-- The `Adapt` object as the error pass sees it: the state used by the
adaptivity step, the stored solutions and which error forms are set. -/
structure ErrorPassState (α : Type) where
  core : AdaptState α
  /-- The coarse solutions `sln[i]` (`none` for `NULL`). -/
  sln : Nat → Option Solution
  /-- The reference solutions `rsln[i]`. -/
  rsln : Nat → Option Solution
  have_coarse_solutions : Bool
  have_reference_solutions : Bool
  /-- Whether `error_form[i][j]` is not `NULL`. -/
  error_form : Nat → Nat → Bool
  /-- Set in the state that `calc_err_internal` returns: the call has divided by
  a norm that is zero.  In the source such a quotient of doubles is inf or NaN,
  and so is every value computed from it (the value returned, the component
  errors, the stored element errors, `errors_squared_sum`); the values of the
  model live in a field, where the quotient is recorded as `x / 0 = 0`, and do
  not describe the source then. -/
  non_finite : Bool

/-- Result of a call of `calc_err_internal`. -/
inductive ErrorPassOutcome (α : Type) where
  /-- Aborted by `EXIT`, `error` or a failed `assert_msg`; the state is the one
  at the abort. -/
  | fatal (msg : String) (st : ErrorPassState α)
  /-- An unchecked access left its container. -/
  | invalid_access
  /-- Returned `value`, with the vector written through `component_errors`
  (`none` when the pointer is `NULL`). -/
  | returned (value : α) (component_errors : Option (List α)) (st : ErrorPassState α)

/-- The method `Adapt::eval_error` (lines 566-630) as a function of the value
`res` of the form: it returns `std::abs(res)`. -/
def eval_error {α : Type} [LinearOrderedField α] (res : α) : α := |res|

/-- The method `Adapt::eval_error_norm` (lines 632-686) as a function of the
value `res` of the form: it returns `std::abs(res)`. -/
def eval_error_norm {α : Type} [LinearOrderedField α] (res : α) : α := |res|

/-- Modelled from the spec: `Mesh::get_num_active_elements`. -/
def Mesh.get_num_active_elements (m : Mesh) : Nat := m.active_ids.length

/-- The accumulators of lines 738-745 together with the member `errors`. -/
structure Accumulators (α : Type) where
  norms : Nat → α
  total_norm : α
  errors_components : Nat → α
  total_error : α
  errors : Nat → Nat → α

/-- Lines 721-736: `num_act_elems` is recounted and, for a storing pass, the
error array of every component is replaced by zeros. -/
def prepare_arrays {α : Type} [LinearOrderedField α] (solutions_for_adapt : Bool)
    (meshes : Nat → Nat) (st : AdaptState α) : AdaptState α :=
  (List.range st.num).foldl
    (fun s i =>
      let s1 : AdaptState α :=
        { s with
          num_act_elems := s.num_act_elems + ((s.meshes (meshes i)).get_num_active_elements : Int) }
      if solutions_for_adapt then
        { s1 with errors := fun k id => if k = i then 0 else s1.errors k id }
      else s1)
    { st with num_act_elems := 0 }

/-- Lines 753-765: the body for one pair `(i, j)` at one traversal state. -/
def accumulate_pair {α : Type} [LinearOrderedField α] (error_form : Nat → Nat → Bool)
    (solutions_for_adapt : Bool) (leaf : TraverseState α) (i : Nat) (acc : Accumulators α)
    (j : Nat) : Accumulators α :=
  if error_form i j then
    let err := eval_error (leaf.err_value i j)
    let nrm := eval_error_norm (leaf.norm_value i j)
    { norms := fun k => if k = i then acc.norms k + nrm else acc.norms k
      total_norm := acc.total_norm + nrm
      total_error := acc.total_error + err
      errors_components := fun k => if k = i then acc.errors_components k + err
                                    else acc.errors_components k
      errors :=
        if solutions_for_adapt then
          fun k id => if k = i ∧ id = leaf.id i then acc.errors k id + err else acc.errors k id
        else acc.errors }
  else acc

/-- Lines 750-768: the traversal loop. -/
def accumulate {α : Type} [LinearOrderedField α] (error_form : Nat → Nat → Bool)
    (solutions_for_adapt : Bool) (num : Nat) (leaves : List (TraverseState α))
    (acc : Accumulators α) : Accumulators α :=
  leaves.foldl
    (fun a leaf =>
      (List.range num).foldl
        (fun a1 i =>
          (List.range num).foldl (accumulate_pair error_form solutions_for_adapt leaf i) a1)
        a)
    acc

/-- Lines 771-782: the component errors pushed to the cleared vector; `none`
when the total-error mode is unknown. -/
def component_errors_of {α : Type} [LinearOrderedField α] (c : Collaborators α)
    (codes : ErrorFlagCodes) (error_flags num : Nat) (acc : Accumulators α) :
    Option (List α) :=
  (List.range num).foldlM
    (fun (out : List α) i =>
      if error_flags &&& codes.HERMES_TOTAL_ERROR_MASK = codes.HERMES_TOTAL_ERROR_ABS then
        some (out ++ [c.sqrt (acc.errors_components i)])
      else if error_flags &&& codes.HERMES_TOTAL_ERROR_MASK = codes.HERMES_TOTAL_ERROR_REL then
        some (out ++ [c.sqrt (acc.errors_components i / acc.norms i)])
      else none)
    []

/-- Line 776: whether a quotient `errors_components[i] / norms[i]` pushed to
the vector of component errors has a zero divisor. -/
def component_errors_zero_divisor {α : Type} [LinearOrderedField α] (codes : ErrorFlagCodes)
    (error_flags num : Nat) (acc : Accumulators α) : Bool :=
  decide (error_flags &&& codes.HERMES_TOTAL_ERROR_MASK ≠ codes.HERMES_TOTAL_ERROR_ABS
    ∧ error_flags &&& codes.HERMES_TOTAL_ERROR_MASK = codes.HERMES_TOTAL_ERROR_REL)
  && (List.range num).any (fun i => decide (acc.norms i = 0))

/-- Lines 790-794: every stored error of an active element is divided by the
norm of its component. -/
def make_relative {α : Type} [LinearOrderedField α] (meshes : Nat → Nat) (norms : Nat → α)
    (st : AdaptState α) : AdaptState α :=
  (List.range st.num).foldl
    (fun s i =>
      (s.meshes (meshes i)).active_ids.foldl
        (fun s1 id => set_error s1 i id (s1.errors i id / norms i)) s)
    st

/-- Line 793: whether a quotient `errors[i][e->id] / norms[i]` has a zero
divisor: the norm of a component with an active element is zero. -/
def make_relative_zero_divisor {α : Type} [LinearOrderedField α] (meshes : Nat → Nat)
    (norms : Nat → α) (st : AdaptState α) : Bool :=
  (List.range st.num).any
    (fun i => decide (norms i = 0) && !(st.meshes (meshes i)).active_ids.isEmpty)

/-- The method `Adapt::fill_regular_queue` (lines 847-867); `none` when the
`assert_msg` on `num_act_elems` fails.  The sort is a parameter: it gets the
error array, from which `CompareElements` is built, and the filled queue. -/
def fill_regular_queue {α : Type}
    (sort_queue : (Nat → Nat → α) → List ElementReference → List ElementReference)
    (st : AdaptState α) (meshes : Nat → Nat) : Option (AdaptState α) :=
  if st.num_act_elems > 0 then
    let filled :=
      (List.range st.num).foldl
        (fun (q : List ElementReference) i =>
          (st.meshes (meshes i)).active_ids.foldl (fun q1 id => q1 ++ [⟨id, i⟩]) q)
        []
    some { st with regular_queue := sort_queue st.errors filled }
  else none

/-- Lines 787-811, the storing part of the pass on the state of the adaptivity
step: the errors are made relative if the element-error mode asks for it,
`errors_squared_sum` is set, the regular queue is filled and `have_errors` is
set; `Except.error` carries the state in which the `assert_msg` of
`fill_regular_queue` fails. -/
def store_errors {α : Type} [LinearOrderedField α] (codes : ErrorFlagCodes)
    (sort_queue : (Nat → Nat → α) → List ElementReference → List ElementReference)
    (error_flags : Nat) (meshes : Nat → Nat) (acc : Accumulators α) (core3 : AdaptState α) :
    Except (AdaptState α) (AdaptState α) :=
  let core4 : AdaptState α :=
    if error_flags &&& codes.HERMES_ELEMENT_ERROR_MASK = codes.HERMES_ELEMENT_ERROR_REL
    then make_relative meshes acc.norms core3 else core3
  let core5 : AdaptState α := { core4 with errors_squared_sum := acc.total_error }
  let core6 : AdaptState α :=
    if error_flags &&& codes.HERMES_TOTAL_ERROR_MASK = codes.HERMES_ELEMENT_ERROR_REL
    then { core5 with errors_squared_sum := core5.errors_squared_sum / acc.total_norm }
    else core5
  match fill_regular_queue sort_queue core6 meshes with
  | none => Except.error core6
  | some core7 => Except.ok { core7 with have_errors := true }

/-- Lines 789-803: whether the storing part divides by a zero norm, at line
793 (element errors made relative) or at line 803 (`errors_squared_sum`). -/
def store_errors_zero_divisor {α : Type} [LinearOrderedField α] (codes : ErrorFlagCodes)
    (error_flags : Nat) (meshes : Nat → Nat) (acc : Accumulators α) (core3 : AdaptState α) :
    Bool :=
  (decide (error_flags &&& codes.HERMES_ELEMENT_ERROR_MASK = codes.HERMES_ELEMENT_ERROR_REL)
      && make_relative_zero_divisor meshes acc.norms core3)
  || (decide (error_flags &&& codes.HERMES_TOTAL_ERROR_MASK = codes.HERMES_ELEMENT_ERROR_REL)
      && decide (acc.total_norm = 0))

/-- Line 828: whether the quotient `total_error / total_norm` of the value
returned has a zero divisor. -/
def total_error_value_zero_divisor {α : Type} [LinearOrderedField α] (codes : ErrorFlagCodes)
    (error_flags : Nat) (acc : Accumulators α) : Bool :=
  decide (error_flags &&& codes.HERMES_TOTAL_ERROR_MASK ≠ codes.HERMES_TOTAL_ERROR_ABS
    ∧ error_flags &&& codes.HERMES_TOTAL_ERROR_MASK = codes.HERMES_TOTAL_ERROR_REL)
  && decide (acc.total_norm = 0)

/-- Lines 824-832: the value returned; `none` when the total-error mode is
unknown. -/
def total_error_value {α : Type} [LinearOrderedField α] (c : Collaborators α)
    (codes : ErrorFlagCodes) (error_flags : Nat) (acc : Accumulators α) : Option α :=
  if error_flags &&& codes.HERMES_TOTAL_ERROR_MASK = codes.HERMES_TOTAL_ERROR_ABS then
    some (c.sqrt acc.total_error)
  else if error_flags &&& codes.HERMES_TOTAL_ERROR_MASK = codes.HERMES_TOTAL_ERROR_REL then
    some (c.sqrt (acc.total_error / acc.total_norm))
  else none

/-- The method `Adapt::calc_err_internal` (lines 689-833).  The traversal
states are a parameter; `want_component_errors` says whether the pointer
`component_errors` is not `NULL`.  Reading `rslns[i]` beyond the vector is an
invalid access.  The calls `set_quad_2d` on the solutions and the timer
`error_time` do not touch the state modelled here and are left out.  The
divisions by the accumulated norms (lines 776, 793, 803, 828) are field
divisions; the state returned says in `non_finite` whether one of the
divisions that the call has executed had a zero divisor, in which case the
source has computed inf or NaN. -/
def calc_err_internal {α : Type} [LinearOrderedField α] (c : Collaborators α)
    (codes : ErrorFlagCodes)
    (sort_queue : (Nat → Nat → α) → List ElementReference → List ElementReference)
    (leaves : List (TraverseState α)) (st : ErrorPassState α) (slns rslns : List Solution)
    (want_component_errors solutions_for_adapt : Bool) (error_flags : Nat) :
    ErrorPassOutcome α :=
  let n := slns.length
  if n ≠ st.core.num then ErrorPassOutcome.fatal "Wrong number of solutions." st
  else if rslns.length < n then ErrorPassOutcome.invalid_access
  else
    let st1 : ErrorPassState α :=
      { st with
        sln := fun i => if i < n then slns.get? i else st.sln i
        rsln := fun i => if i < n then rslns.get? i else st.rsln i
        have_coarse_solutions := true
        have_reference_solutions := true }
    let meshes : Nat → Nat := fun i => (slns.getD i default).mesh
    let core1 := prepare_arrays solutions_for_adapt meshes st.core
    let core2 : AdaptState α :=
      if solutions_for_adapt then { core1 with errors_squared_sum := 0 } else core1
    let acc :=
      accumulate st.error_form solutions_for_adapt core2.num leaves
        { norms := fun _ => 0, total_norm := 0, errors_components := fun _ => 0, total_error := 0,
          errors := core2.errors }
    let core3 : AdaptState α := { core2 with errors := acc.errors }
    let comps : Option (Option (List α)) :=
      if want_component_errors then
        (component_errors_of c codes error_flags core3.num acc).map some
      else some none
    match comps with
    | none => ErrorPassOutcome.fatal "Unknown total error type (0x%x)." { st1 with core := core3 }
    | some component_errors =>
      let stored : Except (ErrorPassState α) (ErrorPassState α) :=
        if solutions_for_adapt then
          match store_errors codes sort_queue error_flags meshes acc core3 with
          | Except.error core6 => Except.error { st1 with core := core6 }
          | Except.ok core8 => Except.ok { st1 with core := core8 }
        else
          Except.ok { st1 with core := core3, sln := st.sln, rsln := st.rsln }
      match stored with
      | Except.error st6 =>
        ErrorPassOutcome.fatal "Number of active elements (%d) is invalid." st6
      | Except.ok st8 =>
        match total_error_value c codes error_flags acc with
        | some value =>
          ErrorPassOutcome.returned value component_errors
            { st8 with
              non_finite :=
                (want_component_errors
                    && component_errors_zero_divisor codes error_flags core3.num acc)
                || (solutions_for_adapt
                    && store_errors_zero_divisor codes error_flags meshes acc core3)
                || total_error_value_zero_divisor codes error_flags acc }
        | none => ErrorPassOutcome.fatal "Unknown total error type (0x%x)." st8

/-! ## The sums that the error pass accumulates -/

/-- The error contributions of one traversal state to component `i`: the
values of `eval_error` over the pairs `(i, j)`, `j < num`, with a defined
error form. -/
def leaf_error {α : Type} [LinearOrderedField α] (error_form : Nat → Nat → Bool) (num : Nat)
    (leaf : TraverseState α) (i : Nat) : α :=
  ((List.range num).map
    (fun j => if error_form i j then eval_error (leaf.err_value i j) else 0)).sum

/-- The norm contributions of one traversal state to component `i`. -/
def leaf_norm {α : Type} [LinearOrderedField α] (error_form : Nat → Nat → Bool) (num : Nat)
    (leaf : TraverseState α) (i : Nat) : α :=
  ((List.range num).map
    (fun j => if error_form i j then eval_error_norm (leaf.norm_value i j) else 0)).sum

/-- The error `E_i` of component `i`, summed over all traversal states. -/
def component_error {α : Type} [LinearOrderedField α] (error_form : Nat → Nat → Bool)
    (num : Nat) (leaves : List (TraverseState α)) (i : Nat) : α :=
  (leaves.map (fun l => leaf_error error_form num l i)).sum

/-- The norm `N_i` of component `i`, summed over all traversal states. -/
def component_norm {α : Type} [LinearOrderedField α] (error_form : Nat → Nat → Bool)
    (num : Nat) (leaves : List (TraverseState α)) (i : Nat) : α :=
  (leaves.map (fun l => leaf_norm error_form num l i)).sum

/-- The total error `E`: all traversal states, all pairs with a defined form. -/
def total_error_sum {α : Type} [LinearOrderedField α] (error_form : Nat → Nat → Bool)
    (num : Nat) (leaves : List (TraverseState α)) : α :=
  (leaves.map (fun l => ((List.range num).map (leaf_error error_form num l)).sum)).sum

/-- The total norm `N`: all traversal states, all pairs with a defined form. -/
def total_norm_sum {α : Type} [LinearOrderedField α] (error_form : Nat → Nat → Bool)
    (num : Nat) (leaves : List (TraverseState α)) : α :=
  (leaves.map (fun l => ((List.range num).map (leaf_norm error_form num l)).sum)).sum

/-- The error of component `i` accumulated on element `id`: the contributions
of the traversal states whose element of mesh `i` is `id`. -/
def element_error {α : Type} [LinearOrderedField α] (error_form : Nat → Nat → Bool)
    (num : Nat) (leaves : List (TraverseState α)) (i id : Nat) : α :=
  (leaves.map (fun l => if id = l.id i then leaf_error error_form num l i else 0)).sum

/-- The number of active elements summed over the meshes of the components. -/
def total_active_elements {α : Type} (st : AdaptState α) (meshes : Nat → Nat) : Int :=
  ((List.range st.num).map
    (fun i => ((st.meshes (meshes i)).get_num_active_elements : Int))).sum

/-- The sum of the stored errors of component `i` over the active elements of
its mesh. -/
def stored_error_sum {α : Type} [LinearOrderedField α] (st : AdaptState α)
    (meshes : Nat → Nat) (i : Nat) : α :=
  (((st.meshes (meshes i)).active_ids).map (st.errors i)).sum

/-- The state `t` differs from `s` at most in the stored errors. -/
def same_but_errors {α : Type} (s t : AdaptState α) : Prop :=
  t.num = s.num ∧ t.mesh_of = s.mesh_of ∧ t.meshes = s.meshes ∧ t.orders = s.orders
  ∧ t.num_act_elems = s.num_act_elems ∧ t.have_errors = s.have_errors
  ∧ t.errors_squared_sum = s.errors_squared_sum
  ∧ t.regular_queue = s.regular_queue ∧ t.priority_queue = s.priority_queue
  ∧ t.last_refinements = s.last_refinements

/-! ## Scenarios for the error pass -/

/-- A choice of flag codes for the scenarios: the total-error mode in the low
four bits (relative 0, absolute 1), the element-error mode in the next four
bits (relative 0). -/
def demo_codes : ErrorFlagCodes :=
  { HERMES_TOTAL_ERROR_MASK := 15
    HERMES_TOTAL_ERROR_ABS := 1
    HERMES_TOTAL_ERROR_REL := 0
    HERMES_ELEMENT_ERROR_MASK := 240
    HERMES_ELEMENT_ERROR_REL := 0 }

/-- A sort for the scenarios: insertion sort by non-increasing stored error. -/
def demo_sort_queue (errors : Nat → Nat → ℚ) (q : List ElementReference) :
    List ElementReference :=
  q.insertionSort (fun a b => errors a.comp a.id ≥ errors b.comp b.id)

/-- The engine of `demo_state` before any error pass, with the diagonal error
form only. -/
def demo_pass_state : ErrorPassState ℚ :=
  { core := { demo_state with have_errors := false, regular_queue := [], num_act_elems := 0 }
    sln := fun _ => none
    rsln := fun _ => none
    have_coarse_solutions := false
    have_reference_solutions := false
    error_form := fun i j => decide (i = j)
    non_finite := false }

/-- Four traversal states, one per element of the demo mesh, each with the
form values 1/4 (error) and 1 (norm). -/
def demo_leaves : List (TraverseState ℚ) :=
  [{ id := fun _ => 0, err_value := fun _ _ => 1 / 4, norm_value := fun _ _ => 1 },
   { id := fun _ => 1, err_value := fun _ _ => 1 / 4, norm_value := fun _ _ => 1 },
   { id := fun _ => 2, err_value := fun _ _ => 1 / 4, norm_value := fun _ _ => 1 },
   { id := fun _ => 3, err_value := fun _ _ => 1 / 4, norm_value := fun _ _ => 1 }]

/-- The engine of `demo_pass_state` with a second component on the same mesh. -/
def pair_pass_state : ErrorPassState ℚ :=
  { demo_pass_state with core := { demo_pass_state.core with num := 2 } }

/-- One traversal state on element 0 with the form values -9 (component 0)
and 16 (component 1) for the error and 1 and 4 for the norm. -/
def pair_leaves : List (TraverseState ℚ) :=
  [{ id := fun _ => 0
     err_value := fun i _ => if i = 0 then -9 else 16
     norm_value := fun i _ => if i = 0 then 1 else 4 }]

/-- The demo collaborators with `sqrt` tabulated on 4, 9, 16 and 25. -/
def square_collaborators : Collaborators ℚ :=
  { demo_collaborators with
    sqrt := fun x => if x = 25 then 5 else if x = 16 then 4 else if x = 9 then 3
                     else if x = 4 then 2 else 0 }

/-! ## The regular queue: comparison, sort contract and content -/

/-- Modelled from the spec: the comparison of `CompareElements`, which is
declared in `adapt.h` (not part of the sources).  The queue is "sorted by
descending error": an entry goes before another one when its stored error is
larger. -/
def compare_elements {α : Type} [LinearOrderedField α] (errors : Nat → Nat → α)
    (e1 e2 : ElementReference) : Bool :=
  decide (errors e1.comp e1.id > errors e2.comp e2.id)

/-- The contract of `std::sort` called with `CompareElements(errors)`: the
result is a rearrangement of the input in which no entry is directly followed
by one that the comparison puts before it. -/
def sorts_by_compare_elements {α : Type} [LinearOrderedField α]
    (sort_queue : (Nat → Nat → α) → List ElementReference → List ElementReference) : Prop :=
  ∀ errors q, (sort_queue errors q).Perm q
    ∧ (sort_queue errors q).Chain' (fun a b => compare_elements errors b a = false)

/-- Lines 859-863: the queue before the sort, one entry per component and
active element of the component's mesh, components in increasing order. -/
def filled_queue {α : Type} (st : AdaptState α) (meshes : Nat → Nat) : List ElementReference :=
  (List.range st.num).foldl
    (fun (q : List ElementReference) i =>
      (st.meshes (meshes i)).active_ids.foldl (fun q1 id => q1 ++ [⟨id, i⟩]) q)
    []

/-- Lines 278-281: the body of the regularization loop for component `i` with
the level `level`: the mesh of the component is regularized and the degrees of
the component are redistributed with the parent table. -/
def regularize_component {α : Type} (c : Collaborators α) (meshes : Nat → Nat) (level : Int)
    (s : AdaptState α) (i : Nat) : AdaptState α :=
  { s with
    meshes := fun k =>
      if k = meshes i then (c.regularize (s.meshes (meshes i)) level).1 else s.meshes k
    orders := fun k =>
      if k = i then
        c.distribute_orders (s.orders i) (c.regularize (s.meshes (meshes i)) level).1
          (c.regularize (s.meshes (meshes i)) level).2
      else s.orders k }

/-- Collaborators whose `regularize` marks the mesh by appending as many
unused element slots as the level says, and whose `distribute_orders` raises
every degree by one. -/
def marking_collaborators : Collaborators ℚ :=
  { demo_collaborators with
    regularize := fun m level =>
      ({ elements := m.elements ++ List.replicate level.toNat default }, [])
    distribute_orders := fun o _ _ => fun id => o id + 1 }

/-! ## The constructor `Adapt::Adapt` (lines 34-78) -/

/-- Modelled from the spec: the enum of the space types, declared outside the
sources; only the enumerators that `adapt.cpp` names are told apart. -/
inductive SpaceType where
  | HERMES_H1_SPACE
  | HERMES_HCURL_SPACE
  | HERMES_HDIV_SPACE
  | HERMES_L2_SPACE
  | other (code : Int)
deriving DecidableEq, Repr

/-- Modelled from the spec: the enum of the projection norms, declared outside
the sources; only the enumerators that `adapt.cpp` names are told apart. -/
inductive ProjNormType where
  | HERMES_UNSET_NORM
  | HERMES_H1_NORM
  | HERMES_HCURL_NORM
  | HERMES_HDIV_NORM
  | HERMES_L2_NORM
  | other (code : Int)
deriving DecidableEq, Repr

/-- Modelled from the spec: a space as far as the engine reads it (`space.h`
is not part of the sources): its type, the handle of its mesh and the degrees
of its elements. -/
structure Space where
  type : SpaceType
  mesh : Nat
  orders : Nat → Int

/-- Lines 59-66: the default norm of a space; `none` for the `default` label
of the `switch`. -/
def default_norm (t : SpaceType) : Option ProjNormType :=
  match t with
  | SpaceType.HERMES_H1_SPACE => some ProjNormType.HERMES_H1_NORM
  | SpaceType.HERMES_HCURL_SPACE => some ProjNormType.HERMES_HCURL_NORM
  | SpaceType.HERMES_HDIV_SPACE => some ProjNormType.HERMES_HDIV_NORM
  | SpaceType.HERMES_L2_SPACE => some ProjNormType.HERMES_L2_NORM
  | SpaceType.other _ => none

/-- Lines 57-69: the norms after the defaults have been filled in; `none` when
a space of an unknown type is met. -/
def fill_default_norms (spaces : List Space) (proj_norms : List ProjNormType) :
    Option (List ProjNormType) :=
  if proj_norms.length = 0 then
    spaces.foldlM (fun (out : List ProjNormType) sp => (default_norm sp.type).map (fun n => out ++ [n]))
      proj_norms
  else some proj_norms

/-- The constructor `Adapt::Adapt(spaces, proj_norms)` (lines 34-78).  The
meshes that the spaces point to are given by `meshes`; `raw` is the content of
the object's memory before the constructor runs, which shows in the members
the constructor does not write (`errors_squared_sum`, and the entries of
`error_form` with an index that is not below `num`).  The error arrays, which
are null pointers after the `memset`, read as 0.  The result is the engine
together with the norm of the error form of every component; a fatal error
gives its message. -/
def Adapt_Adapt {α : Type} [LinearOrderedField α] (meshes : Nat → Mesh)
    (raw : ErrorPassState α) (spaces : List Space) (proj_norms : List ProjNormType) :
    Except String (ErrorPassState α × List ProjNormType) :=
  if proj_norms.length > 0 ∧ spaces.length ≠ proj_norms.length then
    Except.error "Mismatched numbers of spaces and projection types in Adapt::Adapt()."
  else if spaces.length ≤ 0 then
    Except.error "Too few components (%d), only %d supported."
  else if spaces.length > H2D_MAX_COMPONENTS then
    Except.error "Too many components (%d), only %d supported."
  else
    match fill_default_norms spaces proj_norms with
    | none => Except.error "Unknown space type in Adapt::Adapt()."
    | some norms =>
      Except.ok
        ({ core :=
            { num := spaces.length
              mesh_of := fun j => (spaces.getD j ⟨SpaceType.other 0, 0, fun _ => 0⟩).mesh
              meshes := meshes
              orders := fun j => (spaces.getD j ⟨SpaceType.other 0, 0, fun _ => 0⟩).orders
              num_act_elems := -1
              have_errors := false
              errors := fun _ _ => 0
              errors_squared_sum := raw.core.errors_squared_sum
              regular_queue := []
              priority_queue := []
              last_refinements := [] }
           sln := fun _ => none
           rsln := fun _ => none
           have_coarse_solutions := false
           have_reference_solutions := false
           error_form := fun i j =>
             if i < spaces.length ∧ j < spaces.length then decide (i = j)
             else raw.error_form i j
           non_finite := false },
         norms)

/-- An H1 space on mesh 0 with all degrees 1. -/
def h1_space : Space :=
  { type := SpaceType.HERMES_H1_SPACE, mesh := 0, orders := fun _ => 1 }

/-! ## Decisions synthesized by the reconciliation -/

/-- Lines 372-374: the decision built for component `j` and element `gid`, with
the split `U` and the degrees generated by the selector of `j`. -/
def synthesized_decision {α : Type} (c : Collaborators α) (cqo : Int) (U : Int)
    (sug : Option (List Int)) (gid j : Nat) : ElementToRefine :=
  { ElementToRefine.init gid j with
    split := U
    p := c.generate_shared_mesh_orders j gid cqo U (ElementToRefine.init gid j).p sug }

/-- The components below `num`, other than that of `elem_ref`, that share its
mesh and have no entry in `idx` for its element, in increasing order. -/
def missing_components (num : Nat) (meshes : Nat → Nat) (idx : Nat → Nat → Int)
    (elem_ref : ElementToRefine) : List Nat :=
  (List.range num).filter
    (fun j => decide (j ≠ elem_ref.comp ∧ meshes j = meshes elem_ref.comp
      ∧ idx elem_ref.id j < 0))

/-- The decisions that the visit of position `inx` of the list `l` appends:
none when the selected split is P-only, otherwise one synthesized decision per
component of `missing_components`, in increasing order of the component. -/
def appended_at {α : Type} (c : Collaborators α) (st : AdaptState α) (meshes : Nat → Nat)
    (idx : Nat → Nat → Int) (l : List ElementToRefine) (inx : Nat) : List ElementToRefine :=
  let d := l.getD inx default
  let U := selected_refinement st.num meshes idx l d
  if U ≠ H2D_REFINEMENT_P then
    (missing_components st.num meshes idx d).map
      (synthesized_decision c (st.orders d.comp d.id) U
        (if U = H2D_REFINEMENT_H then some d.q else none) d.id)
  else []

/-- The refining collaborators with selectors that ask for the isotropic H
split of every element, the sons keeping the degree of the element. -/
def splitting_collaborators : Collaborators ℚ :=
  { refining_collaborators with
    select_refinement := fun _ _ current elem_ref =>
      (true, { elem_ref with split := H2D_REFINEMENT_H
                             p := [current, current, current, current]
                             q := [current, current, current, current] }) }

/-- Three components on the one demo mesh of four active elements, right after
a storing error pass: twelve queue entries in the order of their errors.  On
element 0 the components 0 and 1 have the error 5 and component 2 the error 1;
the elements 1, 2, 3 have the errors 1, 1/2, 1/4 in every component. -/
def triple_state : AdaptState ℚ :=
  { demo_state with
    num := 3
    num_act_elems := 12
    errors := fun k id =>
      if id = 0 then (if k = 2 then 1 else 5) else if id = 1 then 1 else if id = 2 then 1 / 2
      else 1 / 4
    errors_squared_sum := 65 / 4
    regular_queue := [⟨0, 0⟩, ⟨0, 1⟩, ⟨0, 2⟩, ⟨1, 0⟩, ⟨1, 1⟩, ⟨1, 2⟩, ⟨2, 0⟩, ⟨2, 1⟩, ⟨2, 2⟩,
      ⟨3, 0⟩, ⟨3, 1⟩, ⟨3, 2⟩] }

/-- Components 0 and 1 hold an H decision for element 0, component 2 holds
none: the decisions that the loop of `adapt` records on `triple_state` with
strategy 1 and threshold 0.3. -/
def triple_elems : List ElementToRefine :=
  [{ id := 0, comp := 0, split := H2D_REFINEMENT_H, p := [1, 1, 1, 1], q := [1, 1, 1, 1] },
   { id := 0, comp := 1, split := H2D_REFINEMENT_H, p := [1, 1, 1, 1], q := [1, 1, 1, 1] }]

/-- The position table of `triple_elems`. -/
def triple_idx : Nat → Nat → Int :=
  fun id j => if id = 0 ∧ j = 1 then 1 else if id = 0 ∧ j = 0 then 0 else -1

/-- Three components on one mesh with a single active element, right after a
storing error pass: the errors are 1/100, 5 and 4, so the queue is headed by
the components 1 and 2, and `num_act_elems` is 3. -/
def crowded_state : AdaptState ℚ :=
  { num := 3
    mesh_of := fun _ => 0
    meshes := fun _ => { elements := [fresh_element] }
    orders := fun _ _ => 1
    num_act_elems := 3
    have_errors := true
    errors := fun k _ => if k = 0 then 1 / 100 else if k = 1 then 5 else 4
    errors_squared_sum := 901 / 100
    regular_queue := [⟨0, 1⟩, ⟨0, 2⟩, ⟨0, 0⟩]
    priority_queue := []
    last_refinements := [] }

/-- The decisions that the loop of `adapt` records on `crowded_state` with
strategy 1 and threshold 0.3: H splits of element 0 for the components 1
and 2. -/
def crowded_elems : List ElementToRefine :=
  [{ id := 0, comp := 1, split := H2D_REFINEMENT_H, p := [1, 1, 1, 1], q := [1, 1, 1, 1] },
   { id := 0, comp := 2, split := H2D_REFINEMENT_H, p := [1, 1, 1, 1], q := [1, 1, 1, 1] }]

/-- The position table of `crowded_elems`. -/
def crowded_idx : Nat → Nat → Int :=
  fun id j => if id = 0 ∧ j = 2 then 1 else if id = 0 ∧ j = 1 then 0 else -1

/-- An engine with one component before any error pass.  Mesh 0, the mesh of
the space, has one active element; mesh 1 has two active elements. -/
def stale_pass_state : ErrorPassState ℚ :=
  { core :=
      { num := 1
        mesh_of := fun _ => 0
        meshes := fun m =>
          if m = 0 then { elements := [fresh_element] }
          else { elements := [fresh_element, fresh_element] }
        orders := fun _ _ => 1
        num_act_elems := -1
        have_errors := false
        errors := fun _ _ => 0
        errors_squared_sum := 0
        regular_queue := []
        priority_queue := []
        last_refinements := [] }
    sln := fun _ => none
    rsln := fun _ => none
    have_coarse_solutions := false
    have_reference_solutions := false
    error_form := fun i j => decide (i = j)
    non_finite := false }

/-- The traversal of mesh 0: one state, on element 0, with the form values
1/4 (error) and 1 (norm). -/
def coarse_leaves : List (TraverseState ℚ) :=
  [{ id := fun _ => 0, err_value := fun _ _ => 1 / 4, norm_value := fun _ _ => 1 }]

/-- The traversal of mesh 1: one state per element, with the form values 1/4
(error) and 1 (norm). -/
def fine_leaves : List (TraverseState ℚ) :=
  [{ id := fun _ => 0, err_value := fun _ _ => 1 / 4, norm_value := fun _ _ => 1 },
   { id := fun _ => 1, err_value := fun _ _ => 1 / 4, norm_value := fun _ _ => 1 }]

/-! ## Essential boundary conditions (`essential_bcs.cpp`) -/

/-- Modelled from the spec: the data members of `EssentialBoundaryCondition`
and of its subclasses that `essential_bcs.cpp` writes (the class declarations
of `essential_bcs.h` are not part of the sources): the vector `markers`, the
time, the constant value and, for the non-constant condition, the handle of
the exact solution (`none` for the other classes). -/
structure EssentialBoundaryCondition (α : Type) where
  markers : List String
  current_time : α
  value_const : α
  exact_solution : Option Nat

/-- Lines 25-28: `EssentialBoundaryCondition(Hermes::vector<std::string> markers)`. -/
def EssentialBoundaryCondition.from_vector {α : Type} [Zero α] (markers : List String) :
    EssentialBoundaryCondition α :=
  { markers := markers, current_time := 0, value_const := 0, exact_solution := none }

/-- Lines 30-34: `EssentialBoundaryCondition(std::string marker)`. -/
def EssentialBoundaryCondition.from_marker {α : Type} [Zero α] (marker : String) :
    EssentialBoundaryCondition α :=
  { markers := [] ++ [marker], current_time := 0, value_const := 0, exact_solution := none }

/-- Lines 52-54: `DefaultEssentialBCConst(Hermes::vector<std::string> markers,
scalar value_const)`. -/
def DefaultEssentialBCConst.from_vector {α : Type} [Zero α] (markers : List String)
    (value_const : α) : EssentialBoundaryCondition α :=
  { (EssentialBoundaryCondition.from_vector markers : EssentialBoundaryCondition α) with
    value_const := value_const }

/-- Lines 56-59: `DefaultEssentialBCConst(std::string marker, scalar value_const)`. -/
def DefaultEssentialBCConst.from_marker {α : Type} [Zero α] (marker : String)
    (value_const : α) : EssentialBoundaryCondition α :=
  let base : EssentialBoundaryCondition α := EssentialBoundaryCondition.from_vector []
  { base with value_const := value_const, markers := base.markers ++ [marker] }

/-- How the copy loop of line 66 is left. -/
inductive MarkerCopy where
  /-- The loop condition failed; the member `markers` holds this list. -/
  | finished (markers : List String)
  /-- The read `markers_[i]` was past the end of the argument. -/
  | invalid_access
  /-- The loop model ran out of fuel. -/
  | out_of_fuel
deriving DecidableEq, Repr

/-- Line 66: `for (unsigned int i=0; i < markers.size(); i++)
markers.push_back(markers_[i]);`.  The loop condition reads the size of the
member `markers`, the body appends the entry `i` of the argument `markers_`
to the member. -/
def copy_markers (markers_ : List String) : Nat → Nat → List String → MarkerCopy
  | 0, i, markers =>
    if i < markers.length then MarkerCopy.out_of_fuel else MarkerCopy.finished markers
  | fuel + 1, i, markers =>
    if i < markers.length then
      match markers_[i]? with
      | none => MarkerCopy.invalid_access
      | some m => copy_markers markers_ fuel (i + 1) (markers ++ [m])
    else MarkerCopy.finished markers

/-- Lines 62-67: `DefaultEssentialBCNonConst(Hermes::vector<std::string>
markers_, ExactSolutionScalar* exact_solution)`.  The base class is
constructed from an empty vector, then the copy loop runs; every pass of the
loop reads a further entry of `markers_`, so `markers_.length + 1` passes are
enough fuel.  The result is `none` when the loop does not finish. -/
def DefaultEssentialBCNonConst.from_vector {α : Type} [Zero α] (markers_ : List String)
    (exact_solution : Nat) : Option (EssentialBoundaryCondition α) :=
  let base : EssentialBoundaryCondition α := EssentialBoundaryCondition.from_vector []
  match copy_markers markers_ (markers_.length + 1) 0 base.markers with
  | MarkerCopy.finished markers =>
    some { base with exact_solution := some exact_solution, markers := markers }
  | MarkerCopy.invalid_access => none
  | MarkerCopy.out_of_fuel => none

/-- Lines 69-73: `DefaultEssentialBCNonConst(std::string marker,
ExactSolutionScalar* exact_solution)`. -/
def DefaultEssentialBCNonConst.from_marker {α : Type} [Zero α] (marker : String)
    (exact_solution : Nat) : EssentialBoundaryCondition α :=
  let base : EssentialBoundaryCondition α := EssentialBoundaryCondition.from_vector []
  { base with exact_solution := some exact_solution, markers := base.markers ++ [marker] }

/-- Modelled from the spec: the data members of `EssentialBCs` (declared in
`essential_bcs.h`, not part of the sources): the vector `all` of the
conditions and the map `markers` from a marker to a pointer to a condition.  A
pointer is the position of the condition in `all`; a key of the map is absent
(`none`), present with a `NULL` pointer (`some none`) or present with a
pointer. -/
structure EssentialBCs (α : Type) where
  all : List (EssentialBoundaryCondition α)
  markers : String → Option (Option Nat)

/-- Lines 122-124 for the marker `m` of the condition at position `k`:
`markers[m]` inserts a `NULL` entry for an absent key; a pointer found there
is the fatal error, otherwise the entry is set. -/
def cache_marker (k : Nat) (cache : Except String (String → Option (Option Nat)))
    (m : String) : Except String (String → Option (Option Nat)) :=
  match cache with
  | Except.error msg => Except.error msg
  | Except.ok markers =>
    match markers m with
    | some (some _) =>
      Except.error
        "Attempt to define more than one description of the BC on the same part of the boundary with marker '%s'."
    | _ => Except.ok (fun key => if key = m then some (some k) else markers key)

/-- Lines 119-126: `EssentialBCs::create_marker_cache`. -/
def EssentialBCs.create_marker_cache {α : Type} (bcs : EssentialBCs α) :
    Except String (EssentialBCs α) :=
  let cache :=
    (List.range bcs.all.length).foldl
      (fun cache k =>
        match bcs.all[k]? with
        | none => cache
        | some bc => bc.markers.foldl (cache_marker k) cache)
      (Except.ok bcs.markers)
  match cache with
  | Except.error msg => Except.error msg
  | Except.ok markers => Except.ok { bcs with markers := markers }

/-- Lines 94-100: `EssentialBCs::add_boundary_conditions`. -/
def EssentialBCs.add_boundary_conditions {α : Type} (bcs : EssentialBCs α)
    (boundary_conditions : List (EssentialBoundaryCondition α)) :
    Except String (EssentialBCs α) :=
  EssentialBCs.create_marker_cache
    { all := bcs.all ++ boundary_conditions, markers := fun _ => none }

/-- Lines 81-82: `EssentialBCs::EssentialBCs()`. -/
def EssentialBCs.empty {α : Type} : EssentialBCs α :=
  { all := [], markers := fun _ => none }

/-- Lines 88-92: `EssentialBCs::EssentialBCs(EssentialBoundaryCondition *
boundary_condition)`. -/
def EssentialBCs.from_condition {α : Type} (boundary_condition : EssentialBoundaryCondition α) :
    Except String (EssentialBCs α) :=
  (EssentialBCs.empty : EssentialBCs α).add_boundary_conditions ([] ++ [boundary_condition])

/-- Lines 129-134: `EssentialBCs::get_boundary_condition`; `none` is `NULL`. -/
def EssentialBCs.get_boundary_condition {α : Type} (bcs : EssentialBCs α) (marker : String) :
    Option Nat :=
  match bcs.markers marker with
  | none => none
  | some pointer => pointer

/-! ## The regular queue as the loop passes it -/

/-- The entries of the regular queue before position `n` whose decision the
loop records when it passes them without stopping: those that are not ignored
(line 189) and whose suggestion `can_refine_element` accepts (line 229), in
the order of the queue. -/
def processed_before {α : Type} (c : Collaborators α) (st : AdaptState α) :
    Nat → List ElementReference
  | 0 => []
  | n + 1 =>
    match st.regular_queue[n]? with
    | none => processed_before c st n
    | some r =>
      if c.should_ignore_element (n : Int) (st.mesh_of r.comp) r.id = false
          ∧ accepted c st r = true then
        processed_before c st n ++ [r]
      else processed_before c st n

/-- The previous processed element at position `n` of the regular queue: the
last entry before `n` whose decision was recorded, if there is one. -/
def previous_processed {α : Type} (c : Collaborators α) (st : AdaptState α) (n : Nat) :
    Option ElementReference :=
  (processed_before c st n).getLast?

/-- The squared error processed before position `n` of the regular queue: the
sum of the stored errors of the entries recorded before `n`. -/
def processed_error_before {α : Type} [LinearOrderedField α] (c : Collaborators α)
    (st : AdaptState α) (n : Nat) : α :=
  ((processed_before c st n).map (fun r => st.errors r.comp r.id)).sum

/-- The regular queue is in the order `fill_regular_queue` leaves it in: the
stored error does not increase along the queue. -/
def queue_descending {α : Type} [LinearOrderedField α] (st : AdaptState α) : Prop :=
  st.regular_queue.Pairwise (fun a b => st.errors b.comp b.id ≤ st.errors a.comp a.id)

/-- The locals of the loop on `demo_state` after the front of the regular
queue (element 0, error 5) has been examined under the threshold `thr` and
its decision recorded. -/
def front_recorded_vars (thr : ℚ) : LoopVars ℚ :=
  { idx := fun i k => if i = 0 ∧ k = 0 then 0 else -1
    err0_squared := 5
    processed_error_squared := 5
    elem_inx_to_proc := [{ id := 0, comp := 0, split := H2D_REFINEMENT_P, p := [2], q := [] }]
    error_squared_threshod := thr * 5
    num_exam_elem := 1
    num_ignored_elem := 0
    num_not_changed := 0
    num_priority_elem := 0
    first_regular_element := false
    inx_regular_element := 1
    priority_queue := [] }

/-- The demo collaborators with a hook that ignores the front of the regular
queue. -/
def front_ignoring_collaborators : Collaborators ℚ :=
  { demo_collaborators with should_ignore_element := fun i _ _ => decide (i = 0) }

/-- The locals of the loop of `front_ignoring_collaborators` on `demo_state`
under the threshold 3/5 after the front of the regular queue has been ignored
and the decision of the second entry (element 1, error 1) recorded. -/
def second_recorded_vars : LoopVars ℚ :=
  { idx := fun i k => if i = 1 ∧ k = 0 then 0 else -1
    err0_squared := 1
    processed_error_squared := 1
    elem_inx_to_proc := [{ id := 1, comp := 0, split := H2D_REFINEMENT_P, p := [2], q := [] }]
    error_squared_threshod := 3 / 5 * 1
    num_exam_elem := 2
    num_ignored_elem := 1
    num_not_changed := 0
    num_priority_elem := 0
    first_regular_element := false
    inx_regular_element := 2
    priority_queue := [] }

/-! ## The call `unrefine` as a whole: the visits of the merge loops and the
lowering loops -/

/-- The state of the single-mesh branch before the visit of slot `n` by the
merge loop of lines 454-488: the slots below `n` have been visited. -/
def merge_visits_single {α : Type} [LinearOrderedField α]
    (unrefine_element_id : Mesh → Nat → Mesh) (thr : α) (st : AdaptState α) (n : Nat) :
    Option (AdaptState α) :=
  (List.range n).foldlM (merge_single_step unrefine_element_id thr) st

/-- The state of the multimesh branch before the visit of slot `n` by the merge
loop of lines 502-528 for component `m`, started in state `st`. -/
def merge_visits_multi {α : Type} [LinearOrderedField α]
    (unrefine_element_id : Mesh → Nat → Mesh) (thr : α) (m : Nat) (st : AdaptState α)
    (n : Nat) : Option (AdaptState α) :=
  (List.range n).foldlM (merge_multi_step unrefine_element_id thr m) st

/-- The element in slot `id` of the mesh with handle `h` is a parent as the
merge loops look for it: in use, inactive, and every existing son active and
not curved. -/
def mergeable_parent {α : Type} (s : AdaptState α) (h id : Nat) : Prop :=
  ((s.meshes h).get_element id).used = true
  ∧ ((s.meshes h).get_element id).active = false
  ∧ sons_mergeable 4 (s.meshes h) ((s.meshes h).get_element id) = true

/-- The state `s2` is `s` after the sons of slot `id` of the mesh with handle
`h` have been merged back for the components `comps`: the mesh is `mesh2`, for
each of the components the error of the parent is the sum of the errors of
its sons and its degree the maximum of 0 and the degrees of its sons, and
nothing else has changed. -/
def merged_as_specified {α : Type} [LinearOrderedField α] (comps : List Nat) (h id : Nat)
    (mesh2 : Mesh) (s s2 : AdaptState α) : Prop :=
  s2.meshes h = mesh2
  ∧ (∀ k, k ≠ h → s2.meshes k = s.meshes k)
  ∧ (∀ k, k ∈ comps →
      s2.errors k id = sons_error_sum s k ((s.meshes h).get_element id)
      ∧ s2.orders k id = sons_max_order s k ((s.meshes h).get_element id))
  ∧ (∀ k i, ¬ (k ∈ comps ∧ i = id) →
      s2.errors k i = s.errors k i ∧ s2.orders k i = s.orders k i)
  ∧ s2.regular_queue = s.regular_queue ∧ s2.mesh_of = s.mesh_of ∧ s2.num = s.num
  ∧ s2.have_errors = s.have_errors

/-- One visit of a merge loop in the words of the specification, with `r` the
head of the regular queue: the sons of a parent are merged exactly when, for
every component of `comps`, their summed error is below
`thr * errors[r.comp][r.id]`; otherwise the visit changes nothing. -/
def merge_visit_as_specified {α : Type} [LinearOrderedField α] (thr : α)
    (r : ElementReference) (comps : List Nat) (h id : Nat) (mesh2 : Mesh)
    (s s2 : AdaptState α) : Prop :=
  ((mergeable_parent s h id
      ∧ ∀ k, k ∈ comps →
          sons_error_sum s k ((s.meshes h).get_element id) < thr * s.errors r.comp r.id) →
    merged_as_specified comps h id mesh2 s s2)
  ∧ (¬ (mergeable_parent s h id
      ∧ ∀ k, k ∈ comps →
          sons_error_sum s k ((s.meshes h).get_element id) < thr * s.errors r.comp r.id) →
    s2 = s)

/-- The state `s2` is `s` after a degree-lowering loop over the elements `ids`
and the components `comps`, with `r` the head of the regular queue: a pair
whose stored error is below `thr / 4 * errors[r.comp][r.id]` has the degree
`max(H - 1, 1)`, `H` being the horizontal part `H2D_GET_H_ORDER` of the order
stored in `s` (one less than `H` when `H` is at least 2, and never below 1);
the degree of every other pair, the errors, the meshes and the queue are those
of `s`. -/
def lowering_as_specified {α : Type} [LinearOrderedField α] (c : Collaborators α) (thr : α)
    (r : ElementReference) (comps ids : List Nat) (s s2 : AdaptState α) : Prop :=
  (∀ k i, k ∈ comps → i ∈ ids → s.errors k i < thr / 4 * s.errors r.comp r.id →
      s2.orders k i = max (c.get_h_order (s.orders k i) - 1) 1
      ∧ 1 ≤ s2.orders k i
      ∧ (2 ≤ c.get_h_order (s.orders k i) → s2.orders k i = c.get_h_order (s.orders k i) - 1))
  ∧ (∀ k i, k ∈ comps → i ∈ ids → ¬ s.errors k i < thr / 4 * s.errors r.comp r.id →
      s2.orders k i = s.orders k i)
  ∧ (∀ k i, ¬ (k ∈ comps ∧ i ∈ ids) → s2.orders k i = s.orders k i)
  ∧ s2.errors = s.errors ∧ s2.meshes = s.meshes ∧ s2.regular_queue = s.regular_queue
  ∧ s2.mesh_of = s.mesh_of ∧ s2.num = s.num

/-- The state `coarsen_state` with the encoded quad order 98 (horizontal
degree 2, vertical degree 3) stored for every element of both components. -/
def quad_order_state : AdaptState ℚ :=
  { coarsen_state with orders := fun _ _ => 98 }

/-! ## The regularization phase of `adapt` in the words of the specification -/

/-- The state `s2` is `s` after the mesh of every component below `num` has
been regularized with the level `level` and the degrees of the component have
been redistributed, one component after the other: a mesh has gone through
`regularize(level)` once for every component that uses it, the degrees of
component `i` are those that `distribute_orders` makes of its degrees in `s`
with the mesh and the parent table that the call of `regularize` for
component `i` returned, and the degrees beyond the components are those of
`s`. -/
def regularized_as_specified {α : Type} (c : Collaborators α) (meshes : Nat → Nat) (num : Nat)
    (level : Int) (s s2 : AdaptState α) : Prop :=
  (∀ h, s2.meshes h
      = (fun m => (c.regularize m level).1)^[(List.range num).countP (fun j => meshes j = h)]
          (s.meshes h))
  ∧ (∀ i, i < num →
      s2.orders i
        = c.distribute_orders (s.orders i)
            (c.regularize
              ((fun m => (c.regularize m level).1)^[(List.range i).countP
                  (fun j => meshes j = meshes i)] (s.meshes (meshes i))) level).1
            (c.regularize
              ((fun m => (c.regularize m level).1)^[(List.range i).countP
                  (fun j => meshes j = meshes i)] (s.meshes (meshes i))) level).2)
  ∧ (∀ i, num ≤ i → s2.orders i = s.orders i)

/-! ## Homogenization of degrees: the property and a scenario -/

/-- The value `x` is the maximum of `proj (order)` over the components below
`num` whose entry in `meshes` is the handle `g`, for the degrees that `st`
stores on element `id`. -/
def is_group_max {α : Type} (st : AdaptState α) (meshes : Nat → Nat) (proj : Int → Int)
    (g id : Nat) (x : Int) : Prop :=
  (∀ j, j < st.num → meshes j = g → proj (st.orders j id) ≤ x)
  ∧ (∃ j, j < st.num ∧ meshes j = g ∧ proj (st.orders j id) = x)

/-- Three components on the demo meshes: components 0 and 1 share mesh 0 with
degrees (h, v) = (2, 3) and (4, 1), component 2 is alone on mesh 1 with degree
(1, 1). -/
def mixed_state : AdaptState ℚ :=
  { demo_state with
    num := 3
    mesh_of := fun j => if j = 2 then 1 else 0
    orders := fun j _ => if j = 0 then 98 else if j = 1 then 36 else 33 }

/-! ## Basic facts about the loop body -/

section LoopFacts

variable {α : Type} [LinearOrderedField α]

/-- The selector step leaves the queue positions and the threshold of
strategy 1 alone and counts nothing as examined. -/
theorem refinement_suggestion_frame (c : Collaborators α) (st : AdaptState α) (v : LoopVars α)
    (id comp : Nat) :
    (refinement_suggestion c st v id comp).inx_regular_element = v.inx_regular_element
    ∧ (refinement_suggestion c st v id comp).priority_queue = v.priority_queue
    ∧ (refinement_suggestion c st v id comp).first_regular_element = v.first_regular_element
    ∧ (refinement_suggestion c st v id comp).error_squared_threshod = v.error_squared_threshod
    ∧ (refinement_suggestion c st v id comp).num_exam_elem = v.num_exam_elem := by
  unfold refinement_suggestion
  dsimp only
  split_ifs <;> simp

/-- Preparing the threshold touches neither queue position. -/
theorem prepare_threshold_frame (thr : α) (v : LoopVars α) (err : α) :
    (prepare_threshold thr v err).inx_regular_element = v.inx_regular_element
    ∧ (prepare_threshold thr v err).priority_queue = v.priority_queue
    ∧ (prepare_threshold thr v err).num_exam_elem = v.num_exam_elem
    ∧ (prepare_threshold thr v err).elem_inx_to_proc = v.elem_inx_to_proc
    ∧ (prepare_threshold thr v err).processed_error_squared = v.processed_error_squared
    ∧ (prepare_threshold thr v err).err0_squared = v.err0_squared := by
  unfold prepare_threshold
  split_ifs <;> simp

/-- An ignored element is only counted. -/
theorem examine_ignored (c : Collaborators α) (st : AdaptState α) (thr : α) (strat : Int)
    (to_be_processed : α) (v : LoopVars α) (id comp : Nat) (inx_element : Int)
    (hi : c.should_ignore_element inx_element (st.mesh_of comp) id = true) :
    examine c st thr strat to_be_processed v id comp inx_element
      = Step.next { v with num_exam_elem := v.num_exam_elem + 1
                           num_ignored_elem := v.num_ignored_elem + 1 } := by
  simp [examine, hi]

/-- An element of the priority queue that is not ignored goes to the selector. -/
theorem examine_priority (c : Collaborators α) (st : AdaptState α) (thr : α) (strat : Int)
    (to_be_processed : α) (v : LoopVars α) (id comp : Nat) (inx_element : Int)
    (hi : c.should_ignore_element inx_element (st.mesh_of comp) id = false)
    (hx : inx_element < 0) :
    examine c st thr strat to_be_processed v id comp inx_element
      = Step.next (refinement_suggestion c st
          { v with num_exam_elem := v.num_exam_elem + 1 } id comp) := by
  have : ¬ (inx_element ≥ 0) := by omega
  simp [examine, hi, this]

/-- An element of the regular queue that is not ignored meets the stopping
rule first. -/
theorem examine_regular (c : Collaborators α) (st : AdaptState α) (thr : α) (strat : Int)
    (to_be_processed : α) (v : LoopVars α) (id comp : Nat) (inx_element : Int)
    (hi : c.should_ignore_element inx_element (st.mesh_of comp) id = false)
    (hx : 0 ≤ inx_element) :
    examine c st thr strat to_be_processed v id comp inx_element
      = if stopping_rule c st thr strat to_be_processed
            (prepare_threshold thr { v with num_exam_elem := v.num_exam_elem + 1 }
              (st.errors comp id)) (st.errors comp id) = true
        then Step.stop (prepare_threshold thr { v with num_exam_elem := v.num_exam_elem + 1 }
              (st.errors comp id))
        else Step.next (refinement_suggestion c st
              (prepare_threshold thr { v with num_exam_elem := v.num_exam_elem + 1 }
                (st.errors comp id)) id comp) := by
  have : inx_element ≥ 0 := hx
  simp [examine, hi, this]

/-- Examining an element moves neither queue position, whatever the result. -/
theorem examine_frame (c : Collaborators α) (st : AdaptState α) (thr : α) (strat : Int)
    (to_be_processed : α) (v : LoopVars α) (id comp : Nat) (inx_element : Int) :
    (∀ w, examine c st thr strat to_be_processed v id comp inx_element = Step.next w →
        w.inx_regular_element = v.inx_regular_element ∧ w.priority_queue = v.priority_queue)
    ∧ (∀ w, examine c st thr strat to_be_processed v id comp inx_element = Step.stop w →
        w.inx_regular_element = v.inx_regular_element ∧ w.priority_queue = v.priority_queue)
    ∧ examine c st thr strat to_be_processed v id comp inx_element ≠ Step.invalid := by
  cases hi : c.should_ignore_element inx_element (st.mesh_of comp) id with
  | true =>
    rw [examine_ignored c st thr strat to_be_processed v id comp inx_element hi]
    refine ⟨?_, ?_, ?_⟩
    · intro w h; cases h; simp
    · intro w h; cases h
    · simp
  | false =>
    by_cases hx : 0 ≤ inx_element
    · rw [examine_regular c st thr strat to_be_processed v id comp inx_element hi hx]
      have hp := prepare_threshold_frame thr { v with num_exam_elem := v.num_exam_elem + 1 }
        (st.errors comp id)
      have hr := refinement_suggestion_frame c st
        (prepare_threshold thr { v with num_exam_elem := v.num_exam_elem + 1 }
          (st.errors comp id)) id comp
      refine ⟨?_, ?_, ?_⟩
      · intro w h
        split_ifs at h
        cases h
        exact ⟨hr.1.trans hp.1, hr.2.1.trans hp.2.1⟩
      · intro w h
        split_ifs at h
        cases h
        exact ⟨hp.1, hp.2.1⟩
      · split_ifs <;> simp
    · rw [examine_priority c st thr strat to_be_processed v id comp inx_element hi
        (by omega)]
      have hr := refinement_suggestion_frame c st
        { v with num_exam_elem := v.num_exam_elem + 1 } id comp
      refine ⟨?_, ?_, ?_⟩
      · intro w h; cases h; exact ⟨hr.1, hr.2.1⟩
      · intro w h; cases h
      · simp

/-- A completed pass through the body lowers the loop measure. -/
theorem adapt_iteration_measure (c : Collaborators α) (st : AdaptState α) (thr : α)
    (strat : Int) (to_be_processed : α) (v w : LoopVars α)
    (hc : loop_condition st v = true)
    (h : adapt_iteration c st thr strat to_be_processed v = Step.next w) :
    loop_measure st w < loop_measure st v := by
  unfold adapt_iteration at h
  cases hq : v.priority_queue with
  | nil =>
    rw [hq] at h
    simp only at h
    cases hr : st.regular_queue[v.inx_regular_element]? with
    | none => rw [hr] at h; simp at h
    | some r =>
      rw [hr] at h
      simp only at h
      obtain ⟨h1, h2⟩ := (examine_frame c st thr strat to_be_processed _ r.id r.comp _).1 w h
      simp only [loop_condition, hq, List.isEmpty_nil, Bool.not_true, Bool.or_false,
        decide_eq_true_eq] at hc
      simp only [loop_measure, h1, h2, hq, List.length_nil]
      simp only at h1 h2
      omega
  | cons front rest =>
    rw [hq] at h
    simp only at h
    obtain ⟨h1, h2⟩ := (examine_frame c st thr strat to_be_processed _ front.id front.comp _).1 w h
    simp only [loop_measure, h1, h2, hq, List.length_cons]
    omega

/-- The loop never runs out of fuel when it is given the loop measure. -/
theorem adapt_loop_fuel_suffices (c : Collaborators α) (st : AdaptState α) (thr : α)
    (strat : Int) (to_be_processed : α) :
    ∀ (fuel : Nat) (v : LoopVars α), loop_measure st v ≤ fuel →
      adapt_loop c st thr strat to_be_processed fuel v ≠ LoopExit.out_of_fuel := by
  intro fuel
  induction fuel with
  | zero =>
    intro v hm
    unfold adapt_loop
    have hc : loop_condition st v = false := by
      unfold loop_measure at hm
      unfold loop_condition
      have h1 : v.priority_queue = [] := List.length_eq_zero.mp (by omega)
      have h2 : ¬ ((v.inx_regular_element : Int) < st.num_act_elems) := by omega
      simp [h1, h2]
    simp [hc]
  | succ n ih =>
    intro v hm
    unfold adapt_loop
    by_cases hc : loop_condition st v = true
    · simp only [hc, if_true]
      cases hs : adapt_iteration c st thr strat to_be_processed v with
      | stop w => simp
      | next w =>
        simp only
        apply ih
        have := adapt_iteration_measure c st thr strat to_be_processed v w hc hs
        omega
      | invalid => simp
    · simp [hc]

end LoopFacts

/-! ## The storage of the decision vector during the reconciliation -/

section Storage

/-- The operation `set_split` keeps the length. -/
theorem set_split_length (l : List ElementToRefine) (i : Nat) (U : Int)
    (g : List Int → List Int) : (set_split l i U g).length = l.length := by
  unfold set_split
  dsimp only
  split_ifs <;> simp

/-- The body of the update loop appends one entry when it reaches `push_back`
and keeps the length otherwise. -/
theorem update_step_length {α : Type} (c : Collaborators α) (meshes : Nat → Nat)
    (idx : Nat → Nat → Int) (inx : Nat) (U : Int) (sug : Option (List Int)) (cqo : Int)
    (l : List ElementToRefine) (j : Nat) :
    (update_step c meshes idx inx U sug cqo l j).length
      = l.length + (if update_step_appends meshes idx inx l j = true then 1 else 0) := by
  unfold update_step update_step_appends
  dsimp only
  by_cases h1 : j ≠ (l.getD inx default).comp ∧ meshes j = meshes (l.getD inx default).comp
  · rw [if_pos h1]
    by_cases h2 : idx (l.getD inx default).id j ≥ 0
    · rw [if_pos h2, set_split_length, set_split_length]
      have : ¬ (j ≠ (l.getD inx default).comp ∧ meshes j = meshes (l.getD inx default).comp
          ∧ ¬ idx (l.getD inx default).id j ≥ 0) := fun h => h.2.2 h2
      rw [if_neg (fun h => this (of_decide_eq_true h)), Nat.add_zero]
    · rw [if_neg h2, List.length_append, set_split_length]
      have : j ≠ (l.getD inx default).comp ∧ meshes j = meshes (l.getD inx default).comp
          ∧ ¬ idx (l.getD inx default).id j ≥ 0 := ⟨h1.1, h1.2, h2⟩
      rw [if_pos (decide_eq_true this)]
      rfl
  · rw [if_neg h1]
    have : ¬ (j ≠ (l.getD inx default).comp ∧ meshes j = meshes (l.getD inx default).comp
        ∧ ¬ idx (l.getD inx default).id j ≥ 0) := fun h => h1 ⟨h.1, h.2.1⟩
    rw [if_neg (fun h => this (of_decide_eq_true h)), Nat.add_zero]

/-- The update loop never shortens the list. -/
theorem update_fold_length_le {α : Type} (c : Collaborators α) (meshes : Nat → Nat)
    (idx : Nat → Nat → Int) (inx : Nat) (U : Int) (sug : Option (List Int)) (cqo : Int) :
    ∀ (js : List Nat) (l : List ElementToRefine),
      l.length ≤ (js.foldl (update_step c meshes idx inx U sug cqo) l).length := by
  intro js
  induction js with
  | nil => intro l; exact Nat.le_refl _
  | cons j js ih =>
    intro l
    rw [List.foldl_cons]
    have h1 := update_step_length c meshes idx inx U sug cqo l j
    have h2 := ih (update_step c meshes idx inx U sug cqo l j)
    omega

/-- A visit never shortens the list. -/
theorem fix_iteration_length_le {α : Type} (c : Collaborators α) (st : AdaptState α)
    (meshes : Nat → Nat) (idx : Nat → Nat → Int) (l : List ElementToRefine) (inx : Nat) :
    l.length ≤ (fix_iteration c st meshes idx l inx).length := by
  unfold fix_iteration
  dsimp only
  by_cases hU : selected_refinement st.num meshes idx l (l.getD inx default) ≠ H2D_REFINEMENT_P
  · rw [if_pos hU]
    exact update_fold_length_le c meshes idx inx _ _ _ _ l
  · rw [if_neg hU]

/-- A sequence of visits never shortens the list. -/
theorem fix_fold_length_le {α : Type} (c : Collaborators α) (st : AdaptState α)
    (meshes : Nat → Nat) (idx : Nat → Nat → Int) :
    ∀ (L : List Nat) (l : List ElementToRefine),
      l.length ≤ (L.foldl (fix_iteration c st meshes idx) l).length := by
  intro L
  induction L with
  | nil => intro l; exact Nat.le_refl _
  | cons i L ih =>
    intro l
    rw [List.foldl_cons]
    exact Nat.le_trans (fix_iteration_length_le c st meshes idx l i) (ih _)

/-- Once undefined, the update loop stays undefined. -/
theorem update_checked_fold_none {α : Type} (c : Collaborators α) (meshes : Nat → Nat)
    (idx : Nat → Nat → Int) (inx : Nat) (U : Int) (sug : Option (List Int)) (cqo : Int)
    (capacity : Nat) (js : List Nat) :
    js.foldl (update_step_checked c meshes idx inx U sug cqo capacity) none = none := by
  induction js with
  | nil => rfl
  | cons j js ih =>
    rw [List.foldl_cons]
    exact ih

/-- When the update loop with the storage is defined, its entries are those
of the update loop on the entries. -/
theorem update_checked_fold_values {α : Type} (c : Collaborators α) (meshes : Nat → Nat)
    (idx : Nat → Nat → Int) (inx : Nat) (U : Int) (sug : Option (List Int)) (cqo : Int)
    (capacity : Nat) :
    ∀ (js : List Nat) (s t : VisitState),
      js.foldl (update_step_checked c meshes idx inx U sug cqo capacity) (some s) = some t →
      t.elems = js.foldl (update_step c meshes idx inx U sug cqo) s.elems := by
  intro js
  induction js with
  | nil =>
    intro s t h
    simp only [List.foldl_nil, Option.some.injEq] at h
    rw [← h]
    rfl
  | cons j js ih =>
    intro s t h
    rw [List.foldl_cons] at h
    rw [List.foldl_cons]
    by_cases hd : s.dangling = true
    · have e : update_step_checked c meshes idx inx U sug cqo capacity (some s) j = none := by
        simp [update_step_checked, hd]
      rw [e, update_checked_fold_none] at h
      cases h
    · have e : update_step_checked c meshes idx inx U sug cqo capacity (some s) j
          = some { elems := update_step c meshes idx inx U sug cqo s.elems j
                   dangling := update_step_appends meshes idx inx s.elems j
                     && decide (capacity ≤ s.elems.length) } := by
        simp [update_step_checked, hd]
      rw [e] at h
      exact ih _ t h

/-- When the entries at the end of the update loop fit into the capacity, no
`push_back` of the loop moves the storage: the loop with the storage is
defined. -/
theorem update_checked_fold_some {α : Type} (c : Collaborators α) (meshes : Nat → Nat)
    (idx : Nat → Nat → Int) (inx : Nat) (U : Int) (sug : Option (List Int)) (cqo : Int)
    (capacity : Nat) :
    ∀ (js : List Nat) (l : List ElementToRefine),
      (js.foldl (update_step c meshes idx inx U sug cqo) l).length ≤ capacity →
      js.foldl (update_step_checked c meshes idx inx U sug cqo capacity)
          (some { elems := l, dangling := false })
        = some { elems := js.foldl (update_step c meshes idx inx U sug cqo) l,
                 dangling := false } := by
  intro js
  induction js with
  | nil => intro l _; rfl
  | cons j js ih =>
    intro l hcap
    rw [List.foldl_cons] at hcap
    rw [List.foldl_cons, List.foldl_cons]
    have hlen := update_step_length c meshes idx inx U sug cqo l j
    have hmono := update_fold_length_le c meshes idx inx U sug cqo js
      (update_step c meshes idx inx U sug cqo l j)
    have hd : (update_step_appends meshes idx inx l j && decide (capacity ≤ l.length)) = false := by
      by_cases ha : update_step_appends meshes idx inx l j = true
      · rw [if_pos ha] at hlen
        have : ¬ capacity ≤ l.length := by omega
        simp [this]
      · simp [ha]
    have e : update_step_checked c meshes idx inx U sug cqo capacity
        (some { elems := l, dangling := false }) j
        = some { elems := update_step c meshes idx inx U sug cqo l j, dangling := false } := by
      simp only [update_step_checked, hd]
      rfl
    rw [e]
    exact ih _ hcap

/-- When a visit with the storage is defined, its entries are those of the
visit on the entries. -/
theorem fix_iteration_checked_values {α : Type} (c : Collaborators α) (st : AdaptState α)
    (meshes : Nat → Nat) (idx : Nat → Nat → Int) (capacity : Nat) (l l' : List ElementToRefine)
    (inx : Nat) (h : fix_iteration_checked c st meshes idx capacity (some l) inx = some l') :
    l' = fix_iteration c st meshes idx l inx := by
  unfold fix_iteration_checked at h
  unfold fix_iteration
  dsimp only at h ⊢
  by_cases hU : selected_refinement st.num meshes idx l (l.getD inx default) ≠ H2D_REFINEMENT_P
  · rw [if_pos hU] at h
    rw [if_pos hU]
    cases hf : (List.range st.num).foldl
        (update_step_checked c meshes idx inx
          (selected_refinement st.num meshes idx l (l.getD inx default))
          (if selected_refinement st.num meshes idx l (l.getD inx default) = H2D_REFINEMENT_H
            then some (l.getD inx default).q else none)
          (st.orders (l.getD inx default).comp (l.getD inx default).id) capacity)
        (some { elems := l, dangling := false }) with
    | none => rw [hf] at h; cases h
    | some t =>
      rw [hf] at h
      simp only [Option.some.injEq] at h
      rw [← h]
      exact update_checked_fold_values c meshes idx inx _ _ _ capacity _ _ t hf
  · rw [if_neg hU] at h
    rw [if_neg hU]
    simp only [Option.some.injEq] at h
    exact h.symm

/-- A visit whose entries fit into the capacity is defined. -/
theorem fix_iteration_checked_some {α : Type} (c : Collaborators α) (st : AdaptState α)
    (meshes : Nat → Nat) (idx : Nat → Nat → Int) (capacity : Nat) (l : List ElementToRefine)
    (inx : Nat) (h : (fix_iteration c st meshes idx l inx).length ≤ capacity) :
    fix_iteration_checked c st meshes idx capacity (some l) inx
      = some (fix_iteration c st meshes idx l inx) := by
  unfold fix_iteration at h
  unfold fix_iteration_checked fix_iteration
  dsimp only at h ⊢
  by_cases hU : selected_refinement st.num meshes idx l (l.getD inx default) ≠ H2D_REFINEMENT_P
  · rw [if_pos hU] at h
    rw [if_pos hU, if_pos hU, update_checked_fold_some c meshes idx inx _ _ _ capacity _ l h]
  · rw [if_neg hU, if_neg hU]

/-- Once undefined, the pass stays undefined. -/
theorem fix_checked_fold_none {α : Type} (c : Collaborators α) (st : AdaptState α)
    (meshes : Nat → Nat) (idx : Nat → Nat → Int) (capacity : Nat) (L : List Nat) :
    L.foldl (fix_iteration_checked c st meshes idx capacity) none = none := by
  induction L with
  | nil => rfl
  | cons i L ih =>
    rw [List.foldl_cons]
    exact ih

/-- When a sequence of visits with the storage is defined, its entries are
those of the visits on the entries. -/
theorem fix_checked_fold_values {α : Type} (c : Collaborators α) (st : AdaptState α)
    (meshes : Nat → Nat) (idx : Nat → Nat → Int) (capacity : Nat) :
    ∀ (L : List Nat) (l l' : List ElementToRefine),
      L.foldl (fix_iteration_checked c st meshes idx capacity) (some l) = some l' →
      l' = L.foldl (fix_iteration c st meshes idx) l := by
  intro L
  induction L with
  | nil =>
    intro l l' h
    simp only [List.foldl_nil, Option.some.injEq] at h
    exact h.symm
  | cons i L ih =>
    intro l l' h
    rw [List.foldl_cons] at h
    rw [List.foldl_cons]
    cases hv : fix_iteration_checked c st meshes idx capacity (some l) i with
    | none => rw [hv, fix_checked_fold_none] at h; cases h
    | some l1 =>
      rw [hv] at h
      rw [← fix_iteration_checked_values c st meshes idx capacity l l1 i hv]
      exact ih l1 l' h

/-- A sequence of visits whose entries fit into the capacity is defined. -/
theorem fix_checked_fold_some {α : Type} (c : Collaborators α) (st : AdaptState α)
    (meshes : Nat → Nat) (idx : Nat → Nat → Int) (capacity : Nat) :
    ∀ (L : List Nat) (l : List ElementToRefine),
      (L.foldl (fix_iteration c st meshes idx) l).length ≤ capacity →
      L.foldl (fix_iteration_checked c st meshes idx capacity) (some l)
        = some (L.foldl (fix_iteration c st meshes idx) l) := by
  intro L
  induction L with
  | nil => intro l _; rfl
  | cons i L ih =>
    intro l h
    rw [List.foldl_cons] at h
    rw [List.foldl_cons, List.foldl_cons]
    have hmono := fix_fold_length_le c st meshes idx L (fix_iteration c st meshes idx l i)
    rw [fix_iteration_checked_some c st meshes idx capacity l i (by omega)]
    exact ih _ h

/-- When `fix_shared_mesh_refinements` is defined, the vector holds the
entries `reconciliation_values`. -/
theorem fix_shared_mesh_refinements_values {α : Type} (c : Collaborators α) (st : AdaptState α)
    (meshes : Nat → Nat) (elems : List ElementToRefine) (idx : Nat → Nat → Int)
    (capacity : Nat) (l : List ElementToRefine)
    (h : fix_shared_mesh_refinements c st meshes elems idx capacity = some l) :
    l = reconciliation_values c st meshes elems idx :=
  fix_checked_fold_values c st meshes idx capacity _ elems l h

/-- When the entries after the pass fit into the capacity of the vector,
`fix_shared_mesh_refinements` is defined. -/
theorem fix_shared_mesh_refinements_some {α : Type} (c : Collaborators α) (st : AdaptState α)
    (meshes : Nat → Nat) (elems : List ElementToRefine) (idx : Nat → Nat → Int)
    (capacity : Nat)
    (h : (reconciliation_values c st meshes elems idx).length ≤ capacity) :
    fix_shared_mesh_refinements c st meshes elems idx capacity
      = some (reconciliation_values c st meshes elems idx) :=
  fix_checked_fold_some c st meshes idx capacity _ elems h

end Storage

/-! ## Preconditions, outcome flag and validity of the errors -/

section AdaptFacts

variable {α : Type} [LinearOrderedField α]

/-- When `adapt` returns, the loop was left regularly and the decisions were
applied; the flag and the final state are read off the loop exit. -/
theorem adapt_returned_inv (c : Collaborators α) (st : AdaptState α) (num_selectors : Nat)
    (thr : α) (strat regularize : Int) (to_be_processed : α) (done : Bool) (st' : AdaptState α)
    (h : adapt c st num_selectors thr strat regularize to_be_processed
          = Outcome.returned done st') :
    st.have_errors = true ∧ num_selectors ≠ 0 ∧ st.num = num_selectors
    ∧ ∃ v, adapt_loop c st thr strat to_be_processed (loop_measure st (LoopVars.init st))
            (LoopVars.init st) = LoopExit.finished v
        ∧ done = (decide (v.num_exam_elem = 0) || v.elem_inx_to_proc.isEmpty)
        ∧ st'.have_errors = (decide (strat = 2) && done)
        ∧ st'.priority_queue = v.priority_queue
        ∧ st'.last_refinements
            = reconciliation_values c st st.mesh_of v.elem_inx_to_proc v.idx := by
  unfold adapt at h
  by_cases h1 : st.have_errors = true
  · by_cases h2 : num_selectors = 0
    · simp [h1, h2] at h
    · by_cases h3 : st.num = num_selectors
      · simp only [h1, h2, h3, Bool.not_true, Bool.false_eq_true, if_false, ne_eq,
          not_true_eq_false] at h
        refine ⟨h1, h2, h3, ?_⟩
        cases hl : adapt_loop c st thr strat to_be_processed (loop_measure st (LoopVars.init st))
            (LoopVars.init st) with
        | invalid => rw [hl] at h; simp at h
        | out_of_fuel => rw [hl] at h; simp at h
        | finished v =>
          rw [hl] at h
          simp only at h
          cases hx : fix_shared_mesh_refinements c st st.mesh_of v.elem_inx_to_proc v.idx
              (max st.num_act_elems.toNat v.elem_inx_to_proc.length) with
          | none => rw [hx] at h; simp at h
          | some elems =>
            rw [hx] at h
            simp only at h
            have hval := fix_shared_mesh_refinements_values c st st.mesh_of v.elem_inx_to_proc
              v.idx _ elems hx
            cases ha : apply_refinements c st elems with
            | none => rw [ha] at h; simp at h
            | some st1 =>
              rw [ha] at h
              simp only [Outcome.returned.injEq] at h
              obtain ⟨hd, hs⟩ := h
              refine ⟨v, rfl, hd.symm, ?_, ?_, ?_⟩
              · rw [← hs, hd]
              · rw [← hs]
              · rw [← hs, ← hval]
      · simp [h1, h2, h3] at h
  · simp [h1] at h

/-- The call never ends for lack of fuel: the loop is given its measure. -/
theorem adapt_never_out_of_fuel (c : Collaborators α) (st : AdaptState α) (num_selectors : Nat)
    (thr : α) (strat regularize : Int) (to_be_processed : α) :
    adapt c st num_selectors thr strat regularize to_be_processed ≠ Outcome.out_of_fuel := by
  unfold adapt
  split_ifs
  · simp
  · simp
  · simp
  · cases hl : adapt_loop c st thr strat to_be_processed (loop_measure st (LoopVars.init st))
        (LoopVars.init st) with
    | invalid => simp
    | out_of_fuel =>
      exact absurd hl (adapt_loop_fuel_suffices c st thr strat to_be_processed _ _ (le_refl _))
    | finished v =>
      simp only
      cases fix_shared_mesh_refinements c st st.mesh_of v.elem_inx_to_proc v.idx
          (max st.num_act_elems.toNat v.elem_inx_to_proc.length) with
      | none => simp
      | some elems =>
        simp only
        cases apply_refinements c st elems <;> simp

/-- The demo step with strategy 1 and threshold 0.3 returns `done = false`. -/
theorem demo_step_strategy1 :
    ∃ st', adapt demo_collaborators demo_state 1 (3 / 10) 1 (-1) 0
      = Outcome.returned false st' := by
  norm_num [adapt, demo_state, demo_collaborators, adapt_loop, loop_measure, LoopVars.init,
    loop_condition, adapt_iteration, examine, prepare_threshold, stopping_rule,
    refinement_suggestion, fix_shared_mesh_refinements, fix_iteration_checked,
    update_step_checked, apply_refinements, apply_refinement,
    fix_iteration, selected_refinement, selected_refinement_over, ElementToRefine.init,
    H2D_REFINEMENT_P, H2D_REFINEMENT_H, List.range, List.range.loop, select_step]

/-- The demo step with strategy 2 and threshold 0.3 returns `done = false`. -/
theorem demo_step_strategy2 :
    ∃ st', adapt demo_collaborators demo_state 1 (3 / 10) 2 (-1) 0
      = Outcome.returned false st' := by
  norm_num [adapt, demo_state, demo_collaborators, adapt_loop, loop_measure, LoopVars.init,
    loop_condition, adapt_iteration, examine, prepare_threshold, stopping_rule,
    refinement_suggestion, fix_shared_mesh_refinements, fix_iteration_checked,
    update_step_checked, apply_refinements, apply_refinement,
    fix_iteration, selected_refinement, selected_refinement_over, ElementToRefine.init,
    H2D_REFINEMENT_P, H2D_REFINEMENT_H, List.range, List.range.loop, select_step,
    set_element_order_internal]

/-- C1: `adapt` called while `have_errors` is false aborts with the fatal
error of line 129; the state at the abort is the state of the call, so no
element has been examined and no mesh, space or queue has been changed. -/
theorem adapt_without_errors_is_fatal (c : Collaborators α) (st : AdaptState α)
    (num_selectors : Nat) (thr : α) (strat regularize : Int) (to_be_processed : α)
    (h : st.have_errors = false) :
    adapt c st num_selectors thr strat regularize to_be_processed
      = Outcome.fatal "element errors have to be calculated first, call Adapt::calc_err_est()." st := by
  simp [adapt, h]

/-- Witness of C1: the demo state with its errors invalidated. -/
theorem adapt_without_errors_is_fatal_witness :
    adapt demo_collaborators { demo_state with have_errors := false } 1 (3 / 10) 1 (-1) 0
      = Outcome.fatal "element errors have to be calculated first, call Adapt::calc_err_est()."
          { demo_state with have_errors := false } :=
  adapt_without_errors_is_fatal demo_collaborators { demo_state with have_errors := false }
    1 (3 / 10) 1 (-1) 0 rfl

/-- C2: when `adapt` returns, `done` is true if and only if the loop examined
no element or left an empty list of decisions. -/
theorem adapt_done_iff (c : Collaborators α) (st : AdaptState α) (num_selectors : Nat)
    (thr : α) (strat regularize : Int) (to_be_processed : α) (done : Bool) (st' : AdaptState α)
    (h : adapt c st num_selectors thr strat regularize to_be_processed
          = Outcome.returned done st') :
    ∃ v, adapt_loop c st thr strat to_be_processed (loop_measure st (LoopVars.init st))
            (LoopVars.init st) = LoopExit.finished v
      ∧ (done = true ↔ (v.num_exam_elem = 0 ∨ v.elem_inx_to_proc = [])) := by
  obtain ⟨_, _, _, v, hl, hd, _⟩ :=
    adapt_returned_inv c st num_selectors thr strat regularize to_be_processed done st' h
  refine ⟨v, hl, ?_⟩
  rw [hd]
  simp [List.isEmpty_iff]

/-- Witness of C2: the demo step with strategy 1. -/
theorem adapt_done_iff_witness :
    ∃ st', adapt demo_collaborators demo_state 1 (3 / 10) 1 (-1) 0 = Outcome.returned false st'
      ∧ ∃ v, adapt_loop demo_collaborators demo_state (3 / 10) 1 0
              (loop_measure demo_state (LoopVars.init demo_state)) (LoopVars.init demo_state)
            = LoopExit.finished v
          ∧ (false = true ↔ (v.num_exam_elem = 0 ∨ v.elem_inx_to_proc = [])) := by
  obtain ⟨st', h⟩ := demo_step_strategy1
  exact ⟨st', h, adapt_done_iff demo_collaborators demo_state 1 (3 / 10) 1 (-1) 0 false st' h⟩

/-- C6: for every strategy code other than 2, `have_errors` is false in the
state `adapt` returns, whatever `done` is, and a further call of `adapt` on
that state aborts with the fatal error of line 129. -/
theorem adapt_invalidates_errors (c : Collaborators α) (st : AdaptState α) (num_selectors : Nat)
    (thr : α) (strat regularize : Int) (to_be_processed : α) (done : Bool) (st' : AdaptState α)
    (h : adapt c st num_selectors thr strat regularize to_be_processed
          = Outcome.returned done st')
    (hs : strat ≠ 2) :
    st'.have_errors = false
    ∧ ∀ (c' : Collaborators α) (n' : Nat) (thr' : α) (strat' regularize' : Int) (tbp' : α),
        adapt c' st' n' thr' strat' regularize' tbp'
          = Outcome.fatal
              "element errors have to be calculated first, call Adapt::calc_err_est()." st' := by
  obtain ⟨_, _, _, v, _, _, he, _⟩ :=
    adapt_returned_inv c st num_selectors thr strat regularize to_be_processed done st' h
  have hf : st'.have_errors = false := by
    rw [he]
    simp [hs]
  exact ⟨hf, fun c' n' thr' strat' regularize' tbp' => by simp [adapt, hf]⟩

/-- Witness of C6: the demo step with strategy 1. -/
theorem adapt_invalidates_errors_witness :
    ∃ st', adapt demo_collaborators demo_state 1 (3 / 10) 1 (-1) 0 = Outcome.returned false st'
      ∧ st'.have_errors = false
      ∧ adapt demo_collaborators st' 1 (3 / 10) 1 (-1) 0
          = Outcome.fatal
              "element errors have to be calculated first, call Adapt::calc_err_est()." st' := by
  obtain ⟨st', h⟩ := demo_step_strategy1
  have key := adapt_invalidates_errors demo_collaborators demo_state 1 (3 / 10) 1 (-1) 0
    false st' h (by decide)
  exact ⟨st', h, key.1, key.2 demo_collaborators 1 (3 / 10) 1 (-1) 0⟩

/-- C7 as stated fails: the demo step with strategy 2 and threshold 0.3
records decisions (`done = false`) and leaves `have_errors = false`, so the
errors are marked stale although the step did change the space. -/
theorem strategy2_stale_without_done :
    ¬ (∀ (done : Bool) (st' : AdaptState ℚ),
        adapt demo_collaborators demo_state 1 (3 / 10) 2 (-1) 0 = Outcome.returned done st' →
        st'.have_errors = false → done = true) := by
  intro H
  obtain ⟨st', h⟩ := demo_step_strategy2
  obtain ⟨_, _, _, v, _, _, he, _⟩ :=
    adapt_returned_inv demo_collaborators demo_state 1 (3 / 10) 2 (-1) 0 false st' h
  have := H false st' h (by rw [he]; simp)
  simp at this

/-- C7, amended: after a step with strategy 2 `have_errors` equals `done`:
the errors stay valid exactly when the step produced no change, and are
marked stale exactly when a decision was recorded. -/
theorem strategy2_have_errors_eq_done (c : Collaborators α) (st : AdaptState α)
    (num_selectors : Nat) (thr : α) (regularize : Int) (to_be_processed : α) (done : Bool)
    (st' : AdaptState α)
    (h : adapt c st num_selectors thr 2 regularize to_be_processed
          = Outcome.returned done st') :
    st'.have_errors = done := by
  obtain ⟨_, _, _, v, _, _, he, _⟩ :=
    adapt_returned_inv c st num_selectors thr 2 regularize to_be_processed done st' h
  rw [he]
  simp

/-- Witness of the amended C7: the demo step with strategy 2. -/
theorem strategy2_have_errors_eq_done_witness :
    ∃ st', adapt demo_collaborators demo_state 1 (3 / 10) 2 (-1) 0 = Outcome.returned false st'
      ∧ st'.have_errors = false := by
  obtain ⟨st', h⟩ := demo_step_strategy2
  exact ⟨st', h,
    strategy2_have_errors_eq_done demo_collaborators demo_state 1 (3 / 10) (-1) 0 false st' h⟩

/-- C8: while the priority queue is non-empty the loop goes on, the element
examined next is the front of the priority queue, the regular queue is not
advanced, and the pass ends without a `break` for every strategy code and
threshold: the element is either ignored or handed to the selector. -/
theorem priority_front_first_never_breaks (c : Collaborators α) (st : AdaptState α) (thr : α)
    (strat : Int) (to_be_processed : α) (v : LoopVars α) (front : ElementReference)
    (rest : List ElementReference) (h : v.priority_queue = front :: rest) :
    loop_condition st v = true
    ∧ adapt_iteration c st thr strat to_be_processed v
        = Step.next
            (if c.should_ignore_element (-1) (st.mesh_of front.comp) front.id = true then
              { v with
                priority_queue := rest
                num_priority_elem := v.num_priority_elem + 1
                num_exam_elem := v.num_exam_elem + 1
                num_ignored_elem := v.num_ignored_elem + 1 }
            else
              refinement_suggestion c st
                { v with
                  priority_queue := rest
                  num_priority_elem := v.num_priority_elem + 1
                  num_exam_elem := v.num_exam_elem + 1 }
                front.id front.comp)
    ∧ ∀ w, adapt_iteration c st thr strat to_be_processed v = Step.next w →
        w.priority_queue = rest ∧ w.inx_regular_element = v.inx_regular_element := by
  have hit : adapt_iteration c st thr strat to_be_processed v
      = examine c st thr strat to_be_processed
          { v with priority_queue := rest, num_priority_elem := v.num_priority_elem + 1 }
          front.id front.comp (-1) := by
    unfold adapt_iteration
    rw [h]
  refine ⟨by simp [loop_condition, h], ?_, ?_⟩
  · rw [hit]
    cases hi : c.should_ignore_element (-1) (st.mesh_of front.comp) front.id with
    | true => rw [examine_ignored c st thr strat to_be_processed _ _ _ _ hi]; simp
    | false =>
      rw [examine_priority c st thr strat to_be_processed _ _ _ _ hi (by decide)]
      simp
  · intro w hw
    rw [hit] at hw
    obtain ⟨h1, h2⟩ := (examine_frame c st thr strat to_be_processed _ _ _ _).1 w hw
    exact ⟨h2, h1⟩

/-- Witness of C8: the first pass of the loop on `rise_state`. -/
theorem priority_front_first_never_breaks_witness :
    loop_condition rise_state (LoopVars.init rise_state) = true
    ∧ adapt_iteration demo_collaborators rise_state (1 / 100) 0 0 (LoopVars.init rise_state)
        = Step.next
            (if demo_collaborators.should_ignore_element (-1) (rise_state.mesh_of 0) 1 = true then
              { LoopVars.init rise_state with
                priority_queue := []
                num_priority_elem := (LoopVars.init rise_state).num_priority_elem + 1
                num_exam_elem := (LoopVars.init rise_state).num_exam_elem + 1
                num_ignored_elem := (LoopVars.init rise_state).num_ignored_elem + 1 }
            else
              refinement_suggestion demo_collaborators rise_state
                { LoopVars.init rise_state with
                  priority_queue := []
                  num_priority_elem := (LoopVars.init rise_state).num_priority_elem + 1
                  num_exam_elem := (LoopVars.init rise_state).num_exam_elem + 1 }
                1 0)
    ∧ ∀ w, adapt_iteration demo_collaborators rise_state (1 / 100) 0 0 (LoopVars.init rise_state)
          = Step.next w →
        w.priority_queue = [] ∧ w.inx_regular_element = (LoopVars.init rise_state).inx_regular_element :=
  priority_front_first_never_breaks demo_collaborators rise_state (1 / 100) 0 0
    (LoopVars.init rise_state) ⟨1, 0⟩ [] rfl

/-- The test of line 209 in terms of the field operations. -/
theorem rel_change_exceeds_iff (err err0 : α) :
    rel_change_exceeds err err0 = true
      ↔ (err0 ≠ 0 ∧ |(err - err0) / err0| > 1 / 1000) ∨ (err0 = 0 ∧ err ≠ 0) := by
  unfold rel_change_exceeds
  by_cases h : err0 = 0
  · simp [h]
  · simp [h]

/-- A pass of the loop that takes its element from the regular queue. -/
theorem adapt_iteration_regular (c : Collaborators α) (st : AdaptState α) (thr : α)
    (strat : Int) (to_be_processed : α) (v : LoopVars α) (r : ElementReference)
    (hq : v.priority_queue = [])
    (hr : st.regular_queue[v.inx_regular_element]? = some r)
    (hi : c.should_ignore_element (v.inx_regular_element : Int) (st.mesh_of r.comp) r.id = false) :
    adapt_iteration c st thr strat to_be_processed v
      = if stopping_rule c st thr strat to_be_processed
            (prepare_threshold thr
              { v with inx_regular_element := v.inx_regular_element + 1
                       num_exam_elem := v.num_exam_elem + 1 }
              (st.errors r.comp r.id)) (st.errors r.comp r.id) = true
        then Step.stop (prepare_threshold thr
              { v with inx_regular_element := v.inx_regular_element + 1
                       num_exam_elem := v.num_exam_elem + 1 }
              (st.errors r.comp r.id))
        else Step.next (refinement_suggestion c st
              (prepare_threshold thr
                { v with inx_regular_element := v.inx_regular_element + 1
                         num_exam_elem := v.num_exam_elem + 1 }
                (st.errors r.comp r.id)) r.id r.comp) := by
  unfold adapt_iteration
  rw [hq]
  simp only [hr]
  rw [examine_regular c st thr strat to_be_processed _ r.id r.comp _ hi (by omega)]

/-- For strategy 0 the loop stops at a non-ignored element of the regular
queue exactly when the two tests of lines 208-209 hold on the locals: the
processed error exceeds `sqrt(thr) * errors_squared_sum`, and the error of the
element differs from `err0_squared` by more than 0.1% of it in absolute value;
otherwise the element goes on to the selector. -/
theorem strategy0_stops_by_line_209 (c : Collaborators α) (st : AdaptState α) (thr : α)
    (to_be_processed : α) (v : LoopVars α) (r : ElementReference)
    (hq : v.priority_queue = [])
    (hr : st.regular_queue[v.inx_regular_element]? = some r)
    (hi : c.should_ignore_element (v.inx_regular_element : Int) (st.mesh_of r.comp) r.id = false) :
    ((v.processed_error_squared > c.sqrt thr * st.errors_squared_sum
        ∧ ((v.err0_squared ≠ 0
              ∧ |(st.errors r.comp r.id - v.err0_squared) / v.err0_squared| > 1 / 1000)
            ∨ (v.err0_squared = 0 ∧ st.errors r.comp r.id ≠ 0))) →
      adapt_iteration c st thr 0 to_be_processed v
        = Step.stop (prepare_threshold thr
            { v with inx_regular_element := v.inx_regular_element + 1
                     num_exam_elem := v.num_exam_elem + 1 }
            (st.errors r.comp r.id)))
    ∧ (¬ (v.processed_error_squared > c.sqrt thr * st.errors_squared_sum
        ∧ ((v.err0_squared ≠ 0
              ∧ |(st.errors r.comp r.id - v.err0_squared) / v.err0_squared| > 1 / 1000)
            ∨ (v.err0_squared = 0 ∧ st.errors r.comp r.id ≠ 0))) →
      adapt_iteration c st thr 0 to_be_processed v
        = Step.next (refinement_suggestion c st
            (prepare_threshold thr
              { v with inx_regular_element := v.inx_regular_element + 1
                       num_exam_elem := v.num_exam_elem + 1 }
              (st.errors r.comp r.id)) r.id r.comp)) := by
  have hp := prepare_threshold_frame thr
    { v with inx_regular_element := v.inx_regular_element + 1
             num_exam_elem := v.num_exam_elem + 1 } (st.errors r.comp r.id)
  have hstop : stopping_rule c st thr 0 to_be_processed
      (prepare_threshold thr
        { v with inx_regular_element := v.inx_regular_element + 1
                 num_exam_elem := v.num_exam_elem + 1 }
        (st.errors r.comp r.id)) (st.errors r.comp r.id) = true
      ↔ (v.processed_error_squared > c.sqrt thr * st.errors_squared_sum
        ∧ ((v.err0_squared ≠ 0
              ∧ |(st.errors r.comp r.id - v.err0_squared) / v.err0_squared| > 1 / 1000)
            ∨ (v.err0_squared = 0 ∧ st.errors r.comp r.id ≠ 0))) := by
    unfold stopping_rule
    rw [hp.2.2.2.2.1, hp.2.2.2.2.2, ← rel_change_exceeds_iff]
    simp
  rw [adapt_iteration_regular c st thr 0 to_be_processed v r hq hr hi]
  constructor
  · intro h
    rw [if_pos (hstop.mpr h)]
  · intro h
    rw [if_neg (fun hs => h (hstop.mp hs))]

/-- With nothing in the priority queue at the call, the loop takes every
element from the regular queue; at the head of each pass the processed error
is the sum of the errors recorded so far and `err0_squared` is the error of
the entry recorded last, 1000 before the first. -/
theorem regular_loop_invariant (c : Collaborators α) (st : AdaptState α) (thr : α)
    (strat : Int) (to_be_processed : α) (hpq : st.priority_queue = [])
    (v : LoopVars α) (hv : loop_reachable c st thr strat to_be_processed v) :
    v.priority_queue = []
    ∧ v.processed_error_squared = processed_error_before c st v.inx_regular_element
    ∧ v.err0_squared
        = ((previous_processed c st v.inx_regular_element).map
            (fun p => st.errors p.comp p.id)).getD 1000 := by
  induction hv with
  | init =>
    refine ⟨hpq, ?_, ?_⟩
    · simp [LoopVars.init, processed_error_before, processed_before]
    · simp [LoopVars.init, previous_processed, processed_before]
  | step v w _ hc hs ih =>
    obtain ⟨hq, hproc, herr0⟩ := ih
    cases hr : st.regular_queue[v.inx_regular_element]? with
    | none =>
      unfold adapt_iteration at hs
      rw [hq] at hs
      simp [hr] at hs
    | some r =>
      cases hi : c.should_ignore_element (v.inx_regular_element : Int) (st.mesh_of r.comp) r.id with
      | true =>
        have hit : adapt_iteration c st thr strat to_be_processed v
            = Step.next { v with inx_regular_element := v.inx_regular_element + 1
                                 num_exam_elem := v.num_exam_elem + 1
                                 num_ignored_elem := v.num_ignored_elem + 1 } := by
          unfold adapt_iteration
          rw [hq]
          simp only [hr]
          rw [examine_ignored c st thr strat to_be_processed _ r.id r.comp _ hi]
        rw [hit] at hs
        cases hs
        have hpb : processed_before c st (v.inx_regular_element + 1)
            = processed_before c st v.inx_regular_element := by
          rw [processed_before]
          simp only [hr]
          rw [if_neg (fun h => by rw [hi] at h; exact Bool.noConfusion h.1)]
        refine ⟨hq, ?_, ?_⟩
        · show v.processed_error_squared = processed_error_before c st (v.inx_regular_element + 1)
          unfold processed_error_before
          rw [hpb]
          exact hproc
        · show v.err0_squared = _
          unfold previous_processed
          rw [hpb]
          exact herr0
      | false =>
        rw [adapt_iteration_regular c st thr strat to_be_processed v r hq hr hi] at hs
        split_ifs at hs
        cases hs
        have hp := prepare_threshold_frame thr
          { v with inx_regular_element := v.inx_regular_element + 1
                   num_exam_elem := v.num_exam_elem + 1 } (st.errors r.comp r.id)
        have hf := refinement_suggestion_frame c st
          (prepare_threshold thr
            { v with inx_regular_element := v.inx_regular_element + 1
                     num_exam_elem := v.num_exam_elem + 1 }
            (st.errors r.comp r.id)) r.id r.comp
        rw [hf.1, hf.2.1, hp.1, hp.2.1]
        refine ⟨hq, ?_, ?_⟩
        · show _ = processed_error_before c st (v.inx_regular_element + 1)
          unfold processed_error_before
          rw [processed_before]
          simp only [hr]
          cases ha : accepted c st r with
          | true =>
            rw [if_pos ⟨hi, rfl⟩, List.map_append, List.sum_append]
            have ha2 := ha
            unfold accepted at ha2
            unfold refinement_suggestion
            simp only [ha2, if_true]
            rw [hp.2.2.2.2.1]
            show v.processed_error_squared + _ = _
            rw [hproc]
            simp [processed_error_before]
          | false =>
            rw [if_neg (fun h => Bool.noConfusion h.2)]
            have ha2 := ha
            unfold accepted at ha2
            unfold refinement_suggestion
            simp only [ha2, Bool.false_eq_true, if_false]
            rw [hp.2.2.2.2.1]
            exact hproc
        · show _ = ((previous_processed c st (v.inx_regular_element + 1)).map _).getD 1000
          unfold previous_processed
          rw [processed_before]
          simp only [hr]
          cases ha : accepted c st r with
          | true =>
            rw [if_pos ⟨hi, rfl⟩, List.getLast?_append]
            have ha2 := ha
            unfold accepted at ha2
            unfold refinement_suggestion
            simp [ha2]
          | false =>
            rw [if_neg (fun h => Bool.noConfusion h.2)]
            have ha2 := ha
            unfold accepted at ha2
            unfold refinement_suggestion
            simp only [ha2, Bool.false_eq_true, if_false]
            rw [hp.2.2.2.2.2]
            exact herr0

/-- Every entry recorded before position `n` stands in the regular queue
before position `n`. -/
theorem processed_before_mem {β : Type} (c : Collaborators β) (st : AdaptState β) (n : Nat)
    (p : ElementReference) (hp : p ∈ processed_before c st n) :
    ∃ j, j < n ∧ st.regular_queue[j]? = some p := by
  induction n with
  | zero => simp [processed_before] at hp
  | succ n ih =>
    rw [processed_before] at hp
    cases hr : st.regular_queue[n]? with
    | none =>
      simp only [hr] at hp
      obtain ⟨j, hj, hq⟩ := ih hp
      exact ⟨j, by omega, hq⟩
    | some r =>
      simp only [hr] at hp
      split_ifs at hp
      · rcases List.mem_append.mp hp with h | h
        · obtain ⟨j, hj, hq⟩ := ih h
          exact ⟨j, by omega, hq⟩
        · rw [List.mem_singleton] at h
          exact ⟨n, by omega, by rw [hr, h]⟩
      · obtain ⟨j, hj, hq⟩ := ih hp
        exact ⟨j, by omega, hq⟩

/-- In a queue of non-increasing errors an entry is no larger than the entry
recorded last before it. -/
theorem previous_processed_ge (c : Collaborators α) (st : AdaptState α) (n : Nat)
    (hsorted : queue_descending st) (p r : ElementReference)
    (hp : previous_processed c st n = some p) (hr : st.regular_queue[n]? = some r) :
    st.errors r.comp r.id ≤ st.errors p.comp p.id := by
  obtain ⟨j, hj, hq⟩ := processed_before_mem c st n p (List.mem_of_getLast?_eq_some hp)
  obtain ⟨hjl, hje⟩ := List.getElem?_eq_some_iff.mp hq
  obtain ⟨hnl, hne⟩ := List.getElem?_eq_some_iff.mp hr
  have := List.pairwise_iff_getElem.mp hsorted j n hjl hnl hj
  rw [hje, hne] at this
  exact this

/-- The test of line 209 on a non-negative reference error and an error that
is no larger: it holds exactly when the error has dropped by more than 0.1%
of the reference error. -/
theorem rel_change_exceeds_drop (err err0 : α) (h0 : 0 ≤ err) (hle : err ≤ err0) :
    rel_change_exceeds err err0 = true ↔ err0 - err > err0 / 1000 := by
  rw [rel_change_exceeds_iff]
  rcases eq_or_lt_of_le (le_trans h0 hle) with hz | hpos
  · have he : err = 0 := le_antisymm (by rw [← hz] at hle; exact hle) h0
    rw [← hz, he]
    simp
  · have hne : err0 ≠ 0 := ne_of_gt hpos
    have habs : |(err - err0) / err0| = (err0 - err) / err0 := by
      rw [abs_div, abs_of_pos hpos, abs_sub_comm, abs_of_nonneg (sub_nonneg.mpr hle)]
    rw [habs]
    constructor
    · rintro (⟨_, h⟩ | ⟨h, _⟩)
      · rw [gt_iff_lt, lt_div_iff₀ hpos] at h
        rw [gt_iff_lt, div_eq_mul_inv, mul_comm]
        rw [one_div] at h
        exact h
      · exact absurd h hne
    · intro h
      left
      refine ⟨hne, ?_⟩
      rw [gt_iff_lt, lt_div_iff₀ hpos, one_div]
      rw [gt_iff_lt, div_eq_mul_inv, mul_comm] at h
      exact h

/-- C4: for strategy 0, on a state as the engine produces it (nothing in the
priority queue, which nothing in the sources fills; the regular queue in the
order of non-increasing stored error in which `fill_regular_queue` leaves it;
stored errors, which are sums of absolute values, non-negative; and a
non-negative bound `sqrt(thr) * errors_squared_sum`), at every pass the loop
reaches the element is drawn from the regular queue, the squared error
processed so far is the sum of the errors of the entries recorded before it,
and, when the element is not ignored, the loop stops at it exactly when
(a) the squared error processed so far exceeds `sqrt(thr) * errors_squared_sum`
and (b) there is a previous processed element and the squared error of the
element lies below the error of that element by more than 0.1% of it;
otherwise the element goes on to the selector. -/
theorem strategy0_stops_iff_dropped (c : Collaborators α) (st : AdaptState α) (thr : α)
    (to_be_processed : α) (v : LoopVars α) (r : ElementReference)
    (hpq : st.priority_queue = [])
    (hsorted : queue_descending st)
    (hnonneg : ∀ k i, 0 ≤ st.errors k i)
    (hbound : 0 ≤ c.sqrt thr * st.errors_squared_sum)
    (hv : loop_reachable c st thr 0 to_be_processed v)
    (hr : st.regular_queue[v.inx_regular_element]? = some r)
    (hi : c.should_ignore_element (v.inx_regular_element : Int) (st.mesh_of r.comp) r.id = false) :
    v.priority_queue = []
    ∧ v.processed_error_squared = processed_error_before c st v.inx_regular_element
    ∧ ((v.processed_error_squared > c.sqrt thr * st.errors_squared_sum
        ∧ ∃ p, previous_processed c st v.inx_regular_element = some p
            ∧ st.errors p.comp p.id - st.errors r.comp r.id > st.errors p.comp p.id / 1000) →
      adapt_iteration c st thr 0 to_be_processed v
        = Step.stop (prepare_threshold thr
            { v with inx_regular_element := v.inx_regular_element + 1
                     num_exam_elem := v.num_exam_elem + 1 }
            (st.errors r.comp r.id)))
    ∧ (¬ (v.processed_error_squared > c.sqrt thr * st.errors_squared_sum
        ∧ ∃ p, previous_processed c st v.inx_regular_element = some p
            ∧ st.errors p.comp p.id - st.errors r.comp r.id > st.errors p.comp p.id / 1000) →
      adapt_iteration c st thr 0 to_be_processed v
        = Step.next (refinement_suggestion c st
            (prepare_threshold thr
              { v with inx_regular_element := v.inx_regular_element + 1
                       num_exam_elem := v.num_exam_elem + 1 }
              (st.errors r.comp r.id)) r.id r.comp)) := by
  obtain ⟨hq, hproc, herr0⟩ := regular_loop_invariant c st thr 0 to_be_processed hpq v hv
  have hcode := strategy0_stops_by_line_209 c st thr to_be_processed v r hq hr hi
  have hiff : (v.processed_error_squared > c.sqrt thr * st.errors_squared_sum
        ∧ ((v.err0_squared ≠ 0
              ∧ |(st.errors r.comp r.id - v.err0_squared) / v.err0_squared| > 1 / 1000)
            ∨ (v.err0_squared = 0 ∧ st.errors r.comp r.id ≠ 0)))
      ↔ (v.processed_error_squared > c.sqrt thr * st.errors_squared_sum
        ∧ ∃ p, previous_processed c st v.inx_regular_element = some p
            ∧ st.errors p.comp p.id - st.errors r.comp r.id
                > st.errors p.comp p.id / 1000) := by
    rw [← rel_change_exceeds_iff]
    cases hprev : previous_processed c st v.inx_regular_element with
    | none =>
      have hnil : processed_before c st v.inx_regular_element = [] := by
        unfold previous_processed at hprev
        exact List.getLast?_eq_none_iff.mp hprev
      have hzero : v.processed_error_squared = 0 := by
        rw [hproc]
        unfold processed_error_before
        rw [hnil]
        rfl
      constructor
      · rintro ⟨ha, _⟩
        rw [hzero] at ha
        exact absurd ha (not_lt.mpr hbound)
      · rintro ⟨_, p, hp, _⟩
        cases hp
    | some p =>
      have he : v.err0_squared = st.errors p.comp p.id := by
        rw [herr0, hprev]
        rfl
      rw [he, rel_change_exceeds_drop _ _ (hnonneg _ _)
        (previous_processed_ge c st _ hsorted p r hprev hr)]
      constructor
      · rintro ⟨ha, hb⟩
        exact ⟨ha, p, rfl, hb⟩
      · rintro ⟨ha, p2, hp2, hb⟩
        cases hp2
        exact ⟨ha, hb⟩
  refine ⟨hq, hproc, ?_, ?_⟩
  · intro h
    exact hcode.1 (hiff.mpr h)
  · intro h
    exact hcode.2 (fun hc => h (hiff.mp hc))

/-- The first pass of the loop of strategy 0 on the demo state with the
threshold 0.01 records the front of the regular queue. -/
theorem demo_first_pass_strategy0 :
    adapt_iteration demo_collaborators demo_state (1 / 100) 0 0 (LoopVars.init demo_state)
      = Step.next (front_recorded_vars (1 / 100)) := by
  norm_num [adapt_iteration, demo_state, demo_collaborators, LoopVars.init, examine,
    prepare_threshold, stopping_rule, rel_change_exceeds, refinement_suggestion,
    ElementToRefine.init, front_recorded_vars]

/-- The demo state is as the engine produces it, and the second pass of the
loop of strategy 0 with the threshold 0.01 stops: the processed error 5
exceeds sqrt(0.01) * 27/4, and the error 1 of the second entry lies below the
error 5 of the front, recorded before it, by more than 0.1%. -/
theorem strategy0_stops_iff_dropped_witness :
    demo_state.priority_queue = []
    ∧ queue_descending demo_state
    ∧ (∀ k i, 0 ≤ demo_state.errors k i)
    ∧ 0 ≤ demo_collaborators.sqrt (1 / 100) * demo_state.errors_squared_sum
    ∧ loop_reachable demo_collaborators demo_state (1 / 100) 0 0 (front_recorded_vars (1 / 100))
    ∧ demo_state.regular_queue[(front_recorded_vars (1 / 100)).inx_regular_element]?
        = some ⟨1, 0⟩
    ∧ previous_processed demo_collaborators demo_state
        (front_recorded_vars (1 / 100)).inx_regular_element = some ⟨0, 0⟩
    ∧ (front_recorded_vars (1 / 100)).processed_error_squared
        > demo_collaborators.sqrt (1 / 100) * demo_state.errors_squared_sum
    ∧ demo_state.errors 0 0 - demo_state.errors 0 1 > demo_state.errors 0 0 / 1000
    ∧ adapt_iteration demo_collaborators demo_state (1 / 100) 0 0 (front_recorded_vars (1 / 100))
        = Step.stop (prepare_threshold (1 / 100)
            { front_recorded_vars (1 / 100) with
              inx_regular_element := (front_recorded_vars (1 / 100)).inx_regular_element + 1
              num_exam_elem := (front_recorded_vars (1 / 100)).num_exam_elem + 1 }
            (demo_state.errors 0 1)) := by
  have hsorted : queue_descending demo_state := by
    norm_num [queue_descending, demo_state]
  have hnonneg : ∀ k i, 0 ≤ demo_state.errors k i := by
    intro k i
    show (0 : ℚ) ≤ if i = 0 then 5 else if i = 1 then 1 else if i = 2 then 1 / 2 else 1 / 4
    split_ifs <;> norm_num
  have hbound : 0 ≤ demo_collaborators.sqrt (1 / 100) * demo_state.errors_squared_sum := by
    norm_num [demo_collaborators, demo_state]
  have hreach : loop_reachable demo_collaborators demo_state (1 / 100) 0 0
      (front_recorded_vars (1 / 100)) :=
    loop_reachable.step _ _ loop_reachable.init (by decide) demo_first_pass_strategy0
  have hprev : previous_processed demo_collaborators demo_state
      (front_recorded_vars (1 / 100)).inx_regular_element = some ⟨0, 0⟩ := by
    simp [previous_processed, processed_before, front_recorded_vars, demo_state,
      demo_collaborators, accepted]
  have ha : (front_recorded_vars (1 / 100)).processed_error_squared
      > demo_collaborators.sqrt (1 / 100) * demo_state.errors_squared_sum := by
    norm_num [front_recorded_vars, demo_collaborators, demo_state]
  have hb : demo_state.errors 0 0 - demo_state.errors 0 1 > demo_state.errors 0 0 / 1000 := by
    norm_num [demo_state]
  exact ⟨rfl, hsorted, hnonneg, hbound, hreach, rfl, hprev, ha, hb,
    (strategy0_stops_iff_dropped demo_collaborators demo_state (1 / 100) 0
      (front_recorded_vars (1 / 100)) ⟨1, 0⟩ rfl hsorted hnonneg hbound hreach rfl rfl).2.2.1
      ⟨ha, ⟨0, 0⟩, hprev, hb⟩⟩

/-- The threshold of strategies 1 and 3 is unset as long as every entry taken
from the regular queue was ignored; once set, it is `thr` times the error of
the first entry of the regular queue that was not ignored. -/
theorem threshold_of_first_examined (c : Collaborators α) (st : AdaptState α) (thr : α)
    (strat : Int) (to_be_processed : α)
    (v : LoopVars α) (hv : loop_reachable c st thr strat to_be_processed v) :
    (v.first_regular_element = true →
        ∀ i r, i < v.inx_regular_element → st.regular_queue[i]? = some r →
          c.should_ignore_element (i : Int) (st.mesh_of r.comp) r.id = true)
    ∧ (v.first_regular_element = false →
        ∃ j r0, j < v.inx_regular_element ∧ st.regular_queue[j]? = some r0
          ∧ c.should_ignore_element (j : Int) (st.mesh_of r0.comp) r0.id = false
          ∧ (∀ i r, i < j → st.regular_queue[i]? = some r →
                c.should_ignore_element (i : Int) (st.mesh_of r.comp) r.id = true)
          ∧ v.error_squared_threshod = thr * st.errors r0.comp r0.id) := by
  induction hv with
  | init =>
    refine ⟨?_, ?_⟩
    · intro _ i r hi
      exact absurd hi (Nat.not_lt_zero i)
    · intro h
      simp [LoopVars.init] at h
  | step v w _ hc hs ih =>
    cases hq : v.priority_queue with
    | nil =>
      cases hr : st.regular_queue[v.inx_regular_element]? with
      | none =>
        unfold adapt_iteration at hs
        rw [hq] at hs
        simp [hr] at hs
      | some r =>
        cases hi : c.should_ignore_element (v.inx_regular_element : Int) (st.mesh_of r.comp)
            r.id with
        | true =>
          have hit : adapt_iteration c st thr strat to_be_processed v
              = Step.next { v with inx_regular_element := v.inx_regular_element + 1
                                   num_exam_elem := v.num_exam_elem + 1
                                   num_ignored_elem := v.num_ignored_elem + 1 } := by
            unfold adapt_iteration
            rw [hq]
            simp only [hr]
            rw [examine_ignored c st thr strat to_be_processed _ r.id r.comp _ hi]
          rw [hit] at hs
          cases hs
          refine ⟨?_, ?_⟩
          · intro hfirst i ri hlt hri
            have hlt2 : i < v.inx_regular_element + 1 := hlt
            rcases Nat.lt_succ_iff_lt_or_eq.mp hlt2 with h | h
            · exact ih.1 hfirst i ri h hri
            · subst h
              rw [hr] at hri
              cases hri
              exact hi
          · intro hfirst
            obtain ⟨j, r0, hj, h0, hi0, hb, ht⟩ := ih.2 hfirst
            exact ⟨j, r0, Nat.lt_succ_of_lt hj, h0, hi0, hb, ht⟩
        | false =>
          rw [adapt_iteration_regular c st thr strat to_be_processed v r hq hr hi] at hs
          split_ifs at hs
          cases hs
          have hf := refinement_suggestion_frame c st
            (prepare_threshold thr
              { v with inx_regular_element := v.inx_regular_element + 1
                       num_exam_elem := v.num_exam_elem + 1 }
              (st.errors r.comp r.id)) r.id r.comp
          have hp := prepare_threshold_frame thr
            { v with inx_regular_element := v.inx_regular_element + 1
                     num_exam_elem := v.num_exam_elem + 1 } (st.errors r.comp r.id)
          rw [hf.2.2.1, hf.2.2.2.1, hf.1, hp.1]
          unfold prepare_threshold
          cases hfirst : v.first_regular_element with
          | true =>
            simp only [if_true]
            refine ⟨fun h => Bool.noConfusion h, ?_⟩
            intro _
            exact ⟨v.inx_regular_element, r, Nat.lt_succ_self _, hr, hi, ih.1 hfirst, rfl⟩
          | false =>
            simp only [Bool.false_eq_true, if_false]
            refine ⟨fun h => h.elim, ?_⟩
            intro _
            obtain ⟨j, r0, hj, h0, hi0, hb, ht⟩ := ih.2 hfirst
            exact ⟨j, r0, Nat.lt_succ_of_lt hj, h0, hi0, hb, ht⟩
    | cons front rest =>
      have hit : adapt_iteration c st thr strat to_be_processed v
          = examine c st thr strat to_be_processed
              { v with priority_queue := rest, num_priority_elem := v.num_priority_elem + 1 }
              front.id front.comp (-1) := by
        unfold adapt_iteration
        rw [hq]
      rw [hit] at hs
      cases hi : c.should_ignore_element (-1) (st.mesh_of front.comp) front.id with
      | true =>
        rw [examine_ignored c st thr strat to_be_processed _ _ _ _ hi] at hs
        cases hs
        exact ih
      | false =>
        rw [examine_priority c st thr strat to_be_processed _ _ _ _ hi (by decide)] at hs
        cases hs
        have hf := refinement_suggestion_frame c st
          { v with priority_queue := rest, num_priority_elem := v.num_priority_elem + 1
                   num_exam_elem := v.num_exam_elem + 1 } front.id front.comp
        rw [hf.2.2.1, hf.2.2.2.1, hf.1]
        exact ih

/-- C5: for strategy 3, in every state the loop reaches, it stops at an
element drawn from the regular queue and not ignored exactly when the squared
error of the element is below `thr` times the squared error of the first
regular-queue element examined, that is, the first entry of the regular queue
that is not ignored and so reaches the check of lines 196-203 (the element
itself when every entry before it was ignored), or the squared error processed
so far exceeds `1.5 * to_be_processed`. -/
theorem strategy3_stops_iff_first_examined (c : Collaborators α) (st : AdaptState α) (thr : α)
    (to_be_processed : α) (v : LoopVars α) (r r0 : ElementReference) (j0 : Nat)
    (hv : loop_reachable c st thr 3 to_be_processed v)
    (hq : v.priority_queue = [])
    (hr : st.regular_queue[v.inx_regular_element]? = some r)
    (hi : c.should_ignore_element (v.inx_regular_element : Int) (st.mesh_of r.comp) r.id = false)
    (h0 : st.regular_queue[j0]? = some r0)
    (hi0 : c.should_ignore_element (j0 : Int) (st.mesh_of r0.comp) r0.id = false)
    (hbefore : ∀ i ri, i < j0 → st.regular_queue[i]? = some ri →
      c.should_ignore_element (i : Int) (st.mesh_of ri.comp) ri.id = true) :
    (∃ w, adapt_iteration c st thr 3 to_be_processed v = Step.stop w)
      ↔ (st.errors r.comp r.id < thr * st.errors r0.comp r0.id
          ∨ v.processed_error_squared > (3 / 2) * to_be_processed) := by
  have hinv := threshold_of_first_examined c st thr 3 to_be_processed v hv
  have hp := prepare_threshold_frame thr
    { v with inx_regular_element := v.inx_regular_element + 1
             num_exam_elem := v.num_exam_elem + 1 } (st.errors r.comp r.id)
  have hfalse : ∀ {b : Bool}, b = true → b = false → False := by
    intro b h1 h2
    rw [h1] at h2
    exact Bool.noConfusion h2
  have hthr : (prepare_threshold thr
      { v with inx_regular_element := v.inx_regular_element + 1
               num_exam_elem := v.num_exam_elem + 1 }
      (st.errors r.comp r.id)).error_squared_threshod = thr * st.errors r0.comp r0.id := by
    unfold prepare_threshold
    cases hfirst : v.first_regular_element with
    | true =>
      have hall := hinv.1 hfirst
      have hj : j0 = v.inx_regular_element := by
        rcases Nat.lt_trichotomy j0 v.inx_regular_element with h | h | h
        · exact (hfalse (hall j0 r0 h h0) hi0).elim
        · exact h
        · exact (hfalse (hbefore _ r h hr) hi).elim
      subst hj
      rw [hr] at h0
      cases h0
      simp
    | false =>
      simp only [Bool.false_eq_true, if_false]
      obtain ⟨j, r1, _, h1, hi1, hb1, ht⟩ := hinv.2 hfirst
      have hj : j = j0 := by
        rcases Nat.lt_trichotomy j j0 with h | h | h
        · exact (hfalse (hbefore j r1 h h1) hi1).elim
        · exact h
        · exact (hfalse (hb1 j0 r0 h h0) hi0).elim
      subst hj
      rw [h1] at h0
      cases h0
      exact ht
  have hstop : stopping_rule c st thr 3 to_be_processed
      (prepare_threshold thr
        { v with inx_regular_element := v.inx_regular_element + 1
                 num_exam_elem := v.num_exam_elem + 1 }
        (st.errors r.comp r.id)) (st.errors r.comp r.id) = true
      ↔ (st.errors r.comp r.id < thr * st.errors r0.comp r0.id
          ∨ v.processed_error_squared > (3 / 2) * to_be_processed) := by
    unfold stopping_rule
    rw [hthr, hp.2.2.2.2.1]
    simp
  rw [adapt_iteration_regular c st thr 3 to_be_processed v r hq hr hi]
  constructor
  · rintro ⟨w, hw⟩
    split_ifs at hw with hs
    exact hstop.mp hs
  · intro h
    rw [if_pos (hstop.mpr h)]
    exact ⟨_, rfl⟩

/-- The first two passes of the loop of strategy 3 with a hook that ignores the
front of the regular queue: the front is counted and skipped, the second entry
fixes the threshold and is recorded. -/
theorem front_ignoring_passes :
    adapt_iteration front_ignoring_collaborators demo_state (3 / 5) 3 2 (LoopVars.init demo_state)
      = Step.next { LoopVars.init demo_state with
          inx_regular_element := 1, num_exam_elem := 1, num_ignored_elem := 1 }
    ∧ adapt_iteration front_ignoring_collaborators demo_state (3 / 5) 3 2
        { LoopVars.init demo_state with
          inx_regular_element := 1, num_exam_elem := 1, num_ignored_elem := 1 }
      = Step.next second_recorded_vars := by
  constructor
  · norm_num [adapt_iteration, demo_state, demo_collaborators, front_ignoring_collaborators,
      LoopVars.init, examine]
  · norm_num [adapt_iteration, demo_state, demo_collaborators, front_ignoring_collaborators,
      LoopVars.init, examine, prepare_threshold, stopping_rule, refinement_suggestion,
      ElementToRefine.init, second_recorded_vars]

/-- The loop of strategy 3 with the threshold 3/5 and a hook that ignores the
front of the regular queue (error 5): the second entry (error 1) is the first
one examined, and the loop stops at the third entry, whose error 1/2 is below
3/5 * 1.  The second entry itself, with an error below 3/5 * 5, was recorded. -/
theorem strategy3_stops_iff_first_examined_witness :
    loop_reachable front_ignoring_collaborators demo_state (3 / 5) 3 2 second_recorded_vars
    ∧ second_recorded_vars.priority_queue = []
    ∧ demo_state.regular_queue[second_recorded_vars.inx_regular_element]? = some ⟨2, 0⟩
    ∧ demo_state.regular_queue[1]? = some ⟨1, 0⟩
    ∧ front_ignoring_collaborators.should_ignore_element 0 (demo_state.mesh_of 0) 0 = true
    ∧ front_ignoring_collaborators.should_ignore_element 1 (demo_state.mesh_of 0) 1 = false
    ∧ demo_state.errors 0 1 < 3 / 5 * demo_state.errors 0 0
    ∧ demo_state.errors 0 2 < 3 / 5 * demo_state.errors 0 1
    ∧ ∃ w, adapt_iteration front_ignoring_collaborators demo_state (3 / 5) 3 2
        second_recorded_vars = Step.stop w := by
  have hreach : loop_reachable front_ignoring_collaborators demo_state (3 / 5) 3 2
      second_recorded_vars :=
    loop_reachable.step _ _
      (loop_reachable.step _ _ loop_reachable.init (by decide) front_ignoring_passes.1)
      (by decide) front_ignoring_passes.2
  have h1 : demo_state.errors 0 1 < 3 / 5 * demo_state.errors 0 0 := by
    norm_num [demo_state]
  have h2 : demo_state.errors 0 2 < 3 / 5 * demo_state.errors 0 1 := by
    norm_num [demo_state]
  refine ⟨hreach, rfl, rfl, rfl, rfl, rfl, h1, h2, ?_⟩
  exact (strategy3_stops_iff_first_examined front_ignoring_collaborators demo_state (3 / 5) 2
    second_recorded_vars ⟨2, 0⟩ ⟨1, 0⟩ 1 hreach rfl rfl rfl rfl rfl
    (fun i ri hlt hq => by
      have hz : i = 0 := by omega
      subst hz
      rfl)).mpr (Or.inl h2)

/-- The selector step on an accepted entry appends its decision. -/
theorem refinement_suggestion_accepted (c : Collaborators α) (st : AdaptState α)
    (v : LoopVars α) (r : ElementReference) (h : accepted c st r = true) :
    (refinement_suggestion c st v r.id r.comp).elem_inx_to_proc
      = v.elem_inx_to_proc ++ [decision_of c st r] := by
  unfold accepted at h
  unfold refinement_suggestion decision_of
  simp [h]

/-- The loop of strategy 1 from position `k` of the regular queue, with an
empty priority queue, nothing ignored and every suggestion accepted: it
appends the decisions of the longest run of entries from `k` on whose error is
not below the bound `B`, and examines one entry more unless the queue ends. -/
theorem strategy1_loop_from (c : Collaborators α) (st : AdaptState α) (thr : α)
    (to_be_processed : α) (B : α)
    (hn : st.num_act_elems = st.regular_queue.length)
    (hign : ∀ (i : Int) (r : ElementReference), r ∈ st.regular_queue →
      c.should_ignore_element i (st.mesh_of r.comp) r.id = false)
    (hacc : ∀ r, r ∈ st.regular_queue → accepted c st r = true) :
    ∀ (n k : Nat) (v : LoopVars α), k + n = st.regular_queue.length →
      v.priority_queue = [] → v.inx_regular_element = k →
      (v.first_regular_element = true →
        ∀ r, st.regular_queue[k]? = some r → thr * st.errors r.comp r.id = B) →
      (v.first_regular_element = false → v.error_squared_threshod = B) →
      ∃ w, adapt_loop c st thr 1 to_be_processed n v = LoopExit.finished w
        ∧ w.elem_inx_to_proc = v.elem_inx_to_proc
            ++ (((st.regular_queue.drop k).takeWhile
                  (fun r => decide (B ≤ st.errors r.comp r.id))).map (decision_of c st))
        ∧ w.num_exam_elem = v.num_exam_elem
            + min (((st.regular_queue.drop k).takeWhile
                  (fun r => decide (B ≤ st.errors r.comp r.id))).length + 1) n := by
  intro n
  induction n with
  | zero =>
    intro k v hk hq hx _ _
    have hc : loop_condition st v = false := by
      unfold loop_condition
      rw [hq, hx, hn]
      have : ¬ ((k : Int) < (st.regular_queue.length : Int)) := by omega
      simp [this]
    refine ⟨v, by simp [adapt_loop, hc], ?_, by simp⟩
    have : st.regular_queue.drop k = [] := List.drop_eq_nil_of_le (by omega)
    simp [this]
  | succ n ih =>
    intro k v hk hq hx hfirst hthr
    have hlt : k < st.regular_queue.length := by omega
    have hc : loop_condition st v = true := by
      unfold loop_condition
      rw [hq, hx, hn]
      have : (k : Int) < (st.regular_queue.length : Int) := by omega
      simp [this]
    have hr : st.regular_queue[v.inx_regular_element]? = some st.regular_queue[k] := by
      rw [hx]
      exact List.getElem?_eq_getElem hlt
    have hmem : st.regular_queue[k] ∈ st.regular_queue := List.getElem_mem hlt
    have hdrop : st.regular_queue.drop k
        = st.regular_queue[k] :: st.regular_queue.drop (k + 1) :=
      List.drop_eq_getElem_cons hlt
    have hit := adapt_iteration_regular c st thr 1 to_be_processed v st.regular_queue[k] hq hr
      (hign _ _ hmem)
    have hpf := prepare_threshold_frame thr
      { v with inx_regular_element := v.inx_regular_element + 1
               num_exam_elem := v.num_exam_elem + 1 }
      (st.errors st.regular_queue[k].comp st.regular_queue[k].id)
    have hB : (prepare_threshold thr
        { v with inx_regular_element := v.inx_regular_element + 1
                 num_exam_elem := v.num_exam_elem + 1 }
        (st.errors st.regular_queue[k].comp st.regular_queue[k].id)).error_squared_threshod
          = B
        ∧ (prepare_threshold thr
        { v with inx_regular_element := v.inx_regular_element + 1
                 num_exam_elem := v.num_exam_elem + 1 }
        (st.errors st.regular_queue[k].comp st.regular_queue[k].id)).first_regular_element
          = false := by
      unfold prepare_threshold
      cases hf : v.first_regular_element with
      | true =>
        simp only [if_true]
        exact ⟨hfirst hf _ (List.getElem?_eq_getElem hlt), trivial⟩
      | false =>
        simp only [Bool.false_eq_true, if_false]
        exact ⟨hthr hf, trivial⟩
    have hstop : stopping_rule c st thr 1 to_be_processed
        (prepare_threshold thr
          { v with inx_regular_element := v.inx_regular_element + 1
                   num_exam_elem := v.num_exam_elem + 1 }
          (st.errors st.regular_queue[k].comp st.regular_queue[k].id))
        (st.errors st.regular_queue[k].comp st.regular_queue[k].id) = true
        ↔ st.errors st.regular_queue[k].comp st.regular_queue[k].id < B := by
      unfold stopping_rule
      rw [hB.1]
      simp
    unfold adapt_loop
    simp only [hc, if_true]
    rw [hit]
    by_cases hs : st.errors st.regular_queue[k].comp st.regular_queue[k].id < B
    · rw [if_pos (hstop.mpr hs)]
      refine ⟨_, rfl, ?_, ?_⟩
      · rw [hpf.2.2.2.1, hdrop, List.takeWhile_cons_of_neg (by simpa using hs)]
        simp
      · rw [hpf.2.2.1, hdrop, List.takeWhile_cons_of_neg (by simpa using hs)]
        simp
    · rw [if_neg (fun h => hs (hstop.mp h))]
      simp only
      have hrf := refinement_suggestion_frame c st
        (prepare_threshold thr
          { v with inx_regular_element := v.inx_regular_element + 1
                   num_exam_elem := v.num_exam_elem + 1 }
          (st.errors st.regular_queue[k].comp st.regular_queue[k].id))
        st.regular_queue[k].id st.regular_queue[k].comp
      obtain ⟨w, hw, he, hx2⟩ := ih (k + 1)
        (refinement_suggestion c st
          (prepare_threshold thr
            { v with inx_regular_element := v.inx_regular_element + 1
                     num_exam_elem := v.num_exam_elem + 1 }
            (st.errors st.regular_queue[k].comp st.regular_queue[k].id))
          st.regular_queue[k].id st.regular_queue[k].comp)
        (by omega)
        (by rw [hrf.2.1, hpf.2.1]; exact hq)
        (by rw [hrf.1, hpf.1]; simp [hx])
        (by rw [hrf.2.2.1, hB.2]; intro h; cases h)
        (by rw [hrf.2.2.2.1]; intro _; exact hB.1)
      refine ⟨w, hw, ?_, ?_⟩
      · rw [he, refinement_suggestion_accepted c st _ _ (hacc _ hmem), hpf.2.2.2.1, hdrop,
          List.takeWhile_cons_of_pos (by simpa using hs)]
        simp
      · rw [hx2, hrf.2.2.2.2, hpf.2.2.1, hdrop,
          List.takeWhile_cons_of_pos (by simpa using hs)]
        simp only [List.length_cons]
        omega

/-- C3: for strategy 1, with an empty priority queue, no ignored element and
every suggestion accepted, the loop is left with exactly the decisions of the
longest leading run of the regular queue whose squared errors are not below
`thr` times the squared error of the first queue entry; it examines that run
and, unless the queue ends there, the one entry that falls below the bound,
and nothing after it.  If moreover `thr ≤ 1` and the error of the first entry
is non-negative (as squared errors are), the first entry is recorded and
`adapt` can only return `done = false`. -/
theorem strategy1_collects_leading_run (c : Collaborators α) (st : AdaptState α) (thr : α)
    (to_be_processed : α) (r0 : ElementReference) (rest : List ElementReference)
    (hq : st.regular_queue = r0 :: rest)
    (hn : st.num_act_elems = st.regular_queue.length)
    (hp : st.priority_queue = [])
    (hign : ∀ (i : Int) (r : ElementReference), r ∈ st.regular_queue →
      c.should_ignore_element i (st.mesh_of r.comp) r.id = false)
    (hacc : ∀ r, r ∈ st.regular_queue → accepted c st r = true) :
    ∃ v, adapt_loop c st thr 1 to_be_processed (loop_measure st (LoopVars.init st))
            (LoopVars.init st) = LoopExit.finished v
      ∧ v.elem_inx_to_proc
          = ((st.regular_queue.takeWhile
              (fun r => decide (thr * st.errors r0.comp r0.id ≤ st.errors r.comp r.id))).map
              (decision_of c st))
      ∧ v.num_exam_elem
          = min ((st.regular_queue.takeWhile
              (fun r => decide (thr * st.errors r0.comp r0.id ≤ st.errors r.comp r.id))).length + 1)
              st.regular_queue.length
      ∧ (thr ≤ 1 → 0 ≤ st.errors r0.comp r0.id →
          v.elem_inx_to_proc.head? = some (decision_of c st r0)
          ∧ ∀ (num_selectors : Nat) (regularize : Int) (done : Bool) (st' : AdaptState α),
              adapt c st num_selectors thr 1 regularize to_be_processed
                = Outcome.returned done st' → done = false) := by
  have hm : loop_measure st (LoopVars.init st) = st.regular_queue.length := by
    simp [loop_measure, LoopVars.init, hp, hn]
  obtain ⟨v, hv, he, hx⟩ := strategy1_loop_from c st thr to_be_processed
    (thr * st.errors r0.comp r0.id) hn hign hacc st.regular_queue.length 0 (LoopVars.init st)
    (by omega) (by simp [LoopVars.init, hp]) (by simp [LoopVars.init])
    (by
      intro _ r hr
      rw [hq] at hr
      simp only [List.getElem?_cons_zero, Option.some.injEq] at hr
      rw [← hr])
    (by simp [LoopVars.init])
  rw [← hm] at hv
  simp only [List.drop_zero, LoopVars.init, List.nil_append, Nat.zero_add] at he hx
  refine ⟨v, hv, he, hx, ?_⟩
  intro h1 h0
  have hle : thr * st.errors r0.comp r0.id ≤ st.errors r0.comp r0.id :=
    mul_le_of_le_one_left h0 h1
  have hrun : st.regular_queue.takeWhile
      (fun r => decide (thr * st.errors r0.comp r0.id ≤ st.errors r.comp r.id))
      = r0 :: rest.takeWhile
          (fun r => decide (thr * st.errors r0.comp r0.id ≤ st.errors r.comp r.id)) := by
    rw [hq, List.takeWhile_cons_of_pos (by simpa using hle)]
  have hhead : v.elem_inx_to_proc.head? = some (decision_of c st r0) := by
    rw [he, hrun]
    simp
  refine ⟨hhead, ?_⟩
  intro num_selectors regularize done st' hret
  obtain ⟨_, _, _, w, hw, hd, _⟩ :=
    adapt_returned_inv c st num_selectors thr 1 regularize to_be_processed done st' hret
  rw [hv] at hw
  cases hw
  rw [hd, hx, he, hrun, hq]
  simp

/-- Witness of C3: the demo step of the end-to-end scenario (strategy 1,
threshold 0.3): only the top element is recorded, two entries are examined. -/
theorem strategy1_collects_leading_run_witness :
    ∃ v, adapt_loop demo_collaborators demo_state (3 / 10) 1 0
            (loop_measure demo_state (LoopVars.init demo_state)) (LoopVars.init demo_state)
          = LoopExit.finished v
      ∧ v.elem_inx_to_proc = [decision_of demo_collaborators demo_state ⟨0, 0⟩]
      ∧ v.num_exam_elem = 2 := by
  obtain ⟨v, hv, he, hx, _⟩ := strategy1_collects_leading_run demo_collaborators demo_state
    (3 / 10) 0 ⟨0, 0⟩ [⟨1, 0⟩, ⟨2, 0⟩, ⟨3, 0⟩] rfl rfl rfl (fun _ _ _ => rfl) (fun _ _ => rfl)
  refine ⟨v, hv, ?_, ?_⟩
  · rw [he]
    norm_num [demo_state, List.takeWhile]
  · rw [hx]
    norm_num [demo_state, List.takeWhile]

end AdaptFacts

/-! ## The selection of the shared refinement -/

section Selection

/-- The precedence is transitive. -/
theorem split_le_trans {a b c : Int} (h1 : split_le a b) (h2 : split_le b c) : split_le a c := by
  unfold split_le H2D_REFINEMENT_P H2D_REFINEMENT_H at *
  omega

/-- The precedence is antisymmetric. -/
theorem split_le_antisymm {a b : Int} (h1 : split_le a b) (h2 : split_le b a) : a = b := by
  unfold split_le H2D_REFINEMENT_P H2D_REFINEMENT_H at *
  omega

/-- On codes of the enum, merging yields a code of the enum that is the least
upper bound of the two codes. -/
theorem merge_split_lub (a s : Int) (ha : valid_split a) (hs : valid_split s) :
    valid_split (merge_split a s) ∧ split_le a (merge_split a s) ∧ split_le s (merge_split a s)
    ∧ ∀ u, split_le a u → split_le s u → split_le (merge_split a s) u := by
  unfold valid_split split_le merge_split H2D_REFINEMENT_P H2D_REFINEMENT_H
    H2D_REFINEMENT_ANISO_H H2D_REFINEMENT_ANISO_V at *
  refine ⟨?_, ?_, ?_, ?_⟩
  · split_ifs <;> omega
  · split_ifs <;> omega
  · split_ifs <;> omega
  · intro u h1 h2
    split_ifs <;> omega

/-- The selection loop is the merge of the consulted splits into the split
of the decision itself. -/
theorem selected_refinement_over_eq_foldl (meshes : Nat → Nat) (idx : Nat → Nat → Int)
    (elems : List ElementToRefine) (elem_ref : ElementToRefine) :
    ∀ (js : List Nat) (a : Int),
      js.foldl (select_step meshes idx elems elem_ref) a
        = (consulted_splits js meshes idx elems elem_ref).foldl merge_split a := by
  intro js
  induction js with
  | nil => intro a; rfl
  | cons j js ih =>
    intro a
    rw [List.foldl_cons, ih]
    unfold consulted_splits
    by_cases hc : j ≠ elem_ref.comp ∧ meshes j = meshes elem_ref.comp ∧ idx elem_ref.id j ≥ 0
    · rw [List.filter_cons_of_pos (by simpa using hc)]
      simp only [List.map_cons, List.foldl_cons]
      congr 1
      unfold select_step merge_split
      simp only [hc.1, hc.2.1, hc.2.2, ne_eq, not_false_eq_true, and_self, if_true, ge_iff_le]
    · rw [List.filter_cons_of_neg (by simpa using hc)]
      congr 1
      unfold select_step
      by_cases h1 : j ≠ elem_ref.comp ∧ meshes j = meshes elem_ref.comp
      · have h2 : ¬ (idx elem_ref.id j ≥ 0) := fun h => hc ⟨h1.1, h1.2, h⟩
        simp only [h1, h2, ne_eq, not_false_eq_true, and_self, if_true, if_false, ite_self]
      · simp only [h1, if_false, ite_self]

/-- Merging a list of codes of the enum into a code of the enum gives their
least upper bound. -/
theorem foldl_merge_split_lub :
    ∀ (ss : List Int) (a : Int), valid_split a → (∀ s ∈ ss, valid_split s) →
      valid_split (ss.foldl merge_split a) ∧ split_le a (ss.foldl merge_split a)
      ∧ (∀ s ∈ ss, split_le s (ss.foldl merge_split a))
      ∧ ∀ u, split_le a u → (∀ s ∈ ss, split_le s u) → split_le (ss.foldl merge_split a) u := by
  intro ss
  induction ss with
  | nil =>
    intro a ha _
    exact ⟨ha, Or.inl rfl, by simp, fun u hu _ => hu⟩
  | cons s ss ih =>
    intro a ha hss
    obtain ⟨hv, h1, h2, h3⟩ := merge_split_lub a s ha (hss s (List.mem_cons_self _ _))
    obtain ⟨kv, k1, k2, k3⟩ := ih (merge_split a s) hv
      (fun t ht => hss t (List.mem_cons_of_mem _ ht))
    rw [List.foldl_cons]
    refine ⟨kv, split_le_trans h1 k1, ?_, ?_⟩
    · intro t ht
      rcases List.mem_cons.mp ht with rfl | ht
      · exact split_le_trans h2 k1
      · exact k2 t ht
    · intro u hu hall
      exact k3 u (h3 u hu (hall s (List.mem_cons_self _ _)))
        (fun t ht => hall t (List.mem_cons_of_mem _ ht))

/-- C9: on codes of the enum, the refinement selected for a decision is the
least upper bound, under the precedence P-only < ANISO-H, ANISO-V < H, of its
own split and the splits of the pending decisions for the same element held
by the other components on its mesh (two different anisotropic splits have
only H above them); visiting the components in another order gives the same
selection; and the selection is the same for every list and table that agree
on the pending decisions of the components sharing the mesh, whatever they
hold for components on other meshes.  The pending decisions are read through
the table `idx`; when `idx` is the position table of the list they are
exactly the decisions of the list for that element held by the other
components on the mesh. -/
theorem selected_refinement_is_lub (num : Nat) (meshes : Nat → Nat) (idx : Nat → Nat → Int)
    (elems : List ElementToRefine) (elem_ref : ElementToRefine)
    (hown : valid_split elem_ref.split)
    (hval : ∀ s ∈ consulted_splits (List.range num) meshes idx elems elem_ref, valid_split s) :
    valid_split (selected_refinement num meshes idx elems elem_ref)
    ∧ split_le elem_ref.split (selected_refinement num meshes idx elems elem_ref)
    ∧ (∀ s ∈ consulted_splits (List.range num) meshes idx elems elem_ref,
        split_le s (selected_refinement num meshes idx elems elem_ref))
    ∧ (∀ u, split_le elem_ref.split u →
        (∀ s ∈ consulted_splits (List.range num) meshes idx elems elem_ref, split_le s u) →
        split_le (selected_refinement num meshes idx elems elem_ref) u)
    ∧ (∀ js : List Nat, js.Perm (List.range num) →
        selected_refinement_over js meshes idx elems elem_ref
          = selected_refinement num meshes idx elems elem_ref)
    ∧ (∀ (elems' : List ElementToRefine) (idx' : Nat → Nat → Int),
        (∀ j, j < num → j ≠ elem_ref.comp → meshes j = meshes elem_ref.comp →
          (idx' elem_ref.id j ≥ 0 ↔ idx elem_ref.id j ≥ 0)
          ∧ (idx elem_ref.id j ≥ 0 →
              (elems'.getD (idx' elem_ref.id j).toNat default).split
                = (elems.getD (idx elem_ref.id j).toNat default).split)) →
        selected_refinement num meshes idx' elems' elem_ref
          = selected_refinement num meshes idx elems elem_ref)
    ∧ (idx_position_table idx elems →
        (∀ d ∈ elems, d.id = elem_ref.id → d.comp ≠ elem_ref.comp → d.comp < num →
          meshes d.comp = meshes elem_ref.comp →
          split_le d.split (selected_refinement num meshes idx elems elem_ref))
        ∧ ∀ u, split_le elem_ref.split u →
            (∀ d ∈ elems, d.id = elem_ref.id → d.comp ≠ elem_ref.comp → d.comp < num →
              meshes d.comp = meshes elem_ref.comp → split_le d.split u) →
            split_le (selected_refinement num meshes idx elems elem_ref) u) := by
  have hfold : selected_refinement num meshes idx elems elem_ref
      = (consulted_splits (List.range num) meshes idx elems elem_ref).foldl merge_split
          elem_ref.split :=
    selected_refinement_over_eq_foldl meshes idx elems elem_ref (List.range num) elem_ref.split
  obtain ⟨hv, h1, h2, h3⟩ := foldl_merge_split_lub
    (consulted_splits (List.range num) meshes idx elems elem_ref) elem_ref.split hown hval
  rw [← hfold] at hv h1 h2 h3
  refine ⟨hv, h1, h2, h3, ?_, ?_, ?_⟩
  · intro js hperm
    have hp : (consulted_splits js meshes idx elems elem_ref).Perm
        (consulted_splits (List.range num) meshes idx elems elem_ref) := by
      unfold consulted_splits
      exact (hperm.filter _).map _
    have hval' : ∀ s ∈ consulted_splits js meshes idx elems elem_ref, valid_split s :=
      fun s hs => hval s (hp.mem_iff.mp hs)
    obtain ⟨_, k1, k2, k3⟩ := foldl_merge_split_lub
      (consulted_splits js meshes idx elems elem_ref) elem_ref.split hown hval'
    have hjs : selected_refinement_over js meshes idx elems elem_ref
        = (consulted_splits js meshes idx elems elem_ref).foldl merge_split elem_ref.split :=
      selected_refinement_over_eq_foldl meshes idx elems elem_ref js elem_ref.split
    rw [← hjs] at k1 k2 k3
    apply split_le_antisymm
    · exact k3 _ h1 (fun s hs => h2 s (hp.mem_iff.mp hs))
    · exact h3 _ k1 (fun s hs => k2 s (hp.mem_iff.mpr hs))
  · intro elems' idx' hagree
    have hcs : consulted_splits (List.range num) meshes idx' elems' elem_ref
        = consulted_splits (List.range num) meshes idx elems elem_ref := by
      unfold consulted_splits
      have hf : (List.range num).filter (fun j => decide (j ≠ elem_ref.comp
            ∧ meshes j = meshes elem_ref.comp ∧ idx' elem_ref.id j ≥ 0))
          = (List.range num).filter (fun j => decide (j ≠ elem_ref.comp
            ∧ meshes j = meshes elem_ref.comp ∧ idx elem_ref.id j ≥ 0)) := by
        apply List.filter_congr
        intro j hj
        have hlt : j < num := List.mem_range.mp hj
        by_cases h : j ≠ elem_ref.comp ∧ meshes j = meshes elem_ref.comp
        · have := (hagree j hlt h.1 h.2).1
          simp only [h.1, h.2, ne_eq, not_false_eq_true, true_and, decide_eq_decide]
          exact this
        · have h' : ¬ (j ≠ elem_ref.comp ∧ meshes j = meshes elem_ref.comp
              ∧ idx' elem_ref.id j ≥ 0) := fun x => h ⟨x.1, x.2.1⟩
          have h'' : ¬ (j ≠ elem_ref.comp ∧ meshes j = meshes elem_ref.comp
              ∧ idx elem_ref.id j ≥ 0) := fun x => h ⟨x.1, x.2.1⟩
          simp only [h', h'']
      rw [hf]
      apply List.map_congr_left
      intro j hj
      obtain ⟨hj1, hj2⟩ := List.mem_filter.mp hj
      have hj3 : j ≠ elem_ref.comp ∧ meshes j = meshes elem_ref.comp
          ∧ idx elem_ref.id j ≥ 0 := by simpa using hj2
      exact (hagree j (List.mem_range.mp hj1) hj3.1 hj3.2.1).2 hj3.2.2
    have e1 : selected_refinement num meshes idx' elems' elem_ref
        = (consulted_splits (List.range num) meshes idx' elems' elem_ref).foldl merge_split
            elem_ref.split :=
      selected_refinement_over_eq_foldl meshes idx' elems' elem_ref (List.range num)
        elem_ref.split
    rw [e1, hcs, ← hfold]
  · intro htab
    constructor
    · intro d hd hid hne hlt hm
      obtain ⟨i, hi, rfl⟩ := List.mem_iff_getElem.mp hd
      have hpos := htab.2 i hi
      rw [List.getD_eq_getElem elems default hi, hid] at hpos
      apply h2
      unfold consulted_splits
      refine List.mem_map.mpr ⟨elems[i].comp, List.mem_filter.mpr ⟨List.mem_range.mpr hlt, ?_⟩, ?_⟩
      · have h0 : idx elem_ref.id elems[i].comp ≥ 0 := by rw [hpos]; omega
        simpa using ⟨hne, hm, h0⟩
      · rw [hpos, Int.toNat_ofNat, List.getD_eq_getElem elems default hi]
    · intro u hu hall
      apply h3 u hu
      intro s hs
      unfold consulted_splits at hs
      obtain ⟨j, hj, rfl⟩ := List.mem_map.mp hs
      obtain ⟨hj1, hj2⟩ := List.mem_filter.mp hj
      have hj3 : j ≠ elem_ref.comp ∧ meshes j = meshes elem_ref.comp
          ∧ idx elem_ref.id j ≥ 0 := by simpa using hj2
      obtain ⟨a1, a2, a3⟩ := htab.1 elem_ref.id j hj3.2.2
      have hmem : elems.getD (idx elem_ref.id j).toNat default ∈ elems := by
        rw [List.getD_eq_getElem elems default a1]
        exact List.getElem_mem a1
      exact hall _ hmem a2 (by rw [a3]; exact hj3.1) (by rw [a3]; exact List.mem_range.mp hj1)
        (by rw [a3]; exact hj3.2.1)

/-- Witness of C9: ANISO-H and ANISO-V on a shared mesh unify to H. -/
theorem selected_refinement_is_lub_witness :
    selected_refinement 2 (fun _ => 0) shared_idx shared_elems (shared_elems.getD 0 default)
      = H2D_REFINEMENT_H := by
  obtain ⟨_, h1, h2, _⟩ := selected_refinement_is_lub 2 (fun _ => 0) shared_idx shared_elems
    (shared_elems.getD 0 default) (by decide) (by decide)
  have hs := h2 H2D_REFINEMENT_ANISO_V (by decide)
  have ho : split_le H2D_REFINEMENT_ANISO_H
      (selected_refinement 2 (fun _ => 0) shared_idx shared_elems (shared_elems.getD 0 default)) :=
    h1
  unfold split_le H2D_REFINEMENT_P H2D_REFINEMENT_H H2D_REFINEMENT_ANISO_H
    H2D_REFINEMENT_ANISO_V at *
  omega

end Selection

/-! ## Shared-mesh reconciliation: consistency after the pass -/

section Reconciliation

/-- Reading a list after `set`. -/
theorem getD_set_eq_ite {β : Type} (l : List β) (i k : Nat) (x d : β) :
    (l.set i x).getD k d = if i = k ∧ i < l.length then x else l.getD k d := by
  rw [List.getD_eq_getElem?_getD, List.getD_eq_getElem?_getD, List.getElem?_set]
  by_cases hik : i = k
  · subst hik
    by_cases hl : i < l.length
    · simp [hl]
    · simp [hl, List.getElem?_eq_none (Nat.le_of_not_lt hl)]
  · simp [hik]

/-- The operation `set_split` keeps ids and components everywhere and changes
a split only at its position and only to `U`. -/
theorem set_split_getD (l : List ElementToRefine) (i : Nat) (U : Int)
    (g : List Int → List Int) (k : Nat) :
    ((set_split l i U g).getD k default).id = (l.getD k default).id
    ∧ ((set_split l i U g).getD k default).comp = (l.getD k default).comp
    ∧ (((set_split l i U g).getD k default).split = (l.getD k default).split
        ∨ (k = i ∧ ((set_split l i U g).getD k default).split = U)) := by
  unfold set_split
  dsimp only
  split_ifs with h
  · rw [getD_set_eq_ite]
    by_cases hk : i = k ∧ i < l.length
    · rw [if_pos hk]
      obtain ⟨rfl, _⟩ := hk
      exact ⟨rfl, rfl, Or.inr ⟨rfl, rfl⟩⟩
    · rw [if_neg hk]
      exact ⟨rfl, rfl, Or.inl rfl⟩
  · exact ⟨rfl, rfl, Or.inl rfl⟩

/-- After `set_split` at a position of the list, the split there is `U`. -/
theorem set_split_at (l : List ElementToRefine) (i : Nat) (U : Int)
    (g : List Int → List Int) (h : i < l.length) :
    ((set_split l i U g).getD i default).split = U := by
  unfold set_split
  dsimp only
  split_ifs with hs
  · rw [getD_set_eq_ite]
    simp [h]
  · exact not_not.mp hs

/-- The relation `updated_from` is reflexive. -/
theorem updated_from_refl (meshes : Nat → Nat) (U : Int) (gid gm : Nat)
    (l : List ElementToRefine) : updated_from meshes U gid gm l l :=
  ⟨le_refl _, fun _ _ => ⟨rfl, rfl, Or.inl rfl⟩, fun i h1 h2 => absurd h2 (by omega)⟩

/-- The relation `updated_from` is transitive. -/
theorem updated_from_trans (meshes : Nat → Nat) (U : Int) (gid gm : Nat)
    (l1 l2 l3 : List ElementToRefine)
    (h12 : updated_from meshes U gid gm l1 l2) (h23 : updated_from meshes U gid gm l2 l3) :
    updated_from meshes U gid gm l1 l3 := by
  obtain ⟨a1, a2, a3⟩ := h12
  obtain ⟨b1, b2, b3⟩ := h23
  refine ⟨le_trans a1 b1, ?_, ?_⟩
  · intro i hi
    obtain ⟨x1, x2, x3⟩ := a2 i hi
    obtain ⟨y1, y2, y3⟩ := b2 i (by omega)
    refine ⟨y1.trans x1, y2.trans x2, ?_⟩
    rcases y3 with y3 | ⟨y3, y4, y5⟩
    · rcases x3 with x3 | ⟨x3, x4, x5⟩
      · exact Or.inl (y3.trans x3)
      · exact Or.inr ⟨y3.trans x3, x4, x5⟩
    · exact Or.inr ⟨y3, x1 ▸ y4, x2 ▸ y5⟩
  · intro i hi1 hi2
    by_cases hi : i < l2.length
    · obtain ⟨x1, x2, x3⟩ := a3 i hi1 hi
      obtain ⟨y1, y2, y3⟩ := b2 i hi
      refine ⟨y1.trans x1, by rw [y2]; exact x2, ?_⟩
      rcases y3 with y3 | ⟨y3, _, _⟩
      · exact y3.trans x3
      · exact y3
    · exact b3 i (by omega) hi2

/-- One pass through the body of the update loop: the list is updated for the
group of the decision at `inx`, and if component `j` shares the mesh, the
decision at `inx` and the pending decision of `j` now have the selected split,
and `j` has a decision for the element. -/
theorem update_step_spec {α : Type} (c : Collaborators α) (meshes : Nat → Nat)
    (idx : Nat → Nat → Int) (inx : Nat) (U : Int) (sug : Option (List Int)) (cqo : Int)
    (l : List ElementToRefine) (j gid gcomp : Nat)
    (hinx : inx < l.length)
    (hid : (l.getD inx default).id = gid) (hcomp : (l.getD inx default).comp = gcomp)
    (hidx : ∀ k, 0 ≤ idx gid k →
      (idx gid k).toNat < l.length ∧ (l.getD (idx gid k).toNat default).id = gid
      ∧ (l.getD (idx gid k).toNat default).comp = k) :
    updated_from meshes U gid (meshes gcomp) l (update_step c meshes idx inx U sug cqo l j)
    ∧ (j ≠ gcomp → meshes j = meshes gcomp →
        ((update_step c meshes idx inx U sug cqo l j).getD inx default).split = U
        ∧ (0 ≤ idx gid j →
            ((update_step c meshes idx inx U sug cqo l j).getD (idx gid j).toNat default).split
              = U)
        ∧ ∃ b, b < (update_step c meshes idx inx U sug cqo l j).length
            ∧ ((update_step c meshes idx inx U sug cqo l j).getD b default).id = gid
            ∧ ((update_step c meshes idx inx U sug cqo l j).getD b default).comp = j) := by
  unfold update_step
  dsimp only
  rw [hid, hcomp]
  by_cases hsh : j ≠ gcomp ∧ meshes j = meshes gcomp
  · rw [if_pos hsh]
    generalize hg : (fun p => c.generate_shared_mesh_orders j gid cqo U p sug) = g
    have hlen1 := set_split_length l inx U g
    have hat1 := set_split_at l inx U g hinx
    by_cases hii : idx gid j ≥ 0
    · rw [if_pos hii]
      obtain ⟨hi1, hi2, hi3⟩ := hidx j hii
      have hlen2 := set_split_length (set_split l inx U g) (idx gid j).toNat U g
      have hat2 := set_split_at (set_split l inx U g) (idx gid j).toNat U g (by omega)
      have hinx2 : ((set_split (set_split l inx U g) (idx gid j).toNat U g).getD inx
          default).split = U := by
        rcases (set_split_getD (set_split l inx U g) (idx gid j).toNat U g inx).2.2 with h | h
        · exact h.trans hat1
        · exact h.2
      refine ⟨⟨by omega, ?_, ?_⟩, fun _ _ => ⟨hinx2, fun _ => hat2, (idx gid j).toNat, by omega, ?_, ?_⟩⟩
      · intro i _
        obtain ⟨x1, x2, x3⟩ := set_split_getD l inx U g i
        obtain ⟨y1, y2, y3⟩ := set_split_getD (set_split l inx U g) (idx gid j).toNat U g i
        refine ⟨y1.trans x1, y2.trans x2, ?_⟩
        rcases y3 with y3 | ⟨y3, y4⟩
        · rcases x3 with x3 | ⟨x3, x4⟩
          · exact Or.inl (y3.trans x3)
          · subst x3
            exact Or.inr ⟨y3.trans x4, hid, by rw [hcomp]⟩
        · subst y3
          exact Or.inr ⟨y4, hi2, by rw [hi3]; exact hsh.2⟩
      · intro i h1 h2
        omega
      · exact ((set_split_getD (set_split l inx U g) (idx gid j).toNat U g _).1).trans
          (((set_split_getD l inx U g _).1).trans hi2)
      · exact ((set_split_getD (set_split l inx U g) (idx gid j).toNat U g _).2.1).trans
          (((set_split_getD l inx U g _).2.1).trans hi3)
    · rw [if_neg hii]
      have hnew : ∀ (x : ElementToRefine),
          ((set_split l inx U g ++ [x]).getD l.length default) = x := by
        intro x
        rw [List.getD_append_right _ _ _ _ (by omega), hlen1]
        simp
      have hold : ∀ (x : ElementToRefine) (i : Nat), i < l.length →
          ((set_split l inx U g ++ [x]).getD i default) = (set_split l inx U g).getD i default := by
        intro x i hi
        exact List.getD_append _ _ _ _ (by omega)
      refine ⟨⟨by simp [hlen1], ?_, ?_⟩, fun _ _ => ⟨?_, fun h => absurd h hii, l.length, by simp [hlen1], ?_, ?_⟩⟩
      · intro i hi
        rw [hold _ i hi]
        obtain ⟨x1, x2, x3⟩ := set_split_getD l inx U g i
        refine ⟨x1, x2, ?_⟩
        rcases x3 with x3 | ⟨x3, x4⟩
        · exact Or.inl x3
        · subst x3
          exact Or.inr ⟨x4, hid, by rw [hcomp]⟩
      · intro i h1 h2
        have : i = l.length := by
          simp only [List.length_append, hlen1, List.length_singleton] at h2
          omega
        subst this
        rw [hnew]
        exact ⟨rfl, hsh.2, rfl⟩
      · rw [hold _ inx hinx]
        exact hat1
      · rw [hnew]
        rfl
      · rw [hnew]
        rfl
  · rw [if_neg hsh]
    exact ⟨updated_from_refl meshes U gid (meshes gcomp) l,
      fun h1 h2 => absurd ⟨h1, h2⟩ hsh⟩

/-- A split that is already the selection stays the selection. -/
theorem updated_from_keeps (meshes : Nat → Nat) (U : Int) (gid gm : Nat)
    (l l' : List ElementToRefine) (h : updated_from meshes U gid gm l l') (i : Nat)
    (hi : i < l.length) (hs : (l.getD i default).split = U) :
    (l'.getD i default).split = U := by
  rcases (h.2.1 i hi).2.2 with h1 | h1
  · exact h1.trans hs
  · exact h1.1

/-- The update loop over the components `js`. -/
theorem update_fold_spec {α : Type} (c : Collaborators α) (meshes : Nat → Nat)
    (idx : Nat → Nat → Int) (inx : Nat) (U : Int) (sug : Option (List Int)) (cqo : Int)
    (gid gcomp : Nat) :
    ∀ (js : List Nat) (l : List ElementToRefine), inx < l.length →
      (l.getD inx default).id = gid → (l.getD inx default).comp = gcomp →
      (∀ k, 0 ≤ idx gid k →
        (idx gid k).toNat < l.length ∧ (l.getD (idx gid k).toNat default).id = gid
        ∧ (l.getD (idx gid k).toNat default).comp = k) →
      updated_from meshes U gid (meshes gcomp) l
        (js.foldl (update_step c meshes idx inx U sug cqo) l)
      ∧ ∀ j ∈ js, j ≠ gcomp → meshes j = meshes gcomp →
          ((js.foldl (update_step c meshes idx inx U sug cqo) l).getD inx default).split = U
          ∧ (0 ≤ idx gid j →
              ((js.foldl (update_step c meshes idx inx U sug cqo) l).getD
                (idx gid j).toNat default).split = U)
          ∧ ∃ b, b < (js.foldl (update_step c meshes idx inx U sug cqo) l).length
              ∧ ((js.foldl (update_step c meshes idx inx U sug cqo) l).getD b default).id = gid
              ∧ ((js.foldl (update_step c meshes idx inx U sug cqo) l).getD b default).comp = j := by
  intro js
  induction js with
  | nil =>
    intro l _ _ _ _
    exact ⟨updated_from_refl meshes U gid (meshes gcomp) l, fun j hj => by simp at hj⟩
  | cons j js ih =>
    intro l hinx hid hcomp hidx
    obtain ⟨hu, he⟩ := update_step_spec c meshes idx inx U sug cqo l j gid gcomp hinx hid hcomp hidx
    have hinx1 : inx < (update_step c meshes idx inx U sug cqo l j).length :=
      lt_of_lt_of_le hinx hu.1
    have hid1 := ((hu.2.1 inx hinx).1).trans hid
    have hcomp1 := ((hu.2.1 inx hinx).2.1).trans hcomp
    have hidx1 : ∀ k, 0 ≤ idx gid k →
        (idx gid k).toNat < (update_step c meshes idx inx U sug cqo l j).length
        ∧ ((update_step c meshes idx inx U sug cqo l j).getD (idx gid k).toNat default).id = gid
        ∧ ((update_step c meshes idx inx U sug cqo l j).getD (idx gid k).toNat default).comp
            = k := by
      intro k hk
      obtain ⟨a1, a2, a3⟩ := hidx k hk
      exact ⟨lt_of_lt_of_le a1 hu.1, ((hu.2.1 _ a1).1).trans a2, ((hu.2.1 _ a1).2.1).trans a3⟩
    obtain ⟨hu2, he2⟩ := ih (update_step c meshes idx inx U sug cqo l j) hinx1 hid1 hcomp1 hidx1
    rw [List.foldl_cons]
    refine ⟨updated_from_trans meshes U gid (meshes gcomp) _ _ _ hu hu2, ?_⟩
    intro k hk hk1 hk2
    rcases List.mem_cons.mp hk with rfl | hk
    · obtain ⟨e1, e2, b, e3, e4, e5⟩ := he hk1 hk2
      refine ⟨updated_from_keeps meshes U gid (meshes gcomp) _ _ hu2 inx hinx1 e1, ?_, b,
        lt_of_lt_of_le e3 hu2.1, ((hu2.2.1 b e3).1).trans e4, ((hu2.2.1 b e3).2.1).trans e5⟩
      intro h0
      exact updated_from_keeps meshes U gid (meshes gcomp) _ _ hu2 _ (hidx1 k h0).1 (e2 h0)
    · exact he2 k hk hk1 hk2

/-- If every consulted split equals the current selection, the selection
loop leaves it as it is. -/
theorem select_fold_unchanged (meshes : Nat → Nat) (idx : Nat → Nat → Int)
    (elems : List ElementToRefine) (e : ElementToRefine) :
    ∀ (js : List Nat) (a : Int),
      (∀ j ∈ js, j ≠ e.comp → meshes j = meshes e.comp → 0 ≤ idx e.id j →
        (elems.getD (idx e.id j).toNat default).split = a) →
      js.foldl (select_step meshes idx elems e) a = a := by
  intro js
  induction js with
  | nil => intro a _; rfl
  | cons j js ih =>
    intro a h
    have hstep : select_step meshes idx elems e a j = a := by
      unfold select_step
      by_cases hsh : j ≠ e.comp ∧ meshes j = meshes e.comp
      · by_cases hii : idx e.id j ≥ 0
        · have := h j (List.mem_cons_self _ _) hsh.1 hsh.2 hii
          simp only [hsh, hii, this, ne_eq, not_true_eq_false, false_and, if_false, ite_self,
            and_self, not_false_eq_true, if_true]
        · simp only [hsh, hii, if_false, ite_self, ne_eq, not_false_eq_true, and_self, if_true]
      · simp only [hsh, if_false, ite_self]
    rw [List.foldl_cons, hstep]
    exact ih a (fun k hk => h k (List.mem_cons_of_mem _ hk))

/-- A selection that ends as P-only started as P-only and met only P-only
splits. -/
theorem select_fold_P (meshes : Nat → Nat) (idx : Nat → Nat → Int)
    (elems : List ElementToRefine) (e : ElementToRefine) :
    ∀ (js : List Nat) (a : Int),
      js.foldl (select_step meshes idx elems e) a = H2D_REFINEMENT_P →
      a = H2D_REFINEMENT_P
      ∧ ∀ j ∈ js, j ≠ e.comp → meshes j = meshes e.comp → 0 ≤ idx e.id j →
          (elems.getD (idx e.id j).toNat default).split = H2D_REFINEMENT_P := by
  intro js
  induction js with
  | nil => intro a h; exact ⟨h, fun j hj => by simp at hj⟩
  | cons j js ih =>
    intro a h
    rw [List.foldl_cons] at h
    obtain ⟨h1, h2⟩ := ih _ h
    have hstep : a = H2D_REFINEMENT_P
        ∧ (j ≠ e.comp → meshes j = meshes e.comp → 0 ≤ idx e.id j →
            (elems.getD (idx e.id j).toNat default).split = H2D_REFINEMENT_P) := by
      unfold select_step at h1
      unfold H2D_REFINEMENT_P H2D_REFINEMENT_H H2D_REFINEMENT_ANISO_H
        H2D_REFINEMENT_ANISO_V at *
      by_cases hsh : j ≠ e.comp ∧ meshes j = meshes e.comp
      · by_cases hii : idx e.id j ≥ 0
        · simp only [hsh, hii, ne_eq, not_false_eq_true, and_self, if_true] at h1
          split_ifs at h1 <;> refine ⟨by omega, fun _ _ _ => by omega⟩
        · simp only [hsh, hii, ne_eq, not_false_eq_true, and_self, if_true, if_false] at h1
          split_ifs at h1
          · omega
          · exact ⟨h1, fun _ _ h0 => absurd h0 hii⟩
      · simp only [hsh, if_false] at h1
        split_ifs at h1
        · omega
        · exact ⟨h1, fun x y _ => absurd ⟨x, y⟩ hsh⟩
    refine ⟨hstep.1, ?_⟩
    intro k hk
    rcases List.mem_cons.mp hk with rfl | hk
    · exact hstep.2
    · exact h2 k hk

/-- One pass through the body of the outer loop, for the decision at `inx`:
afterwards that decision and every pending decision for its element of a
component sharing its mesh have the selected split, splits changed only
within that group, and if the selection is not P-only every component sharing
the mesh has a decision for the element. -/
theorem fix_iteration_spec {α : Type} (c : Collaborators α) (st : AdaptState α)
    (meshes : Nat → Nat) (idx : Nat → Nat → Int) (l : List ElementToRefine) (inx : Nat)
    (hinx : inx < l.length) (hidx : idx_points_into idx l) :
    updated_from meshes (selected_refinement st.num meshes idx l (l.getD inx default))
        (l.getD inx default).id (meshes (l.getD inx default).comp) l
        (fix_iteration c st meshes idx l inx)
    ∧ ((fix_iteration c st meshes idx l inx).getD inx default).split
        = selected_refinement st.num meshes idx l (l.getD inx default)
    ∧ (∀ j, j < st.num → j ≠ (l.getD inx default).comp →
        meshes j = meshes (l.getD inx default).comp → 0 ≤ idx (l.getD inx default).id j →
        ((fix_iteration c st meshes idx l inx).getD
            (idx (l.getD inx default).id j).toNat default).split
          = selected_refinement st.num meshes idx l (l.getD inx default))
    ∧ (selected_refinement st.num meshes idx l (l.getD inx default) ≠ H2D_REFINEMENT_P →
        ∀ j, j < st.num → j ≠ (l.getD inx default).comp →
          meshes j = meshes (l.getD inx default).comp →
          ∃ b, b < (fix_iteration c st meshes idx l inx).length
            ∧ ((fix_iteration c st meshes idx l inx).getD b default).id
                = (l.getD inx default).id
            ∧ ((fix_iteration c st meshes idx l inx).getD b default).comp = j) := by
  generalize hU : selected_refinement st.num meshes idx l (l.getD inx default) = U
  have hUf : (List.range st.num).foldl (select_step meshes idx l (l.getD inx default))
      (l.getD inx default).split = U := hU
  by_cases hP : U = H2D_REFINEMENT_P
  · have hl : fix_iteration c st meshes idx l inx = l := by
      unfold fix_iteration
      dsimp only
      rw [hU, if_neg (not_not.mpr hP)]
    rw [hl]
    rw [hP] at hUf
    obtain ⟨h1, h2⟩ := select_fold_P meshes idx l (l.getD inx default) _ _ hUf
    refine ⟨updated_from_refl _ _ _ _ _, by rw [h1, hP], ?_, fun h => absurd hP h⟩
    intro j hj hj1 hj2 hj3
    rw [hP]
    exact h2 j (List.mem_range.mpr hj) hj1 hj2 hj3
  · have hl : fix_iteration c st meshes idx l inx
        = (List.range st.num).foldl
            (update_step c meshes idx inx U
              (if U = H2D_REFINEMENT_H then some (l.getD inx default).q else none)
              (st.orders (l.getD inx default).comp (l.getD inx default).id)) l := by
      unfold fix_iteration
      dsimp only
      rw [hU, if_pos hP]
    rw [hl]
    obtain ⟨hu, he⟩ := update_fold_spec c meshes idx inx U
      (if U = H2D_REFINEMENT_H then some (l.getD inx default).q else none)
      (st.orders (l.getD inx default).comp (l.getD inx default).id)
      (l.getD inx default).id (l.getD inx default).comp (List.range st.num) l hinx rfl rfl
      (fun k hk => hidx _ k hk)
    refine ⟨hu, ?_, ?_, ?_⟩
    · by_cases hex : ∃ j, j < st.num ∧ j ≠ (l.getD inx default).comp
          ∧ meshes j = meshes (l.getD inx default).comp
      · obtain ⟨j, hj, hj1, hj2⟩ := hex
        exact (he j (List.mem_range.mpr hj) hj1 hj2).1
      · have hown : (l.getD inx default).split = U := by
          rw [← hUf]
          symm
          apply select_fold_unchanged
          intro j hj hj1 hj2 _
          exact absurd ⟨j, List.mem_range.mp hj, hj1, hj2⟩ hex
        exact updated_from_keeps _ _ _ _ _ _ hu inx hinx hown
    · intro j hj hj1 hj2 hj3
      exact (he j (List.mem_range.mpr hj) hj1 hj2).2.1 hj3
    · intro _ j hj hj1 hj2
      exact (he j (List.mem_range.mpr hj) hj1 hj2).2.2

/-- Visiting the next given decision keeps the invariant of the pass. -/
theorem pass_invariant_step {α : Type} (c : Collaborators α) (st : AdaptState α)
    (meshes : Nat → Nat) (idx : Nat → Nat → Int) (l0 l : List ElementToRefine) (k : Nat)
    (htab : idx_position_table idx l0)
    (hcomp : ∀ i, i < l0.length → (l0.getD i default).comp < st.num)
    (hk : k < l0.length)
    (hinv : pass_invariant st.num meshes l0 k l) :
    pass_invariant st.num meshes l0 (k + 1) (fix_iteration c st meshes idx l k) := by
  obtain ⟨p1, p1', p2, p3, p4, p5, p6⟩ := hinv
  have hkl : k < l.length := lt_of_lt_of_le hk p1
  -- the table, read on the current list
  have hidx : idx_points_into idx l := by
    intro id j h0
    obtain ⟨a1, a2, a3⟩ := htab.1 id j h0
    exact ⟨lt_of_lt_of_le a1 p1, ((p1' _ a1).1).trans a2, ((p1' _ a1).2).trans a3⟩
  have hpos : ∀ i, i < l0.length →
      idx (l.getD i default).id (l.getD i default).comp = (i : Int) := by
    intro i hi
    rw [(p1' i hi).1, (p1' i hi).2]
    exact htab.2 i hi
  have hcl : ∀ i, i < l0.length → (l.getD i default).comp < st.num := by
    intro i hi
    rw [(p1' i hi).2]
    exact hcomp i hi
  obtain ⟨hu, hE1, hE2, hE3⟩ := fix_iteration_spec c st meshes idx l k hkl hidx
  generalize hU : selected_refinement st.num meshes idx l (l.getD k default) = U at hu hE1 hE2 hE3
  generalize hl' : fix_iteration c st meshes idx l k = l' at hu hE1 hE2 hE3
  obtain ⟨u1, u2, u3⟩ := hu
  -- a visited decision in the group of the current one fixes the selection
  have hproc : ∀ i, i < k → (l.getD i default).id = (l.getD k default).id →
      meshes (l.getD i default).comp = meshes (l.getD k default).comp →
      U = (l.getD k default).split ∧ (l.getD k default).split = (l.getD i default).split := by
    intro i hi hid hm
    have hki := p2 i k hi hkl hid.symm hm.symm
    refine ⟨?_, hki⟩
    rw [← hU]
    apply select_fold_unchanged
    intro j _ _ hj2 hj3
    obtain ⟨a1, a2, a3⟩ := hidx _ j hj3
    rw [p2 i _ hi a1 (a2.trans hid.symm) (by rw [a3, hj2]; exact hm.symm), hki]
  -- every decision of the group of the current one now has the selected split
  have hK : ∀ b, b < l'.length → (l'.getD b default).id = (l.getD k default).id →
      meshes (l'.getD b default).comp = meshes (l.getD k default).comp →
      (l'.getD b default).split = U := by
    intro b hb hid hm
    by_cases hbl : b < l.length
    · obtain ⟨x1, x2, x3⟩ := u2 b hbl
      rw [x1] at hid
      rw [x2] at hm
      by_cases hbn : b < l0.length
      · by_cases hbk : b = k
        · rw [hbk]; exact hE1
        · have hib := hpos b hbn
          rw [hid] at hib
          have hne : (l.getD b default).comp ≠ (l.getD k default).comp := by
            intro heq
            rw [heq, hpos k hk] at hib
            exact hbk (by exact_mod_cast hib.symm)
          have := hE2 (l.getD b default).comp (hcl b hbn) hne hm (by rw [hib]; omega)
          rw [hib] at this
          simpa using this
      · obtain ⟨i, hi, hi1, hi2⟩ := p3 b (by omega) hbl
        have hsplit := p2 i b hi hbl hi1 hi2
        obtain ⟨q1, q2⟩ := hproc i hi (hi1.symm.trans hid) (hi2.symm.trans hm)
        rcases x3 with x3 | x3
        · rw [x3, hsplit, q1, q2]
        · exact x3.1
    · exact (u3 b (by omega) hb).2.2
  -- the splits of the visited decisions are not touched
  have hstable : ∀ i, i < k → (l'.getD i default).split = (l.getD i default).split := by
    intro i hi
    rcases (u2 i (by omega)).2.2 with x | ⟨x1, x2, x3⟩
    · exact x
    · obtain ⟨q1, q2⟩ := hproc i hi x2 x3
      rw [x1, q1, q2]
  refine ⟨le_trans p1 u1, ?_, ?_, ?_, ?_, ?_, ?_⟩
  · intro i hi
    obtain ⟨x1, x2, _⟩ := u2 i (lt_of_lt_of_le hi p1)
    exact ⟨x1.trans (p1' i hi).1, x2.trans (p1' i hi).2⟩
  · intro i b hi hb hid hm
    have hil : i < l.length := by omega
    obtain ⟨y1, y2, y3⟩ := u2 i hil
    by_cases hik : i = k
    · subst hik
      rw [y1] at hid
      rw [y2] at hm
      rw [hK b hb hid hm, hE1]
    · have hik' : i < k := by omega
      by_cases hg : (l.getD i default).id = (l.getD k default).id
          ∧ meshes (l.getD i default).comp = meshes (l.getD k default).comp
      · rw [hK b hb (by rw [hid, y1]; exact hg.1) (by rw [hm, y2]; exact hg.2),
          hK i (by omega) (by rw [y1]; exact hg.1) (by rw [y2]; exact hg.2)]
      · have hbl : b < l.length := by
          by_contra hcon
          obtain ⟨z1, z2, _⟩ := u3 b (by omega) hb
          exact hg ⟨by rw [← y1, ← hid]; exact z1, by rw [← y2, ← hm]; exact z2⟩
        obtain ⟨x1, x2, x3⟩ := u2 b hbl
        have hb' : (l'.getD b default).split = (l.getD b default).split := by
          rcases x3 with x3 | ⟨_, x4, x5⟩
          · exact x3
          · exact absurd ⟨by rw [← y1, ← hid, x1]; exact x4,
              by rw [← y2, ← hm, x2]; exact x5⟩ hg
        rw [hb', hstable i hik']
        exact p2 i b hik' hbl (by rw [← x1, hid, y1]) (by rw [← x2, hm, y2])
  · intro b hb1 hb2
    by_cases hbl : b < l.length
    · obtain ⟨i, hi, hi1, hi2⟩ := p3 b hb1 hbl
      obtain ⟨x1, x2, _⟩ := u2 b hbl
      obtain ⟨y1, y2, _⟩ := u2 i (by omega)
      exact ⟨i, by omega, by rw [x1, y1]; exact hi1, by rw [x2, y2]; exact hi2⟩
    · obtain ⟨z1, z2, _⟩ := u3 b (by omega) hb2
      obtain ⟨y1, y2, _⟩ := u2 k hkl
      exact ⟨k, by omega, by rw [z1, y1], by rw [z2, y2]⟩
  · intro i hi hs j hj hm
    obtain ⟨y1, y2, _⟩ := u2 i (by omega)
    by_cases hik : i = k
    · subst hik
      rw [hE1] at hs
      rw [y1]
      rw [y2] at hm
      by_cases hje : j = (l.getD i default).comp
      · exact ⟨i, by omega, y1, by rw [y2, hje]⟩
      · exact hE3 hs j hj hje hm
    · have hik' : i < k := by omega
      rw [hstable i hik'] at hs
      rw [y2] at hm
      obtain ⟨b, hb, hb1, hb2⟩ := p4 i hik' hs j hj hm
      obtain ⟨x1, x2, _⟩ := u2 b hb
      exact ⟨b, by omega, by rw [x1, y1]; exact hb1, by rw [x2]; exact hb2⟩
  · intro b hb hno
    have hbl : b < l.length := by omega
    have hold : (l.getD b default).split = (l0.getD b default).split :=
      p5 b hb (fun i hi => hno i (by omega))
    rcases (u2 b hbl).2.2 with x | ⟨_, x2, x3⟩
    · exact x.trans hold
    · exact absurd ⟨by rw [← (p1' k hk).1, ← x2, (p1' b hb).1],
        by rw [← (p1' k hk).2, ← x3, (p1' b hb).2]⟩ (hno k (by omega))
  · intro hval i hi
    by_cases hik : i = k
    · subst hik
      rw [hE1]
      by_cases hvis : ∃ i0, i0 < i ∧ (l0.getD i0 default).id = (l0.getD i default).id
          ∧ meshes (l0.getD i0 default).comp = meshes (l0.getD i default).comp
      · obtain ⟨i0, hi0, hid0, hm0⟩ := hvis
        have hi0n : i0 < l0.length := by omega
        obtain ⟨q1, q2⟩ := hproc i0 hi0
          (by rw [(p1' i0 hi0n).1, (p1' i hk).1]; exact hid0)
          (by rw [(p1' i0 hi0n).2, (p1' i hk).2]; exact hm0)
        have hg := p6 hval i0 hi0
        rw [q1, q2]
        unfold group_lub at hg ⊢
        rw [← hid0, ← hm0]
        exact hg
      · have hnov : ∀ i0, i0 < i → ¬ ((l0.getD i0 default).id = (l0.getD i default).id
            ∧ meshes (l0.getD i0 default).comp = meshes (l0.getD i default).comp) :=
          fun i0 h0 hx => hvis ⟨i0, h0, hx.1, hx.2⟩
        have hown : (l.getD i default).split = (l0.getD i default).split := p5 i hk hnov
        -- the pending decisions consulted are given decisions of the group, untouched so far
        have hcons : ∀ j, j ≠ (l.getD i default).comp →
            meshes j = meshes (l.getD i default).comp → 0 ≤ idx (l.getD i default).id j →
            (idx (l.getD i default).id j).toNat < l0.length
            ∧ (l0.getD (idx (l.getD i default).id j).toNat default).id = (l0.getD i default).id
            ∧ meshes (l0.getD (idx (l.getD i default).id j).toNat default).comp
                = meshes (l0.getD i default).comp
            ∧ (l.getD (idx (l.getD i default).id j).toNat default).split
                = (l0.getD (idx (l.getD i default).id j).toNat default).split := by
          intro j _ hj2 hj3
          obtain ⟨a1, a2, a3⟩ := htab.1 _ j hj3
          have b1 : (l0.getD (idx (l.getD i default).id j).toNat default).id
              = (l0.getD i default).id := by rw [a2, (p1' i hk).1]
          have b2 : meshes (l0.getD (idx (l.getD i default).id j).toNat default).comp
              = meshes (l0.getD i default).comp := by rw [a3, hj2, (p1' i hk).2]
          refine ⟨a1, b1, b2, p5 _ a1 ?_⟩
          intro i0 h0 hx
          exact hnov i0 h0 ⟨hx.1.trans b1, hx.2.trans b2⟩
        have hfold : U = (consulted_splits (List.range st.num) meshes idx l
            (l.getD i default)).foldl merge_split (l.getD i default).split := by
          rw [← hU]
          exact selected_refinement_over_eq_foldl meshes idx l (l.getD i default)
            (List.range st.num) (l.getD i default).split
        have hcv : ∀ s ∈ consulted_splits (List.range st.num) meshes idx l (l.getD i default),
            ∃ b, b < l0.length ∧ (l0.getD b default).id = (l0.getD i default).id
              ∧ meshes (l0.getD b default).comp = meshes (l0.getD i default).comp
              ∧ s = (l0.getD b default).split := by
          intro s hs
          unfold consulted_splits at hs
          obtain ⟨j, hj, rfl⟩ := List.mem_map.mp hs
          have hj3 : j ≠ (l.getD i default).comp ∧ meshes j = meshes (l.getD i default).comp
              ∧ idx (l.getD i default).id j ≥ 0 := by simpa using (List.mem_filter.mp hj).2
          obtain ⟨c1, c2, c3, c4⟩ := hcons j hj3.1 hj3.2.1 hj3.2.2
          exact ⟨_, c1, c2, c3, c4⟩
        obtain ⟨_, h1, h2, h3⟩ := foldl_merge_split_lub
          (consulted_splits (List.range st.num) meshes idx l (l.getD i default))
          (l.getD i default).split (by rw [hown]; exact hval i hk)
          (fun s hs => by
            obtain ⟨b, hb, _, _, rfl⟩ := hcv s hs
            exact hval b hb)
        rw [← hfold] at h1 h2 h3
        constructor
        · intro b hb hid hm
          by_cases hbi : b = i
          · rw [hbi, ← hown]
            exact h1
          · have hib : idx (l.getD i default).id (l0.getD b default).comp = (b : Int) := by
              rw [(p1' i hk).1, ← hid]
              exact htab.2 b hb
            have hne : (l0.getD b default).comp ≠ (l.getD i default).comp := by
              intro heq
              have hk2 := htab.2 i hk
              rw [← (p1' i hk).1, ← (p1' i hk).2, ← heq, hib] at hk2
              exact hbi (by exact_mod_cast hk2)
            have hmesh : meshes (l0.getD b default).comp = meshes (l.getD i default).comp := by
              rw [hm, (p1' i hk).2]
            have hsb : (l.getD b default).split = (l0.getD b default).split := by
              have := (hcons (l0.getD b default).comp hne hmesh (by rw [hib]; omega)).2.2.2
              rw [hib] at this
              simpa using this
            rw [← hsb]
            apply h2
            unfold consulted_splits
            refine List.mem_map.mpr ⟨(l0.getD b default).comp,
              List.mem_filter.mpr ⟨List.mem_range.mpr (hcomp b hb), ?_⟩, ?_⟩
            · have h0 : idx (l.getD i default).id (l0.getD b default).comp ≥ 0 := by
                rw [hib]; omega
              exact decide_eq_true ⟨hne, hmesh, h0⟩
            · rw [hib, Int.toNat_ofNat]
        · intro u hu
          apply h3 u
          · rw [hown]
            exact hu i hk rfl rfl
          · intro s hs
            obtain ⟨b, hb, hb1, hb2, rfl⟩ := hcv s hs
            exact hu b hb hb1 hb2
    · rw [hstable i (by omega)]
      exact p6 hval i (by omega)

/-- The invariant of the pass holds after any number of visited decisions. -/
theorem pass_invariant_all {α : Type} (c : Collaborators α) (st : AdaptState α)
    (meshes : Nat → Nat) (idx : Nat → Nat → Int) (l0 : List ElementToRefine)
    (htab : idx_position_table idx l0)
    (hcomp : ∀ i, i < l0.length → (l0.getD i default).comp < st.num) :
    ∀ k, k ≤ l0.length →
      pass_invariant st.num meshes l0 k ((List.range k).foldl (fix_iteration c st meshes idx) l0) := by
  intro k
  induction k with
  | zero =>
    intro _
    refine ⟨le_refl _, fun _ _ => ⟨rfl, rfl⟩, ?_, ?_, ?_, fun _ _ _ => rfl, ?_⟩
    · intro i b hi
      omega
    · intro b h1 h2
      simp only [List.range_zero, List.foldl_nil] at h2
      omega
    · intro i hi
      omega
    · intro _ i hi
      omega
  | succ k ih =>
    intro hk
    rw [List.range_succ, List.foldl_append]
    exact pass_invariant_step c st meshes idx l0 _ k htab hcomp (by omega) (ih (by omega))

/-- Membership in a list of decisions, by position. -/
theorem mem_iff_getD (l : List ElementToRefine) (a : ElementToRefine) :
    a ∈ l ↔ ∃ i, i < l.length ∧ l.getD i default = a := by
  rw [List.mem_iff_getElem]
  constructor
  · rintro ⟨i, hi, h⟩
    exact ⟨i, hi, by rw [List.getD_eq_getElem l default hi]; exact h⟩
  · rintro ⟨i, hi, h⟩
    exact ⟨i, hi, by rw [← List.getD_eq_getElem l default hi]; exact h⟩

/-- A pass over a list that is already unified, with any table that points
into it, changes no split; the list stays unified. -/
theorem unified_step {α : Type} (c : Collaborators α) (st : AdaptState α)
    (meshes : Nat → Nat) (idx : Nat → Nat → Int) (l : List ElementToRefine) (inx : Nat)
    (hinx : inx < l.length) (hidx : idx_points_into idx l)
    (hun : ∀ a b, a < l.length → b < l.length →
      (l.getD a default).id = (l.getD b default).id →
      meshes (l.getD a default).comp = meshes (l.getD b default).comp →
      (l.getD a default).split = (l.getD b default).split) :
    l.length ≤ (fix_iteration c st meshes idx l inx).length
    ∧ (∀ i, i < l.length →
        ((fix_iteration c st meshes idx l inx).getD i default).id = (l.getD i default).id
        ∧ ((fix_iteration c st meshes idx l inx).getD i default).comp = (l.getD i default).comp
        ∧ ((fix_iteration c st meshes idx l inx).getD i default).split
            = (l.getD i default).split)
    ∧ (∀ a b, a < (fix_iteration c st meshes idx l inx).length →
        b < (fix_iteration c st meshes idx l inx).length →
        ((fix_iteration c st meshes idx l inx).getD a default).id
          = ((fix_iteration c st meshes idx l inx).getD b default).id →
        meshes ((fix_iteration c st meshes idx l inx).getD a default).comp
          = meshes ((fix_iteration c st meshes idx l inx).getD b default).comp →
        ((fix_iteration c st meshes idx l inx).getD a default).split
          = ((fix_iteration c st meshes idx l inx).getD b default).split)
    ∧ idx_points_into idx (fix_iteration c st meshes idx l inx) := by
  obtain ⟨hu, _, _, _⟩ := fix_iteration_spec c st meshes idx l inx hinx hidx
  have hU : selected_refinement st.num meshes idx l (l.getD inx default)
      = (l.getD inx default).split := by
    apply select_fold_unchanged
    intro j _ _ hj2 hj3
    obtain ⟨a1, a2, a3⟩ := hidx _ j hj3
    exact hun _ inx a1 hinx a2 (by rw [a3, hj2])
  rw [hU] at hu
  generalize fix_iteration c st meshes idx l inx = l' at hu
  obtain ⟨u1, u2, u3⟩ := hu
  have hsame : ∀ i, i < l.length → (l'.getD i default).split = (l.getD i default).split := by
    intro i hi
    rcases (u2 i hi).2.2 with x | ⟨x1, x2, x3⟩
    · exact x
    · rw [x1]
      exact (hun i inx hi hinx x2 x3).symm
  -- every decision of the new list in the group of the current one has its split
  have hgrp : ∀ b, b < l'.length → (l'.getD b default).id = (l.getD inx default).id →
      meshes (l'.getD b default).comp = meshes (l.getD inx default).comp →
      (l'.getD b default).split = (l.getD inx default).split := by
    intro b hb hid hm
    by_cases hbl : b < l.length
    · rw [hsame b hbl]
      rw [(u2 b hbl).1] at hid
      rw [(u2 b hbl).2.1] at hm
      exact hun b inx hbl hinx hid hm
    · exact (u3 b (by omega) hb).2.2
  refine ⟨u1, fun i hi => ⟨(u2 i hi).1, (u2 i hi).2.1, hsame i hi⟩, ?_, ?_⟩
  · intro a b ha hb hid hm
    by_cases hal : a < l.length
    · by_cases hbl : b < l.length
      · rw [hsame a hal, hsame b hbl]
        rw [(u2 a hal).1, (u2 b hbl).1] at hid
        rw [(u2 a hal).2.1, (u2 b hbl).2.1] at hm
        exact hun a b hal hbl hid hm
      · obtain ⟨z1, z2, z3⟩ := u3 b (by omega) hb
        rw [z3]
        exact hgrp a ha (hid.trans z1) (hm.trans z2)
    · obtain ⟨z1, z2, z3⟩ := u3 a (by omega) ha
      rw [z3]
      exact (hgrp b hb (hid.symm.trans z1) (hm.symm.trans z2)).symm
  · intro id j h0
    obtain ⟨a1, a2, a3⟩ := hidx id j h0
    exact ⟨lt_of_lt_of_le a1 u1, ((u2 _ a1).1).trans a2, ((u2 _ a1).2.1).trans a3⟩

/-- A whole pass over a unified list changes no split. -/
theorem unified_pass {α : Type} (c : Collaborators α) (st : AdaptState α)
    (meshes : Nat → Nat) (idx : Nat → Nat → Int) (l0 : List ElementToRefine)
    (hidx : idx_points_into idx l0)
    (hun : ∀ a b, a < l0.length → b < l0.length →
      (l0.getD a default).id = (l0.getD b default).id →
      meshes (l0.getD a default).comp = meshes (l0.getD b default).comp →
      (l0.getD a default).split = (l0.getD b default).split) :
    ∀ k, k ≤ l0.length →
      l0.length ≤ ((List.range k).foldl (fix_iteration c st meshes idx) l0).length
      ∧ (∀ i, i < l0.length →
          (((List.range k).foldl (fix_iteration c st meshes idx) l0).getD i default).split
            = (l0.getD i default).split)
      ∧ (∀ a b, a < ((List.range k).foldl (fix_iteration c st meshes idx) l0).length →
          b < ((List.range k).foldl (fix_iteration c st meshes idx) l0).length →
          (((List.range k).foldl (fix_iteration c st meshes idx) l0).getD a default).id
            = (((List.range k).foldl (fix_iteration c st meshes idx) l0).getD b default).id →
          meshes (((List.range k).foldl (fix_iteration c st meshes idx) l0).getD a default).comp
            = meshes
                (((List.range k).foldl (fix_iteration c st meshes idx) l0).getD b default).comp →
          (((List.range k).foldl (fix_iteration c st meshes idx) l0).getD a default).split
            = (((List.range k).foldl (fix_iteration c st meshes idx) l0).getD b default).split)
      ∧ idx_points_into idx ((List.range k).foldl (fix_iteration c st meshes idx) l0) := by
  intro k
  induction k with
  | zero =>
    intro _
    exact ⟨le_refl _, fun _ _ => rfl, hun, hidx⟩
  | succ k ih =>
    intro hk
    obtain ⟨h1, h2, h3, h4⟩ := ih (by omega)
    rw [List.range_succ, List.foldl_append]
    simp only [List.foldl_cons, List.foldl_nil]
    obtain ⟨s1, s2, s3, s4⟩ := unified_step c st meshes idx
      ((List.range k).foldl (fix_iteration c st meshes idx) l0) k (by omega) h4 h3
    exact ⟨le_trans h1 s1, fun i hi => ((s2 i (by omega)).2.2).trans (h2 i hi), s3, s4⟩

/-- After the pass over decisions with their position table, the list is
unified and mirrored. -/
theorem unified_after_pass {α : Type} (c : Collaborators α) (st : AdaptState α)
    (meshes : Nat → Nat) (elems : List ElementToRefine) (idx : Nat → Nat → Int)
    (htab : idx_position_table idx elems)
    (hcomp : ∀ d ∈ elems, d.comp < st.num) :
    unified meshes (reconciliation_values c st meshes elems idx)
    ∧ mirrored st.num meshes (reconciliation_values c st meshes elems idx) := by
  have hcomp' : ∀ i, i < elems.length → (elems.getD i default).comp < st.num :=
    fun i hi => hcomp _ ((mem_iff_getD elems _).mpr ⟨i, hi, rfl⟩)
  have hinv := pass_invariant_all c st meshes idx elems htab hcomp' elems.length (le_refl _)
  have hfix : reconciliation_values c st meshes elems idx
      = (List.range elems.length).foldl (fix_iteration c st meshes idx) elems := rfl
  rw [← hfix] at hinv
  generalize reconciliation_values c st meshes elems idx = l at hinv
  obtain ⟨p1, p1', p2, p3, p4, _, _⟩ := hinv
  have hun : ∀ a b, a < l.length → b < l.length →
      (l.getD a default).id = (l.getD b default).id →
      meshes (l.getD a default).comp = meshes (l.getD b default).comp →
      (l.getD a default).split = (l.getD b default).split := by
    intro a b ha hb hid hm
    by_cases han : a < elems.length
    · exact (p2 a b han hb hid.symm hm.symm).symm
    · obtain ⟨i, hi, hi1, hi2⟩ := p3 a (by omega) ha
      rw [p2 i a hi ha hi1 hi2, p2 i b hi hb (hid.symm.trans hi1) (hm.symm.trans hi2)]
  constructor
  · intro a ha b hb hid hm
    obtain ⟨i, hi, rfl⟩ := (mem_iff_getD l a).mp ha
    obtain ⟨k, hk, rfl⟩ := (mem_iff_getD l b).mp hb
    exact hun i k hi hk hid hm
  · intro a ha hs j hj hm
    obtain ⟨i, hi, rfl⟩ := (mem_iff_getD l a).mp ha
    by_cases hin : i < elems.length
    · obtain ⟨b, hb, hb1, hb2⟩ := p4 i hin hs j hj hm
      exact ⟨l.getD b default, (mem_iff_getD l _).mpr ⟨b, hb, rfl⟩, hb1, hb2⟩
    · obtain ⟨k, hk, hk1, hk2⟩ := p3 i (by omega) hi
      have hsk : (l.getD k default).split ≠ H2D_REFINEMENT_P := by
        rw [← p2 k i hk hi hk1 hk2]
        exact hs
      obtain ⟨b, hb, hb1, hb2⟩ := p4 k hk hsk j hj (hm.trans hk2)
      exact ⟨l.getD b default, (mem_iff_getD l _).mpr ⟨b, hb, rfl⟩, hb1.trans hk1.symm, hb2⟩

/-- Let `idx` be the position table of the decisions handed to the pass,
all of components below `num`.  In the entries `reconciliation_values`, all
decisions for one element id held by components on one mesh carry the same
split; every decision whose split is not P-only has beside it a decision for
the same element of every component sharing its mesh; a second pass over the
entries, with the same table or any table pointing into them, changes no
split; and, on codes of the enum, the split a given decision ends with is the
least upper bound of the splits given for its element on its mesh. -/
theorem reconciliation_values_consistent {α : Type} (c : Collaborators α) (st : AdaptState α)
    (meshes : Nat → Nat) (elems : List ElementToRefine) (idx : Nat → Nat → Int)
    (htab : idx_position_table idx elems)
    (hcomp : ∀ d ∈ elems, d.comp < st.num) :
    unified meshes (reconciliation_values c st meshes elems idx)
    ∧ mirrored st.num meshes (reconciliation_values c st meshes elems idx)
    ∧ (∀ i, i < (reconciliation_values c st meshes elems idx).length →
        ((reconciliation_values c st meshes
            (reconciliation_values c st meshes elems idx) idx).getD i default).split
          = ((reconciliation_values c st meshes elems idx).getD i default).split)
    ∧ (∀ idx' : Nat → Nat → Int,
        idx_points_into idx' (reconciliation_values c st meshes elems idx) →
        ∀ i, i < (reconciliation_values c st meshes elems idx).length →
          ((reconciliation_values c st meshes
              (reconciliation_values c st meshes elems idx) idx').getD i default).split
            = ((reconciliation_values c st meshes elems idx).getD i default).split)
    ∧ ((∀ d ∈ elems, valid_split d.split) →
        ∀ i, i < elems.length →
          group_lub meshes elems i
            ((reconciliation_values c st meshes elems idx).getD i default).split) := by
  obtain ⟨hU, hM⟩ := unified_after_pass c st meshes elems idx htab hcomp
  have hcomp' : ∀ i, i < elems.length → (elems.getD i default).comp < st.num :=
    fun i hi => hcomp _ ((mem_iff_getD elems _).mpr ⟨i, hi, rfl⟩)
  have hinv := pass_invariant_all c st meshes idx elems htab hcomp' elems.length (le_refl _)
  have hfix : reconciliation_values c st meshes elems idx
      = (List.range elems.length).foldl (fix_iteration c st meshes idx) elems := rfl
  rw [← hfix] at hinv
  generalize reconciliation_values c st meshes elems idx = l at hinv hU hM
  obtain ⟨p1, p1', _, _, _, _, p6⟩ := hinv
  have hun : ∀ a b, a < l.length → b < l.length →
      (l.getD a default).id = (l.getD b default).id →
      meshes (l.getD a default).comp = meshes (l.getD b default).comp →
      (l.getD a default).split = (l.getD b default).split :=
    fun a b ha hb hid hm =>
      hU _ ((mem_iff_getD l _).mpr ⟨a, ha, rfl⟩) _ ((mem_iff_getD l _).mpr ⟨b, hb, rfl⟩) hid hm
  have hpoint : idx_points_into idx l := by
    intro id j h0
    obtain ⟨a1, a2, a3⟩ := htab.1 id j h0
    exact ⟨lt_of_lt_of_le a1 p1, ((p1' _ a1).1).trans a2, ((p1' _ a1).2).trans a3⟩
  have hsecond : ∀ idx' : Nat → Nat → Int, idx_points_into idx' l →
      ∀ i, i < l.length →
        ((reconciliation_values c st meshes l idx').getD i default).split
          = (l.getD i default).split := by
    intro idx' hp i hi
    exact (unified_pass c st meshes idx' l hp hun l.length (le_refl _)).2.1 i hi
  exact ⟨hU, hM, hsecond idx hpoint, hsecond,
    fun hval i hi => p6 (fun k hk => hval _ ((mem_iff_getD elems _).mpr ⟨k, hk, rfl⟩)) i hi⟩

end Reconciliation

/-! ## The position table built by the loop of `adapt` -/

section PositionTable

variable {α : Type} [LinearOrderedField α]

/-- Preparing the threshold touches neither the table nor the decisions. -/
theorem prepare_threshold_table (thr : α) (v : LoopVars α) (err : α) :
    (prepare_threshold thr v err).idx = v.idx
    ∧ (prepare_threshold thr v err).elem_inx_to_proc = v.elem_inx_to_proc := by
  unfold prepare_threshold
  split_ifs <;> simp

/-- The selector step for a pair that has no decision yet keeps `idx` the
position table of the decisions, provided the selector leaves the element id
and the component of the decision alone. -/
theorem refinement_suggestion_table (c : Collaborators α) (st : AdaptState α) (v : LoopVars α)
    (id comp : Nat)
    (hsel : ∀ (k i : Nat) (cur : Int) (e : ElementToRefine),
      (c.select_refinement k i cur e).2.id = e.id ∧ (c.select_refinement k i cur e).2.comp = e.comp)
    (htab : idx_position_table v.idx v.elem_inx_to_proc)
    (hnew : ∀ d ∈ v.elem_inx_to_proc, ¬ (d.id = id ∧ d.comp = comp)) :
    idx_position_table (refinement_suggestion c st v id comp).idx
      (refinement_suggestion c st v id comp).elem_inx_to_proc
    ∧ ∀ d ∈ (refinement_suggestion c st v id comp).elem_inx_to_proc,
        d ∈ v.elem_inx_to_proc ∨ (d.id = id ∧ d.comp = comp) := by
  unfold refinement_suggestion
  dsimp only
  split_ifs with hacc
  · obtain ⟨hd1, hd2⟩ := hsel comp id (st.orders comp id) (ElementToRefine.init id comp)
    generalize (c.select_refinement comp id (st.orders comp id)
      (ElementToRefine.init id comp)).2 = d at hd1 hd2
    have hd1' : d.id = id := hd1
    have hd2' : d.comp = comp := hd2
    refine ⟨⟨?_, ?_⟩, ?_⟩
    · intro i j h0
      dsimp only at h0 ⊢
      by_cases hij : i = id ∧ j = comp
      · rw [if_pos hij]
        obtain ⟨rfl, rfl⟩ := hij
        simp only [Int.toNat_ofNat, List.length_append, List.length_singleton]
        refine ⟨by omega, ?_, ?_⟩
        · rw [List.getD_append_right _ _ _ _ (le_refl _)]
          simpa using hd1'
        · rw [List.getD_append_right _ _ _ _ (le_refl _)]
          simpa using hd2'
      · rw [if_neg hij] at h0 ⊢
        obtain ⟨a1, a2, a3⟩ := htab.1 i j h0
        rw [List.getD_append _ _ _ _ a1]
        exact ⟨by simp only [List.length_append, List.length_singleton]; omega, a2, a3⟩
    · intro i hi
      dsimp only
      simp only [List.length_append, List.length_singleton] at hi
      by_cases hil : i < v.elem_inx_to_proc.length
      · rw [List.getD_append _ _ _ _ hil]
        have hmem : v.elem_inx_to_proc.getD i default ∈ v.elem_inx_to_proc := by
          rw [List.getD_eq_getElem _ default hil]
          exact List.getElem_mem hil
        rw [if_neg (hnew _ hmem)]
        exact htab.2 i hil
      · have hie : i = v.elem_inx_to_proc.length := by omega
        subst hie
        rw [List.getD_append_right _ _ _ _ (le_refl _)]
        simp only [Nat.sub_self, List.getD_cons_zero]
        rw [if_pos ⟨hd1', hd2'⟩]
    · intro x hx
      dsimp only at hx
      rcases List.mem_append.mp hx with hx | hx
      · exact Or.inl hx
      · simp only [List.mem_singleton] at hx
        subst hx
        exact Or.inr ⟨hd1', hd2'⟩
  · exact ⟨htab, fun d hd => Or.inl hd⟩

/-- With an empty priority queue, a regular queue without repeated entries
and selectors that leave the element id and the component of a decision
alone, in every state the loop reaches `idx` is the position table of the
decisions, and every decision belongs to a queue entry already taken. -/
theorem loop_builds_position_table (c : Collaborators α) (st : AdaptState α) (thr : α)
    (strat : Int) (to_be_processed : α)
    (hp : st.priority_queue = []) (hnd : st.regular_queue.Nodup)
    (hsel : ∀ (k i : Nat) (cur : Int) (e : ElementToRefine),
      (c.select_refinement k i cur e).2.id = e.id ∧ (c.select_refinement k i cur e).2.comp = e.comp)
    (v : LoopVars α) (hv : loop_reachable c st thr strat to_be_processed v) :
    v.priority_queue = []
    ∧ idx_position_table v.idx v.elem_inx_to_proc
    ∧ ∀ d ∈ v.elem_inx_to_proc, ∃ i, i < v.inx_regular_element
        ∧ st.regular_queue[i]? = some ⟨d.id, d.comp⟩ := by
  induction hv with
  | init =>
    refine ⟨hp, ⟨?_, ?_⟩, ?_⟩
    · intro i j h0
      simp [LoopVars.init] at h0
    · intro i hi
      simp [LoopVars.init] at hi
    · intro d hd
      simp [LoopVars.init] at hd
  | step v w _ _ hs ih =>
    obtain ⟨hq, htab, hfrom⟩ := ih
    cases hr : st.regular_queue[v.inx_regular_element]? with
    | none =>
      unfold adapt_iteration at hs
      rw [hq] at hs
      simp [hr] at hs
    | some r =>
      have hit : adapt_iteration c st thr strat to_be_processed v
          = examine c st thr strat to_be_processed
              { v with inx_regular_element := v.inx_regular_element + 1 }
              r.id r.comp (v.inx_regular_element : Int) := by
        unfold adapt_iteration
        rw [hq]
        simp only [hr]
      rw [hit] at hs
      have hlt : v.inx_regular_element < st.regular_queue.length := by
        by_contra hcon
        rw [List.getElem?_eq_none (by omega)] at hr
        cases hr
      have hfresh : ∀ d ∈ v.elem_inx_to_proc, ¬ (d.id = r.id ∧ d.comp = r.comp) := by
        intro d hd hx
        obtain ⟨i, hi, hqi⟩ := hfrom d hd
        rw [hx.1, hx.2] at hqi
        have := List.getElem?_inj hlt hnd (hr.trans hqi.symm)
        omega
      cases hi : c.should_ignore_element (v.inx_regular_element : Int) (st.mesh_of r.comp) r.id with
      | true =>
        rw [examine_ignored c st thr strat to_be_processed _ _ _ _ hi] at hs
        cases hs
        refine ⟨hq, htab, ?_⟩
        intro d hd
        obtain ⟨i, hi, hqi⟩ := hfrom d hd
        exact ⟨i, by dsimp only; omega, hqi⟩
      | false =>
        rw [examine_regular c st thr strat to_be_processed _ _ _ _ hi (by omega)] at hs
        split_ifs at hs
        cases hs
        have hpt := prepare_threshold_table thr
          { v with inx_regular_element := v.inx_regular_element + 1
                   num_exam_elem := v.num_exam_elem + 1 } (st.errors r.comp r.id)
        have hpf := prepare_threshold_frame thr
          { v with inx_regular_element := v.inx_regular_element + 1
                   num_exam_elem := v.num_exam_elem + 1 } (st.errors r.comp r.id)
        have hrf := refinement_suggestion_frame c st
          (prepare_threshold thr
            { v with inx_regular_element := v.inx_regular_element + 1
                     num_exam_elem := v.num_exam_elem + 1 } (st.errors r.comp r.id))
          r.id r.comp
        obtain ⟨t1, t2⟩ := refinement_suggestion_table c st
          (prepare_threshold thr
            { v with inx_regular_element := v.inx_regular_element + 1
                     num_exam_elem := v.num_exam_elem + 1 } (st.errors r.comp r.id))
          r.id r.comp hsel (by rw [hpt.1, hpt.2]; exact htab) (by rw [hpt.2]; exact hfresh)
        refine ⟨by rw [hrf.2.1, hpf.2.1]; exact hq, t1, ?_⟩
        intro d hd
        rw [hrf.1, hpf.1]
        rcases t2 d hd with hold | hnew
        · rw [hpt.2] at hold
          obtain ⟨i, hi, hqi⟩ := hfrom d hold
          exact ⟨i, by dsimp only; omega, hqi⟩
        · refine ⟨v.inx_regular_element, by dsimp only; omega, ?_⟩
          rw [hr, hnew.1, hnew.2]

/-- The state in which the loop is left is a state it reaches, or the result
of a `break` in such a state. -/
theorem adapt_loop_exit (c : Collaborators α) (st : AdaptState α) (thr : α) (strat : Int)
    (to_be_processed : α) :
    ∀ (fuel : Nat) (v w : LoopVars α),
      loop_reachable c st thr strat to_be_processed v →
      adapt_loop c st thr strat to_be_processed fuel v = LoopExit.finished w →
      loop_reachable c st thr strat to_be_processed w
      ∨ ∃ u, loop_reachable c st thr strat to_be_processed u
          ∧ adapt_iteration c st thr strat to_be_processed u = Step.stop w := by
  intro fuel
  induction fuel with
  | zero =>
    intro v w hv h
    unfold adapt_loop at h
    split_ifs at h
    cases h
    exact Or.inl hv
  | succ n ih =>
    intro v w hv h
    unfold adapt_loop at h
    by_cases hc : loop_condition st v = true
    · simp only [hc, if_true] at h
      cases hs : adapt_iteration c st thr strat to_be_processed v with
      | stop u =>
        rw [hs] at h
        cases h
        exact Or.inr ⟨v, hv, hs⟩
      | next u =>
        rw [hs] at h
        exact ih u w (loop_reachable.step v u hv hc hs) h
      | invalid =>
        rw [hs] at h
        cases h
    · simp only [hc, if_false] at h
      cases h
      exact Or.inl hv

/-- Under the assumptions of `loop_builds_position_table`, the table and the
decisions with which the loop of `adapt` is left satisfy the precondition of
the reconciliation: `idx` is the position table of the decisions, and every
decision is held by the component of a queue entry. -/
theorem adapt_hands_over_position_table (c : Collaborators α) (st : AdaptState α) (thr : α)
    (strat : Int) (to_be_processed : α)
    (hp : st.priority_queue = []) (hnd : st.regular_queue.Nodup)
    (hsel : ∀ (k i : Nat) (cur : Int) (e : ElementToRefine),
      (c.select_refinement k i cur e).2.id = e.id ∧ (c.select_refinement k i cur e).2.comp = e.comp)
    (w : LoopVars α)
    (h : adapt_loop c st thr strat to_be_processed (loop_measure st (LoopVars.init st))
          (LoopVars.init st) = LoopExit.finished w) :
    idx_position_table w.idx w.elem_inx_to_proc
    ∧ ∀ d ∈ w.elem_inx_to_proc, ∃ r ∈ st.regular_queue, r.id = d.id ∧ r.comp = d.comp := by
  have key : ∀ u, loop_reachable c st thr strat to_be_processed u →
      idx_position_table u.idx u.elem_inx_to_proc
      ∧ ∀ d ∈ u.elem_inx_to_proc, ∃ r ∈ st.regular_queue, r.id = d.id ∧ r.comp = d.comp := by
    intro u hu
    obtain ⟨_, t, f⟩ := loop_builds_position_table c st thr strat to_be_processed hp hnd hsel u hu
    refine ⟨t, ?_⟩
    intro d hd
    obtain ⟨i, _, hqi⟩ := f d hd
    exact ⟨⟨d.id, d.comp⟩, List.getElem?_mem hqi, rfl, rfl⟩
  rcases adapt_loop_exit c st thr strat to_be_processed _ _ w loop_reachable.init h with hw | ⟨u, hu, hs⟩
  · exact key w hw
  · obtain ⟨hq, _, _⟩ :=
      loop_builds_position_table c st thr strat to_be_processed hp hnd hsel u hu
    cases hr : st.regular_queue[u.inx_regular_element]? with
    | none =>
      unfold adapt_iteration at hs
      rw [hq] at hs
      simp [hr] at hs
    | some r =>
      have hit : adapt_iteration c st thr strat to_be_processed u
          = examine c st thr strat to_be_processed
              { u with inx_regular_element := u.inx_regular_element + 1 }
              r.id r.comp (u.inx_regular_element : Int) := by
        unfold adapt_iteration
        rw [hq]
        simp only [hr]
      rw [hit] at hs
      cases hi : c.should_ignore_element (u.inx_regular_element : Int) (st.mesh_of r.comp) r.id with
      | true =>
        rw [examine_ignored c st thr strat to_be_processed _ _ _ _ hi] at hs
        cases hs
      | false =>
        rw [examine_regular c st thr strat to_be_processed _ _ _ _ hi (by omega)] at hs
        split_ifs at hs
        cases hs
        have hpt := prepare_threshold_table thr
          { u with inx_regular_element := u.inx_regular_element + 1
                   num_exam_elem := u.num_exam_elem + 1 } (st.errors r.comp r.id)
        rw [hpt.1, hpt.2]
        exact key u hu

/-- After a step of `adapt` under the assumptions of
`loop_builds_position_table`, with the queue entries held by components below
`num`, the list of refinements kept for the caller is unified and mirrored. -/
theorem adapt_last_refinements_consistent (c : Collaborators α) (st : AdaptState α)
    (num_selectors : Nat) (thr : α) (strat regularize : Int) (to_be_processed : α)
    (done : Bool) (st' : AdaptState α)
    (hp : st.priority_queue = []) (hnd : st.regular_queue.Nodup)
    (hcomp : ∀ r ∈ st.regular_queue, r.comp < st.num)
    (hsel : ∀ (k i : Nat) (cur : Int) (e : ElementToRefine),
      (c.select_refinement k i cur e).2.id = e.id ∧ (c.select_refinement k i cur e).2.comp = e.comp)
    (h : adapt c st num_selectors thr strat regularize to_be_processed
          = Outcome.returned done st') :
    unified st.mesh_of st'.last_refinements ∧ mirrored st.num st.mesh_of st'.last_refinements := by
  obtain ⟨_, _, _, v, hl, _, _, _, hlast⟩ :=
    adapt_returned_inv c st num_selectors thr strat regularize to_be_processed done st' h
  obtain ⟨htab, hfrom⟩ :=
    adapt_hands_over_position_table c st thr strat to_be_processed hp hnd hsel v hl
  have hc : ∀ d ∈ v.elem_inx_to_proc, d.comp < st.num := by
    intro d hd
    obtain ⟨r, hr, _, hr2⟩ := hfrom d hd
    rw [← hr2]
    exact hcomp r hr
  have hu := unified_after_pass c st st.mesh_of v.elem_inx_to_proc v.idx htab hc
  rw [hlast]
  exact hu

end PositionTable

/-! ## Applying one decision -/

section ApplyRefinement

variable {α : Type}

/-- Storing a degree twice is storing it once. -/
theorem set_element_order_internal_idem (st : AdaptState α) (comp id : Nat) (order : Int) :
    set_element_order_internal (set_element_order_internal st comp id order) comp id order
      = set_element_order_internal st comp id order := by
  unfold set_element_order_internal
  congr 1
  funext k i
  dsimp only
  split_ifs <;> rfl

/-- C11: for a P-only decision `apply_refinement` stores `p[0]` as the degree
of the decision's element in the decision's component and changes nothing
else: the meshes, the degrees of all other (component, element) pairs and all
other fields of the engine are as before; applying the decision to the result
once more gives the same state. -/
theorem apply_refinement_p_only (c : Collaborators α) (st : AdaptState α)
    (elem_ref : ElementToRefine) (h : elem_ref.split = H2D_REFINEMENT_P) :
    ∃ st', apply_refinement c st elem_ref = some st'
      ∧ st'.orders elem_ref.comp elem_ref.id = elem_ref.p.getD 0 0
      ∧ (∀ k i, ¬ (k = elem_ref.comp ∧ i = elem_ref.id) → st'.orders k i = st.orders k i)
      ∧ st'.meshes = st.meshes ∧ st'.mesh_of = st.mesh_of ∧ st'.num = st.num
      ∧ st'.num_act_elems = st.num_act_elems ∧ st'.have_errors = st.have_errors
      ∧ st'.errors = st.errors ∧ st'.errors_squared_sum = st.errors_squared_sum
      ∧ st'.regular_queue = st.regular_queue ∧ st'.priority_queue = st.priority_queue
      ∧ st'.last_refinements = st.last_refinements
      ∧ apply_refinement c st' elem_ref = some st' := by
  refine ⟨set_element_order_internal st elem_ref.comp elem_ref.id (elem_ref.p.getD 0 0),
    by simp [apply_refinement, h], by simp [set_element_order_internal], ?_,
    rfl, rfl, rfl, rfl, rfl, rfl, rfl, rfl, rfl, rfl, ?_⟩
  · intro k i hki
    simp [set_element_order_internal, hki]
  · simp only [apply_refinement, h, if_true]
    rw [set_element_order_internal_idem]

/-- Witness of C11: the P-only decision for element 2 of the demo state. -/
theorem apply_refinement_p_only_witness :
    ∃ st', apply_refinement demo_collaborators demo_state p_decision = some st'
      ∧ st'.orders 0 2 = 3 ∧ st'.meshes = demo_state.meshes
      ∧ apply_refinement demo_collaborators st' p_decision = some st' := by
  obtain ⟨st', h1, h2, _, h4, _, _, _, _, _, _, _, _, _, h5⟩ :=
    apply_refinement_p_only demo_collaborators demo_state p_decision rfl
  exact ⟨st', h1, h2, h4, h5⟩

/-- The four assignments of the H branch, when the four sons exist. -/
theorem assign_four_sons (st : AdaptState α) (comp id : Nat) (p : List Int) (s : Nat → Nat)
    (hs : ∀ j, j < 4 →
      ((st.meshes (st.mesh_of comp)).get_element id).sons.getD j none = some (s j)) :
    (List.range 4).foldlM (fun t j => set_son_order t comp id j (p.getD j 0)) st
      = some (set_element_order_internal (set_element_order_internal
          (set_element_order_internal (set_element_order_internal st comp (s 0) (p.getD 0 0))
            comp (s 1) (p.getD 1 0)) comp (s 2) (p.getD 2 0)) comp (s 3) (p.getD 3 0)) := by
  have h0 := hs 0 (by omega)
  have h1 := hs 1 (by omega)
  have h2 := hs 2 (by omega)
  have h3 := hs 3 (by omega)
  have hr : List.range 4 = [0, 1, 2, 3] := by decide
  rw [hr]
  simp only [List.foldlM, set_son_order, set_element_order_internal, h0, h1, h2, h3,
    Option.some_bind, Option.pure_def, Option.bind_eq_bind]

/-- The two assignments of the anisotropic branch, when the two sons exist. -/
theorem assign_two_sons (st : AdaptState α) (comp id : Nat) (p : List Int) (slot : Nat → Nat)
    (s : Nat → Nat)
    (hs : ∀ j, j < 2 →
      ((st.meshes (st.mesh_of comp)).get_element id).sons.getD (slot j) none = some (s j)) :
    (List.range 2).foldlM (fun t j => set_son_order t comp id (slot j) (p.getD j 0)) st
      = some (set_element_order_internal (set_element_order_internal st comp (s 0) (p.getD 0 0))
          comp (s 1) (p.getD 1 0)) := by
  have h0 := hs 0 (by omega)
  have h1 := hs 1 (by omega)
  have hr : List.range 2 = [0, 1] := by decide
  rw [hr]
  simp only [List.foldlM, set_son_order, set_element_order_internal, h0, h1,
    Option.some_bind, Option.pure_def, Option.bind_eq_bind]

/-- C12: for an H decision on an element that is refined into (or already
has) four distinct sons `s 0, ..., s 3`: if the element is active, the mesh of
the component becomes the result of one call of `refine_element_id(id, 0)`;
if it is inactive the meshes are unchanged; in both cases the degree of son
`j` in the decision's component becomes `p[j]`, all other degrees and all
other fields are as before, and applying the decision to the result once more
gives the same state. -/
theorem apply_refinement_h_split (c : Collaborators α) (st : AdaptState α)
    (elem_ref : ElementToRefine) (s : Nat → Nat) (m1 : Mesh)
    (h : elem_ref.split = H2D_REFINEMENT_H)
    (hm1 : m1 = if ((st.meshes (st.mesh_of elem_ref.comp)).get_element elem_ref.id).active = true
      then c.refine_element_id (st.meshes (st.mesh_of elem_ref.comp)) elem_ref.id 0
      else st.meshes (st.mesh_of elem_ref.comp))
    (hs : ∀ j, j < 4 → (m1.get_element elem_ref.id).sons.getD j none = some (s j))
    (hinj : ∀ i j, i < 4 → j < 4 → s i = s j → i = j)
    (hact : (m1.get_element elem_ref.id).active = false) :
    ∃ st', apply_refinement c st elem_ref = some st'
      ∧ st'.meshes (st.mesh_of elem_ref.comp) = m1
      ∧ (∀ k, k ≠ st.mesh_of elem_ref.comp → st'.meshes k = st.meshes k)
      ∧ (((st.meshes (st.mesh_of elem_ref.comp)).get_element elem_ref.id).active = false →
          st'.meshes = st.meshes)
      ∧ (∀ j, j < 4 → st'.orders elem_ref.comp (s j) = elem_ref.p.getD j 0)
      ∧ (∀ k i, (k ≠ elem_ref.comp ∨ ∀ j, j < 4 → i ≠ s j) → st'.orders k i = st.orders k i)
      ∧ st'.mesh_of = st.mesh_of ∧ st'.num = st.num
      ∧ st'.num_act_elems = st.num_act_elems ∧ st'.have_errors = st.have_errors
      ∧ st'.errors = st.errors ∧ st'.errors_squared_sum = st.errors_squared_sum
      ∧ st'.regular_queue = st.regular_queue ∧ st'.priority_queue = st.priority_queue
      ∧ st'.last_refinements = st.last_refinements
      ∧ apply_refinement c st' elem_ref = some st' := by
  have hne : elem_ref.split ≠ H2D_REFINEMENT_P := by rw [h]; decide
  -- the state after the optional refinement
  generalize hst1 : (if ((st.meshes (st.mesh_of elem_ref.comp)).get_element elem_ref.id).active
      = true then refine_mesh c st (st.mesh_of elem_ref.comp) elem_ref.id 0 else st) = st1
  have hmesh1 : st1.meshes (st.mesh_of elem_ref.comp) = m1 := by
    rw [← hst1, hm1]
    split_ifs <;> simp [refine_mesh]
  have hother1 : ∀ k, k ≠ st.mesh_of elem_ref.comp → st1.meshes k = st.meshes k := by
    intro k hk
    rw [← hst1]
    split_ifs <;> simp [refine_mesh, hk]
  have hmo1 : st1.mesh_of = st.mesh_of := by
    rw [← hst1]; split_ifs <;> rfl
  have hord1 : st1.orders = st.orders := by
    rw [← hst1]; split_ifs <;> rfl
  have happ : apply_refinement c st elem_ref
      = (List.range 4).foldlM
          (fun t j => set_son_order t elem_ref.comp elem_ref.id j (elem_ref.p.getD j 0)) st1 := by
    unfold apply_refinement
    dsimp only
    rw [if_neg hne, if_pos h, ← hst1]
  have hsons1 : ∀ j, j < 4 →
      ((st1.meshes (st1.mesh_of elem_ref.comp)).get_element elem_ref.id).sons.getD j none
        = some (s j) := by
    intro j hj
    rw [hmo1, hmesh1]
    exact hs j hj
  rw [happ, assign_four_sons st1 elem_ref.comp elem_ref.id elem_ref.p s hsons1]
  have d01 : s 0 ≠ s 1 := fun e => by have := hinj 0 1 (by omega) (by omega) e; omega
  have d02 : s 0 ≠ s 2 := fun e => by have := hinj 0 2 (by omega) (by omega) e; omega
  have d03 : s 0 ≠ s 3 := fun e => by have := hinj 0 3 (by omega) (by omega) e; omega
  have d12 : s 1 ≠ s 2 := fun e => by have := hinj 1 2 (by omega) (by omega) e; omega
  have d13 : s 1 ≠ s 3 := fun e => by have := hinj 1 3 (by omega) (by omega) e; omega
  have d23 : s 2 ≠ s 3 := fun e => by have := hinj 2 3 (by omega) (by omega) e; omega
  refine ⟨_, rfl, hmesh1, hother1, ?_, ?_, ?_, hmo1, ?_, ?_, ?_, ?_, ?_, ?_, ?_, ?_, ?_⟩
  · intro hin
    show st1.meshes = st.meshes
    rw [← hst1]
    simp [hin]
  · intro j hj
    have : j = 0 ∨ j = 1 ∨ j = 2 ∨ j = 3 := by omega
    rcases this with rfl | rfl | rfl | rfl <;>
      simp [set_element_order_internal, d01, d02, d03, d12, d13, d23, Ne.symm d01, Ne.symm d02,
        Ne.symm d03, Ne.symm d12, Ne.symm d13, Ne.symm d23]
  · intro k i hki
    show (if k = elem_ref.comp ∧ i = s 3 then _ else if k = elem_ref.comp ∧ i = s 2 then _
      else if k = elem_ref.comp ∧ i = s 1 then _ else if k = elem_ref.comp ∧ i = s 0 then _
      else st1.orders k i) = st.orders k i
    rw [hord1]
    rcases hki with hk | hi
    · simp [hk]
    · simp [hi 0 (by omega), hi 1 (by omega), hi 2 (by omega), hi 3 (by omega)]
  all_goals first
    | (rw [← hst1]; split_ifs <;> rfl)
    | skip
  -- applying the decision again
  have hact' : ((st1.meshes (st1.mesh_of elem_ref.comp)).get_element elem_ref.id).active = false := by
    rw [hmo1, hmesh1]; exact hact
  unfold apply_refinement
  dsimp only
  rw [if_neg hne, if_pos h]
  have hact2 : ((set_element_order_internal (set_element_order_internal
      (set_element_order_internal (set_element_order_internal st1 elem_ref.comp (s 0)
        (elem_ref.p.getD 0 0)) elem_ref.comp (s 1) (elem_ref.p.getD 1 0)) elem_ref.comp (s 2)
        (elem_ref.p.getD 2 0)) elem_ref.comp (s 3) (elem_ref.p.getD 3 0)).meshes
      ((set_element_order_internal (set_element_order_internal
      (set_element_order_internal (set_element_order_internal st1 elem_ref.comp (s 0)
        (elem_ref.p.getD 0 0)) elem_ref.comp (s 1) (elem_ref.p.getD 1 0)) elem_ref.comp (s 2)
        (elem_ref.p.getD 2 0)) elem_ref.comp (s 3) (elem_ref.p.getD 3 0)).mesh_of
          elem_ref.comp)).get_element elem_ref.id = (st1.meshes (st1.mesh_of elem_ref.comp)).get_element elem_ref.id := rfl
  rw [hact2, hact', if_neg (by simp)]
  rw [assign_four_sons _ elem_ref.comp elem_ref.id elem_ref.p s
    (by intro j hj; exact hsons1 j hj)]
  congr 1
  unfold set_element_order_internal
  congr 1
  funext k i
  dsimp only
  split_ifs <;> rfl

/-- The H decision on the active element 0 of the demo mesh: the mesh gets the
four sons 4..7, which receive the degrees 2, 3, 4, 5, and a second application
changes nothing. -/
theorem apply_refinement_h_split_witness :
    ∃ st', apply_refinement refining_collaborators demo_state h_decision = some st'
      ∧ (st'.meshes 0).active_ids = [1, 2, 3, 4, 5, 6, 7]
      ∧ ((st'.meshes 0).get_element 0).sons = [some 4, some 5, some 6, some 7]
      ∧ st'.orders 0 4 = 2 ∧ st'.orders 0 5 = 3 ∧ st'.orders 0 6 = 4 ∧ st'.orders 0 7 = 5
      ∧ st'.orders 0 1 = 1
      ∧ apply_refinement refining_collaborators st' h_decision = some st' := by
  obtain ⟨st', h1, hm, _, _, ho, hfr, _, _, _, _, _, _, _, _, _, h2⟩ :=
    apply_refinement_h_split refining_collaborators demo_state h_decision (fun j => 4 + j)
      (spec_refine_element_id (demo_state.meshes 0) 0 0) rfl rfl
      (by intro j hj; interval_cases j <;> rfl)
      (by intro i j _ _ hij; simpa using hij) rfl
  have hm0 : st'.meshes 0 = spec_refine_element_id (demo_state.meshes 0) 0 0 := hm
  refine ⟨st', h1, ?_, ?_, ho 0 (by omega), ho 1 (by omega), ho 2 (by omega), ho 3 (by omega),
    ?_, h2⟩
  · rw [hm0]; decide
  · rw [hm0]; rfl
  · rw [hfr 0 1 (Or.inr (by intro j _; simp; omega))]; rfl

/-- C13: for an anisotropic decision (neither P nor H) on an element that is
refined into (or already has) two distinct sons in the slots used by the
split (slots 0 and 1 for split code 1, slots 2 and 3 otherwise): if the element
is active, the mesh of the component becomes the result of one call of
`refine_element_id(id, split)`, otherwise the meshes are unchanged; the two
sons receive `p[0]` and `p[1]` in the decision's component; no other degree is
written, in particular not the degree of a son in one of the other two slots;
all other fields are as before. -/
theorem apply_refinement_aniso_split (c : Collaborators α) (st : AdaptState α)
    (elem_ref : ElementToRefine) (s : Nat → Nat) (m1 : Mesh)
    (hP : elem_ref.split ≠ H2D_REFINEMENT_P) (hH : elem_ref.split ≠ H2D_REFINEMENT_H)
    (hm1 : m1 = if ((st.meshes (st.mesh_of elem_ref.comp)).get_element elem_ref.id).active = true
      then c.refine_element_id (st.meshes (st.mesh_of elem_ref.comp)) elem_ref.id elem_ref.split
      else st.meshes (st.mesh_of elem_ref.comp))
    (hs : ∀ j, j < 2 → (m1.get_element elem_ref.id).sons.getD
      (if elem_ref.split = 1 then j else j + 2) none = some (s j))
    (hdist : s 0 ≠ s 1) :
    ∃ st', apply_refinement c st elem_ref = some st'
      ∧ st'.meshes (st.mesh_of elem_ref.comp) = m1
      ∧ (∀ k, k ≠ st.mesh_of elem_ref.comp → st'.meshes k = st.meshes k)
      ∧ (((st.meshes (st.mesh_of elem_ref.comp)).get_element elem_ref.id).active = false →
          st'.meshes = st.meshes)
      ∧ st'.orders elem_ref.comp (s 0) = elem_ref.p.getD 0 0
      ∧ st'.orders elem_ref.comp (s 1) = elem_ref.p.getD 1 0
      ∧ (∀ k i, (k ≠ elem_ref.comp ∨ (i ≠ s 0 ∧ i ≠ s 1)) → st'.orders k i = st.orders k i)
      ∧ (∀ slot t, slot < 4 → (m1.get_element elem_ref.id).sons.getD slot none = some t →
          t ≠ s 0 → t ≠ s 1 → st'.orders elem_ref.comp t = st.orders elem_ref.comp t)
      ∧ st'.mesh_of = st.mesh_of ∧ st'.num = st.num
      ∧ st'.num_act_elems = st.num_act_elems ∧ st'.have_errors = st.have_errors
      ∧ st'.errors = st.errors ∧ st'.errors_squared_sum = st.errors_squared_sum
      ∧ st'.regular_queue = st.regular_queue ∧ st'.priority_queue = st.priority_queue
      ∧ st'.last_refinements = st.last_refinements := by
  generalize hst1 : (if ((st.meshes (st.mesh_of elem_ref.comp)).get_element elem_ref.id).active
      = true then refine_mesh c st (st.mesh_of elem_ref.comp) elem_ref.id elem_ref.split
      else st) = st1
  have hmesh1 : st1.meshes (st.mesh_of elem_ref.comp) = m1 := by
    rw [← hst1, hm1]
    split_ifs <;> simp [refine_mesh]
  have hother1 : ∀ k, k ≠ st.mesh_of elem_ref.comp → st1.meshes k = st.meshes k := by
    intro k hk
    rw [← hst1]
    split_ifs <;> simp [refine_mesh, hk]
  have hmo1 : st1.mesh_of = st.mesh_of := by
    rw [← hst1]; split_ifs <;> rfl
  have hord1 : st1.orders = st.orders := by
    rw [← hst1]; split_ifs <;> rfl
  have happ : apply_refinement c st elem_ref
      = (List.range 2).foldlM
          (fun t j => set_son_order t elem_ref.comp elem_ref.id
            (if elem_ref.split = 1 then j else j + 2) (elem_ref.p.getD j 0)) st1 := by
    unfold apply_refinement
    dsimp only
    rw [if_neg hP, if_neg hH, ← hst1]
  have hsons1 : ∀ j, j < 2 →
      ((st1.meshes (st1.mesh_of elem_ref.comp)).get_element elem_ref.id).sons.getD
        (if elem_ref.split = 1 then j else j + 2) none = some (s j) := by
    intro j hj
    rw [hmo1, hmesh1]
    exact hs j hj
  rw [happ, assign_two_sons st1 elem_ref.comp elem_ref.id elem_ref.p
    (fun j => if elem_ref.split = 1 then j else j + 2) s hsons1]
  have hfr : ∀ k i, (k ≠ elem_ref.comp ∨ (i ≠ s 0 ∧ i ≠ s 1)) →
      (set_element_order_internal (set_element_order_internal st1 elem_ref.comp (s 0)
        (elem_ref.p.getD 0 0)) elem_ref.comp (s 1) (elem_ref.p.getD 1 0)).orders k i
        = st.orders k i := by
    intro k i hki
    show (if k = elem_ref.comp ∧ i = s 1 then _ else if k = elem_ref.comp ∧ i = s 0 then _
      else st1.orders k i) = st.orders k i
    rw [hord1]
    rcases hki with hk | ⟨h0, h1⟩
    · simp [hk]
    · simp [h0, h1]
  refine ⟨_, rfl, hmesh1, hother1, ?_, ?_, ?_, hfr, ?_, hmo1, ?_, ?_, ?_, ?_, ?_, ?_, ?_, ?_⟩
  · intro hin
    show st1.meshes = st.meshes
    rw [← hst1]
    simp [hin]
  · simp [set_element_order_internal, hdist]
  · simp [set_element_order_internal]
  · intro slot t _ _ h0 h1
    exact hfr _ _ (Or.inr ⟨h0, h1⟩)
  all_goals (rw [← hst1]; split_ifs <;> rfl)

/-- The vertical split of the active element 1 of the demo mesh: slots 2 and 3
receive the new sons 4 and 5 with degrees 2 and 3; the split with code 1 of
element 0 puts the sons into slots 0 and 1. -/
theorem apply_refinement_aniso_split_witness :
    (∃ st', apply_refinement refining_collaborators demo_state aniso_decision = some st'
      ∧ ((st'.meshes 0).get_element 1).sons = [none, none, some 4, some 5]
      ∧ st'.orders 0 4 = 2 ∧ st'.orders 0 5 = 3 ∧ st'.orders 0 0 = 1)
    ∧ (∃ st', apply_refinement refining_collaborators demo_state
          { id := 0, comp := 0, split := H2D_REFINEMENT_ANISO_H, p := [6, 7], q := [] } = some st'
      ∧ ((st'.meshes 0).get_element 0).sons = [some 4, some 5, none, none]
      ∧ st'.orders 0 4 = 6 ∧ st'.orders 0 5 = 7 ∧ st'.orders 0 1 = 1) := by
  constructor
  · obtain ⟨st', h1, hm, _, _, ho0, ho1, hfr, _⟩ :=
      apply_refinement_aniso_split refining_collaborators demo_state aniso_decision
        (fun j => 4 + j) (spec_refine_element_id (demo_state.meshes 0) 1 2)
        (by decide) (by decide) rfl (by intro j hj; interval_cases j <;> rfl) (by decide)
    have hm0 : st'.meshes 0 = spec_refine_element_id (demo_state.meshes 0) 1 2 := hm
    refine ⟨st', h1, ?_, ho0, ho1, ?_⟩
    · rw [hm0]; rfl
    · rw [hfr 0 0 (Or.inr (by decide))]; rfl
  · obtain ⟨st', h1, hm, _, _, ho0, ho1, hfr, _⟩ :=
      apply_refinement_aniso_split refining_collaborators demo_state
        { id := 0, comp := 0, split := H2D_REFINEMENT_ANISO_H, p := [6, 7], q := [] }
        (fun j => 4 + j) (spec_refine_element_id (demo_state.meshes 0) 0 1)
        (by decide) (by decide) rfl (by intro j hj; interval_cases j <;> rfl) (by decide)
    have hm0 : st'.meshes 0 = spec_refine_element_id (demo_state.meshes 0) 0 1 := hm
    refine ⟨st', h1, ?_, ho0, ho1, ?_⟩
    · rw [hm0]; rfl
    · rw [hfr 0 1 (Or.inr (by decide))]; rfl

end ApplyRefinement

/-! ## Homogenization of the degrees on shared meshes -/

section Homogenize

variable {α : Type}

/-- The running maxima of lines 390-396: both coordinates of the result bound
the start value and every visited contribution, and each is one of them. -/
theorem hv_fold_spec (P : Nat → Prop) [DecidablePred P] (fh fv : Nat → Int) (L : List Nat)
    (a r : Int × Int)
    (hr : L.foldl (fun (acc : Int × Int) j =>
      if P j then (max acc.1 (fh j), max acc.2 (fv j)) else acc) a = r) :
    (a.1 ≤ r.1 ∧ (∀ j, j ∈ L → P j → fh j ≤ r.1) ∧ (r.1 = a.1 ∨ ∃ j, j ∈ L ∧ P j ∧ r.1 = fh j))
    ∧ (a.2 ≤ r.2 ∧ (∀ j, j ∈ L → P j → fv j ≤ r.2)
        ∧ (r.2 = a.2 ∨ ∃ j, j ∈ L ∧ P j ∧ r.2 = fv j)) := by
  induction L generalizing a with
  | nil =>
    simp only [List.foldl_nil] at hr
    subst hr
    simp
  | cons j L ih =>
    simp only [List.foldl_cons] at hr
    by_cases hp : P j
    · rw [if_pos hp] at hr
      obtain ⟨⟨h1, h2, h3⟩, ⟨v1, v2, v3⟩⟩ := ih _ hr
      dsimp only at h1 h3 v1 v3
      refine ⟨⟨le_trans (le_max_left _ _) h1, ?_, ?_⟩, ⟨le_trans (le_max_left _ _) v1, ?_, ?_⟩⟩
      · intro k hk hpk
        rcases List.mem_cons.mp hk with rfl | hk
        · exact le_trans (le_max_right _ _) h1
        · exact h2 k hk hpk
      · rcases h3 with h3 | ⟨k, hk, hpk, e⟩
        · rcases max_choice a.1 (fh j) with hm | hm
          · left; rw [h3, hm]
          · right; exact ⟨j, List.mem_cons_self _ _, hp, by rw [h3, hm]⟩
        · right; exact ⟨k, List.mem_cons_of_mem _ hk, hpk, e⟩
      · intro k hk hpk
        rcases List.mem_cons.mp hk with rfl | hk
        · exact le_trans (le_max_right _ _) v1
        · exact v2 k hk hpk
      · rcases v3 with v3 | ⟨k, hk, hpk, e⟩
        · rcases max_choice a.2 (fv j) with hm | hm
          · left; rw [v3, hm]
          · right; exact ⟨j, List.mem_cons_self _ _, hp, by rw [v3, hm]⟩
        · right; exact ⟨k, List.mem_cons_of_mem _ hk, hpk, e⟩
    · rw [if_neg hp] at hr
      obtain ⟨⟨h1, h2, h3⟩, ⟨v1, v2, v3⟩⟩ := ih _ hr
      refine ⟨⟨h1, ?_, ?_⟩, ⟨v1, ?_, ?_⟩⟩
      · intro k hk hpk
        rcases List.mem_cons.mp hk with rfl | hk
        · exact absurd hpk hp
        · exact h2 k hk hpk
      · rcases h3 with h3 | ⟨k, hk, hpk, e⟩
        · left; exact h3
        · right; exact ⟨k, List.mem_cons_of_mem _ hk, hpk, e⟩
      · intro k hk hpk
        rcases List.mem_cons.mp hk with rfl | hk
        · exact absurd hpk hp
        · exact v2 k hk hpk
      · rcases v3 with v3 | ⟨k, hk, hpk, e⟩
        · left; exact v3
        · right; exact ⟨k, List.mem_cons_of_mem _ hk, hpk, e⟩

/-- The new order of an element depends only on the number of components and
on the degrees stored for that element. -/
theorem homogenized_order_congr (c : Collaborators α) (s t : AdaptState α) (meshes : Nat → Nat)
    (i id : Nat) (hn : s.num = t.num) (ho : ∀ j, s.orders j id = t.orders j id) :
    homogenized_order c s meshes i id = homogenized_order c t meshes i id := by
  unfold homogenized_order
  simp only [hn, ho]

/-- Two maxima of the same group coincide. -/
theorem is_group_max_unique (st : AdaptState α) (meshes : Nat → Nat) (proj : Int → Int)
    (g id : Nat) (x y : Int) (hx : is_group_max st meshes proj g id x)
    (hy : is_group_max st meshes proj g id y) : x = y := by
  obtain ⟨ux, jx, hjx, gx, ex⟩ := hx
  obtain ⟨uy, jy, hjy, gy, ey⟩ := hy
  have h1 := uy jx hjx gx
  have h2 := ux jy hjy gy
  rw [ex] at h1
  rw [ey] at h2
  exact le_antisymm h1 h2

/-- Decoding an order made of two group maxima gives the maxima back. -/
theorem decode_group_max (c : Collaborators α) (st : AdaptState α) (meshes : Nat → Nat)
    (hround : ∀ o o2, c.get_h_order (c.make_quad_order (c.get_h_order o) (c.get_v_order o2))
        = c.get_h_order o
      ∧ c.get_v_order (c.make_quad_order (c.get_h_order o) (c.get_v_order o2))
        = c.get_v_order o2)
    (g id : Nat) (H V : Int) (hH : is_group_max st meshes c.get_h_order g id H)
    (hV : is_group_max st meshes c.get_v_order g id V) :
    c.get_h_order (c.make_quad_order H V) = H ∧ c.get_v_order (c.make_quad_order H V) = V := by
  obtain ⟨_, j1, _, _, e1⟩ := hH
  obtain ⟨_, j2, _, _, e2⟩ := hV
  rw [← e1, ← e2]
  exact hround _ _

/-- The order computed for component `i` on element `id` from a state in which
the degree of `i` is still the original one and every other component of the
group holds either its original degree or the pair of group maxima: it is the
pair of group maxima. -/
theorem homogenized_order_is_max (c : Collaborators α) (st s : AdaptState α)
    (meshes : Nat → Nat)
    (hround : ∀ o o2, c.get_h_order (c.make_quad_order (c.get_h_order o) (c.get_v_order o2))
        = c.get_h_order o
      ∧ c.get_v_order (c.make_quad_order (c.get_h_order o) (c.get_v_order o2))
        = c.get_v_order o2)
    (i id : Nat) (hnum : s.num = st.num) (hi : i < st.num)
    (hself : s.orders i id = st.orders i id)
    (hcol : ∀ j, j < st.num → j ≠ i → meshes j = meshes i →
      s.orders j id = st.orders j id
      ∨ ∃ H V, s.orders j id = c.make_quad_order H V
          ∧ is_group_max st meshes c.get_h_order (meshes i) id H
          ∧ is_group_max st meshes c.get_v_order (meshes i) id V) :
    ∃ H V, homogenized_order c s meshes i id = c.make_quad_order H V
      ∧ is_group_max st meshes c.get_h_order (meshes i) id H
      ∧ is_group_max st meshes c.get_v_order (meshes i) id V := by
  unfold homogenized_order
  dsimp only
  generalize hr : (List.range s.num).foldl
    (fun (acc : Int × Int) j =>
      if j ≠ i ∧ meshes j = meshes i then
        (max acc.1 (c.get_h_order (s.orders j id)), max acc.2 (c.get_v_order (s.orders j id)))
      else acc)
    (c.get_h_order (s.orders i id), c.get_v_order (s.orders i id)) = r
  obtain ⟨⟨h1, h2, h3⟩, ⟨v1, v2, v3⟩⟩ :=
    hv_fold_spec (fun j => j ≠ i ∧ meshes j = meshes i)
      (fun j => c.get_h_order (s.orders j id)) (fun j => c.get_v_order (s.orders j id))
      (List.range s.num) _ r hr
  dsimp only at h1 h2 h3 v1 v2 v3
  rw [hself] at h1 h3 v1 v3
  rw [hnum] at h2 h3 v2 v3
  refine ⟨r.1, r.2, rfl, ⟨?_, ?_⟩, ⟨?_, ?_⟩⟩
  · intro j hj hg
    by_cases hji : j = i
    · rw [hji]; exact h1
    · have hb := h2 j (List.mem_range.mpr hj) ⟨hji, hg⟩
      rcases hcol j hj hji hg with e | ⟨H, V, e, hH, hV⟩
      · rw [e] at hb; exact hb
      · rw [e, (decode_group_max c st meshes hround _ id H V hH hV).1] at hb
        exact le_trans (hH.1 j hj hg) hb
  · rcases h3 with e | ⟨j, hj, ⟨hji, hg⟩, e⟩
    · exact ⟨i, hi, rfl, e.symm⟩
    · have hj2 := List.mem_range.mp hj
      rcases hcol j hj2 hji hg with e2 | ⟨H, V, e2, hH, hV⟩
      · exact ⟨j, hj2, hg, by rw [e, e2]⟩
      · rw [e2, (decode_group_max c st meshes hround _ id H V hH hV).1] at e
        rw [e]; exact hH.2
  · intro j hj hg
    by_cases hji : j = i
    · rw [hji]; exact v1
    · have hb := v2 j (List.mem_range.mpr hj) ⟨hji, hg⟩
      rcases hcol j hj hji hg with e | ⟨H, V, e, hH, hV⟩
      · rw [e] at hb; exact hb
      · rw [e, (decode_group_max c st meshes hround _ id H V hH hV).2] at hb
        exact le_trans (hV.1 j hj hg) hb
  · rcases v3 with e | ⟨j, hj, ⟨hji, hg⟩, e⟩
    · exact ⟨i, hi, rfl, e.symm⟩
    · have hj2 := List.mem_range.mp hj
      rcases hcol j hj2 hji hg with e2 | ⟨H, V, e2, hH, hV⟩
      · exact ⟨j, hj2, hg, by rw [e, e2]⟩
      · rw [e2, (decode_group_max c st meshes hround _ id H V hH hV).2] at e
        rw [e]; exact hV.2

/-- The inner loop over the elements of one component (lines 386-399): the
degrees of component `i` on the visited elements become the orders computed
from the state at the start of the loop; nothing else changes. -/
theorem homogenize_row (c : Collaborators α) (meshes : Nat → Nat) (i : Nat) (L : List Nat)
    (hL : L.Nodup) (s s2 : AdaptState α)
    (hs2 : L.foldl (fun s1 id =>
      set_element_order_internal s1 i id (homogenized_order c s1 meshes i id)) s = s2) :
    s2.meshes = s.meshes ∧ s2.num = s.num
    ∧ ∀ k id, s2.orders k id
        = if k = i ∧ id ∈ L then homogenized_order c s meshes i id else s.orders k id := by
  induction L generalizing s with
  | nil =>
    simp only [List.foldl_nil] at hs2
    subst hs2
    simp
  | cons a L ih =>
    simp only [List.foldl_cons] at hs2
    obtain ⟨ha, hL2⟩ := List.nodup_cons.mp hL
    obtain ⟨m1, n1, o1⟩ := ih hL2 _ hs2
    refine ⟨m1, n1, ?_⟩
    intro k id
    rw [o1]
    by_cases hk : k = i ∧ id ∈ L
    · have hne : id ≠ a := fun e => ha (e ▸ hk.2)
      rw [if_pos hk, if_pos ⟨hk.1, List.mem_cons_of_mem _ hk.2⟩]
      apply homogenized_order_congr
      · rfl
      · intro j
        show (if j = i ∧ id = a then _ else s.orders j id) = s.orders j id
        rw [if_neg (fun h => hne h.2)]
    · rw [if_neg hk]
      show (if k = i ∧ id = a then _ else s.orders k id) = _
      by_cases hka : k = i ∧ id = a
      · rw [if_pos hka, if_pos ⟨hka.1, by rw [hka.2]; exact List.mem_cons_self _ _⟩, hka.2]
      · rw [if_neg hka, if_neg]
        rintro ⟨h1, h2⟩
        rcases List.mem_cons.mp h2 with h2 | h2
        · exact hka ⟨h1, h2⟩
        · exact hk ⟨h1, h2⟩

/-- The outer loop after the first `n` components: the components below `n`
hold the pair of group maxima on the active elements of their mesh, every
other degree is the original one. -/
theorem homogenize_upto (c : Collaborators α) (st : AdaptState α) (meshes : Nat → Nat)
    (hround : ∀ o o2, c.get_h_order (c.make_quad_order (c.get_h_order o) (c.get_v_order o2))
        = c.get_h_order o
      ∧ c.get_v_order (c.make_quad_order (c.get_h_order o) (c.get_v_order o2))
        = c.get_v_order o2)
    (n : Nat) (hn : n ≤ st.num) (s : AdaptState α)
    (hs : (List.range n).foldl
      (fun s i =>
        (s.meshes (meshes i)).active_ids.foldl
          (fun s1 id => set_element_order_internal s1 i id (homogenized_order c s1 meshes i id)) s)
      st = s) :
    s.meshes = st.meshes ∧ s.num = st.num
    ∧ (∀ j id, j < n → id ∈ (st.meshes (meshes j)).active_ids →
        ∃ H V, s.orders j id = c.make_quad_order H V
          ∧ is_group_max st meshes c.get_h_order (meshes j) id H
          ∧ is_group_max st meshes c.get_v_order (meshes j) id V)
    ∧ (∀ j id, ¬ (j < n ∧ id ∈ (st.meshes (meshes j)).active_ids) →
        s.orders j id = st.orders j id) := by
  induction n generalizing s with
  | zero =>
    simp only [List.range_zero, List.foldl_nil] at hs
    subst hs
    exact ⟨rfl, rfl, fun j id hj => absurd hj (Nat.not_lt_zero _), fun _ _ _ => rfl⟩
  | succ n ih =>
    rw [List.range_succ, List.foldl_append] at hs
    simp only [List.foldl_cons, List.foldl_nil] at hs
    obtain ⟨m0, n0, a0, b0⟩ := ih (by omega) _ rfl
    rw [m0] at hs
    obtain ⟨m1, n1, o1⟩ := homogenize_row c meshes n _
      (List.Nodup.filter _ (List.nodup_range _)) _ s hs
    refine ⟨m1.trans m0, n1.trans n0, ?_, ?_⟩
    · intro j id hj hid
      rw [o1]
      by_cases hjn : j = n
      · subst hjn
        rw [if_pos ⟨rfl, hid⟩]
        apply homogenized_order_is_max c st _ meshes hround j id n0 (by omega)
        · exact b0 j id (fun h => by omega)
        · intro k hk hkj hg
          by_cases hkn : k < j
          · right
            have := a0 k id hkn (by rw [hg]; exact hid)
            rw [hg] at this
            exact this
          · left
            exact b0 k id (fun h => hkn h.1)
      · rw [if_neg (fun h => hjn h.1)]
        exact a0 j id (by omega) hid
    · intro j id hno
      rw [o1]
      by_cases hjn : j = n
      · subst hjn
        rw [if_neg (fun h => hno ⟨by omega, h.2⟩)]
        exact b0 j id (fun h => by omega)
      · rw [if_neg (fun h => hjn h.1)]
        exact b0 j id (fun h => hno ⟨by omega, h.2⟩)

/-- C14: provided decoding undoes encoding on decoded values (and, for the
last part, encoding undoes decoding), after `homogenize_shared_mesh_orders`
every component `i` has, on every active element of its mesh, a horizontal
order equal to the maximum of the horizontal orders that the components
sharing the mesh had before the pass, and likewise for the vertical order; all
sharing components end with the same order, no order decreases, the order of
an element of a mesh used by a single component is kept, every other degree
and the meshes are unchanged. -/
theorem homogenize_takes_group_maxima (c : Collaborators α) (st : AdaptState α)
    (meshes : Nat → Nat)
    (hround : ∀ o o2, c.get_h_order (c.make_quad_order (c.get_h_order o) (c.get_v_order o2))
        = c.get_h_order o
      ∧ c.get_v_order (c.make_quad_order (c.get_h_order o) (c.get_v_order o2))
        = c.get_v_order o2)
    (hid : ∀ o, c.make_quad_order (c.get_h_order o) (c.get_v_order o) = o) :
    (homogenize_shared_mesh_orders c st meshes).meshes = st.meshes
    ∧ (∀ i id, i < st.num → id ∈ (st.meshes (meshes i)).active_ids →
        is_group_max st meshes c.get_h_order (meshes i) id
          (c.get_h_order ((homogenize_shared_mesh_orders c st meshes).orders i id))
        ∧ is_group_max st meshes c.get_v_order (meshes i) id
          (c.get_v_order ((homogenize_shared_mesh_orders c st meshes).orders i id))
        ∧ (∀ j, j < st.num → meshes j = meshes i →
            (homogenize_shared_mesh_orders c st meshes).orders j id
              = (homogenize_shared_mesh_orders c st meshes).orders i id)
        ∧ c.get_h_order (st.orders i id)
            ≤ c.get_h_order ((homogenize_shared_mesh_orders c st meshes).orders i id)
        ∧ c.get_v_order (st.orders i id)
            ≤ c.get_v_order ((homogenize_shared_mesh_orders c st meshes).orders i id)
        ∧ ((∀ j, j < st.num → meshes j = meshes i → j = i) →
            (homogenize_shared_mesh_orders c st meshes).orders i id = st.orders i id))
    ∧ (∀ i id, ¬ (i < st.num ∧ id ∈ (st.meshes (meshes i)).active_ids) →
        (homogenize_shared_mesh_orders c st meshes).orders i id = st.orders i id) := by
  obtain ⟨m0, _, a0, b0⟩ :=
    homogenize_upto c st meshes hround st.num (le_refl _)
      (homogenize_shared_mesh_orders c st meshes) rfl
  refine ⟨m0, ?_, b0⟩
  intro i id hi hact
  obtain ⟨H, V, e, hH, hV⟩ := a0 i id hi hact
  obtain ⟨dH, dV⟩ := decode_group_max c st meshes hround _ id H V hH hV
  rw [e, dH, dV]
  refine ⟨hH, hV, ?_, hH.1 i hi rfl, hV.1 i hi rfl, ?_⟩
  · intro j hj hg
    obtain ⟨H2, V2, e2, hH2, hV2⟩ := a0 j id hj (by rw [hg]; exact hact)
    rw [hg] at hH2 hV2
    rw [e2, is_group_max_unique st meshes _ _ id H2 H hH2 hH,
      is_group_max_unique st meshes _ _ id V2 V hV2 hV]
  · intro hsingle
    obtain ⟨_, j1, hj1, g1, e1⟩ := hH
    obtain ⟨_, j2, hj2, g2, e2⟩ := hV
    rw [hsingle j1 hj1 g1] at e1
    rw [hsingle j2 hj2 g2] at e2
    rw [← e1, ← e2]
    exact hid _

/-- The pass on the three components of `mixed_state` with the five-bit
encoding: components 0 and 1, which share mesh 0, both end with (h, v) =
(4, 3), encoded as 100, and component 2 keeps its order 33. -/
theorem homogenize_takes_group_maxima_witness :
    is_group_max mixed_state mixed_state.mesh_of demo_collaborators.get_h_order 0 0 4
    ∧ is_group_max mixed_state mixed_state.mesh_of demo_collaborators.get_v_order 0 0 3
    ∧ (homogenize_shared_mesh_orders demo_collaborators mixed_state mixed_state.mesh_of).orders 0 0
        = 100
    ∧ (homogenize_shared_mesh_orders demo_collaborators mixed_state mixed_state.mesh_of).orders 1 0
        = 100
    ∧ (homogenize_shared_mesh_orders demo_collaborators mixed_state mixed_state.mesh_of).orders 2 0
        = 33 := by
  obtain ⟨_, h, _⟩ :=
    homogenize_takes_group_maxima demo_collaborators mixed_state mixed_state.mesh_of
      (by
        intro o o2
        constructor
        · show ((o2 / 32) * 32 + o % 32) % 32 = o % 32
          omega
        · show ((o2 / 32) * 32 + o % 32) / 32 = o2 / 32
          omega)
      (by
        intro o
        show (o / 32) * 32 + o % 32 = o
        omega)
  have e0 : (homogenize_shared_mesh_orders demo_collaborators mixed_state
      mixed_state.mesh_of).orders 0 0 = 100 := by decide
  obtain ⟨hH, hV, hsame, _, _, _⟩ := h 0 0 (by decide) (by decide)
  obtain ⟨_, _, _, _, _, hkeep⟩ := h 2 0 (by decide) (by decide)
  rw [e0] at hH hV
  refine ⟨hH, hV, e0, ?_, ?_⟩
  · rw [hsame 1 (by decide) (by decide), e0]
  · rw [hkeep (by
      intro j hj hg
      have hj3 : j < 3 := hj
      interval_cases j
      · exact absurd hg (by decide)
      · exact absurd hg (by decide)
      · rfl)]
    rfl

end Homogenize

/-! ## Unrefinement -/

section Unrefine

variable {α : Type} [LinearOrderedField α]

/-- The update `if (oo > max) max = oo` keeps the larger value. -/
theorem keep_larger (a b : Int) : (if b > a then b else a) = max a b := by
  split_ifs <;> omega

/-- The accumulators of the multimesh branch over any list of slots. -/
theorem multi_fold_eq (st : AdaptState α) (m : Nat) (e : Element) (L : List Nat) (a : α)
    (mx : Int) :
    L.foldl
      (fun (acc : α × Int) i =>
        match e.sons.getD i none with
        | none => acc
        | some s =>
          (acc.1 + st.errors m s, if st.orders m s > acc.2 then st.orders m s else acc.2))
      (a, mx)
    = (a + ((L.filterMap (fun i => e.sons.getD i none)).map (st.errors m)).sum,
        ((L.filterMap (fun i => e.sons.getD i none)).map (st.orders m)).foldl max mx) := by
  induction L generalizing a mx with
  | nil => simp
  | cons i L ih =>
    rw [List.foldl_cons, List.filterMap_cons]
    cases h : e.sons.getD i none with
    | none =>
      dsimp only
      rw [ih]
    | some s =>
      dsimp only
      rw [ih, keep_larger, List.map_cons, List.sum_cons, List.map_cons, List.foldl_cons, add_assoc]

/-- The accumulators of the single-mesh branch over any list of slots. -/
theorem single_fold_eq (st : AdaptState α) (e : Element) (L : List Nat) (a1 a2 : α)
    (m1 m2 : Int) :
    L.foldl
      (fun (acc : α × α × Int × Int) i =>
        match e.sons.getD i none with
        | none => acc
        | some s =>
          (acc.1 + st.errors 0 s, acc.2.1 + st.errors 1 s,
            if st.orders 0 s > acc.2.2.1 then st.orders 0 s else acc.2.2.1,
            if st.orders 1 s > acc.2.2.2 then st.orders 1 s else acc.2.2.2))
      (a1, a2, m1, m2)
    = (a1 + ((L.filterMap (fun i => e.sons.getD i none)).map (st.errors 0)).sum,
        a2 + ((L.filterMap (fun i => e.sons.getD i none)).map (st.errors 1)).sum,
        ((L.filterMap (fun i => e.sons.getD i none)).map (st.orders 0)).foldl max m1,
        ((L.filterMap (fun i => e.sons.getD i none)).map (st.orders 1)).foldl max m2) := by
  induction L generalizing a1 a2 m1 m2 with
  | nil => simp
  | cons i L ih =>
    rw [List.foldl_cons, List.filterMap_cons]
    cases h : e.sons.getD i none with
    | none =>
      dsimp only
      rw [ih]
    | some s =>
      dsimp only
      rw [ih, keep_larger, keep_larger]
      simp only [List.map_cons, List.sum_cons, List.foldl_cons, add_assoc]

/-- The accumulators of the multimesh branch are the sum of the sons' errors
and the maximum of 0 and the sons' degrees. -/
theorem multi_mesh_sums_eq (st : AdaptState α) (m : Nat) (e : Element) :
    multi_mesh_sums st m e = (sons_error_sum st m e, sons_max_order st m e) := by
  unfold multi_mesh_sums sons_error_sum sons_max_order sons_of
  rw [multi_fold_eq, zero_add]

/-- The accumulators of the single-mesh branch are the sums of the sons'
errors and the maxima of 0 and the sons' degrees of the two components. -/
theorem single_mesh_sums_eq (st : AdaptState α) (e : Element) :
    single_mesh_sums st e
      = (sons_error_sum st 0 e, sons_error_sum st 1 e, sons_max_order st 0 e,
          sons_max_order st 1 e) := by
  unfold single_mesh_sums sons_error_sum sons_max_order sons_of H2D_MAX_ELEMENT_SONS
  rw [single_fold_eq, zero_add, zero_add]

/-- A running maximum bounds its start value and every entry and is one of
them. -/
theorem foldl_max_spec (l : List Int) (a : Int) :
    a ≤ l.foldl max a ∧ (∀ x, x ∈ l → x ≤ l.foldl max a)
      ∧ (l.foldl max a = a ∨ l.foldl max a ∈ l) := by
  induction l generalizing a with
  | nil => simp
  | cons y l ih =>
    rw [List.foldl_cons]
    obtain ⟨h1, h2, h3⟩ := ih (max a y)
    refine ⟨le_trans (le_max_left _ _) h1, ?_, ?_⟩
    · intro x hx
      rcases List.mem_cons.mp hx with rfl | hx
      · exact le_trans (le_max_right _ _) h1
      · exact h2 x hx
    · rcases h3 with h3 | h3
      · rcases max_choice a y with hm | hm
        · left; rw [h3, hm]
        · right; rw [h3, hm]; exact List.mem_cons_self _ _
      · right; exact List.mem_cons_of_mem _ h3

/-- The value `sons_max_order` is at least 0 and at least the degree of every
son; it is the degree of a son as soon as one son has a non-negative degree. -/
theorem sons_max_order_spec {β : Type} (st : AdaptState β) (comp : Nat) (e : Element) :
    0 ≤ sons_max_order st comp e
    ∧ (∀ s, s ∈ sons_of e → st.orders comp s ≤ sons_max_order st comp e)
    ∧ ((∃ s, s ∈ sons_of e ∧ 0 ≤ st.orders comp s) →
        ∃ s, s ∈ sons_of e ∧ sons_max_order st comp e = st.orders comp s) := by
  obtain ⟨h1, h2, h3⟩ := foldl_max_spec ((sons_of e).map (st.orders comp)) 0
  refine ⟨h1, ?_, ?_⟩
  · intro s hs
    exact h2 _ (List.mem_map_of_mem _ hs)
  · rintro ⟨s, hs, h0⟩
    rcases h3 with h3 | h3
    · have hle := h2 _ (List.mem_map_of_mem (st.orders comp) hs)
      refine ⟨s, hs, ?_⟩
      unfold sons_max_order
      rw [h3] at hle ⊢
      omega
    · obtain ⟨t, ht, e2⟩ := List.mem_map.mp h3
      exact ⟨t, ht, e2.symm⟩

/-- One visit of the merge loops of `unrefine` at an element slot, with
`r` the head of the regular queue.  An element that is inactive and whose
existing sons are all active and not curved is merged exactly when the summed
errors of its sons are below `thr * errors[r.comp][r.id]`: in the single-mesh
branch (both components on one mesh) when this holds for component 0 and for
component 1, in the multimesh branch when it holds for the component `m` of the
mesh.  When merged, `unrefine_element_id` is called on the mesh (once per
component), the parent's error in each merged component becomes the sum of the
sons' errors, its degree becomes the maximum of the sons' degrees (and 0), and
nothing else changes; when the condition fails, or the element is not such a
parent, the state is unchanged. -/
theorem merge_step_spec (unrefine_element_id : Mesh → Nat → Mesh) (thr : α)
    (st : AdaptState α) (id m : Nat) (r : ElementReference) (rest : List ElementReference)
    (hq : st.regular_queue = r :: rest) :
    -- single mesh
    (st.mesh_of 0 = st.mesh_of 1 →
      ((st.meshes (st.mesh_of 0)).get_element id).used = true →
      ((st.meshes (st.mesh_of 0)).get_element id).active = false →
      sons_mergeable 4 (st.meshes (st.mesh_of 0)) ((st.meshes (st.mesh_of 0)).get_element id)
        = true →
      ((sons_error_sum st 0 ((st.meshes (st.mesh_of 0)).get_element id)
            < thr * st.errors r.comp r.id
          ∧ sons_error_sum st 1 ((st.meshes (st.mesh_of 0)).get_element id)
            < thr * st.errors r.comp r.id →
        ∃ st', merge_single_step unrefine_element_id thr st id = some st'
          ∧ st'.meshes (st.mesh_of 0)
              = unrefine_element_id (unrefine_element_id (st.meshes (st.mesh_of 0)) id) id
          ∧ (∀ k, k ≠ st.mesh_of 0 → st'.meshes k = st.meshes k)
          ∧ st'.errors 0 id = sons_error_sum st 0 ((st.meshes (st.mesh_of 0)).get_element id)
          ∧ st'.errors 1 id = sons_error_sum st 1 ((st.meshes (st.mesh_of 0)).get_element id)
          ∧ (∀ k i, ¬ ((k = 0 ∨ k = 1) ∧ i = id) → st'.errors k i = st.errors k i)
          ∧ st'.orders 0 id = sons_max_order st 0 ((st.meshes (st.mesh_of 0)).get_element id)
          ∧ st'.orders 1 id = sons_max_order st 1 ((st.meshes (st.mesh_of 0)).get_element id)
          ∧ (∀ k i, ¬ ((k = 0 ∨ k = 1) ∧ i = id) → st'.orders k i = st.orders k i)
          ∧ st'.regular_queue = st.regular_queue ∧ st'.mesh_of = st.mesh_of
          ∧ st'.num = st.num ∧ st'.have_errors = st.have_errors)
      ∧ (¬ (sons_error_sum st 0 ((st.meshes (st.mesh_of 0)).get_element id)
              < thr * st.errors r.comp r.id
            ∧ sons_error_sum st 1 ((st.meshes (st.mesh_of 0)).get_element id)
              < thr * st.errors r.comp r.id) →
          merge_single_step unrefine_element_id thr st id = some st)))
    -- one mesh per component
    ∧ (((st.meshes (st.mesh_of m)).get_element id).used = true →
      ((st.meshes (st.mesh_of m)).get_element id).active = false →
      sons_mergeable H2D_MAX_ELEMENT_SONS (st.meshes (st.mesh_of m))
        ((st.meshes (st.mesh_of m)).get_element id) = true →
      (sons_error_sum st m ((st.meshes (st.mesh_of m)).get_element id)
            < thr * st.errors r.comp r.id →
        ∃ st', merge_multi_step unrefine_element_id thr m st id = some st'
          ∧ st'.meshes (st.mesh_of m) = unrefine_element_id (st.meshes (st.mesh_of m)) id
          ∧ (∀ k, k ≠ st.mesh_of m → st'.meshes k = st.meshes k)
          ∧ st'.errors m id = sons_error_sum st m ((st.meshes (st.mesh_of m)).get_element id)
          ∧ (∀ k i, ¬ (k = m ∧ i = id) → st'.errors k i = st.errors k i)
          ∧ st'.orders m id = sons_max_order st m ((st.meshes (st.mesh_of m)).get_element id)
          ∧ (∀ k i, ¬ (k = m ∧ i = id) → st'.orders k i = st.orders k i)
          ∧ st'.regular_queue = st.regular_queue ∧ st'.mesh_of = st.mesh_of
          ∧ st'.num = st.num ∧ st'.have_errors = st.have_errors)
      ∧ (¬ sons_error_sum st m ((st.meshes (st.mesh_of m)).get_element id)
              < thr * st.errors r.comp r.id →
          merge_multi_step unrefine_element_id thr m st id = some st))
    -- other slots are skipped
    ∧ (¬ (((st.meshes (st.mesh_of 0)).get_element id).used = true
          ∧ ((st.meshes (st.mesh_of 0)).get_element id).active = false
          ∧ sons_mergeable 4 (st.meshes (st.mesh_of 0))
              ((st.meshes (st.mesh_of 0)).get_element id) = true) →
        merge_single_step unrefine_element_id thr st id = some st)
    ∧ (¬ (((st.meshes (st.mesh_of m)).get_element id).used = true
          ∧ ((st.meshes (st.mesh_of m)).get_element id).active = false
          ∧ sons_mergeable H2D_MAX_ELEMENT_SONS (st.meshes (st.mesh_of m))
              ((st.meshes (st.mesh_of m)).get_element id) = true) →
        merge_multi_step unrefine_element_id thr m st id = some st) := by
  have hhead : st.regular_queue.head? = some r := by rw [hq]; rfl
  refine ⟨?_, ?_, ?_, ?_⟩
  · intro hsame hu ha hm
    constructor
    · intro hlt
      have hstep : merge_single_step unrefine_element_id thr st id
          = some (set_element_order_internal (set_element_order_internal
              (set_error (set_error
                (unrefine_mesh unrefine_element_id
                  (unrefine_mesh unrefine_element_id st (st.mesh_of 0) id) (st.mesh_of 1) id)
                0 id (sons_error_sum st 0 ((st.meshes (st.mesh_of 0)).get_element id)))
                1 id (sons_error_sum st 1 ((st.meshes (st.mesh_of 0)).get_element id)))
              0 id (sons_max_order st 0 ((st.meshes (st.mesh_of 0)).get_element id)))
              1 id (sons_max_order st 1 ((st.meshes (st.mesh_of 0)).get_element id))) := by
        unfold merge_single_step
        simp only [hu, ha, hm, hhead, single_mesh_sums_eq, hlt, Bool.not_false, Bool.and_self,
          if_true, and_self]
      refine ⟨_, hstep, ?_, ?_, ?_, ?_, ?_, ?_, ?_, ?_, rfl, rfl, rfl, rfl⟩
      · simp [set_element_order_internal, set_error, unrefine_mesh, ← hsame]
      · intro k hk
        simp [set_element_order_internal, set_error, unrefine_mesh, ← hsame, hk]
      · simp [set_element_order_internal, set_error]
      · simp [set_element_order_internal, set_error]
      · intro k i hki
        have h0 : ¬ (k = 0 ∧ i = id) := fun h => hki ⟨Or.inl h.1, h.2⟩
        have h1 : ¬ (k = 1 ∧ i = id) := fun h => hki ⟨Or.inr h.1, h.2⟩
        simp [set_element_order_internal, set_error, unrefine_mesh, h0, h1]
      · simp [set_element_order_internal]
      · simp [set_element_order_internal]
      · intro k i hki
        have h0 : ¬ (k = 0 ∧ i = id) := fun h => hki ⟨Or.inl h.1, h.2⟩
        have h1 : ¬ (k = 1 ∧ i = id) := fun h => hki ⟨Or.inr h.1, h.2⟩
        simp [set_element_order_internal, set_error, unrefine_mesh, h0, h1]
    · intro hno
      unfold merge_single_step
      simp only [hu, ha, hm, hhead, single_mesh_sums_eq, hno, Bool.not_false, Bool.and_self,
        if_true, if_false]
  · intro hu ha hm
    constructor
    · intro hlt
      have hstep : merge_multi_step unrefine_element_id thr m st id
          = some (set_element_order_internal (set_error
                (unrefine_mesh unrefine_element_id st (st.mesh_of m) id)
                m id (sons_error_sum st m ((st.meshes (st.mesh_of m)).get_element id)))
              m id (sons_max_order st m ((st.meshes (st.mesh_of m)).get_element id))) := by
        unfold merge_multi_step
        simp only [hu, ha, hm, hhead, multi_mesh_sums_eq, hlt, Bool.not_false, Bool.and_self,
          if_true]
      refine ⟨_, hstep, ?_, ?_, ?_, ?_, ?_, ?_, rfl, rfl, rfl, rfl⟩
      · simp [set_element_order_internal, set_error, unrefine_mesh]
      · intro k hk
        simp [set_element_order_internal, set_error, unrefine_mesh, hk]
      · simp [set_element_order_internal, set_error]
      · intro k i hki
        simp [set_element_order_internal, set_error, unrefine_mesh, hki]
      · simp [set_element_order_internal]
      · intro k i hki
        simp [set_element_order_internal, set_error, unrefine_mesh, hki]
    · intro hno
      unfold merge_multi_step
      simp only [hu, ha, hm, hhead, multi_mesh_sums_eq, hno, Bool.not_false, Bool.and_self,
        if_true, if_false]
  · intro hno
    unfold merge_single_step
    dsimp only
    by_cases h1 : (((st.meshes (st.mesh_of 0)).get_element id).used
        && !((st.meshes (st.mesh_of 0)).get_element id).active) = true
    · rw [if_pos h1]
      by_cases h2 : sons_mergeable 4 (st.meshes (st.mesh_of 0))
          ((st.meshes (st.mesh_of 0)).get_element id) = true
      · exfalso
        apply hno
        simp only [Bool.and_eq_true, Bool.not_eq_true'] at h1
        exact ⟨h1.1, h1.2, h2⟩
      · rw [if_neg h2]
    · rw [if_neg h1]
  · intro hno
    unfold merge_multi_step
    dsimp only
    by_cases h1 : (((st.meshes (st.mesh_of m)).get_element id).used
        && !((st.meshes (st.mesh_of m)).get_element id).active) = true
    · rw [if_pos h1]
      by_cases h2 : sons_mergeable H2D_MAX_ELEMENT_SONS (st.meshes (st.mesh_of m))
          ((st.meshes (st.mesh_of m)).get_element id) = true
      · exfalso
        apply hno
        simp only [Bool.and_eq_true, Bool.not_eq_true'] at h1
        exact ⟨h1.1, h1.2, h2⟩
      · rw [if_neg h2]
    · rw [if_neg h1]

/-- The sons of the split element of `coarsen_state`. -/
theorem coarsen_sons (k : Nat) :
    sons_of ((coarsen_state.meshes k).get_element 0) = [1, 2, 3, 4] := by
  rfl

/-- The summed errors of the sons in `coarsen_state`: 4 in component 0 and 2
in component 1. -/
theorem coarsen_sums (k : Nat) :
    sons_error_sum coarsen_state 0 ((coarsen_state.meshes k).get_element 0) = 4
    ∧ sons_error_sum coarsen_state 1 ((coarsen_state.meshes k).get_element 0) = 2 := by
  unfold sons_error_sum
  rw [coarsen_sons]
  constructor <;> norm_num [coarsen_state]

/-- The merge of element 0 of `coarsen_state` with threshold 1/10 (bound 10):
in the single-mesh branch the sons, with summed errors 4 and 2, are merged and
the parent gets the errors 4 and 2 and the degrees 3 and 2; in the multimesh
branch component 1 alone is merged; with threshold 1/100 (bound 1) nothing
happens. -/
theorem merge_step_spec_demo :
    (∃ st', merge_single_step spec_unrefine_element_id (1 / 10) coarsen_state 0 = some st'
      ∧ (st'.meshes 0).active_ids = [0, 5]
      ∧ st'.errors 0 0 = 4 ∧ st'.errors 1 0 = 2 ∧ st'.orders 0 0 = 3 ∧ st'.orders 1 0 = 2)
    ∧ (∃ st', merge_multi_step spec_unrefine_element_id (1 / 10) 1 coarsen_state 0 = some st'
      ∧ st'.errors 1 0 = 2 ∧ st'.orders 1 0 = 2 ∧ st'.errors 0 0 = 1 ∧ st'.orders 0 0 = 2)
    ∧ merge_single_step spec_unrefine_element_id (1 / 100) coarsen_state 0 = some coarsen_state := by
  obtain ⟨hS, hM, _, _⟩ :=
    merge_step_spec spec_unrefine_element_id (1 / 10) coarsen_state 0 1 ⟨5, 0⟩
      [⟨5, 1⟩, ⟨1, 0⟩, ⟨2, 0⟩, ⟨3, 0⟩, ⟨4, 0⟩, ⟨1, 1⟩, ⟨2, 1⟩, ⟨3, 1⟩, ⟨4, 1⟩] rfl
  obtain ⟨hS2, _, _, _⟩ :=
    merge_step_spec spec_unrefine_element_id (1 / 100) coarsen_state 0 1 ⟨5, 0⟩
      [⟨5, 1⟩, ⟨1, 0⟩, ⟨2, 0⟩, ⟨3, 0⟩, ⟨4, 0⟩, ⟨1, 1⟩, ⟨2, 1⟩, ⟨3, 1⟩, ⟨4, 1⟩] rfl
  obtain ⟨s0, s1⟩ := coarsen_sums (coarsen_state.mesh_of 0)
  obtain ⟨_, t1⟩ := coarsen_sums (coarsen_state.mesh_of 1)
  refine ⟨?_, ?_, ?_⟩
  · obtain ⟨st', h1, hm, _, e0, e1, _, o0, o1, _⟩ :=
      (hS rfl rfl rfl (by decide)).1
        (by rw [s0, s1]; norm_num [coarsen_state])
    refine ⟨st', h1, ?_, ?_, ?_, ?_, ?_⟩
    · have hm0 : st'.meshes 0 = spec_unrefine_element_id
          (spec_unrefine_element_id (coarsen_state.meshes 0) 0) 0 := hm
      rw [hm0]; decide
    · rw [e0, s0]
    · rw [e1, s1]
    · rw [o0]; decide
    · rw [o1]; decide
  · obtain ⟨st', h1, _, _, e1, ef, o1, orf, _⟩ :=
      (hM rfl rfl (by decide)).1 (by rw [t1]; norm_num [coarsen_state])
    refine ⟨st', h1, ?_, ?_, ?_, ?_⟩
    · rw [e1, t1]
    · rw [o1]; decide
    · rw [ef 0 0 (by decide)]; norm_num [coarsen_state]
    · rw [orf 0 0 (by decide)]; decide
  · exact (hS2 rfl rfl rfl (by decide)).2 (by rw [s0, s1]; norm_num [coarsen_state])

/-- Nothing but degrees differs between a state and itself. -/
theorem same_but_orders_refl {β : Type} (s : AdaptState β) : same_but_orders s s :=
  ⟨rfl, rfl, rfl, rfl, rfl, rfl, rfl, rfl, rfl, rfl⟩

/-- The relation `same_but_orders` is transitive. -/
theorem same_but_orders_trans {β : Type} (s t u : AdaptState β) (h1 : same_but_orders s t)
    (h2 : same_but_orders t u) : same_but_orders s u := by
  obtain ⟨a1, a2, a3, a4, a5, a6, a7, a8, a9, a10⟩ := h1
  obtain ⟨b1, b2, b3, b4, b5, b6, b7, b8, b9, b10⟩ := h2
  exact ⟨b1.trans a1, b2.trans a2, b3.trans a3, b4.trans a4, b5.trans a5, b6.trans a6,
    b7.trans a7, b8.trans a8, b9.trans a9, b10.trans a10⟩

/-- One degree-lowering test with a non-empty regular queue. -/
theorem lower_step_spec (c : Collaborators α) (thr : α) (s : AdaptState α) (k id : Nat)
    (r : ElementReference) (rest : List ElementReference) (hq : s.regular_queue = r :: rest) :
    ∃ s', lower_step c thr s k id = some s' ∧ same_but_orders s s'
      ∧ ∀ k2 i2, s'.orders k2 i2
          = if k2 = k ∧ i2 = id then lowered_order c thr s r k id else s.orders k2 i2 := by
  have hhead : s.regular_queue.head? = some r := by rw [hq]; rfl
  unfold lower_step
  rw [hhead]
  dsimp only
  by_cases hlt : s.errors k id < thr / 4 * s.errors r.comp r.id
  · rw [if_pos hlt]
    refine ⟨_, rfl, same_but_orders_refl _, ?_⟩
    intro k2 i2
    unfold lowered_order
    rw [if_pos hlt]
    rfl
  · rw [if_neg hlt]
    refine ⟨_, rfl, same_but_orders_refl _, ?_⟩
    intro k2 i2
    unfold lowered_order
    rw [if_neg hlt]
    split_ifs with h
    · rw [h.1, h.2]
    · rfl

/-- The lowered degree depends only on the errors and on the degree of the
pair itself. -/
theorem lowered_order_congr (c : Collaborators α) (thr : α) (s t : AdaptState α)
    (r : ElementReference) (k i : Nat) (he : t.errors = s.errors)
    (ho : t.orders k i = s.orders k i) :
    lowered_order c thr t r k i = lowered_order c thr s r k i := by
  unfold lowered_order
  rw [he, ho]

/-- The tests of one element for a list of distinct components. -/
theorem lower_inner_spec (c : Collaborators α) (thr : α) (id : Nat) (comps : List Nat)
    (hc : comps.Nodup) (s : AdaptState α) (r : ElementReference)
    (rest : List ElementReference) (hq : s.regular_queue = r :: rest) :
    ∃ s', comps.foldlM (fun s1 i => lower_step c thr s1 i id) s = some s'
      ∧ same_but_orders s s'
      ∧ ∀ k2 i2, s'.orders k2 i2
          = if k2 ∈ comps ∧ i2 = id then lowered_order c thr s r k2 id else s.orders k2 i2 := by
  induction comps generalizing s with
  | nil =>
    exact ⟨s, rfl, same_but_orders_refl _, fun k2 i2 => by simp⟩
  | cons k comps ih =>
    obtain ⟨hk, hc2⟩ := List.nodup_cons.mp hc
    obtain ⟨s1, e1, b1, o1⟩ := lower_step_spec c thr s k id r rest hq
    have hq1 : s1.regular_queue = r :: rest := by rw [b1.2.2.2.2.2.2.2.1, hq]
    obtain ⟨s2, e2, b2, o2⟩ := ih hc2 s1 hq1
    refine ⟨s2, ?_, same_but_orders_trans _ _ _ b1 b2, ?_⟩
    · rw [List.foldlM_cons, e1]
      exact e2
    · intro k2 i2
      rw [o2]
      by_cases h : k2 ∈ comps ∧ i2 = id
      · have hne : k2 ≠ k := fun e => hk (e ▸ h.1)
        rw [if_pos h, if_pos ⟨List.mem_cons_of_mem _ h.1, h.2⟩]
        exact lowered_order_congr c thr s s1 r k2 id b1.2.2.2.2.2.1
          (by rw [o1, if_neg (fun h2 => hne h2.1)])
      · rw [if_neg h, o1]
        by_cases h2 : k2 = k ∧ i2 = id
        · rw [if_pos h2, if_pos ⟨by rw [h2.1]; exact List.mem_cons_self _ _, h2.2⟩, h2.1]
        · rw [if_neg h2, if_neg]
          rintro ⟨h3, h4⟩
          rcases List.mem_cons.mp h3 with h3 | h3
          · exact h2 ⟨h3, h4⟩
          · exact h ⟨h3, h4⟩

/-- The degree-lowering loop over distinct elements and distinct components
with a non-empty regular queue: it ends, and the degree of every visited
(component, element) pair is the lowered one computed from the state at the
start of the loop; nothing else changes. -/
theorem lower_phase_spec (c : Collaborators α) (thr : α) (comps ids : List Nat)
    (hc : comps.Nodup) (hi : ids.Nodup) (s : AdaptState α) (r : ElementReference)
    (rest : List ElementReference) (hq : s.regular_queue = r :: rest) :
    ∃ s', lower_phase c thr comps ids s = some s' ∧ same_but_orders s s'
      ∧ ∀ k2 i2, s'.orders k2 i2
          = if k2 ∈ comps ∧ i2 ∈ ids then lowered_order c thr s r k2 i2 else s.orders k2 i2 := by
  unfold lower_phase
  induction ids generalizing s with
  | nil =>
    exact ⟨s, rfl, same_but_orders_refl _, fun k2 i2 => by simp⟩
  | cons id ids ih =>
    obtain ⟨hid, hi2⟩ := List.nodup_cons.mp hi
    obtain ⟨s1, e1, b1, o1⟩ := lower_inner_spec c thr id comps hc s r rest hq
    have hq1 : s1.regular_queue = r :: rest := by rw [b1.2.2.2.2.2.2.2.1, hq]
    obtain ⟨s2, e2, b2, o2⟩ := ih hi2 s1 hq1
    refine ⟨s2, ?_, same_but_orders_trans _ _ _ b1 b2, ?_⟩
    · rw [List.foldlM_cons, e1]
      exact e2
    · intro k2 i2
      rw [o2]
      by_cases h : k2 ∈ comps ∧ i2 ∈ ids
      · have hne : i2 ≠ id := fun e => hid (e ▸ h.2)
        rw [if_pos h, if_pos ⟨h.1, List.mem_cons_of_mem _ h.2⟩]
        exact lowered_order_congr c thr s s1 r k2 i2 b1.2.2.2.2.2.1
          (by rw [o1, if_neg (fun h2 => hne h2.2)])
      · rw [if_neg h, o1]
        by_cases h2 : k2 ∈ comps ∧ i2 = id
        · rw [if_pos h2, if_pos ⟨h2.1, by rw [h2.2]; exact List.mem_cons_self _ _⟩, h2.2]
        · rw [if_neg h2, if_neg]
          rintro ⟨h3, h4⟩
          rcases List.mem_cons.mp h4 with h4 | h4
          · exact h2 ⟨h3, h4⟩
          · exact h ⟨h3, h4⟩

/-- The degree-lowering loop of `unrefine` over the active elements of a
mesh (components 0 and 1 in the single-mesh branch, component `m` in the
multimesh branch), with `r` the head of the regular queue.  The loop ends; an
active element whose stored error for a component is below
`thr / 4 * errors[r.comp][r.id]`, one quarter of `thr * errors[r.comp][r.id]`,
gets the degree `max(H - 1, 1)` for that component, where `H` is the
(horizontal) degree read from the stored order: one less than `H` when `H` is
at least 2, and never below 1; the degree of a pair whose error is at or above
the bound, and every other degree, error and mesh, is unchanged. -/
theorem lower_phase_degrees (c : Collaborators α) (thr : α) (s : AdaptState α)
    (comps : List Nat) (m h : Nat) (r : ElementReference) (rest : List ElementReference)
    (hq : s.regular_queue = r :: rest) (hcomps : comps = List.range 2 ∨ comps = [m]) :
    ∃ s', lower_phase c thr comps (s.meshes h).active_ids s = some s'
      ∧ (∀ k i, k ∈ comps → i ∈ (s.meshes h).active_ids →
          s.errors k i < thr / 4 * s.errors r.comp r.id →
          s'.orders k i = max (c.get_h_order (s.orders k i) - 1) 1
          ∧ 1 ≤ s'.orders k i
          ∧ (2 ≤ c.get_h_order (s.orders k i) →
              s'.orders k i = c.get_h_order (s.orders k i) - 1))
      ∧ (∀ k i, k ∈ comps → i ∈ (s.meshes h).active_ids →
          ¬ s.errors k i < thr / 4 * s.errors r.comp r.id → s'.orders k i = s.orders k i)
      ∧ (∀ k i, ¬ (k ∈ comps ∧ i ∈ (s.meshes h).active_ids) → s'.orders k i = s.orders k i)
      ∧ s'.errors = s.errors ∧ s'.meshes = s.meshes ∧ s'.regular_queue = s.regular_queue
      ∧ thr / 4 * s.errors r.comp r.id = thr * s.errors r.comp r.id / 4 := by
  have hc : comps.Nodup := by
    rcases hcomps with e | e
    · rw [e]; exact List.nodup_range 2
    · rw [e]; exact List.nodup_singleton m
  obtain ⟨s', e1, b1, o1⟩ := lower_phase_spec c thr comps (s.meshes h).active_ids hc
    (List.Nodup.filter _ (List.nodup_range _)) s r rest hq
  refine ⟨s', e1, ?_, ?_, ?_, b1.2.2.2.2.2.1, b1.2.2.1, b1.2.2.2.2.2.2.2.1, by ring⟩
  · intro k i hk hi hlt
    have e : s'.orders k i = max (c.get_h_order (s.orders k i) - 1) 1 := by
      rw [o1, if_pos ⟨hk, hi⟩]
      unfold lowered_order
      rw [if_pos hlt]
    refine ⟨e, ?_, ?_⟩
    · rw [e]; exact le_max_right _ _
    · intro h2
      rw [e]
      exact max_eq_left (by omega)
  · intro k i hk hi hge
    rw [o1, if_pos ⟨hk, hi⟩]
    unfold lowered_order
    rw [if_neg hge]
  · intro k i hno
    rw [o1, if_neg hno]

/-- The degree-lowering loop on `coarsen_state` with threshold 1/10 (bound
5/2): the sons of component 0, with error 1 and degrees 2, 3, 2, 1, get the
degrees 1, 2, 1, 1; element 5 with error 100 keeps its degree 4. -/
theorem lower_phase_degrees_demo :
    ∃ s', lower_phase demo_collaborators (1 / 10) (List.range 2)
        (coarsen_state.meshes 0).active_ids coarsen_state = some s'
      ∧ s'.orders 0 1 = 1 ∧ s'.orders 0 2 = 2 ∧ s'.orders 0 4 = 1 ∧ s'.orders 0 5 = 4 := by
  obtain ⟨s', e1, hlow, hkeep, _⟩ :=
    lower_phase_degrees demo_collaborators (1 / 10) coarsen_state (List.range 2) 0 0 ⟨5, 0⟩
      [⟨5, 1⟩, ⟨1, 0⟩, ⟨2, 0⟩, ⟨3, 0⟩, ⟨4, 0⟩, ⟨1, 1⟩, ⟨2, 1⟩, ⟨3, 1⟩, ⟨4, 1⟩] rfl (Or.inl rfl)
  refine ⟨s', e1, ?_, ?_, ?_, ?_⟩
  · rw [(hlow 0 1 (by decide) (by decide) (by norm_num [coarsen_state])).1]; decide
  · rw [(hlow 0 2 (by decide) (by decide) (by norm_num [coarsen_state])).1]; decide
  · rw [(hlow 0 4 (by decide) (by decide) (by norm_num [coarsen_state])).1]; decide
  · rw [hkeep 0 5 (by decide) (by decide) (by norm_num [coarsen_state])]; decide

/-- A visit of the single-mesh merge loop with a non-empty regular queue ends
and keeps the queue and the mesh handles. -/
theorem merge_single_step_some (unrefine_element_id : Mesh → Nat → Mesh) (thr : α)
    (st : AdaptState α) (id : Nat) (hq : st.regular_queue ≠ []) :
    ∃ st', merge_single_step unrefine_element_id thr st id = some st'
      ∧ st'.regular_queue = st.regular_queue ∧ st'.mesh_of = st.mesh_of := by
  obtain ⟨r, rest, hr⟩ := List.exists_cons_of_ne_nil hq
  have hhead : st.regular_queue.head? = some r := by rw [hr]; rfl
  unfold merge_single_step
  dsimp only
  rw [hhead]
  dsimp only
  split_ifs
  · exact ⟨_, rfl, rfl, rfl⟩
  · exact ⟨_, rfl, rfl, rfl⟩
  · exact ⟨_, rfl, rfl, rfl⟩
  · exact ⟨_, rfl, rfl, rfl⟩

/-- A visit of the multimesh merge loop with a non-empty regular queue ends
and keeps the queue and the mesh handles. -/
theorem merge_multi_step_some (unrefine_element_id : Mesh → Nat → Mesh) (thr : α) (m : Nat)
    (st : AdaptState α) (id : Nat) (hq : st.regular_queue ≠ []) :
    ∃ st', merge_multi_step unrefine_element_id thr m st id = some st'
      ∧ st'.regular_queue = st.regular_queue ∧ st'.mesh_of = st.mesh_of := by
  obtain ⟨r, rest, hr⟩ := List.exists_cons_of_ne_nil hq
  have hhead : st.regular_queue.head? = some r := by rw [hr]; rfl
  unfold merge_multi_step
  dsimp only
  rw [hhead]
  dsimp only
  split_ifs
  · exact ⟨_, rfl, rfl, rfl⟩
  · exact ⟨_, rfl, rfl, rfl⟩
  · exact ⟨_, rfl, rfl, rfl⟩
  · exact ⟨_, rfl, rfl, rfl⟩

/-- A loop whose every pass ends and keeps the regular queue ends and keeps
the regular queue. -/
theorem foldlM_keeps_queue {β ι : Type} (f : AdaptState β → ι → Option (AdaptState β))
    (hf : ∀ s i, s.regular_queue ≠ [] →
      ∃ s', f s i = some s' ∧ s'.regular_queue = s.regular_queue ∧ s'.mesh_of = s.mesh_of)
    (L : List ι) (st : AdaptState β) (hq : st.regular_queue ≠ []) :
    ∃ st', L.foldlM f st = some st'
      ∧ st'.regular_queue = st.regular_queue ∧ st'.mesh_of = st.mesh_of := by
  induction L generalizing st with
  | nil => exact ⟨st, rfl, rfl, rfl⟩
  | cons i L ih =>
    obtain ⟨s1, e1, q1, m1⟩ := hf st i hq
    obtain ⟨s2, e2, q2, m2⟩ := ih s1 (by rw [q1]; exact hq)
    refine ⟨s2, ?_, q2.trans q1, m2.trans m1⟩
    rw [List.foldlM_cons, e1]
    exact e2

/-- The degree-lowering loop of `unrefine` with a non-empty regular queue ends
and keeps the queue and the mesh handles. -/
theorem lower_phase_some (c : Collaborators α) (thr : α) (comps : List Nat) (hc : comps.Nodup)
    (h : Nat) (s : AdaptState α) (hq : s.regular_queue ≠ []) :
    ∃ s', lower_phase c thr comps (s.meshes h).active_ids s = some s'
      ∧ s'.regular_queue = s.regular_queue ∧ s'.mesh_of = s.mesh_of := by
  obtain ⟨r, rest, hr⟩ := List.exists_cons_of_ne_nil hq
  obtain ⟨s', e1, b1, _⟩ := lower_phase_spec c thr comps (s.meshes h).active_ids hc
    (List.Nodup.filter _ (List.nodup_range _)) s r rest hr
  exact ⟨s', e1, b1.2.2.2.2.2.2.2.1, b1.2.1⟩

/-- The single-mesh branch with a non-empty regular queue ends. -/
theorem unrefine_single_some (c : Collaborators α) (unrefine_element_id : Mesh → Nat → Mesh)
    (thr : α) (st : AdaptState α) (hq : st.regular_queue ≠ []) :
    ∃ st', unrefine_single c unrefine_element_id thr st = some st' := by
  obtain ⟨s1, e1, q1, _⟩ := foldlM_keeps_queue (merge_single_step unrefine_element_id thr)
    (fun s i hs => merge_single_step_some unrefine_element_id thr s i hs)
    (List.range (st.meshes (st.mesh_of 0)).get_max_element_id) st hq
  obtain ⟨s2, e2, _, _⟩ := lower_phase_some c thr (List.range 2) (List.nodup_range 2)
    (s1.mesh_of 0) s1 (by rw [q1]; exact hq)
  refine ⟨s2, ?_⟩
  unfold unrefine_single
  rw [e1]
  exact e2

/-- The multimesh branch with a non-empty regular queue ends. -/
theorem unrefine_multi_some (c : Collaborators α) (unrefine_element_id : Mesh → Nat → Mesh)
    (thr : α) (st : AdaptState α) (hq : st.regular_queue ≠ []) :
    ∃ st', unrefine_multi c unrefine_element_id thr st = some st' := by
  obtain ⟨s', e, _, _⟩ := foldlM_keeps_queue
    (fun s m =>
      ((List.range (s.meshes (s.mesh_of m)).get_max_element_id).foldlM
          (merge_multi_step unrefine_element_id thr m) s).bind
        (fun s1 => lower_phase c thr [m] (s1.meshes (s1.mesh_of m)).active_ids s1))
    (by
      intro s m hs
      obtain ⟨s1, e1, q1, m1⟩ := foldlM_keeps_queue (merge_multi_step unrefine_element_id thr m)
        (fun t i ht => merge_multi_step_some unrefine_element_id thr m t i ht)
        (List.range (s.meshes (s.mesh_of m)).get_max_element_id) s hs
      obtain ⟨s2, e2, q2, m2⟩ := lower_phase_some c thr [m] (List.nodup_singleton m)
        (s1.mesh_of m) s1 (by rw [q1]; exact hs)
      refine ⟨s2, ?_, q2.trans q1, m2.trans m1⟩
      dsimp only
      rw [e1]
      exact e2)
    (List.range 2) st hq
  exact ⟨s', e⟩

/-- C17: `unrefine` aborts with a fatal error when `have_errors` is false and,
with valid errors, when the engine has more than two components; with exactly
two components, valid errors and the non-empty regular queue that an error
pass leaves, it runs to its end without an invalid access and leaves
`have_errors = false`.  With fewer than two components the access to
`spaces[1]` is out of range. -/
theorem unrefine_guards_and_completion (c : Collaborators α)
    (unrefine_element_id : Mesh → Nat → Mesh) (st : AdaptState α) (thr : α) :
    (st.have_errors = false →
      unrefine c unrefine_element_id st thr
        = Completion.fatal
            "Element errors have to be calculated first, see Adapt::calc_err_est()." st)
    ∧ (st.have_errors = true → 2 < st.num →
      unrefine c unrefine_element_id st thr
        = Completion.fatal "Unrefine implemented for two spaces only." st)
    ∧ (st.have_errors = true → st.num = 2 → st.regular_queue ≠ [] →
      ∃ st', unrefine c unrefine_element_id st thr = Completion.finished st'
        ∧ st'.have_errors = false)
    ∧ (st.have_errors = true → st.num < 2 →
      unrefine c unrefine_element_id st thr = Completion.invalid_access) := by
  refine ⟨?_, ?_, ?_, ?_⟩
  · intro h
    unfold unrefine
    simp [h]
  · intro h hn
    unfold unrefine
    simp [h, hn]
  · intro h hn hq
    have h1 : ¬ st.num > 2 := by omega
    have h2 : ¬ st.num < 2 := by omega
    by_cases hm : st.mesh_of 0 = st.mesh_of 1
    · obtain ⟨s', e⟩ := unrefine_single_some c unrefine_element_id thr st hq
      refine ⟨{ s' with have_errors := false }, ?_, rfl⟩
      unfold unrefine
      simp only [h, h1, h2, hm, e, Bool.not_true, Bool.false_eq_true, if_false, if_true]
    · obtain ⟨s', e⟩ := unrefine_multi_some c unrefine_element_id thr st hq
      refine ⟨{ s' with have_errors := false }, ?_, rfl⟩
      unfold unrefine
      simp only [h, h1, h2, hm, e, Bool.not_true, Bool.false_eq_true, if_false]
  · intro h hn
    have h1 : ¬ st.num > 2 := by omega
    unfold unrefine
    simp [h, h1, hn]

/-- The three cases on `coarsen_state`: without errors and with three
components the call is fatal; as it stands (two components, errors, ten queue
entries) the call finishes and clears `have_errors`. -/
theorem unrefine_guards_and_completion_witness :
    unrefine demo_collaborators spec_unrefine_element_id
        { coarsen_state with have_errors := false } (1 / 10)
      = Completion.fatal
          "Element errors have to be calculated first, see Adapt::calc_err_est()."
          { coarsen_state with have_errors := false }
    ∧ unrefine demo_collaborators spec_unrefine_element_id { coarsen_state with num := 3 } (1 / 10)
      = Completion.fatal "Unrefine implemented for two spaces only."
          { coarsen_state with num := 3 }
    ∧ (∃ st', unrefine demo_collaborators spec_unrefine_element_id coarsen_state (1 / 10)
        = Completion.finished st' ∧ st'.have_errors = false)
    ∧ (∃ st', unrefine demo_collaborators spec_unrefine_element_id coarsen_state_multi (1 / 10)
        = Completion.finished st' ∧ st'.have_errors = false) :=
  ⟨(unrefine_guards_and_completion demo_collaborators spec_unrefine_element_id
      { coarsen_state with have_errors := false } (1 / 10)).1 rfl,
    (unrefine_guards_and_completion demo_collaborators spec_unrefine_element_id
      { coarsen_state with num := 3 } (1 / 10)).2.1 rfl (by decide),
    (unrefine_guards_and_completion demo_collaborators spec_unrefine_element_id
      coarsen_state (1 / 10)).2.2.1 rfl rfl (by decide),
    (unrefine_guards_and_completion demo_collaborators spec_unrefine_element_id
      coarsen_state_multi (1 / 10)).2.2.1 rfl rfl (by decide)⟩

/-- A visit of the single-mesh merge loop changes errors and degrees at most
in the visited slot. -/
theorem merge_single_step_frame (unrefine_element_id : Mesh → Nat → Mesh) (thr : α)
    (s s2 : AdaptState α) (id : Nat)
    (h : merge_single_step unrefine_element_id thr s id = some s2) (k i : Nat) (hi : i ≠ id) :
    s2.errors k i = s.errors k i ∧ s2.orders k i = s.orders k i := by
  unfold merge_single_step at h
  dsimp only at h
  cases hh : s.regular_queue.head? with
  | none =>
    rw [hh] at h
    dsimp only at h
    split_ifs at h <;> cases h <;> exact ⟨rfl, rfl⟩
  | some r =>
    rw [hh] at h
    dsimp only at h
    split_ifs at h <;> cases h
    · simp [set_element_order_internal, set_error, unrefine_mesh, hi]
    · exact ⟨rfl, rfl⟩
    · exact ⟨rfl, rfl⟩
    · exact ⟨rfl, rfl⟩

/-- A visit of the multimesh merge loop for component `m` changes errors and
degrees at most for component `m` in the visited slot. -/
theorem merge_multi_step_frame (unrefine_element_id : Mesh → Nat → Mesh) (thr : α) (m : Nat)
    (s s2 : AdaptState α) (id : Nat)
    (h : merge_multi_step unrefine_element_id thr m s id = some s2) (k i : Nat)
    (hi : ¬ (k = m ∧ i = id)) :
    s2.errors k i = s.errors k i ∧ s2.orders k i = s.orders k i := by
  unfold merge_multi_step at h
  dsimp only at h
  cases hh : s.regular_queue.head? with
  | none =>
    rw [hh] at h
    dsimp only at h
    split_ifs at h <;> cases h <;> exact ⟨rfl, rfl⟩
  | some r =>
    rw [hh] at h
    dsimp only at h
    split_ifs at h <;> cases h
    · simp [set_element_order_internal, set_error, unrefine_mesh, hi]
    · exact ⟨rfl, rfl⟩
    · exact ⟨rfl, rfl⟩
    · exact ⟨rfl, rfl⟩

/-- A visit of the multimesh merge loop for component `m` changes no mesh but
the one of component `m`. -/
theorem merge_multi_step_meshes (unrefine_element_id : Mesh → Nat → Mesh) (thr : α) (m : Nat)
    (s s2 : AdaptState α) (id : Nat)
    (h : merge_multi_step unrefine_element_id thr m s id = some s2) (k : Nat)
    (hk : k ≠ s.mesh_of m) : s2.meshes k = s.meshes k := by
  unfold merge_multi_step at h
  dsimp only at h
  cases hh : s.regular_queue.head? with
  | none =>
    rw [hh] at h
    dsimp only at h
    split_ifs at h <;> cases h <;> rfl
  | some r =>
    rw [hh] at h
    dsimp only at h
    split_ifs at h <;> cases h
    · simp [set_element_order_internal, set_error, unrefine_mesh, hk]
    · rfl
    · rfl
    · rfl

/-- The visits of a loop up to slot `n + 1` are the visits up to slot `n`
followed by the visit of slot `n`. -/
theorem foldlM_range_succ {β : Type} (f : β → Nat → Option β) (s : β) (n : Nat) :
    (List.range (n + 1)).foldlM f s = ((List.range n).foldlM f s).bind (fun t => f t n) := by
  rw [List.range_succ, List.foldlM_append]
  cases (List.range n).foldlM f s with
  | none => rfl
  | some t => simp [List.foldlM]

/-- The visits of a loop whose passes end and keep the regular queue: every
prefix of the loop ends, and what holds of a slot after its visit and is kept
by the visits of the other slots holds at the end of the loop. -/
theorem visits_spec {β : Type} (f : AdaptState β → Nat → Option (AdaptState β))
    (hf : ∀ s i, s.regular_queue ≠ [] →
      ∃ s', f s i = some s' ∧ s'.regular_queue = s.regular_queue ∧ s'.mesh_of = s.mesh_of)
    (st : AdaptState β) (hq : st.regular_queue ≠ []) (n : Nat) :
    ∃ s s2, (List.range n).foldlM f st = some s ∧ f s n = some s2
      ∧ (List.range (n + 1)).foldlM f st = some s2
      ∧ s.regular_queue = st.regular_queue ∧ s.mesh_of = st.mesh_of := by
  obtain ⟨s, e, q, m⟩ := foldlM_keeps_queue f hf (List.range n) st hq
  obtain ⟨s2, e2, _, _⟩ := hf s n (by rw [q]; exact hq)
  refine ⟨s, s2, e, e2, ?_, q, m⟩
  rw [foldlM_range_succ, e]
  exact e2

/-- What the visits of the slots from `n` on keep of a state: a property of
states that every visit of a slot other than `id` keeps holds at the end of
the loop when it holds after the visit of `id`. -/
theorem visits_keep {β : Type} (f : AdaptState β → Nat → Option (AdaptState β))
    (P : AdaptState β → Prop) (id : Nat)
    (hP : ∀ s s2 j, j ≠ id → f s j = some s2 → P s → P s2)
    (st : AdaptState β) (n d : Nat) (hn : id < n) (s mid : AdaptState β)
    (hs : (List.range n).foldlM f st = some s) (hs2 : P s)
    (hmid : (List.range (n + d)).foldlM f st = some mid) : P mid := by
  induction d generalizing mid with
  | zero =>
    rw [Nat.add_zero, hs] at hmid
    cases hmid
    exact hs2
  | succ d ih =>
    rw [← Nat.add_assoc, foldlM_range_succ] at hmid
    cases ht : (List.range (n + d)).foldlM f st with
    | none =>
      rw [ht] at hmid
      cases hmid
    | some t =>
      rw [ht] at hmid
      exact hP t mid (n + d) (by omega) hmid (ih t ht)

/-- One visit of the merge loop of the single-mesh branch does what the
specification says of it. -/
theorem single_visit_spec (unrefine_element_id : Mesh → Nat → Mesh) (thr : α)
    (s s2 : AdaptState α) (id : Nat) (r : ElementReference) (rest : List ElementReference)
    (hq : s.regular_queue = r :: rest) (hm : s.mesh_of 0 = s.mesh_of 1)
    (h : merge_single_step unrefine_element_id thr s id = some s2) :
    merge_visit_as_specified thr r [0, 1] (s.mesh_of 0) id
      (unrefine_element_id (unrefine_element_id (s.meshes (s.mesh_of 0)) id) id) s s2 := by
  obtain ⟨hS, _, hskip, _⟩ := merge_step_spec unrefine_element_id thr s id 0 r rest hq
  constructor
  · rintro ⟨⟨hu, ha, hmg⟩, hsum⟩
    obtain ⟨st', e, f1, f2, f3, f4, f5, f6, f7, f8, f9, f10, f11, f12⟩ :=
      (hS hm hu ha hmg).1 ⟨hsum 0 (by simp), hsum 1 (by simp)⟩
    rw [e] at h
    cases h
    refine ⟨f1, f2, ?_, ?_, f9, f10, f11, f12⟩
    · intro k hk
      have hk2 : k = 0 ∨ k = 1 := by simpa using hk
      rcases hk2 with hk2 | hk2
      · subst hk2
        exact ⟨f3, f6⟩
      · subst hk2
        exact ⟨f4, f7⟩
    · intro k i hki
      have hki2 : ¬ ((k = 0 ∨ k = 1) ∧ i = id) := by
        intro hc
        exact hki ⟨by simpa using hc.1, hc.2⟩
      exact ⟨f5 k i hki2, f8 k i hki2⟩
  · intro hno
    by_cases hp : mergeable_parent s (s.mesh_of 0) id
    · have hsum : ¬ (sons_error_sum s 0 ((s.meshes (s.mesh_of 0)).get_element id)
            < thr * s.errors r.comp r.id
          ∧ sons_error_sum s 1 ((s.meshes (s.mesh_of 0)).get_element id)
            < thr * s.errors r.comp r.id) := by
        intro hc
        apply hno
        refine ⟨hp, ?_⟩
        intro k hk
        have hk2 : k = 0 ∨ k = 1 := by simpa using hk
        rcases hk2 with hk2 | hk2
        · subst hk2
          exact hc.1
        · subst hk2
          exact hc.2
      have e := (hS hm hp.1 hp.2.1 hp.2.2).2 hsum
      rw [e] at h
      cases h
      rfl
    · have e := hskip hp
      rw [e] at h
      cases h
      rfl

/-- One visit of the merge loop of the multimesh branch for component `m` does
what the specification says of it. -/
theorem multi_visit_spec (unrefine_element_id : Mesh → Nat → Mesh) (thr : α) (m : Nat)
    (s s2 : AdaptState α) (id : Nat) (r : ElementReference) (rest : List ElementReference)
    (hq : s.regular_queue = r :: rest)
    (h : merge_multi_step unrefine_element_id thr m s id = some s2) :
    merge_visit_as_specified thr r [m] (s.mesh_of m) id
      (unrefine_element_id (s.meshes (s.mesh_of m)) id) s s2 := by
  obtain ⟨_, hM, _, hskip⟩ := merge_step_spec unrefine_element_id thr s id m r rest hq
  constructor
  · rintro ⟨⟨hu, ha, hmg⟩, hsum⟩
    obtain ⟨st', e, f1, f2, f3, f4, f5, f6, f7, f8, f9, f10⟩ :=
      (hM hu ha hmg).1 (hsum m (by simp))
    rw [e] at h
    cases h
    refine ⟨f1, f2, ?_, ?_, f7, f8, f9, f10⟩
    · intro k hk
      have hk2 : k = m := by simpa using hk
      subst hk2
      exact ⟨f3, f5⟩
    · intro k i hki
      have hki2 : ¬ (k = m ∧ i = id) := by
        intro hc
        exact hki ⟨by simpa using hc.1, hc.2⟩
      exact ⟨f4 k i hki2, f6 k i hki2⟩
  · intro hno
    by_cases hp : mergeable_parent s (s.mesh_of m) id
    · have hsum : ¬ sons_error_sum s m ((s.meshes (s.mesh_of m)).get_element id)
            < thr * s.errors r.comp r.id := by
        intro hc
        apply hno
        refine ⟨hp, ?_⟩
        intro k hk
        have hk2 : k = m := by simpa using hk
        subst hk2
        exact hc
      have e := (hM hp.1 hp.2.1 hp.2.2).2 hsum
      rw [e] at h
      cases h
      rfl
    · have e := hskip hp
      rw [e] at h
      cases h
      rfl

/-- The degree-lowering loop over the active elements of a mesh does what the
specification says of it. -/
theorem lower_phase_as_specified (c : Collaborators α) (thr : α) (comps : List Nat)
    (hc : comps.Nodup) (h : Nat) (s : AdaptState α) (r : ElementReference)
    (rest : List ElementReference) (hq : s.regular_queue = r :: rest) :
    ∃ s2, lower_phase c thr comps (s.meshes h).active_ids s = some s2
      ∧ lowering_as_specified c thr r comps (s.meshes h).active_ids s s2 := by
  obtain ⟨s2, e1, b1, o1⟩ := lower_phase_spec c thr comps (s.meshes h).active_ids hc
    (List.Nodup.filter _ (List.nodup_range _)) s r rest hq
  refine ⟨s2, e1, ?_, ?_, ?_, b1.2.2.2.2.2.1, b1.2.2.1, b1.2.2.2.2.2.2.2.1, b1.2.1, b1.1⟩
  · intro k i hk hi hlt
    have e : s2.orders k i = max (c.get_h_order (s.orders k i) - 1) 1 := by
      rw [o1, if_pos ⟨hk, hi⟩]
      unfold lowered_order
      rw [if_pos hlt]
    refine ⟨e, ?_, ?_⟩
    · rw [e]; exact le_max_right _ _
    · intro h2
      rw [e]
      exact max_eq_left (by omega)
  · intro k i hk hi hge
    rw [o1, if_pos ⟨hk, hi⟩]
    unfold lowered_order
    rw [if_neg hge]
  · intro k i hno
    rw [o1, if_neg hno]

/-- The single-mesh branch of `unrefine` with a non-empty regular queue: the
merge loop ends in a state `mid`, every visit does what the specification says
and what it writes for its slot is still there in `mid`, and the
degree-lowering loop runs on `mid`. -/
theorem unrefine_single_spec (c : Collaborators α) (unrefine_element_id : Mesh → Nat → Mesh)
    (thr : α) (st : AdaptState α) (r : ElementReference) (rest : List ElementReference)
    (hq : st.regular_queue = r :: rest) (hm : st.mesh_of 0 = st.mesh_of 1) :
    ∃ mid st1,
      merge_visits_single unrefine_element_id thr st
          (st.meshes (st.mesh_of 0)).get_max_element_id = some mid
      ∧ unrefine_single c unrefine_element_id thr st = some st1
      ∧ (∀ id, id < (st.meshes (st.mesh_of 0)).get_max_element_id →
          ∃ s s2, merge_visits_single unrefine_element_id thr st id = some s
            ∧ merge_visits_single unrefine_element_id thr st (id + 1) = some s2
            ∧ merge_visit_as_specified thr r [0, 1] (st.mesh_of 0) id
                (unrefine_element_id (unrefine_element_id (s.meshes (st.mesh_of 0)) id) id) s s2
            ∧ ∀ k, mid.errors k id = s2.errors k id ∧ mid.orders k id = s2.orders k id)
      ∧ lowering_as_specified c thr r [0, 1] (mid.meshes (st.mesh_of 0)).active_ids mid st1 := by
  have hne : st.regular_queue ≠ [] := by rw [hq]; exact List.cons_ne_nil _ _
  have hf : ∀ (s : AdaptState α) (i : Nat), s.regular_queue ≠ [] →
      ∃ s', merge_single_step unrefine_element_id thr s i = some s'
        ∧ s'.regular_queue = s.regular_queue ∧ s'.mesh_of = s.mesh_of :=
    fun s i hs => merge_single_step_some unrefine_element_id thr s i hs
  obtain ⟨mid, emid, qmid, mmid⟩ := foldlM_keeps_queue
    (merge_single_step unrefine_element_id thr) hf
    (List.range (st.meshes (st.mesh_of 0)).get_max_element_id) st hne
  have hqmid : mid.regular_queue = r :: rest := by rw [qmid, hq]
  obtain ⟨st1, e1, hlow⟩ := lower_phase_as_specified c thr [0, 1] (by decide)
    (mid.mesh_of 0) mid r rest hqmid
  rw [mmid] at e1 hlow
  refine ⟨mid, st1, emid, ?_, ?_, hlow⟩
  · unfold unrefine_single
    rw [emid]
    show lower_phase c thr (List.range 2) (mid.meshes (mid.mesh_of 0)).active_ids mid = some st1
    rw [mmid]
    exact e1
  · intro id hid
    obtain ⟨s, s2, es, estep, es2, qs, ms⟩ := visits_spec
      (merge_single_step unrefine_element_id thr) hf st hne id
    have hspec := single_visit_spec unrefine_element_id thr s s2 id r rest
      (by rw [qs, hq]) (by rw [ms]; exact hm) estep
    rw [ms] at hspec
    refine ⟨s, s2, es, es2, hspec, ?_⟩
    intro k
    obtain ⟨d, hd⟩ := Nat.exists_eq_add_of_le (Nat.succ_le_of_lt hid)
    have emid2 : (List.range (id + 1 + d)).foldlM (merge_single_step unrefine_element_id thr) st
        = some mid := by
      rw [← Nat.succ_eq_add_one, ← hd]
      exact emid
    exact visits_keep (merge_single_step unrefine_element_id thr)
      (fun t => t.errors k id = s2.errors k id ∧ t.orders k id = s2.orders k id) id
      (fun t t2 j hj ht hP => by
        obtain ⟨a, b⟩ := merge_single_step_frame unrefine_element_id thr t t2 j ht k id
          (fun e => hj e.symm)
        exact ⟨a.trans hP.1, b.trans hP.2⟩)
      st (id + 1) d (Nat.lt_succ_self id) s2 mid es2 ⟨rfl, rfl⟩ emid2

/-- One round of the multimesh branch of `unrefine` (the merge loop and the
degree-lowering loop of component `m`) with a non-empty regular queue. -/
theorem unrefine_round_spec (c : Collaborators α) (unrefine_element_id : Mesh → Nat → Mesh)
    (thr : α) (m : Nat) (st : AdaptState α) (r : ElementReference)
    (rest : List ElementReference) (hq : st.regular_queue = r :: rest) :
    ∃ mid low,
      merge_visits_multi unrefine_element_id thr m st
          (st.meshes (st.mesh_of m)).get_max_element_id = some mid
      ∧ ((List.range (st.meshes (st.mesh_of m)).get_max_element_id).foldlM
            (merge_multi_step unrefine_element_id thr m) st).bind
          (fun s1 => lower_phase c thr [m] (s1.meshes (s1.mesh_of m)).active_ids s1) = some low
      ∧ (∀ id, id < (st.meshes (st.mesh_of m)).get_max_element_id →
          ∃ s s2, merge_visits_multi unrefine_element_id thr m st id = some s
            ∧ merge_visits_multi unrefine_element_id thr m st (id + 1) = some s2
            ∧ merge_visit_as_specified thr r [m] (st.mesh_of m) id
                (unrefine_element_id (s.meshes (st.mesh_of m)) id) s s2
            ∧ mid.errors m id = s2.errors m id ∧ mid.orders m id = s2.orders m id)
      ∧ lowering_as_specified c thr r [m] (mid.meshes (st.mesh_of m)).active_ids mid low
      ∧ low.regular_queue = st.regular_queue ∧ low.mesh_of = st.mesh_of := by
  have hne : st.regular_queue ≠ [] := by rw [hq]; exact List.cons_ne_nil _ _
  have hf : ∀ (s : AdaptState α) (i : Nat), s.regular_queue ≠ [] →
      ∃ s', merge_multi_step unrefine_element_id thr m s i = some s'
        ∧ s'.regular_queue = s.regular_queue ∧ s'.mesh_of = s.mesh_of :=
    fun s i hs => merge_multi_step_some unrefine_element_id thr m s i hs
  obtain ⟨mid, emid, qmid, mmid⟩ := foldlM_keeps_queue
    (merge_multi_step unrefine_element_id thr m) hf
    (List.range (st.meshes (st.mesh_of m)).get_max_element_id) st hne
  have hqmid : mid.regular_queue = r :: rest := by rw [qmid, hq]
  obtain ⟨low, e1, hlow⟩ := lower_phase_as_specified c thr [m] (List.nodup_singleton m)
    (mid.mesh_of m) mid r rest hqmid
  refine ⟨mid, low, emid, ?_, ?_, by rw [mmid] at hlow; exact hlow,
    hlow.2.2.2.2.2.1.trans qmid, hlow.2.2.2.2.2.2.1.trans mmid⟩
  · rw [emid]
    exact e1
  · intro id hid
    obtain ⟨s, s2, es, estep, es2, qs, ms⟩ := visits_spec
      (merge_multi_step unrefine_element_id thr m) hf st hne id
    have hspec := multi_visit_spec unrefine_element_id thr m s s2 id r rest
      (by rw [qs, hq]) estep
    rw [ms] at hspec
    refine ⟨s, s2, es, es2, hspec, ?_⟩
    obtain ⟨d, hd⟩ := Nat.exists_eq_add_of_le (Nat.succ_le_of_lt hid)
    have emid2 : (List.range (id + 1 + d)).foldlM (merge_multi_step unrefine_element_id thr m) st
        = some mid := by
      rw [← Nat.succ_eq_add_one, ← hd]
      exact emid
    exact visits_keep (merge_multi_step unrefine_element_id thr m)
      (fun t => t.errors m id = s2.errors m id ∧ t.orders m id = s2.orders m id) id
      (fun t t2 j hj ht hP => by
        obtain ⟨a, b⟩ := merge_multi_step_frame unrefine_element_id thr m t t2 j ht m id
          (fun e => hj e.2.symm)
        exact ⟨a.trans hP.1, b.trans hP.2⟩)
      st (id + 1) d (Nat.lt_succ_self id) s2 mid es2 ⟨rfl, rfl⟩ emid2

/-- With valid errors and two components on one mesh, `unrefine` finishes in
the state the single-mesh branch ends in, with `have_errors` cleared. -/
theorem unrefine_of_single (c : Collaborators α) (unrefine_element_id : Mesh → Nat → Mesh)
    (st st1 : AdaptState α) (thr : α) (hE : st.have_errors = true) (hnum : st.num = 2)
    (hm : st.mesh_of 0 = st.mesh_of 1)
    (h : unrefine_single c unrefine_element_id thr st = some st1) :
    unrefine c unrefine_element_id st thr
      = Completion.finished { st1 with have_errors := false } := by
  have h1 : ¬ st.num > 2 := by omega
  have h2 : ¬ st.num < 2 := by omega
  unfold unrefine
  simp only [hE, h1, h2, hm, h, Bool.not_true, Bool.false_eq_true, if_false, if_true]

/-- With valid errors and two components on two meshes, `unrefine` finishes in
the state the second round of the multimesh branch ends in, with `have_errors`
cleared. -/
theorem unrefine_of_multi (c : Collaborators α) (unrefine_element_id : Mesh → Nat → Mesh)
    (st low0 low1 : AdaptState α) (thr : α) (hE : st.have_errors = true) (hnum : st.num = 2)
    (hm : st.mesh_of 0 ≠ st.mesh_of 1)
    (h0 : ((List.range (st.meshes (st.mesh_of 0)).get_max_element_id).foldlM
            (merge_multi_step unrefine_element_id thr 0) st).bind
          (fun s1 => lower_phase c thr [0] (s1.meshes (s1.mesh_of 0)).active_ids s1) = some low0)
    (h1 : ((List.range (low0.meshes (low0.mesh_of 1)).get_max_element_id).foldlM
            (merge_multi_step unrefine_element_id thr 1) low0).bind
          (fun s1 => lower_phase c thr [1] (s1.meshes (s1.mesh_of 1)).active_ids s1) = some low1) :
    unrefine c unrefine_element_id st thr
      = Completion.finished { low1 with have_errors := false } := by
  have h3 : ¬ st.num > 2 := by omega
  have h4 : ¬ st.num < 2 := by omega
  have hmulti : unrefine_multi c unrefine_element_id thr st = some low1 := by
    unfold unrefine_multi
    rw [show List.range 2 = [0, 1] from rfl, List.foldlM_cons, h0]
    simp only [Option.bind_eq_bind, Option.some_bind, List.foldlM_cons, List.foldlM_nil, h1]
    rfl
  unfold unrefine
  simp only [hE, h3, h4, hm, hmulti, Bool.not_true, Bool.false_eq_true, if_false]

/-- C15, amended: a call of `unrefine` with valid errors, two components and a
non-empty regular queue (head `r`) finishes.  The merge loop visits the element
slots in the order of their ids (single-mesh branch: one loop for both
components; multimesh branch: one loop per component, each followed by the
degree-lowering loop of that component).  At its visit, an inactive element
whose existing sons are all active and not curved is merged exactly when the
summed errors of its sons are below `thr * errors[r.comp][r.id]`, for both
components jointly in the single-mesh branch and for the component of the mesh
otherwise; the merge gives the parent the sum of the sons' errors as its error
and the maximum of the sons' degrees (and 0) as its degree, both still in place
when the merge loop ends, and changes nothing else; a visit that does not merge
changes nothing.  The degree-lowering loop of the same call then runs over the
elements that are active after the merges, merged parents included: the final
degree of a pair whose error is below `thr / 4 * errors[r.comp][r.id]` is
`max(H - 1, 1)`, `H` being the horizontal part of the degree the merge loop
left. -/
theorem unrefine_merges_iff_below (c : Collaborators α)
    (unrefine_element_id : Mesh → Nat → Mesh) (st : AdaptState α) (thr : α)
    (r : ElementReference) (rest : List ElementReference)
    (hE : st.have_errors = true) (hnum : st.num = 2) (hq : st.regular_queue = r :: rest) :
    ∃ st', unrefine c unrefine_element_id st thr = Completion.finished st'
      ∧ (st.mesh_of 0 = st.mesh_of 1 →
          ∃ mid,
            merge_visits_single unrefine_element_id thr st
                (st.meshes (st.mesh_of 0)).get_max_element_id = some mid
            ∧ (∀ id, id < (st.meshes (st.mesh_of 0)).get_max_element_id →
                ∃ s s2, merge_visits_single unrefine_element_id thr st id = some s
                  ∧ merge_visits_single unrefine_element_id thr st (id + 1) = some s2
                  ∧ merge_visit_as_specified thr r [0, 1] (st.mesh_of 0) id
                      (unrefine_element_id
                        (unrefine_element_id (s.meshes (st.mesh_of 0)) id) id) s s2
                  ∧ ∀ k, mid.errors k id = s2.errors k id ∧ mid.orders k id = s2.orders k id)
            ∧ lowering_as_specified c thr r [0, 1] (mid.meshes (st.mesh_of 0)).active_ids
                mid st')
      ∧ (st.mesh_of 0 ≠ st.mesh_of 1 →
          ∃ mid0 low0 mid1,
            merge_visits_multi unrefine_element_id thr 0 st
                (st.meshes (st.mesh_of 0)).get_max_element_id = some mid0
            ∧ (∀ id, id < (st.meshes (st.mesh_of 0)).get_max_element_id →
                ∃ s s2, merge_visits_multi unrefine_element_id thr 0 st id = some s
                  ∧ merge_visits_multi unrefine_element_id thr 0 st (id + 1) = some s2
                  ∧ merge_visit_as_specified thr r [0] (st.mesh_of 0) id
                      (unrefine_element_id (s.meshes (st.mesh_of 0)) id) s s2
                  ∧ mid0.errors 0 id = s2.errors 0 id ∧ mid0.orders 0 id = s2.orders 0 id)
            ∧ lowering_as_specified c thr r [0] (mid0.meshes (st.mesh_of 0)).active_ids
                mid0 low0
            ∧ merge_visits_multi unrefine_element_id thr 1 low0
                (low0.meshes (st.mesh_of 1)).get_max_element_id = some mid1
            ∧ (∀ id, id < (low0.meshes (st.mesh_of 1)).get_max_element_id →
                ∃ s s2, merge_visits_multi unrefine_element_id thr 1 low0 id = some s
                  ∧ merge_visits_multi unrefine_element_id thr 1 low0 (id + 1) = some s2
                  ∧ merge_visit_as_specified thr r [1] (st.mesh_of 1) id
                      (unrefine_element_id (s.meshes (st.mesh_of 1)) id) s s2
                  ∧ mid1.errors 1 id = s2.errors 1 id ∧ mid1.orders 1 id = s2.orders 1 id)
            ∧ lowering_as_specified c thr r [1] (mid1.meshes (st.mesh_of 1)).active_ids
                mid1 st') := by
  by_cases hm : st.mesh_of 0 = st.mesh_of 1
  · obtain ⟨mid, st1, emid, e1, hvis, hlow⟩ :=
      unrefine_single_spec c unrefine_element_id thr st r rest hq hm
    refine ⟨{ st1 with have_errors := false },
      unrefine_of_single c unrefine_element_id st st1 thr hE hnum hm e1, ?_,
      fun h => absurd hm h⟩
    intro _
    exact ⟨mid, emid, hvis, hlow⟩
  · obtain ⟨mid0, low0, emid0, e0, hvis0, hlow0, q0, m0⟩ :=
      unrefine_round_spec c unrefine_element_id thr 0 st r rest hq
    obtain ⟨mid1, low1, emid1, e1, hvis1, hlow1, _, _⟩ :=
      unrefine_round_spec c unrefine_element_id thr 1 low0 r rest (by rw [q0, hq])
    refine ⟨{ low1 with have_errors := false },
      unrefine_of_multi c unrefine_element_id st low0 low1 thr hE hnum hm e0 e1,
      fun h => absurd h hm, ?_⟩
    intro _
    rw [m0] at emid1 hvis1 hlow1
    exact ⟨mid0, low0, mid1, emid0, hvis0, hlow0, emid1, hvis1, hlow1⟩

/-- C16, amended: a call of `unrefine` with valid errors, two components and a
non-empty regular queue (head `r`) finishes, and its degree-lowering loops do
the following.  In the single-mesh branch the loop runs, for both components,
over the elements that are active in the state `mid` the merge loop ends in; in
the multimesh branch the loop of component 0 runs on the state `mid0` after the
merges of component 0 and the loop of component 1 on the state `mid1` after the
merges of component 1.  A pair (component, active element) whose stored error is
below `thr / 4 * errors[r.comp][r.id]` gets the degree `max(H - 1, 1)`, where
`H` is the horizontal part `H2D_GET_H_ORDER` of the stored order: one less than
`H` when `H` is at least 2, never below 1, and without the vertical part of an
encoded order; the degree of a pair whose error is at or above the bound, and
every other degree, error and mesh, is unchanged by the loop. -/
theorem unrefine_lowers_degree (c : Collaborators α)
    (unrefine_element_id : Mesh → Nat → Mesh) (st : AdaptState α) (thr : α)
    (r : ElementReference) (rest : List ElementReference)
    (hE : st.have_errors = true) (hnum : st.num = 2) (hq : st.regular_queue = r :: rest) :
    ∃ st', unrefine c unrefine_element_id st thr = Completion.finished st'
      ∧ thr / 4 * st.errors r.comp r.id = thr * st.errors r.comp r.id / 4
      ∧ (st.mesh_of 0 = st.mesh_of 1 →
          ∃ mid,
            merge_visits_single unrefine_element_id thr st
                (st.meshes (st.mesh_of 0)).get_max_element_id = some mid
            ∧ lowering_as_specified c thr r [0, 1] (mid.meshes (st.mesh_of 0)).active_ids
                mid st')
      ∧ (st.mesh_of 0 ≠ st.mesh_of 1 →
          ∃ mid0 low0 mid1,
            merge_visits_multi unrefine_element_id thr 0 st
                (st.meshes (st.mesh_of 0)).get_max_element_id = some mid0
            ∧ lowering_as_specified c thr r [0] (mid0.meshes (st.mesh_of 0)).active_ids
                mid0 low0
            ∧ merge_visits_multi unrefine_element_id thr 1 low0
                (low0.meshes (st.mesh_of 1)).get_max_element_id = some mid1
            ∧ lowering_as_specified c thr r [1] (mid1.meshes (st.mesh_of 1)).active_ids
                mid1 st') := by
  by_cases hm : st.mesh_of 0 = st.mesh_of 1
  · obtain ⟨mid, st1, emid, e1, _, hlow⟩ :=
      unrefine_single_spec c unrefine_element_id thr st r rest hq hm
    refine ⟨{ st1 with have_errors := false },
      unrefine_of_single c unrefine_element_id st st1 thr hE hnum hm e1, by ring, ?_,
      fun h => absurd hm h⟩
    intro _
    exact ⟨mid, emid, hlow⟩
  · obtain ⟨mid0, low0, emid0, e0, _, hlow0, q0, m0⟩ :=
      unrefine_round_spec c unrefine_element_id thr 0 st r rest hq
    obtain ⟨mid1, low1, emid1, e1, _, hlow1, _, _⟩ :=
      unrefine_round_spec c unrefine_element_id thr 1 low0 r rest (by rw [q0, hq])
    refine ⟨{ low1 with have_errors := false },
      unrefine_of_multi c unrefine_element_id st low0 low1 thr hE hnum hm e0 e1, by ring,
      fun h => absurd h hm, ?_⟩
    intro _
    rw [m0] at emid1 hlow1
    exact ⟨mid0, low0, mid1, emid0, hlow0, emid1, hlow1⟩

/-- The visits of slots that hold no parent to be merged leave the state of the
single-mesh merge loop as it is. -/
theorem merge_visits_single_skip (unrefine_element_id : Mesh → Nat → Mesh) (thr : α)
    (st s : AdaptState α) (r : ElementReference) (rest : List ElementReference) (a d : Nat)
    (hs : merge_visits_single unrefine_element_id thr st a = some s)
    (hq : s.regular_queue = r :: rest) (hm : s.mesh_of 0 = s.mesh_of 1)
    (hno : ∀ j, a ≤ j → j < a + d →
      ¬ (mergeable_parent s (s.mesh_of 0) j
        ∧ ∀ k, k ∈ [0, 1] →
            sons_error_sum s k ((s.meshes (s.mesh_of 0)).get_element j)
              < thr * s.errors r.comp r.id)) :
    merge_visits_single unrefine_element_id thr st (a + d) = some s := by
  induction d with
  | zero => exact hs
  | succ d ih =>
    have ih2 := ih (fun j h1 h2 => hno j h1 (by omega))
    unfold merge_visits_single at ih2 ⊢
    rw [← Nat.add_assoc, foldlM_range_succ, ih2]
    show merge_single_step unrefine_element_id thr s (a + d) = some s
    obtain ⟨s2, e, _⟩ := merge_single_step_some unrefine_element_id thr s (a + d)
      (by rw [hq]; exact List.cons_ne_nil _ _)
    have h2 := (single_visit_spec unrefine_element_id thr s s2 (a + d) r rest hq hm e).2
      (hno (a + d) (by omega) (by omega))
    rw [e, h2]

/-- The call of `unrefine` with the threshold 1/10 on `coarsen_state` (bound of
the merge 10, bound of the lowering 5/2): element 0 is merged, with the errors
4 and 2 and, after the merge, the degrees 3 and 2; the lowering loop of the
same call leaves the degree 3 of component 0 and lowers the degree of
component 1 to 1; element 5 keeps its degree 4. -/
theorem coarsen_call_result :
    ∃ st', unrefine demo_collaborators spec_unrefine_element_id coarsen_state (1 / 10)
        = Completion.finished st'
      ∧ (st'.meshes 0).active_ids = [0, 5]
      ∧ st'.errors 0 0 = 4 ∧ st'.errors 1 0 = 2
      ∧ st'.orders 0 0 = 3 ∧ st'.orders 1 0 = 1 ∧ st'.orders 0 5 = 4 := by
  obtain ⟨mid, st1, emid, e1, hvis, hlow⟩ :=
    unrefine_single_spec demo_collaborators spec_unrefine_element_id (1 / 10) coarsen_state
      ⟨5, 0⟩ [⟨5, 1⟩, ⟨1, 0⟩, ⟨2, 0⟩, ⟨3, 0⟩, ⟨4, 0⟩, ⟨1, 1⟩, ⟨2, 1⟩, ⟨3, 1⟩, ⟨4, 1⟩] rfl rfl
  obtain ⟨s, s2, es, es2, hspec, _⟩ := hvis 0 (by decide)
  have hs : s = coarsen_state := (Option.some.inj es).symm
  subst hs
  obtain ⟨s0, s1⟩ := coarsen_sums 0
  have hmerged := hspec.1 ⟨⟨rfl, rfl, by decide⟩, by
    intro k hk
    have hk2 : k = 0 ∨ k = 1 := by simpa using hk
    rcases hk2 with hk2 | hk2
    · subst hk2
      rw [show coarsen_state.mesh_of 0 = 0 from rfl, s0]
      norm_num [coarsen_state]
    · subst hk2
      rw [show coarsen_state.mesh_of 0 = 0 from rfl, s1]
      norm_num [coarsen_state]⟩
  obtain ⟨hM, _, hpar, hframe, hq2, hm2, _, _⟩ := hmerged
  have hM0 : s2.meshes 0 = spec_unrefine_element_id
      (spec_unrefine_element_id (coarsen_state.meshes 0) 0) 0 := hM
  have hmid : merge_visits_single spec_unrefine_element_id (1 / 10) coarsen_state (1 + 5)
      = some s2 :=
    merge_visits_single_skip spec_unrefine_element_id (1 / 10) coarsen_state s2 ⟨5, 0⟩
      [⟨5, 1⟩, ⟨1, 0⟩, ⟨2, 0⟩, ⟨3, 0⟩, ⟨4, 0⟩, ⟨1, 1⟩, ⟨2, 1⟩, ⟨3, 1⟩, ⟨4, 1⟩] 1 5 es2
      (by rw [hq2]; rfl) (by rw [hm2]; rfl)
      (by
        intro j h1 h2 hc
        have hp := hc.1
        unfold mergeable_parent at hp
        rw [hm2, show coarsen_state.mesh_of 0 = 0 from rfl, hM0] at hp
        interval_cases j <;> exact absurd hp (by decide))
  have hmid2 : mid = s2 := by
    have : some mid = some s2 := emid.symm.trans hmid
    exact Option.some.inj this
  subst hmid2
  have hact : (mid.meshes (coarsen_state.mesh_of 0)).active_ids = [0, 5] := by
    rw [show coarsen_state.mesh_of 0 = 0 from rfl, hM0]
    decide
  have href : mid.errors 0 5 = 100 := by
    rw [(hframe 0 5 (by simp)).1]
    norm_num [coarsen_state]
  have he0 : mid.errors 0 0 = 4 := by
    rw [(hpar 0 (by simp)).1, show coarsen_state.mesh_of 0 = 0 from rfl, s0]
  have he1 : mid.errors 1 0 = 2 := by
    rw [(hpar 1 (by simp)).1, show coarsen_state.mesh_of 0 = 0 from rfl, s1]
  have ho0 : mid.orders 0 0 = 3 := by
    rw [(hpar 0 (by simp)).2]
    decide
  have ho1 : mid.orders 1 0 = 2 := by
    rw [(hpar 1 (by simp)).2]
    decide
  have ho5 : mid.orders 0 5 = 4 := by
    rw [(hframe 0 5 (by simp)).2]
    decide
  obtain ⟨hl1, hl2, _, hle, hlm, _⟩ := hlow
  rw [hact] at hl1 hl2
  refine ⟨{ st1 with have_errors := false },
    unrefine_of_single demo_collaborators spec_unrefine_element_id coarsen_state st1 (1 / 10)
      rfl rfl rfl e1, ?_, ?_, ?_, ?_, ?_, ?_⟩
  · show (st1.meshes 0).active_ids = [0, 5]
    rw [hlm]
    exact hact
  · show st1.errors 0 0 = 4
    rw [hle, he0]
  · show st1.errors 1 0 = 2
    rw [hle, he1]
  · show st1.orders 0 0 = 3
    rw [hl2 0 0 (by simp) (by simp) (by rw [he0, href]; norm_num), ho0]
  · show st1.orders 1 0 = 1
    rw [(hl1 1 0 (by simp) (by simp) (by rw [he1, href]; norm_num)).1, ho1]
    decide
  · show st1.orders 0 5 = 4
    rw [hl2 0 5 (by simp) (by simp) (by rw [href]; norm_num), ho5]

/-- The call of `unrefine` with the threshold 1/40 on `quad_order_state` (bound
of the merge 5/2, bound of the lowering 5/8): nothing is merged, since the sons
of element 0 carry the summed error 4 in component 0; element 1, active with
the error 1/2 in component 1, ends with the order 1 in place of the encoded
order 98, and keeps the order 98 in component 0, where its error is 1. -/
theorem quad_order_call_result :
    ∃ st', unrefine demo_collaborators spec_unrefine_element_id quad_order_state (1 / 40)
        = Completion.finished st'
      ∧ st'.meshes = quad_order_state.meshes
      ∧ st'.orders 1 1 = 1 ∧ st'.orders 0 1 = 98 := by
  obtain ⟨mid, st1, emid, e1, _, hlow⟩ :=
    unrefine_single_spec demo_collaborators spec_unrefine_element_id (1 / 40) quad_order_state
      ⟨5, 0⟩ [⟨5, 1⟩, ⟨1, 0⟩, ⟨2, 0⟩, ⟨3, 0⟩, ⟨4, 0⟩, ⟨1, 1⟩, ⟨2, 1⟩, ⟨3, 1⟩, ⟨4, 1⟩] rfl rfl
  have hsum0 : sons_error_sum quad_order_state 0 ((quad_order_state.meshes 0).get_element 0)
      = 4 := (coarsen_sums 0).1
  have hmid : merge_visits_single spec_unrefine_element_id (1 / 40) quad_order_state (0 + 6)
      = some quad_order_state :=
    merge_visits_single_skip spec_unrefine_element_id (1 / 40) quad_order_state quad_order_state
      ⟨5, 0⟩ [⟨5, 1⟩, ⟨1, 0⟩, ⟨2, 0⟩, ⟨3, 0⟩, ⟨4, 0⟩, ⟨1, 1⟩, ⟨2, 1⟩, ⟨3, 1⟩, ⟨4, 1⟩] 0 6 rfl
      rfl rfl
      (by
        intro j h1 h2 hc
        rcases Nat.eq_zero_or_pos j with hj | hj
        · subst hj
          have h := hc.2 0 (by simp)
          rw [show quad_order_state.mesh_of 0 = 0 from rfl, hsum0] at h
          norm_num [quad_order_state, coarsen_state] at h
        · have hp := hc.1
          unfold mergeable_parent at hp
          interval_cases j <;> exact absurd hp (by decide))
  have hmid2 : mid = quad_order_state := by
    have : some mid = some quad_order_state := emid.symm.trans hmid
    exact Option.some.inj this
  subst hmid2
  obtain ⟨hl1, hl2, _, _, hlm, _⟩ := hlow
  refine ⟨{ st1 with have_errors := false },
    unrefine_of_single demo_collaborators spec_unrefine_element_id quad_order_state st1 (1 / 40)
      rfl rfl rfl e1, hlm, ?_, ?_⟩
  · show st1.orders 1 1 = 1
    rw [(hl1 1 1 (by simp) (by decide) (by norm_num [quad_order_state, coarsen_state])).1]
    decide
  · show st1.orders 0 1 = 98
    rw [hl2 0 1 (by simp) (by decide) (by norm_num [quad_order_state, coarsen_state])]
    rfl

/-- The call on `coarsen_state` with the threshold 1/10: the hypotheses hold,
the call finishes, element 0 is merged with the errors 4 and 2, and at the end
of the call its degrees are 3 (the maximum of the sons' degrees in component 0)
and 1 (the maximum 2 of component 1, lowered). -/
theorem unrefine_merges_iff_below_witness :
    coarsen_state.have_errors = true ∧ coarsen_state.num = 2
    ∧ ∃ st', unrefine demo_collaborators spec_unrefine_element_id coarsen_state (1 / 10)
        = Completion.finished st'
      ∧ (st'.meshes 0).active_ids = [0, 5]
      ∧ st'.errors 0 0 = 4 ∧ st'.errors 1 0 = 2
      ∧ st'.orders 0 0 = 3 ∧ st'.orders 1 0 = 1 := by
  obtain ⟨st', e, _⟩ :=
    unrefine_merges_iff_below demo_collaborators spec_unrefine_element_id coarsen_state (1 / 10)
      ⟨5, 0⟩ [⟨5, 1⟩, ⟨1, 0⟩, ⟨2, 0⟩, ⟨3, 0⟩, ⟨4, 0⟩, ⟨1, 1⟩, ⟨2, 1⟩, ⟨3, 1⟩, ⟨4, 1⟩] rfl rfl rfl
  obtain ⟨st2, e2, f1, f2, f3, f4, f5, _⟩ := coarsen_call_result
  have h : st' = st2 := by
    have : Completion.finished st' = Completion.finished st2 := e.symm.trans e2
    exact Completion.finished.inj this
  subst h
  exact ⟨rfl, rfl, st', e, f1, f2, f3, f4, f5⟩

/-- C15 as stated fails: in `coarsen_state` element 0 is inactive, its sons 1
to 4 are active and not curved, and their summed errors 4 and 2 are below the
bound `1/10 * 100`, so the call `unrefine(1/10)` merges them; the maximum of
the sons' degrees in component 1 is 2, but the degree of the parent in
component 1 after the call is 1, because the lowering loop of the same call
lowers the merged parent (its error 2 is below a quarter of the bound). -/
theorem unrefine_lowers_merged_parent :
    mergeable_parent coarsen_state 0 0
    ∧ sons_error_sum coarsen_state 0 ((coarsen_state.meshes 0).get_element 0)
        < 1 / 10 * coarsen_state.errors 0 5
    ∧ sons_error_sum coarsen_state 1 ((coarsen_state.meshes 0).get_element 0)
        < 1 / 10 * coarsen_state.errors 0 5
    ∧ sons_max_order coarsen_state 1 ((coarsen_state.meshes 0).get_element 0) = 2
    ∧ ∃ st', unrefine demo_collaborators spec_unrefine_element_id coarsen_state (1 / 10)
        = Completion.finished st'
      ∧ (st'.meshes 0).active_ids = [0, 5]
      ∧ st'.orders 1 0 = 1
      ∧ st'.orders 1 0
          ≠ sons_max_order coarsen_state 1 ((coarsen_state.meshes 0).get_element 0) := by
  obtain ⟨st', e, f1, _, _, _, f5, _⟩ := coarsen_call_result
  obtain ⟨s0, s1⟩ := coarsen_sums 0
  have hmax : sons_max_order coarsen_state 1 ((coarsen_state.meshes 0).get_element 0) = 2 := by
    decide
  refine ⟨⟨rfl, rfl, by decide⟩, ?_, ?_, hmax, st', e, f1, f5, ?_⟩
  · rw [s0]
    norm_num [coarsen_state]
  · rw [s1]
    norm_num [coarsen_state]
  · rw [f5, hmax]
    decide

/-- The call on `coarsen_state` with the threshold 1/10: the hypotheses hold,
the call finishes, the degree 2 that the merge left for element 0 in component 1
(error 2, below the bound 5/2) is lowered by one to 1, and the degree 4 of
element 5 (error 100) is unchanged. -/
theorem unrefine_lowers_degree_witness :
    coarsen_state.have_errors = true ∧ coarsen_state.num = 2
    ∧ ∃ st', unrefine demo_collaborators spec_unrefine_element_id coarsen_state (1 / 10)
        = Completion.finished st'
      ∧ st'.orders 1 0 = 1 ∧ st'.orders 0 5 = 4 := by
  obtain ⟨st', e, _⟩ :=
    unrefine_lowers_degree demo_collaborators spec_unrefine_element_id coarsen_state (1 / 10)
      ⟨5, 0⟩ [⟨5, 1⟩, ⟨1, 0⟩, ⟨2, 0⟩, ⟨3, 0⟩, ⟨4, 0⟩, ⟨1, 1⟩, ⟨2, 1⟩, ⟨3, 1⟩, ⟨4, 1⟩] rfl rfl rfl
  obtain ⟨st2, e2, _, _, _, _, f5, f6⟩ := coarsen_call_result
  have h : st' = st2 := by
    have : Completion.finished st' = Completion.finished st2 := e.symm.trans e2
    exact Completion.finished.inj this
  subst h
  exact ⟨rfl, rfl, st', e, f5, f6⟩

/-- C16 as stated fails: in `quad_order_state` element 1 is active, its error
1/2 in component 1 is below a quarter of the bound `1/40 * 100`, and its stored
order is the encoded order 98 (horizontal degree 2, vertical degree 3); after
the call `unrefine(1/40)`, which merges nothing, its order is 1, not the order
97 that a decrement by one gives: the vertical part is gone. -/
theorem unrefine_drops_vertical_degree :
    (quad_order_state.meshes 0).active_ids = [1, 2, 3, 4, 5]
    ∧ quad_order_state.errors 1 1 < 1 / 40 / 4 * quad_order_state.errors 0 5
    ∧ quad_order_state.orders 1 1 = 98
    ∧ demo_collaborators.get_h_order 98 = 2 ∧ demo_collaborators.get_v_order 98 = 3
    ∧ ∃ st', unrefine demo_collaborators spec_unrefine_element_id quad_order_state (1 / 40)
        = Completion.finished st'
      ∧ st'.meshes = quad_order_state.meshes
      ∧ st'.orders 1 1 = 1
      ∧ st'.orders 1 1 ≠ quad_order_state.orders 1 1 - 1 := by
  obtain ⟨st', e, f1, f2, _⟩ := quad_order_call_result
  refine ⟨by decide, ?_, rfl, by decide, by decide, st', e, f1, f2, ?_⟩
  · norm_num [quad_order_state, coarsen_state]
  · rw [f2]
    decide

end Unrefine

/-! ## The error pass -/

section ErrorPass

variable {α : Type} [LinearOrderedField α]

/-- The loop over `j` (lines 754-765) for one traversal state and one `i`. -/
theorem accumulate_pairs (error_form : Nat → Nat → Bool) (sfa : Bool) (leaf : TraverseState α)
    (i : Nat) (J : List Nat) (a : Accumulators α) :
    (∀ k, (J.foldl (accumulate_pair error_form sfa leaf i) a).norms k
        = a.norms k + (if k = i then
            (J.map (fun j => if error_form i j then eval_error_norm (leaf.norm_value i j)
              else 0)).sum else 0))
    ∧ (J.foldl (accumulate_pair error_form sfa leaf i) a).total_norm
        = a.total_norm
          + (J.map (fun j => if error_form i j then eval_error_norm (leaf.norm_value i j)
              else 0)).sum
    ∧ (∀ k, (J.foldl (accumulate_pair error_form sfa leaf i) a).errors_components k
        = a.errors_components k + (if k = i then
            (J.map (fun j => if error_form i j then eval_error (leaf.err_value i j)
              else 0)).sum else 0))
    ∧ (J.foldl (accumulate_pair error_form sfa leaf i) a).total_error
        = a.total_error
          + (J.map (fun j => if error_form i j then eval_error (leaf.err_value i j)
              else 0)).sum
    ∧ (∀ k id, (J.foldl (accumulate_pair error_form sfa leaf i) a).errors k id
        = a.errors k id + (if sfa = true ∧ k = i ∧ id = leaf.id i then
            (J.map (fun j => if error_form i j then eval_error (leaf.err_value i j)
              else 0)).sum else 0)) := by
  induction J generalizing a with
  | nil => simp
  | cons j J ih =>
    rw [List.foldl_cons]
    simp only [List.map_cons, List.sum_cons]
    by_cases hf : error_form i j = true
    · have e : accumulate_pair error_form sfa leaf i a j =
          { norms := fun k => if k = i then a.norms k + eval_error_norm (leaf.norm_value i j)
              else a.norms k
            total_norm := a.total_norm + eval_error_norm (leaf.norm_value i j)
            total_error := a.total_error + eval_error (leaf.err_value i j)
            errors_components := fun k =>
              if k = i then a.errors_components k + eval_error (leaf.err_value i j)
              else a.errors_components k
            errors :=
              if sfa = true then
                fun k id => if k = i ∧ id = leaf.id i then
                  a.errors k id + eval_error (leaf.err_value i j) else a.errors k id
              else a.errors } := by
        unfold accumulate_pair
        rw [if_pos hf]
      obtain ⟨h1, h2, h3, h4, h5⟩ := ih (accumulate_pair error_form sfa leaf i a j)
      simp only [hf, if_true]
      refine ⟨?_, ?_, ?_, ?_, ?_⟩
      · intro k
        rw [h1, e]
        dsimp only
        split_ifs <;> ring
      · rw [h2, e]; ring
      · intro k
        rw [h3, e]
        dsimp only
        split_ifs <;> ring
      · rw [h4, e]; ring
      · intro k id
        rw [h5, e]
        dsimp only
        by_cases hs : sfa = true
        · simp only [hs, if_true, true_and]
          split_ifs <;> ring
        · simp only [hs, if_false, false_and, Bool.false_eq_true]
    · have e : accumulate_pair error_form sfa leaf i a j = a := by
        unfold accumulate_pair
        rw [if_neg hf]
      rw [e]
      obtain ⟨h1, h2, h3, h4, h5⟩ := ih a
      simp only [hf, if_false, Bool.false_eq_true, zero_add]
      exact ⟨h1, h2, h3, h4, h5⟩

/-- The loops over `i` and `j` (lines 752-766) for one traversal state, after
the first `n` values of `i`. -/
theorem accumulate_rows (error_form : Nat → Nat → Bool) (sfa : Bool) (num : Nat)
    (leaf : TraverseState α) (n : Nat) (a : Accumulators α) :
    (∀ k, ((List.range n).foldl (fun a1 i =>
          (List.range num).foldl (accumulate_pair error_form sfa leaf i) a1) a).norms k
        = a.norms k + (if k < n then leaf_norm error_form num leaf k else 0))
    ∧ ((List.range n).foldl (fun a1 i =>
          (List.range num).foldl (accumulate_pair error_form sfa leaf i) a1) a).total_norm
        = a.total_norm + ((List.range n).map (leaf_norm error_form num leaf)).sum
    ∧ (∀ k, ((List.range n).foldl (fun a1 i =>
          (List.range num).foldl (accumulate_pair error_form sfa leaf i) a1) a).errors_components k
        = a.errors_components k + (if k < n then leaf_error error_form num leaf k else 0))
    ∧ ((List.range n).foldl (fun a1 i =>
          (List.range num).foldl (accumulate_pair error_form sfa leaf i) a1) a).total_error
        = a.total_error + ((List.range n).map (leaf_error error_form num leaf)).sum
    ∧ (∀ k id, ((List.range n).foldl (fun a1 i =>
          (List.range num).foldl (accumulate_pair error_form sfa leaf i) a1) a).errors k id
        = a.errors k id + (if sfa = true ∧ k < n ∧ id = leaf.id k then
            leaf_error error_form num leaf k else 0)) := by
  induction n with
  | zero => simp
  | succ n ih =>
    obtain ⟨h1, h2, h3, h4, h5⟩ := ih
    rw [List.range_succ, List.foldl_append]
    simp only [List.foldl_cons, List.foldl_nil, List.map_append, List.map_cons, List.map_nil,
      List.sum_append, List.sum_cons, List.sum_nil, add_zero]
    obtain ⟨g1, g2, g3, g4, g5⟩ := accumulate_pairs error_form sfa leaf n (List.range num)
      ((List.range n).foldl (fun a1 i =>
          (List.range num).foldl (accumulate_pair error_form sfa leaf i) a1) a)
    refine ⟨?_, ?_, ?_, ?_, ?_⟩
    · intro k
      rw [g1, h1]
      unfold leaf_norm
      by_cases hk : k = n
      · subst hk
        simp
      · have h3 : (k < n + 1) = (k < n) := by
          apply propext; constructor <;> intro h <;> omega
        simp only [hk, if_false, add_zero, h3]
    · rw [g2, h2]
      unfold leaf_norm
      ring
    · intro k
      rw [g3, h3]
      unfold leaf_error
      by_cases hk : k = n
      · subst hk
        simp
      · have h3 : (k < n + 1) = (k < n) := by
          apply propext; constructor <;> intro h <;> omega
        simp only [hk, if_false, add_zero, h3]
    · rw [g4, h4]
      unfold leaf_error
      ring
    · intro k id
      rw [g5, h5]
      unfold leaf_error
      by_cases hk : k = n
      · subst hk
        simp
      · have h3 : (k < n + 1) = (k < n) := by
          apply propext; constructor <;> intro h <;> omega
        simp only [hk, if_false, add_zero, h3, false_and, and_false]

/-- The traversal loop (lines 750-768): what the accumulators hold at its
end. -/
theorem accumulate_spec (error_form : Nat → Nat → Bool) (sfa : Bool) (num : Nat)
    (leaves : List (TraverseState α)) (a : Accumulators α) :
    (∀ k, (accumulate error_form sfa num leaves a).norms k
        = a.norms k + (if k < num then component_norm error_form num leaves k else 0))
    ∧ (accumulate error_form sfa num leaves a).total_norm
        = a.total_norm + total_norm_sum error_form num leaves
    ∧ (∀ k, (accumulate error_form sfa num leaves a).errors_components k
        = a.errors_components k
          + (if k < num then component_error error_form num leaves k else 0))
    ∧ (accumulate error_form sfa num leaves a).total_error
        = a.total_error + total_error_sum error_form num leaves
    ∧ (∀ k id, (accumulate error_form sfa num leaves a).errors k id
        = a.errors k id + (if sfa = true ∧ k < num then
            element_error error_form num leaves k id else 0)) := by
  unfold accumulate
  induction leaves generalizing a with
  | nil =>
    simp [component_norm, component_error, total_norm_sum, total_error_sum, element_error]
  | cons l leaves ih =>
    rw [List.foldl_cons]
    obtain ⟨h1, h2, h3, h4, h5⟩ := ih ((List.range num).foldl (fun a1 i =>
          (List.range num).foldl (accumulate_pair error_form sfa l i) a1) a)
    obtain ⟨g1, g2, g3, g4, g5⟩ := accumulate_rows error_form sfa num l num a
    refine ⟨?_, ?_, ?_, ?_, ?_⟩
    · intro k
      rw [h1, g1]
      unfold component_norm
      rw [List.map_cons, List.sum_cons]
      split_ifs <;> ring
    · rw [h2, g2]
      unfold total_norm_sum
      rw [List.map_cons, List.sum_cons]
      ring
    · intro k
      rw [h3, g3]
      unfold component_error
      rw [List.map_cons, List.sum_cons]
      split_ifs <;> ring
    · rw [h4, g4]
      unfold total_error_sum
      rw [List.map_cons, List.sum_cons]
      ring
    · intro k id
      rw [h5, g5]
      unfold element_error
      rw [List.map_cons, List.sum_cons]
      by_cases hs : sfa = true ∧ k < num
      · by_cases hid : id = l.id k
        · simp only [hs, hid, and_self, if_true, true_and]
          ring
        · simp only [hs, hid, and_self, if_true, and_false, if_false, true_and]
          ring
      · have hs2 : ¬ (sfa = true ∧ k < num ∧ id = l.id k) := fun h => hs ⟨h.1, h.2.1⟩
        simp only [hs, hs2, if_false, add_zero]

/-- Lines 721-736 after the first `n` components. -/
theorem prepare_arrays_upto (sfa : Bool) (meshes : Nat → Nat) (st : AdaptState α) (n : Nat)
    (s : AdaptState α)
    (hs : (List.range n).foldl
      (fun (s : AdaptState α) i =>
        if sfa = true then
          { s with
            num_act_elems :=
              s.num_act_elems + ((s.meshes (meshes i)).get_num_active_elements : Int)
            errors := fun k id => if k = i then 0 else s.errors k id }
        else
          { s with
            num_act_elems :=
              s.num_act_elems + ((s.meshes (meshes i)).get_num_active_elements : Int) })
      { st with num_act_elems := 0 } = s) :
    s.num = st.num ∧ s.mesh_of = st.mesh_of ∧ s.meshes = st.meshes ∧ s.orders = st.orders
    ∧ s.have_errors = st.have_errors ∧ s.errors_squared_sum = st.errors_squared_sum
    ∧ s.regular_queue = st.regular_queue ∧ s.priority_queue = st.priority_queue
    ∧ s.last_refinements = st.last_refinements
    ∧ s.num_act_elems
        = ((List.range n).map
            (fun i => ((st.meshes (meshes i)).get_num_active_elements : Int))).sum
    ∧ (∀ k id, s.errors k id = if sfa = true ∧ k < n then 0 else st.errors k id) := by
  induction n generalizing s with
  | zero =>
    simp only [List.range_zero, List.foldl_nil] at hs
    subst hs
    simp
  | succ n ih =>
    rw [List.range_succ, List.foldl_append] at hs
    simp only [List.foldl_cons, List.foldl_nil] at hs
    obtain ⟨a1, a2, a3, a4, a5, a6, a7, a8, a9, a10, a11⟩ := ih _ rfl
    generalize (List.range n).foldl
      (fun (s : AdaptState α) i =>
        if sfa = true then
          { s with
            num_act_elems :=
              s.num_act_elems + ((s.meshes (meshes i)).get_num_active_elements : Int)
            errors := fun k id => if k = i then 0 else s.errors k id }
        else
          { s with
            num_act_elems :=
              s.num_act_elems + ((s.meshes (meshes i)).get_num_active_elements : Int) })
      { st with num_act_elems := 0 } = t at hs a1 a2 a3 a4 a5 a6 a7 a8 a9 a10 a11
    by_cases hsfa : sfa = true
    · rw [if_pos hsfa] at hs
      subst hs
      refine ⟨a1, a2, a3, a4, a5, a6, a7, a8, a9, ?_, ?_⟩
      · dsimp only
        rw [a10, a3, List.range_succ, List.map_append, List.sum_append]
        simp
      · intro k id
        dsimp only
        by_cases hk : k = n
        · simp [hk, hsfa]
        · rw [if_neg hk, a11]
          have h3 : (k < n + 1) = (k < n) := by
            apply propext; constructor <;> intro h <;> omega
          simp only [h3]
    · rw [if_neg hsfa] at hs
      subst hs
      refine ⟨a1, a2, a3, a4, a5, a6, a7, a8, a9, ?_, ?_⟩
      · dsimp only
        rw [a10, a3, List.range_succ, List.map_append, List.sum_append]
        simp
      · intro k id
        dsimp only
        rw [a11]
        simp [hsfa]

/-- Lines 721-736: the fields after the preparation of the arrays. -/
theorem prepare_arrays_spec (sfa : Bool) (meshes : Nat → Nat) (st : AdaptState α) :
    (prepare_arrays sfa meshes st).num = st.num
    ∧ (prepare_arrays sfa meshes st).mesh_of = st.mesh_of
    ∧ (prepare_arrays sfa meshes st).meshes = st.meshes
    ∧ (prepare_arrays sfa meshes st).orders = st.orders
    ∧ (prepare_arrays sfa meshes st).have_errors = st.have_errors
    ∧ (prepare_arrays sfa meshes st).errors_squared_sum = st.errors_squared_sum
    ∧ (prepare_arrays sfa meshes st).regular_queue = st.regular_queue
    ∧ (prepare_arrays sfa meshes st).priority_queue = st.priority_queue
    ∧ (prepare_arrays sfa meshes st).last_refinements = st.last_refinements
    ∧ (prepare_arrays sfa meshes st).num_act_elems = total_active_elements st meshes
    ∧ (∀ k id, (prepare_arrays sfa meshes st).errors k id
        = if sfa = true ∧ k < st.num then 0 else st.errors k id) := by
  apply prepare_arrays_upto sfa meshes st st.num
  unfold prepare_arrays
  congr 1

/-- Nothing but errors differs between a state and itself. -/
theorem same_but_errors_refl {β : Type} (s : AdaptState β) : same_but_errors s s :=
  ⟨rfl, rfl, rfl, rfl, rfl, rfl, rfl, rfl, rfl, rfl⟩

/-- The relation `same_but_errors` is transitive. -/
theorem same_but_errors_trans {β : Type} (s t u : AdaptState β) (h1 : same_but_errors s t)
    (h2 : same_but_errors t u) : same_but_errors s u := by
  obtain ⟨a1, a2, a3, a4, a5, a6, a7, a8, a9, a10⟩ := h1
  obtain ⟨b1, b2, b3, b4, b5, b6, b7, b8, b9, b10⟩ := h2
  exact ⟨b1.trans a1, b2.trans a2, b3.trans a3, b4.trans a4, b5.trans a5, b6.trans a6,
    b7.trans a7, b8.trans a8, b9.trans a9, b10.trans a10⟩

/-- The division loop over the distinct elements of one component (line 793). -/
theorem make_relative_row (norms : Nat → α) (i : Nat) (L : List Nat) (hL : L.Nodup)
    (s : AdaptState α) :
    same_but_errors s
      (L.foldl (fun s1 id => set_error s1 i id (s1.errors i id / norms i)) s)
    ∧ ∀ k id, (L.foldl (fun s1 id => set_error s1 i id (s1.errors i id / norms i)) s).errors k id
        = if k = i ∧ id ∈ L then s.errors k id / norms k else s.errors k id := by
  induction L generalizing s with
  | nil => exact ⟨same_but_errors_refl _, fun k id => by simp⟩
  | cons a L ih =>
    obtain ⟨ha, hL2⟩ := List.nodup_cons.mp hL
    rw [List.foldl_cons]
    obtain ⟨b, o⟩ := ih hL2 (set_error s i a (s.errors i a / norms i))
    refine ⟨same_but_errors_trans _ _ _ (same_but_errors_refl _) b, ?_⟩
    intro k id
    rw [o]
    by_cases h : k = i ∧ id ∈ L
    · have hne : id ≠ a := fun e => ha (e ▸ h.2)
      rw [if_pos h, if_pos ⟨h.1, List.mem_cons_of_mem _ h.2⟩]
      show (if k = i ∧ id = a then _ else s.errors k id) / norms k = _
      rw [if_neg (fun h2 => hne h2.2)]
    · rw [if_neg h]
      show (if k = i ∧ id = a then _ else s.errors k id) = _
      by_cases h2 : k = i ∧ id = a
      · rw [if_pos h2, if_pos ⟨h2.1, by rw [h2.2]; exact List.mem_cons_self _ _⟩, h2.1, h2.2]
      · rw [if_neg h2, if_neg]
        rintro ⟨h3, h4⟩
        rcases List.mem_cons.mp h4 with h4 | h4
        · exact h2 ⟨h3, h4⟩
        · exact h ⟨h3, h4⟩

/-- Lines 790-794 after the first `n` components. -/
theorem make_relative_upto (meshes : Nat → Nat) (norms : Nat → α) (st : AdaptState α) (n : Nat) :
    same_but_errors st
      ((List.range n).foldl
        (fun s i =>
          (s.meshes (meshes i)).active_ids.foldl
            (fun s1 id => set_error s1 i id (s1.errors i id / norms i)) s) st)
    ∧ ∀ k id, ((List.range n).foldl
        (fun s i =>
          (s.meshes (meshes i)).active_ids.foldl
            (fun s1 id => set_error s1 i id (s1.errors i id / norms i)) s) st).errors k id
        = if k < n ∧ id ∈ (st.meshes (meshes k)).active_ids then st.errors k id / norms k
          else st.errors k id := by
  induction n with
  | zero => exact ⟨same_but_errors_refl _, fun k id => by simp⟩
  | succ n ih =>
    obtain ⟨b0, o0⟩ := ih
    rw [List.range_succ, List.foldl_append]
    simp only [List.foldl_cons, List.foldl_nil]
    generalize (List.range n).foldl
        (fun s i =>
          (s.meshes (meshes i)).active_ids.foldl
            (fun s1 id => set_error s1 i id (s1.errors i id / norms i)) s) st = t at b0 o0
    obtain ⟨b1, o1⟩ := make_relative_row norms n (t.meshes (meshes n)).active_ids
      (List.Nodup.filter _ (List.nodup_range _)) t
    refine ⟨same_but_errors_trans _ _ _ b0 b1, ?_⟩
    intro k id
    rw [o1, b0.2.2.1, o0]
    by_cases hk : k = n
    · subst hk
      have h1 : ¬ (k < k ∧ id ∈ (st.meshes (meshes k)).active_ids) := fun h => by omega
      by_cases hid : id ∈ (st.meshes (meshes k)).active_ids
      · rw [if_pos ⟨rfl, hid⟩, if_neg h1, if_pos ⟨by omega, hid⟩]
      · rw [if_neg (fun h => hid h.2), if_neg h1, if_neg (fun h => hid h.2)]
    · rw [if_neg (fun h => hk h.1)]
      have h3 : (k < n + 1) = (k < n) := by
        apply propext; constructor <;> intro h <;> omega
      simp only [h3]

/-- Lines 790-794: every stored error of an active element of a component
below `num` is divided by the norm of the component; nothing else changes. -/
theorem make_relative_spec (meshes : Nat → Nat) (norms : Nat → α) (st : AdaptState α) :
    same_but_errors st (make_relative meshes norms st)
    ∧ ∀ k id, (make_relative meshes norms st).errors k id
        = if k < st.num ∧ id ∈ (st.meshes (meshes k)).active_ids then st.errors k id / norms k
          else st.errors k id :=
  make_relative_upto meshes norms st st.num

/-- A loop that pushes one value per pass. -/
theorem foldlM_push {β : Type} (g : Nat → β) (L : List Nat) (init : List β) :
    L.foldlM (fun (out : List β) i => some (out ++ [g i])) init = some (init ++ L.map g) := by
  induction L generalizing init with
  | nil => simp
  | cons i L ih =>
    rw [List.foldlM_cons]
    simp only [Option.bind_eq_bind, Option.some_bind, ih]
    simp

/-- Lines 771-782 with a recognized total-error mode: one entry per
component. -/
theorem component_errors_of_spec (c : Collaborators α) (codes : ErrorFlagCodes)
    (error_flags num : Nat) (acc : Accumulators α)
    (hmode : error_flags &&& codes.HERMES_TOTAL_ERROR_MASK = codes.HERMES_TOTAL_ERROR_ABS
      ∨ error_flags &&& codes.HERMES_TOTAL_ERROR_MASK = codes.HERMES_TOTAL_ERROR_REL) :
    component_errors_of c codes error_flags num acc
      = some ((List.range num).map (fun i =>
          if error_flags &&& codes.HERMES_TOTAL_ERROR_MASK = codes.HERMES_TOTAL_ERROR_ABS then
            c.sqrt (acc.errors_components i)
          else c.sqrt (acc.errors_components i / acc.norms i))) := by
  unfold component_errors_of
  have h := foldlM_push (fun i =>
      if error_flags &&& codes.HERMES_TOTAL_ERROR_MASK = codes.HERMES_TOTAL_ERROR_ABS then
        c.sqrt (acc.errors_components i)
      else c.sqrt (acc.errors_components i / acc.norms i)) (List.range num) []
  rw [List.nil_append] at h
  rw [← h]
  congr 1
  funext out i
  by_cases ha : error_flags &&& codes.HERMES_TOTAL_ERROR_MASK = codes.HERMES_TOTAL_ERROR_ABS
  · rw [if_pos ha, if_pos ha]
  · have hr : error_flags &&& codes.HERMES_TOTAL_ERROR_MASK = codes.HERMES_TOTAL_ERROR_REL := by
      rcases hmode with h1 | h1
      · exact absurd h1 ha
      · exact h1
    rw [if_neg ha, if_pos hr, if_neg ha]

/-- Lines 787-811 with a positive element count: the storing part ends, and
the fields of the state after it. -/
theorem store_errors_spec (codes : ErrorFlagCodes)
    (sort_queue : (Nat → Nat → α) → List ElementReference → List ElementReference)
    (error_flags : Nat) (meshes : Nat → Nat) (acc : Accumulators α) (core3 : AdaptState α)
    (hpos : 0 < core3.num_act_elems) :
    ∃ core8, store_errors codes sort_queue error_flags meshes acc core3 = Except.ok core8
      ∧ core8.have_errors = true
      ∧ core8.errors_squared_sum
          = (if error_flags &&& codes.HERMES_TOTAL_ERROR_MASK = codes.HERMES_ELEMENT_ERROR_REL
              then acc.total_error / acc.total_norm else acc.total_error)
      ∧ (∀ k id, core8.errors k id
          = if error_flags &&& codes.HERMES_ELEMENT_ERROR_MASK = codes.HERMES_ELEMENT_ERROR_REL
                ∧ k < core3.num ∧ id ∈ (core3.meshes (meshes k)).active_ids
            then core3.errors k id / acc.norms k else core3.errors k id)
      ∧ core8.num = core3.num ∧ core8.mesh_of = core3.mesh_of ∧ core8.meshes = core3.meshes
      ∧ core8.orders = core3.orders ∧ core8.num_act_elems = core3.num_act_elems
      ∧ core8.priority_queue = core3.priority_queue
      ∧ core8.last_refinements = core3.last_refinements
      ∧ core8.regular_queue
          = sort_queue core8.errors
              ((List.range core3.num).foldl
                (fun (q : List ElementReference) i =>
                  (core3.meshes (meshes i)).active_ids.foldl (fun q1 id => q1 ++ [⟨id, i⟩]) q)
                []) := by
  unfold store_errors
  dsimp only
  generalize hc4 : (if error_flags &&& codes.HERMES_ELEMENT_ERROR_MASK
      = codes.HERMES_ELEMENT_ERROR_REL then make_relative meshes acc.norms core3 else core3)
    = core4
  have h4 : same_but_errors core3 core4 ∧ ∀ k id, core4.errors k id
      = if error_flags &&& codes.HERMES_ELEMENT_ERROR_MASK = codes.HERMES_ELEMENT_ERROR_REL
            ∧ k < core3.num ∧ id ∈ (core3.meshes (meshes k)).active_ids
        then core3.errors k id / acc.norms k else core3.errors k id := by
    rw [← hc4]
    by_cases he : error_flags &&& codes.HERMES_ELEMENT_ERROR_MASK
        = codes.HERMES_ELEMENT_ERROR_REL
    · rw [if_pos he]
      obtain ⟨b, o⟩ := make_relative_spec meshes acc.norms core3
      refine ⟨b, fun k id => ?_⟩
      rw [o]
      simp only [he, true_and]
    · rw [if_neg he]
      refine ⟨same_but_errors_refl _, fun k id => ?_⟩
      simp only [he, false_and, if_false]
  obtain ⟨⟨b1, b2, b3, b4, b5, b6, b7, b8, b9, b10⟩, o4⟩ := h4
  generalize hc6 : (if error_flags &&& codes.HERMES_TOTAL_ERROR_MASK
      = codes.HERMES_ELEMENT_ERROR_REL then
        ({ core4 with errors_squared_sum := acc.total_error / acc.total_norm } : AdaptState α)
      else { core4 with errors_squared_sum := acc.total_error }) = core6
  have h6 : core6 = { core4 with errors_squared_sum :=
      (if error_flags &&& codes.HERMES_TOTAL_ERROR_MASK = codes.HERMES_ELEMENT_ERROR_REL
        then acc.total_error / acc.total_norm else acc.total_error) } := by
    rw [← hc6]
    split_ifs <;> rfl
  have hfill : fill_regular_queue sort_queue core6 meshes
      = some { core6 with regular_queue := (sort_queue core6.errors
          ((List.range core6.num).foldl
            (fun (q : List ElementReference) i =>
              (core6.meshes (meshes i)).active_ids.foldl (fun q1 id => q1 ++ [⟨id, i⟩]) q)
            [])) } := by
    unfold fill_regular_queue
    have hp : core6.num_act_elems > 0 := by
      rw [h6]
      show core4.num_act_elems > 0
      rw [b5]
      exact hpos
    rw [if_pos hp]
  rw [hfill]
  dsimp only
  refine ⟨_, rfl, rfl, ?_, ?_, ?_, ?_, ?_, ?_, ?_, ?_, ?_, ?_⟩
  · rw [h6]
  · intro k id
    rw [h6]
    exact o4 k id
  · rw [h6]; exact b1
  · rw [h6]; exact b2
  · rw [h6]; exact b3
  · rw [h6]; exact b4
  · rw [h6]; exact b5
  · rw [h6]; exact b9
  · rw [h6]; exact b10
  · rw [h6]
    dsimp only
    rw [b1, b3]

/-- Lines 824-832 with a recognized total-error mode. -/
theorem total_error_value_spec (c : Collaborators α) (codes : ErrorFlagCodes)
    (error_flags : Nat) (acc : Accumulators α)
    (hmode : error_flags &&& codes.HERMES_TOTAL_ERROR_MASK = codes.HERMES_TOTAL_ERROR_ABS
      ∨ error_flags &&& codes.HERMES_TOTAL_ERROR_MASK = codes.HERMES_TOTAL_ERROR_REL) :
    total_error_value c codes error_flags acc
      = some (if error_flags &&& codes.HERMES_TOTAL_ERROR_MASK = codes.HERMES_TOTAL_ERROR_ABS
          then c.sqrt acc.total_error else c.sqrt (acc.total_error / acc.total_norm)) := by
  unfold total_error_value
  by_cases ha : error_flags &&& codes.HERMES_TOTAL_ERROR_MASK = codes.HERMES_TOTAL_ERROR_ABS
  · rw [if_pos ha, if_pos ha]
  · have hr : error_flags &&& codes.HERMES_TOTAL_ERROR_MASK = codes.HERMES_TOTAL_ERROR_REL := by
      rcases hmode with h1 | h1
      · exact absurd h1 ha
      · exact h1
    rw [if_neg ha, if_pos hr, if_neg ha]

/-- The error pass with as many solutions as components, a recognized
total-error mode and, when storing, at least one active element: the call
returns, and the returned value, the component errors and the fields of the
state after it are the following. -/
theorem calc_err_internal_returns (c : Collaborators α) (codes : ErrorFlagCodes)
    (sort_queue : (Nat → Nat → α) → List ElementReference → List ElementReference)
    (leaves : List (TraverseState α)) (st : ErrorPassState α) (slns rslns : List Solution)
    (want sfa : Bool) (error_flags : Nat)
    (hn : slns.length = st.core.num) (hr : st.core.num ≤ rslns.length)
    (hmode : error_flags &&& codes.HERMES_TOTAL_ERROR_MASK = codes.HERMES_TOTAL_ERROR_ABS
      ∨ error_flags &&& codes.HERMES_TOTAL_ERROR_MASK = codes.HERMES_TOTAL_ERROR_REL)
    (hact : sfa = true →
      0 < total_active_elements st.core (fun i => (slns.getD i default).mesh)) :
    ∃ st', calc_err_internal c codes sort_queue leaves st slns rslns want sfa error_flags
        = ErrorPassOutcome.returned
            (if error_flags &&& codes.HERMES_TOTAL_ERROR_MASK = codes.HERMES_TOTAL_ERROR_ABS
              then c.sqrt (total_error_sum st.error_form st.core.num leaves)
              else c.sqrt (total_error_sum st.error_form st.core.num leaves
                / total_norm_sum st.error_form st.core.num leaves))
            (if want = true then
              some ((List.range st.core.num).map (fun i =>
                if error_flags &&& codes.HERMES_TOTAL_ERROR_MASK = codes.HERMES_TOTAL_ERROR_ABS
                then c.sqrt (component_error st.error_form st.core.num leaves i)
                else c.sqrt (component_error st.error_form st.core.num leaves i
                  / component_norm st.error_form st.core.num leaves i)))
             else none)
            st'
      ∧ st'.error_form = st.error_form
      ∧ st'.core.num = st.core.num ∧ st'.core.mesh_of = st.core.mesh_of
      ∧ st'.core.meshes = st.core.meshes ∧ st'.core.orders = st.core.orders
      ∧ st'.core.priority_queue = st.core.priority_queue
      ∧ st'.core.last_refinements = st.core.last_refinements
      ∧ st'.core.num_act_elems
          = total_active_elements st.core (fun i => (slns.getD i default).mesh)
      ∧ (sfa = true →
          st'.core.have_errors = true
          ∧ st'.core.errors_squared_sum
              = (if error_flags &&& codes.HERMES_TOTAL_ERROR_MASK
                    = codes.HERMES_ELEMENT_ERROR_REL
                then total_error_sum st.error_form st.core.num leaves
                  / total_norm_sum st.error_form st.core.num leaves
                else total_error_sum st.error_form st.core.num leaves)
          ∧ (∀ k id, k < st.core.num → st'.core.errors k id
              = if error_flags &&& codes.HERMES_ELEMENT_ERROR_MASK
                    = codes.HERMES_ELEMENT_ERROR_REL
                  ∧ id ∈ (st.core.meshes ((slns.getD k default).mesh)).active_ids
                then element_error st.error_form st.core.num leaves k id
                  / component_norm st.error_form st.core.num leaves k
                else element_error st.error_form st.core.num leaves k id)
          ∧ (∀ k id, ¬ k < st.core.num → st'.core.errors k id = st.core.errors k id)
          ∧ st'.core.regular_queue
              = sort_queue st'.core.errors
                  ((List.range st.core.num).foldl
                    (fun (q : List ElementReference) i =>
                      (st.core.meshes ((slns.getD i default).mesh)).active_ids.foldl
                        (fun q1 id => q1 ++ [⟨id, i⟩]) q)
                    []))
      ∧ (sfa = false →
          st'.core.have_errors = st.core.have_errors
          ∧ st'.core.errors_squared_sum = st.core.errors_squared_sum
          ∧ st'.core.errors = st.core.errors
          ∧ st'.core.regular_queue = st.core.regular_queue
          ∧ st'.sln = st.sln ∧ st'.rsln = st.rsln) := by
  obtain ⟨p1, p2, p3, p4, p5, p6, p7, p8, p9, p10, p11⟩ :=
    prepare_arrays_spec sfa (fun i => (slns.getD i default).mesh) st.core
  unfold calc_err_internal
  dsimp only
  rw [if_neg (fun h => h hn), if_neg (by omega)]
  generalize prepare_arrays sfa (fun i => (slns.getD i default).mesh) st.core = core1
    at p1 p2 p3 p4 p5 p6 p7 p8 p9 p10 p11 ⊢
  generalize hcore2 : (if sfa = true then
      ({ core1 with errors_squared_sum := 0 } : AdaptState α) else core1) = core2
  have q : core2.num = core1.num ∧ core2.mesh_of = core1.mesh_of ∧ core2.meshes = core1.meshes
      ∧ core2.orders = core1.orders ∧ core2.num_act_elems = core1.num_act_elems
      ∧ core2.have_errors = core1.have_errors ∧ core2.errors = core1.errors
      ∧ core2.regular_queue = core1.regular_queue ∧ core2.priority_queue = core1.priority_queue
      ∧ core2.last_refinements = core1.last_refinements
      ∧ (sfa = false → core2.errors_squared_sum = core1.errors_squared_sum) := by
    rw [← hcore2]
    split_ifs with hs
    · exact ⟨rfl, rfl, rfl, rfl, rfl, rfl, rfl, rfl, rfl, rfl, fun h => by rw [hs] at h; cases h⟩
    · exact ⟨rfl, rfl, rfl, rfl, rfl, rfl, rfl, rfl, rfl, rfl, fun _ => rfl⟩
  obtain ⟨q1, q2, q3, q4, q5, q6, q7, q8, q9, q10, q11⟩ := q
  obtain ⟨g1, g2, g3, g4, g5⟩ := accumulate_spec st.error_form sfa core2.num leaves
    { norms := fun _ => 0, total_norm := 0, errors_components := fun _ => 0, total_error := 0,
      errors := core2.errors }
  generalize accumulate st.error_form sfa core2.num leaves
    { norms := fun _ => 0, total_norm := 0, errors_components := fun _ => 0, total_error := 0,
      errors := core2.errors } = acc at g1 g2 g3 g4 g5 ⊢
  dsimp only at g1 g2 g3 g4 g5
  rw [q1, p1] at g1 g2 g3 g4 g5
  rw [zero_add] at g2 g4
  have hcomp : component_errors_of c codes error_flags core2.num acc
      = some ((List.range st.core.num).map (fun i =>
          if error_flags &&& codes.HERMES_TOTAL_ERROR_MASK = codes.HERMES_TOTAL_ERROR_ABS
          then c.sqrt (component_error st.error_form st.core.num leaves i)
          else c.sqrt (component_error st.error_form st.core.num leaves i
            / component_norm st.error_form st.core.num leaves i))) := by
    rw [component_errors_of_spec c codes error_flags core2.num acc hmode, q1, p1]
    congr 1
    apply List.map_congr_left
    intro i hi
    have hi2 : i < st.core.num := List.mem_range.mp hi
    rw [g1, g3, if_pos hi2, if_pos hi2, zero_add, zero_add]
  have hval := total_error_value_spec c codes error_flags acc hmode
  rw [g2, g4] at hval
  rw [hval]
  cases want
  · -- no component errors requested
    dsimp only
    cases sfa
    · -- no storing
      simp only [Bool.false_eq_true, if_false]
      refine ⟨_, rfl, rfl, ?_, ?_, ?_, ?_, ?_, ?_, ?_, ?_, ?_⟩
      · exact q1.trans p1
      · exact q2.trans p2
      · exact q3.trans p3
      · exact q4.trans p4
      · exact q9.trans p8
      · exact q10.trans p9
      · exact q5.trans p10
      · intro h; cases h
      · intro _
        refine ⟨q6.trans p5, (q11 rfl).trans p6, ?_, q8.trans p7, rfl, rfl⟩
        funext k id
        show acc.errors k id = _
        rw [g5, q7, p11]
        simp
    · -- storing
      simp only [if_true]
      have hpos : 0 < ({ core2 with errors := acc.errors } : AdaptState α).num_act_elems := by
        show 0 < core2.num_act_elems
        rw [q5, p10]
        exact hact rfl
      obtain ⟨core8, e8, s1, s2, s3, s4, s5, s6, s7, s8, s9, s10, s11⟩ :=
        store_errors_spec codes sort_queue error_flags (fun i => (slns.getD i default).mesh)
          acc { core2 with errors := acc.errors } hpos
      rw [e8]
      dsimp only at s3 s4 s5 s6 s7 s8 s9 s10 s11 ⊢
      refine ⟨_, rfl, rfl, ?_, ?_, ?_, ?_, ?_, ?_, ?_, ?_, ?_⟩
      · exact s4.trans (q1.trans p1)
      · exact s5.trans (q2.trans p2)
      · exact s6.trans (q3.trans p3)
      · exact s7.trans (q4.trans p4)
      · exact s9.trans (q9.trans p8)
      · exact s10.trans (q10.trans p9)
      · exact s8.trans (q5.trans p10)
      · intro _
        refine ⟨s1, ?_, ?_, ?_, ?_⟩
        · rw [s2, g2, g4]
        · intro k id hk
          show core8.errors k id = _
          rw [s3, g5, q7, p11, g1, q1, p1, q3, p3]
          simp only [hk, and_true, true_and, if_true, zero_add]
        · intro k id hk
          show core8.errors k id = _
          rw [s3, g5, q7, p11, q1, p1]
          simp only [hk, and_false, false_and, if_false, add_zero]
        · show core8.regular_queue = _
          rw [s11, q1, p1, q3, p3]
      · intro h; cases h
  · -- component errors requested
    rw [hcomp]
    dsimp only [Option.map]
    cases sfa
    · -- no storing
      simp only [Bool.false_eq_true, if_false, if_true]
      refine ⟨_, rfl, rfl, ?_, ?_, ?_, ?_, ?_, ?_, ?_, ?_, ?_⟩
      · exact q1.trans p1
      · exact q2.trans p2
      · exact q3.trans p3
      · exact q4.trans p4
      · exact q9.trans p8
      · exact q10.trans p9
      · exact q5.trans p10
      · intro h; cases h
      · intro _
        refine ⟨q6.trans p5, (q11 rfl).trans p6, ?_, q8.trans p7, rfl, rfl⟩
        funext k id
        show acc.errors k id = _
        rw [g5, q7, p11]
        simp
    · -- storing
      simp only [if_true]
      have hpos : 0 < ({ core2 with errors := acc.errors } : AdaptState α).num_act_elems := by
        show 0 < core2.num_act_elems
        rw [q5, p10]
        exact hact rfl
      obtain ⟨core8, e8, s1, s2, s3, s4, s5, s6, s7, s8, s9, s10, s11⟩ :=
        store_errors_spec codes sort_queue error_flags (fun i => (slns.getD i default).mesh)
          acc { core2 with errors := acc.errors } hpos
      rw [e8]
      dsimp only at s3 s4 s5 s6 s7 s8 s9 s10 s11 ⊢
      refine ⟨_, rfl, rfl, ?_, ?_, ?_, ?_, ?_, ?_, ?_, ?_, ?_⟩
      · exact s4.trans (q1.trans p1)
      · exact s5.trans (q2.trans p2)
      · exact s6.trans (q3.trans p3)
      · exact s7.trans (q4.trans p4)
      · exact s9.trans (q9.trans p8)
      · exact s10.trans (q10.trans p9)
      · exact s8.trans (q5.trans p10)
      · intro _
        refine ⟨s1, ?_, ?_, ?_, ?_⟩
        · rw [s2, g2, g4]
        · intro k id hk
          show core8.errors k id = _
          rw [s3, g5, q7, p11, g1, q1, p1, q3, p3]
          simp only [hk, and_true, true_and, if_true, zero_add]
        · intro k id hk
          show core8.errors k id = _
          rw [s3, g5, q7, p11, q1, p1]
          simp only [hk, and_false, false_and, if_false, add_zero]
        · show core8.regular_queue = _
          rw [s11, q1, p1, q3, p3]
      · intro h; cases h

/-- The flag `non_finite` of the state that the error pass returns, in terms
of the accumulated norms: it is raised exactly when a division that the call
executes has a zero divisor, that is when a component norm is zero and the
component errors are requested in relative total-error mode (line 776), when
the norm of a component with an active element is zero and the element errors
are made relative (line 793), or when the total norm is zero and it divides
`errors_squared_sum` (line 803) or the value returned (line 828). -/
theorem calc_err_internal_non_finite (c : Collaborators α) (codes : ErrorFlagCodes)
    (sort_queue : (Nat → Nat → α) → List ElementReference → List ElementReference)
    (leaves : List (TraverseState α)) (st : ErrorPassState α) (slns rslns : List Solution)
    (want sfa : Bool) (error_flags : Nat) (value : α) (comps : Option (List α))
    (st' : ErrorPassState α)
    (h : calc_err_internal c codes sort_queue leaves st slns rslns want sfa error_flags
          = ErrorPassOutcome.returned value comps st') :
    st'.non_finite = true ↔
      ((want = true
          ∧ error_flags &&& codes.HERMES_TOTAL_ERROR_MASK ≠ codes.HERMES_TOTAL_ERROR_ABS
          ∧ error_flags &&& codes.HERMES_TOTAL_ERROR_MASK = codes.HERMES_TOTAL_ERROR_REL
          ∧ ∃ i, i < st.core.num ∧ component_norm st.error_form st.core.num leaves i = 0)
        ∨ (sfa = true
          ∧ error_flags &&& codes.HERMES_ELEMENT_ERROR_MASK = codes.HERMES_ELEMENT_ERROR_REL
          ∧ ∃ i, i < st.core.num ∧ component_norm st.error_form st.core.num leaves i = 0
              ∧ (st.core.meshes ((slns.getD i default).mesh)).active_ids ≠ [])
        ∨ (sfa = true
          ∧ error_flags &&& codes.HERMES_TOTAL_ERROR_MASK = codes.HERMES_ELEMENT_ERROR_REL
          ∧ total_norm_sum st.error_form st.core.num leaves = 0)
        ∨ (error_flags &&& codes.HERMES_TOTAL_ERROR_MASK ≠ codes.HERMES_TOTAL_ERROR_ABS
          ∧ error_flags &&& codes.HERMES_TOTAL_ERROR_MASK = codes.HERMES_TOTAL_ERROR_REL
          ∧ total_norm_sum st.error_form st.core.num leaves = 0)) := by
  obtain ⟨p1, p2, p3, p4, p5, p6, p7, p8, p9, p10, p11⟩ :=
    prepare_arrays_spec sfa (fun i => (slns.getD i default).mesh) st.core
  unfold calc_err_internal at h
  dsimp only at h
  by_cases hn : slns.length ≠ st.core.num
  · rw [if_pos hn] at h
    cases h
  rw [if_neg hn] at h
  by_cases hr : rslns.length < slns.length
  · rw [if_pos hr] at h
    cases h
  rw [if_neg hr] at h
  generalize prepare_arrays sfa (fun i => (slns.getD i default).mesh) st.core = core1
    at p1 p2 p3 p4 p5 p6 p7 p8 p9 p10 p11 h
  generalize hcore2 : (if sfa = true then
      ({ core1 with errors_squared_sum := 0 } : AdaptState α) else core1) = core2 at h
  have q : core2.num = core1.num ∧ core2.meshes = core1.meshes := by
    rw [← hcore2]
    split_ifs <;> exact ⟨rfl, rfl⟩
  obtain ⟨q1, q3⟩ := q
  obtain ⟨g1, g2, _, _, _⟩ := accumulate_spec st.error_form sfa core2.num leaves
    { norms := fun _ => 0, total_norm := 0, errors_components := fun _ => 0, total_error := 0,
      errors := core2.errors }
  generalize accumulate st.error_form sfa core2.num leaves
    { norms := fun _ => 0, total_norm := 0, errors_components := fun _ => 0, total_error := 0,
      errors := core2.errors } = acc at g1 g2 h
  dsimp only at g1 g2
  rw [q1, p1] at g1 g2
  rw [zero_add] at g2
  have hnorm : ∀ i, i < st.core.num →
      acc.norms i = component_norm st.error_form st.core.num leaves i := by
    intro i hi
    rw [g1, if_pos hi, zero_add]
  have key : st'.non_finite
      = ((want && component_errors_zero_divisor codes error_flags core2.num acc)
        || (sfa && store_errors_zero_divisor codes error_flags
              (fun i => (slns.getD i default).mesh) acc { core2 with errors := acc.errors })
        || total_error_value_zero_divisor codes error_flags acc) := by
    split at h
    · cases h
    · split at h
      · cases h
      · split at h
        · simp only [ErrorPassOutcome.returned.injEq] at h
          rw [← h.2.2]
        · cases h
  rw [key]
  simp only [component_errors_zero_divisor, store_errors_zero_divisor,
    make_relative_zero_divisor, total_error_value_zero_divisor, Bool.or_eq_true,
    Bool.and_eq_true, decide_eq_true_eq, List.any_eq_true, List.mem_range, Bool.not_eq_true',
    g2, q1, p1, q3, p3, ne_eq, or_assoc]
  constructor
  · rintro (⟨hw, ⟨ha, hrel⟩, i, hi, h0⟩ | ⟨hs, ⟨he, i, hi, h0, hact⟩ | ⟨ht, h0⟩⟩ | ⟨⟨ha, hrel⟩, h0⟩)
    · exact Or.inl ⟨hw, ha, hrel, i, hi, (hnorm i hi) ▸ h0⟩
    · exact Or.inr (Or.inl ⟨hs, he, i, hi, (hnorm i hi) ▸ h0,
        fun e => by rw [e] at hact; cases hact⟩)
    · exact Or.inr (Or.inr (Or.inl ⟨hs, ht, h0⟩))
    · exact Or.inr (Or.inr (Or.inr ⟨ha, hrel, h0⟩))
  · rintro (⟨hw, ha, hrel, i, hi, h0⟩ | ⟨hs, he, i, hi, h0, hact⟩ | ⟨hs, ht, h0⟩ | ⟨ha, hrel, h0⟩)
    · exact Or.inl ⟨hw, ⟨ha, hrel⟩, i, hi, (hnorm i hi).symm ▸ h0⟩
    · exact Or.inr (Or.inl ⟨hs, Or.inl ⟨he, i, hi, (hnorm i hi).symm ▸ h0, by
        cases hl : (st.core.meshes (slns.getD i default).mesh).active_ids with
        | nil => exact absurd hl hact
        | cons a l => rfl⟩⟩)
    · exact Or.inr (Or.inl ⟨hs, Or.inr ⟨ht, h0⟩⟩)
    · exact Or.inr (Or.inr ⟨⟨ha, hrel⟩, h0⟩)

/-- The contributions of one traversal state are non-negative. -/
theorem leaf_error_nonneg (error_form : Nat → Nat → Bool) (num : Nat) (l : TraverseState α)
    (i : Nat) : 0 ≤ leaf_error error_form num l i ∧ 0 ≤ leaf_norm error_form num l i := by
  unfold leaf_error leaf_norm eval_error eval_error_norm
  constructor
  · apply List.sum_nonneg
    intro x hx
    obtain ⟨j, _, rfl⟩ := List.mem_map.mp hx
    split_ifs
    · exact abs_nonneg _
    · exact le_refl _
  · apply List.sum_nonneg
    intro x hx
    obtain ⟨j, _, rfl⟩ := List.mem_map.mp hx
    split_ifs
    · exact abs_nonneg _
    · exact le_refl _

/-- The accumulated errors and norms are non-negative. -/
theorem accumulated_nonneg (error_form : Nat → Nat → Bool) (num : Nat)
    (leaves : List (TraverseState α)) (i id : Nat) :
    0 ≤ element_error error_form num leaves i id
    ∧ 0 ≤ component_error error_form num leaves i
    ∧ 0 ≤ component_norm error_form num leaves i := by
  unfold element_error component_error component_norm
  refine ⟨?_, ?_, ?_⟩
  · apply List.sum_nonneg
    intro x hx
    obtain ⟨l, _, rfl⟩ := List.mem_map.mp hx
    split_ifs
    · exact (leaf_error_nonneg error_form num l i).1
    · exact le_refl _
  · apply List.sum_nonneg
    intro x hx
    obtain ⟨l, _, rfl⟩ := List.mem_map.mp hx
    exact (leaf_error_nonneg error_form num l i).1
  · apply List.sum_nonneg
    intro x hx
    obtain ⟨l, _, rfl⟩ := List.mem_map.mp hx
    exact (leaf_error_nonneg error_form num l i).2

/-- Summing an indicator of one member over a list without duplicates gives
the value once. -/
theorem sum_indicator (A : List Nat) (hA : A.Nodup) (a : Nat) (ha : a ∈ A) (x : α) :
    (A.map (fun id => if id = a then x else 0)).sum = x := by
  induction A with
  | nil => cases ha
  | cons b A ih =>
    obtain ⟨hb, hA2⟩ := List.nodup_cons.mp hA
    rw [List.map_cons, List.sum_cons]
    rcases List.mem_cons.mp ha with rfl | h
    · have hz : (A.map (fun id => if id = a then x else 0)).sum = 0 := by
        apply List.sum_eq_zero
        intro y hy
        obtain ⟨id, hid, rfl⟩ := List.mem_map.mp hy
        rw [if_neg (fun (e : id = a) => hb (e ▸ hid))]
      rw [hz, if_pos rfl, add_zero]
    · rw [ih hA2 h, if_neg (fun (e : b = a) => hb (e ▸ h)), zero_add]

/-- The errors accumulated on the elements of a list without duplicates that
holds the element of every traversal state add up to the error of the
component. -/
theorem element_errors_sum (error_form : Nat → Nat → Bool) (num : Nat)
    (leaves : List (TraverseState α)) (i : Nat) (A : List Nat) (hA : A.Nodup)
    (hleaf : ∀ l, l ∈ leaves → l.id i ∈ A) :
    (A.map (element_error error_form num leaves i)).sum
      = component_error error_form num leaves i := by
  induction leaves with
  | nil =>
    unfold component_error
    apply List.sum_eq_zero
    intro y hy
    obtain ⟨id, _, rfl⟩ := List.mem_map.mp hy
    rfl
  | cons l leaves ih =>
    have e1 : ∀ id, element_error error_form num (l :: leaves) i id
        = (if id = l.id i then leaf_error error_form num l i else 0)
          + element_error error_form num leaves i id := by
      intro id
      unfold element_error
      rw [List.map_cons, List.sum_cons]
    have e2 : (A.map (element_error error_form num (l :: leaves) i)).sum
        = (A.map (fun id => if id = l.id i then leaf_error error_form num l i else 0)).sum
          + (A.map (element_error error_form num leaves i)).sum := by
      rw [← List.sum_map_add]
      congr 1
    rw [e2, sum_indicator A hA (l.id i) (hleaf l (List.mem_cons_self _ _)),
      ih (fun l2 h2 => hleaf l2 (List.mem_cons_of_mem _ h2))]
    unfold component_error
    rw [List.map_cons, List.sum_cons]

/-- A sum of quotients by one divisor is the quotient of the sum. -/
theorem sum_map_div_const (A : List Nat) (f : Nat → α) (d : α) :
    (A.map (fun id => f id / d)).sum = (A.map f).sum / d := by
  induction A with
  | nil => simp
  | cons a A ih => rw [List.map_cons, List.sum_cons, ih, List.map_cons, List.sum_cons, add_div]

/-- The sum over the active elements `A` of errors that are the accumulated
element errors, divided by `N` on the members of `A` in the relative case. -/
theorem stored_sum_of_errors (error_form : Nat → Nat → Bool) (num : Nat)
    (leaves : List (TraverseState α)) (k : Nat) (A : List Nat) (hA : A.Nodup)
    (rel : Prop) [Decidable rel] (errs : Nat → α) (N : α)
    (herr : ∀ id, errs id
      = if rel ∧ id ∈ A then element_error error_form num leaves k id / N
        else element_error error_form num leaves k id)
    (hleaf : ∀ l, l ∈ leaves → l.id k ∈ A) :
    (A.map errs).sum
      = if rel then component_error error_form num leaves k / N
        else component_error error_form num leaves k := by
  by_cases hrel : rel
  · rw [if_pos hrel]
    have e : A.map errs = A.map (fun id => element_error error_form num leaves k id / N) := by
      apply List.map_congr_left
      intro id hid
      rw [herr, if_pos ⟨hrel, hid⟩]
    rw [e, sum_map_div_const, element_errors_sum error_form num leaves k A hA hleaf]
  · rw [if_neg hrel]
    have e : A.map errs = A.map (element_error error_form num leaves k) := by
      apply List.map_congr_left
      intro id hid
      rw [herr, if_neg (fun h => hrel h.1)]
    rw [e, element_errors_sum error_form num leaves k A hA hleaf]

/-- The sums of the scenario `demo_leaves`: error 1 and norm 4. -/
theorem demo_pass_sums :
    total_error_sum demo_pass_state.error_form 1 demo_leaves = 1
    ∧ total_norm_sum demo_pass_state.error_form 1 demo_leaves = 4
    ∧ component_error demo_pass_state.error_form 1 demo_leaves 0 = 1
    ∧ component_norm demo_pass_state.error_form 1 demo_leaves 0 = 4 := by
  refine ⟨?_, ?_, ?_, ?_⟩ <;>
    norm_num [total_error_sum, total_norm_sum, component_error, component_norm, leaf_error,
      leaf_norm, eval_error, eval_error_norm, demo_leaves, demo_pass_state, List.range_succ,
      abs_of_nonneg]

/-- C18, amended: after a storing error pass (as many solutions as
components, a recognized total-error mode, at least one active element, every
traversal state on an active element of the coarse mesh of each component, and
positive component norms `N_k` whenever the element-error mode or the
total-error mode is relative, so that no quotient has a zero divisor) every
stored element error of a component is non-negative, and the stored errors of
component `k` over the active elements of its coarse mesh add up to `E_k` when
the element-error mode is absolute and to `E_k / N_k` when it is relative.  The
component error reported by the pass is `sqrt(E_k)` resp. `sqrt(E_k / N_k)`
by the total-error mode, so it is the square root of that sum when the two
modes agree. -/
theorem stored_errors_sum_by_element_mode (c : Collaborators α) (codes : ErrorFlagCodes)
    (sort_queue : (Nat → Nat → α) → List ElementReference → List ElementReference)
    (leaves : List (TraverseState α)) (st : ErrorPassState α) (slns rslns : List Solution)
    (want : Bool) (error_flags : Nat)
    (hn : slns.length = st.core.num) (hr : st.core.num ≤ rslns.length)
    (hmode : error_flags &&& codes.HERMES_TOTAL_ERROR_MASK = codes.HERMES_TOTAL_ERROR_ABS
      ∨ error_flags &&& codes.HERMES_TOTAL_ERROR_MASK = codes.HERMES_TOTAL_ERROR_REL)
    (hact : 0 < total_active_elements st.core (fun i => (slns.getD i default).mesh))
    (hleaf : ∀ l, l ∈ leaves → ∀ k, k < st.core.num →
      l.id k ∈ (st.core.meshes ((slns.getD k default).mesh)).active_ids)
    (hnorm : (error_flags &&& codes.HERMES_ELEMENT_ERROR_MASK = codes.HERMES_ELEMENT_ERROR_REL
        ∨ error_flags &&& codes.HERMES_TOTAL_ERROR_MASK ≠ codes.HERMES_TOTAL_ERROR_ABS) →
      ∀ k, k < st.core.num → 0 < component_norm st.error_form st.core.num leaves k) :
    ∃ value comps st',
      calc_err_internal c codes sort_queue leaves st slns rslns want true error_flags
        = ErrorPassOutcome.returned value comps st'
      ∧ (∀ k id, k < st.core.num → 0 ≤ st'.core.errors k id)
      ∧ (∀ k, k < st.core.num →
          stored_error_sum st'.core (fun i => (slns.getD i default).mesh) k
            = if error_flags &&& codes.HERMES_ELEMENT_ERROR_MASK
                  = codes.HERMES_ELEMENT_ERROR_REL
              then component_error st.error_form st.core.num leaves k
                / component_norm st.error_form st.core.num leaves k
              else component_error st.error_form st.core.num leaves k)
      ∧ (want = true →
          comps = some ((List.range st.core.num).map (fun k =>
            if error_flags &&& codes.HERMES_TOTAL_ERROR_MASK = codes.HERMES_TOTAL_ERROR_ABS
            then c.sqrt (component_error st.error_form st.core.num leaves k)
            else c.sqrt (component_error st.error_form st.core.num leaves k
              / component_norm st.error_form st.core.num leaves k))))
      ∧ (want = true →
          ((error_flags &&& codes.HERMES_TOTAL_ERROR_MASK = codes.HERMES_TOTAL_ERROR_ABS
              ∧ ¬ error_flags &&& codes.HERMES_ELEMENT_ERROR_MASK
                  = codes.HERMES_ELEMENT_ERROR_REL)
            ∨ (¬ error_flags &&& codes.HERMES_TOTAL_ERROR_MASK = codes.HERMES_TOTAL_ERROR_ABS
              ∧ error_flags &&& codes.HERMES_ELEMENT_ERROR_MASK
                  = codes.HERMES_ELEMENT_ERROR_REL)) →
          comps = some ((List.range st.core.num).map (fun k =>
            c.sqrt (stored_error_sum st'.core (fun i => (slns.getD i default).mesh) k)))) := by
  obtain ⟨st', hcall, _, _, _, hmesh, _, _, _, _, hst, _⟩ :=
    calc_err_internal_returns c codes sort_queue leaves st slns rslns want true error_flags
      hn hr hmode (fun _ => hact)
  obtain ⟨_, _, herr, _, _⟩ := hst rfl
  have hsum : ∀ k, k < st.core.num →
      stored_error_sum st'.core (fun i => (slns.getD i default).mesh) k
        = if error_flags &&& codes.HERMES_ELEMENT_ERROR_MASK = codes.HERMES_ELEMENT_ERROR_REL
          then component_error st.error_form st.core.num leaves k
            / component_norm st.error_form st.core.num leaves k
          else component_error st.error_form st.core.num leaves k := by
    intro k hk
    unfold stored_error_sum
    rw [hmesh]
    exact stored_sum_of_errors st.error_form st.core.num leaves k _
      (List.Nodup.filter _ (List.nodup_range _)) _ (st'.core.errors k) _
      (fun id => herr k id hk) (fun l hl => hleaf l hl k hk)
  refine ⟨_, _, st', hcall, ?_, hsum, ?_, ?_⟩
  · intro k id hk
    rw [herr k id hk]
    obtain ⟨h1, _, h3⟩ := accumulated_nonneg st.error_form st.core.num leaves k id
    split_ifs with h
    · exact div_nonneg h1 (le_of_lt (hnorm (Or.inl h.1) k hk))
    · exact h1
  · intro hw
    rw [if_pos hw]
  · intro hw hagree
    rw [if_pos hw]
    congr 1
    apply List.map_congr_left
    intro k hk
    rw [hsum k (List.mem_range.mp hk)]
    rcases hagree with ⟨ha, he⟩ | ⟨ha, he⟩
    · rw [if_pos ha, if_neg he]
    · rw [if_neg ha, if_pos he]

/-- The traversal states of `demo_leaves` sit on active elements of the demo
mesh. -/
theorem demo_leaves_active (l : TraverseState ℚ) (hl : l ∈ demo_leaves) (k : Nat)
    (hk : k < demo_pass_state.core.num) :
    l.id k ∈ (demo_pass_state.core.meshes
      ((([⟨0⟩] : List Solution).getD k default).mesh)).active_ids := by
  have hk1 : k < 1 := hk
  interval_cases k
  simp only [demo_leaves, List.mem_cons, List.mem_singleton, List.not_mem_nil, or_false] at hl
  rcases hl with rfl | rfl | rfl | rfl <;> decide

/-- The component norm of the demo pass is positive. -/
theorem demo_pass_norm_pos (k : Nat) (hk : k < demo_pass_state.core.num) :
    0 < component_norm demo_pass_state.error_form demo_pass_state.core.num demo_leaves k := by
  have hk1 : k < 1 := hk
  interval_cases k
  show 0 < component_norm demo_pass_state.error_form 1 demo_leaves 0
  rw [demo_pass_sums.2.2.2]
  norm_num

/-- The storing pass on the demo mesh with both modes relative (flags 0; the
component has the error 1 and the positive norm 4): the stored errors add up
to 1/4, and the reported component error is the square root 1/2 of that sum.
With both modes absolute (flags 17) the stored errors add up to 1 and the
reported component error is 1. -/
theorem stored_errors_sum_by_element_mode_witness :
    (∀ k, k < demo_pass_state.core.num →
      0 < component_norm demo_pass_state.error_form demo_pass_state.core.num demo_leaves k)
    ∧ (∃ value comps st',
      calc_err_internal demo_collaborators demo_codes demo_sort_queue demo_leaves
          demo_pass_state [⟨0⟩] [⟨0⟩] true true 0
        = ErrorPassOutcome.returned value comps st'
      ∧ 0 ≤ st'.core.errors 0 2
      ∧ stored_error_sum st'.core (fun i => (([⟨0⟩] : List Solution).getD i default).mesh) 0
          = 1 / 4
      ∧ comps = some [1 / 2])
    ∧ ∃ value comps st',
      calc_err_internal demo_collaborators demo_codes demo_sort_queue demo_leaves
          demo_pass_state [⟨0⟩] [⟨0⟩] true true 17
        = ErrorPassOutcome.returned value comps st'
      ∧ 0 ≤ st'.core.errors 0 2
      ∧ stored_error_sum st'.core (fun i => (([⟨0⟩] : List Solution).getD i default).mesh) 0 = 1
      ∧ comps = some [1] := by
  refine ⟨demo_pass_norm_pos, ?_, ?_⟩
  · obtain ⟨value, comps, st', hcall, hnn, hsum, hcomps, _⟩ :=
      stored_errors_sum_by_element_mode demo_collaborators demo_codes demo_sort_queue
        demo_leaves demo_pass_state [⟨0⟩] [⟨0⟩] true 0 rfl (by decide) (Or.inr (by decide))
        (by decide) demo_leaves_active (fun _ => demo_pass_norm_pos)
    refine ⟨value, comps, st', hcall, hnn 0 2 (by decide), ?_, ?_⟩
    · have h := hsum 0 (by decide)
      rw [if_pos (by decide)] at h
      rw [h]
      show component_error demo_pass_state.error_form 1 demo_leaves 0
        / component_norm demo_pass_state.error_form 1 demo_leaves 0 = 1 / 4
      rw [demo_pass_sums.2.2.1, demo_pass_sums.2.2.2]
    · rw [hcomps rfl]
      show some [if 0 &&& 15 = 1 then _ else
          demo_collaborators.sqrt (component_error demo_pass_state.error_form 1 demo_leaves 0
            / component_norm demo_pass_state.error_form 1 demo_leaves 0)] = _
      rw [if_neg (by decide), demo_pass_sums.2.2.1, demo_pass_sums.2.2.2]
      norm_num [demo_collaborators]
  · obtain ⟨value, comps, st', hcall, hnn, hsum, hcomps, _⟩ :=
      stored_errors_sum_by_element_mode demo_collaborators demo_codes demo_sort_queue
        demo_leaves demo_pass_state [⟨0⟩] [⟨0⟩] true 17 rfl (by decide) (Or.inl (by decide))
        (by decide) demo_leaves_active (fun _ => demo_pass_norm_pos)
    refine ⟨value, comps, st', hcall, hnn 0 2 (by decide), ?_, ?_⟩
    · have h := hsum 0 (by decide)
      rw [if_neg (by decide)] at h
      exact h.trans demo_pass_sums.2.2.1
    · rw [hcomps rfl]
      show some [if 17 &&& 15 = 1 then
          demo_collaborators.sqrt (component_error demo_pass_state.error_form 1 demo_leaves 0)
        else _] = _
      rw [if_pos (by decide), demo_pass_sums.2.2.1]
      norm_num [demo_collaborators]

/-- Counterexample to C18 as stated: with the total-error mode absolute and the
element-error mode relative (flags 1) the pass on the demo mesh reports the
component error 1, whose square is 1, while the stored element errors, each
1/4 divided by the norm 4, add up to 1/4. -/
theorem stored_sum_differs_from_reported :
    ∃ st',
      calc_err_internal demo_collaborators demo_codes demo_sort_queue demo_leaves
          demo_pass_state [⟨0⟩] [⟨0⟩] true true 1
        = ErrorPassOutcome.returned 1 (some [1]) st'
      ∧ stored_error_sum st'.core (fun i => (([⟨0⟩] : List Solution).getD i default).mesh) 0
          = 1 / 4
      ∧ (1 : ℚ) / 4 ≠ 1 * 1 := by
  obtain ⟨st', hcall, _, _, _, hmesh, _, _, _, _, hst, _⟩ :=
    calc_err_internal_returns demo_collaborators demo_codes demo_sort_queue demo_leaves
      demo_pass_state [⟨0⟩] [⟨0⟩] true true 1 rfl (by decide) (Or.inl (by decide))
      (fun _ => by decide)
  obtain ⟨_, _, herr, _, _⟩ := hst rfl
  refine ⟨st', ?_, ?_, by norm_num⟩
  · rw [hcall]
    have hv : (if 1 &&& demo_codes.HERMES_TOTAL_ERROR_MASK = demo_codes.HERMES_TOTAL_ERROR_ABS
        then demo_collaborators.sqrt
          (total_error_sum demo_pass_state.error_form demo_pass_state.core.num demo_leaves)
        else demo_collaborators.sqrt
          (total_error_sum demo_pass_state.error_form demo_pass_state.core.num demo_leaves
            / total_norm_sum demo_pass_state.error_form demo_pass_state.core.num demo_leaves))
        = 1 := by
      rw [if_pos (by decide)]
      show demo_collaborators.sqrt (total_error_sum demo_pass_state.error_form 1 demo_leaves) = 1
      rw [demo_pass_sums.1]
      norm_num [demo_collaborators]
    have hc : (List.range demo_pass_state.core.num).map (fun i =>
        if 1 &&& demo_codes.HERMES_TOTAL_ERROR_MASK = demo_codes.HERMES_TOTAL_ERROR_ABS
        then demo_collaborators.sqrt
          (component_error demo_pass_state.error_form demo_pass_state.core.num demo_leaves i)
        else demo_collaborators.sqrt
          (component_error demo_pass_state.error_form demo_pass_state.core.num demo_leaves i
            / component_norm demo_pass_state.error_form demo_pass_state.core.num demo_leaves i))
        = [1] := by
      show [if 1 &&& 15 = 1 then
          demo_collaborators.sqrt (component_error demo_pass_state.error_form 1 demo_leaves 0)
        else _] = _
      rw [if_pos (by decide), demo_pass_sums.2.2.1]
      norm_num [demo_collaborators]
    rw [hv, hc]
    rfl
  · unfold stored_error_sum
    rw [hmesh]
    have h := stored_sum_of_errors demo_pass_state.error_form demo_pass_state.core.num
      demo_leaves 0
      (demo_pass_state.core.meshes ((([⟨0⟩] : List Solution).getD 0 default).mesh)).active_ids
      (List.Nodup.filter _ (List.nodup_range _)) _ (st'.core.errors 0) _
      (fun id => herr 0 id (by decide)) (fun l hl => demo_leaves_active l hl 0 (by decide))
    rw [if_pos (by decide)] at h
    rw [h]
    show component_error demo_pass_state.error_form 1 demo_leaves 0
      / component_norm demo_pass_state.error_form 1 demo_leaves 0 = 1 / 4
    rw [demo_pass_sums.2.2.1, demo_pass_sums.2.2.2]

/-- C19: after a storing error pass (as many solutions as components, a
recognized total-error mode, at least one active element, and a total norm `N`
other than zero when the total-error mode is relative, so that the quotients
of lines 803 and 828 have a non-zero divisor), provided the code of the
relative element-error mode equals the code of the relative total-error mode
(line 802 compares the total-error bits with `HERMES_ELEMENT_ERROR_REL`) and
differs from the code of the absolute total-error mode: `errors_squared_sum`
is the accumulated total error `E` when the total-error mode is absolute and
`E / N` when it is relative, whatever the element-error bits of the flags are,
and the value returned is the square root of `errors_squared_sum`. -/
theorem errors_squared_sum_follows_total_mode (c : Collaborators α) (codes : ErrorFlagCodes)
    (sort_queue : (Nat → Nat → α) → List ElementReference → List ElementReference)
    (leaves : List (TraverseState α)) (st : ErrorPassState α) (slns rslns : List Solution)
    (want : Bool) (error_flags : Nat)
    (hn : slns.length = st.core.num) (hr : st.core.num ≤ rslns.length)
    (hmode : error_flags &&& codes.HERMES_TOTAL_ERROR_MASK = codes.HERMES_TOTAL_ERROR_ABS
      ∨ error_flags &&& codes.HERMES_TOTAL_ERROR_MASK = codes.HERMES_TOTAL_ERROR_REL)
    (hact : 0 < total_active_elements st.core (fun i => (slns.getD i default).mesh))
    (hcode : codes.HERMES_ELEMENT_ERROR_REL = codes.HERMES_TOTAL_ERROR_REL)
    (hdist : codes.HERMES_TOTAL_ERROR_ABS ≠ codes.HERMES_TOTAL_ERROR_REL)
    (_hnorm : error_flags &&& codes.HERMES_TOTAL_ERROR_MASK = codes.HERMES_TOTAL_ERROR_REL →
      total_norm_sum st.error_form st.core.num leaves ≠ 0) :
    ∃ value comps st',
      calc_err_internal c codes sort_queue leaves st slns rslns want true error_flags
        = ErrorPassOutcome.returned value comps st'
      ∧ st'.core.have_errors = true
      ∧ (error_flags &&& codes.HERMES_TOTAL_ERROR_MASK = codes.HERMES_TOTAL_ERROR_ABS →
          st'.core.errors_squared_sum = total_error_sum st.error_form st.core.num leaves)
      ∧ (error_flags &&& codes.HERMES_TOTAL_ERROR_MASK = codes.HERMES_TOTAL_ERROR_REL →
          st'.core.errors_squared_sum
            = total_error_sum st.error_form st.core.num leaves
              / total_norm_sum st.error_form st.core.num leaves)
      ∧ value = c.sqrt st'.core.errors_squared_sum := by
  obtain ⟨st', hcall, _, _, _, _, _, _, _, _, hst, _⟩ :=
    calc_err_internal_returns c codes sort_queue leaves st slns rslns want true error_flags
      hn hr hmode (fun _ => hact)
  obtain ⟨hhave, hsum, _, _, _⟩ := hst rfl
  rw [hcode] at hsum
  refine ⟨_, _, st', hcall, hhave, ?_, ?_, ?_⟩
  · intro ha
    rw [hsum, if_neg (fun h => hdist (ha.symm.trans h))]
  · intro hrel
    rw [hsum, if_pos hrel]
  · rw [hsum]
    by_cases ha : error_flags &&& codes.HERMES_TOTAL_ERROR_MASK = codes.HERMES_TOTAL_ERROR_ABS
    · rw [if_pos ha, if_neg (fun h => hdist (ha.symm.trans h))]
    · have hrel : error_flags &&& codes.HERMES_TOTAL_ERROR_MASK
          = codes.HERMES_TOTAL_ERROR_REL := by
        rcases hmode with h1 | h1
        · exact absurd h1 ha
        · exact h1
      rw [if_neg ha, if_pos hrel]

/-- The storing pass on the demo mesh (error 1, norm 4): with the flags 16
(total mode relative, element mode absolute) `errors_squared_sum` is 1/4, with
the flags 1 (total mode absolute, element mode relative) it is 1. -/
theorem errors_squared_sum_follows_total_mode_witness :
    (∃ value comps st',
      calc_err_internal demo_collaborators demo_codes demo_sort_queue demo_leaves
          demo_pass_state [⟨0⟩] [⟨0⟩] false true 16
        = ErrorPassOutcome.returned value comps st'
      ∧ st'.core.errors_squared_sum = 1 / 4 ∧ value = 1 / 2)
    ∧ (∃ value comps st',
      calc_err_internal demo_collaborators demo_codes demo_sort_queue demo_leaves
          demo_pass_state [⟨0⟩] [⟨0⟩] false true 1
        = ErrorPassOutcome.returned value comps st'
      ∧ st'.core.errors_squared_sum = 1 ∧ value = 1) := by
  constructor
  · obtain ⟨value, comps, st', hcall, _, _, hrel, hv⟩ :=
      errors_squared_sum_follows_total_mode demo_collaborators demo_codes demo_sort_queue
        demo_leaves demo_pass_state [⟨0⟩] [⟨0⟩] false 16 rfl (by decide) (Or.inr (by decide))
        (by decide) rfl (by decide)
        (fun _ => by
          show total_norm_sum demo_pass_state.error_form 1 demo_leaves ≠ 0
          rw [demo_pass_sums.2.1]
          norm_num)
    have h : st'.core.errors_squared_sum = 1 / 4 := by
      rw [hrel (by decide)]
      show total_error_sum demo_pass_state.error_form 1 demo_leaves
        / total_norm_sum demo_pass_state.error_form 1 demo_leaves = 1 / 4
      rw [demo_pass_sums.1, demo_pass_sums.2.1]
    refine ⟨value, comps, st', hcall, h, ?_⟩
    rw [hv, h]
    norm_num [demo_collaborators]
  · obtain ⟨value, comps, st', hcall, _, habs, _, hv⟩ :=
      errors_squared_sum_follows_total_mode demo_collaborators demo_codes demo_sort_queue
        demo_leaves demo_pass_state [⟨0⟩] [⟨0⟩] false 1 rfl (by decide) (Or.inl (by decide))
        (by decide) rfl (by decide) (fun h => absurd h (by decide))
    have h : st'.core.errors_squared_sum = 1 := by
      rw [habs (by decide)]
      exact demo_pass_sums.1
    refine ⟨value, comps, st', hcall, h, ?_⟩
    rw [hv, h]
    norm_num [demo_collaborators]

/-- The total error is the sum of the errors of the components. -/
theorem total_error_sum_eq (error_form : Nat → Nat → Bool) (num : Nat)
    (leaves : List (TraverseState α)) :
    total_error_sum error_form num leaves
      = ((List.range num).map (component_error error_form num leaves)).sum := by
  induction leaves with
  | nil =>
    unfold total_error_sum
    symm
    apply List.sum_eq_zero
    intro y hy
    obtain ⟨i, _, rfl⟩ := List.mem_map.mp hy
    rfl
  | cons l leaves ih =>
    have e1 : total_error_sum error_form num (l :: leaves)
        = ((List.range num).map (leaf_error error_form num l)).sum
          + total_error_sum error_form num leaves := by
      unfold total_error_sum
      rw [List.map_cons, List.sum_cons]
    have e2 : ((List.range num).map (component_error error_form num (l :: leaves))).sum
        = ((List.range num).map (leaf_error error_form num l)).sum
          + ((List.range num).map (component_error error_form num leaves)).sum := by
      rw [← List.sum_map_add]
      congr 1
    rw [e1, e2, ih]

/-- C20: with as many solutions as components, a recognized total-error mode,
when storing, at least one active element and, in relative total-error mode, a
total norm `N` other than zero and, when the component errors are requested,
component norms `N_i` other than zero (so that no quotient of lines 776 and 828
has a zero divisor), `calc_err_internal` returns `sqrt(E)` in absolute
total-error mode and `sqrt(E / N)` in relative mode, `E` and `N` being the
values of `eval_error` and `eval_error_norm` summed over all traversal states
and all pairs with a defined error form; a requested component vector gets
exactly `num` entries, entry `i` being `sqrt(E_i)` resp. `sqrt(E_i / N_i)`; `E`
is the sum of the `E_i`, so in absolute mode the square of the returned value is
the sum of the squares of the component errors whenever `sqrt` squares back to
its argument at `E` and at every `E_i`.  A pass that does not store has then
executed no division by zero. -/
theorem calc_err_internal_value (c : Collaborators α) (codes : ErrorFlagCodes)
    (sort_queue : (Nat → Nat → α) → List ElementReference → List ElementReference)
    (leaves : List (TraverseState α)) (st : ErrorPassState α) (slns rslns : List Solution)
    (want sfa : Bool) (error_flags : Nat)
    (hn : slns.length = st.core.num) (hr : st.core.num ≤ rslns.length)
    (hmode : error_flags &&& codes.HERMES_TOTAL_ERROR_MASK = codes.HERMES_TOTAL_ERROR_ABS
      ∨ error_flags &&& codes.HERMES_TOTAL_ERROR_MASK = codes.HERMES_TOTAL_ERROR_REL)
    (hact : sfa = true →
      0 < total_active_elements st.core (fun i => (slns.getD i default).mesh))
    (hnorm : ¬ error_flags &&& codes.HERMES_TOTAL_ERROR_MASK = codes.HERMES_TOTAL_ERROR_ABS →
      total_norm_sum st.error_form st.core.num leaves ≠ 0)
    (hnorms : want = true →
      ¬ error_flags &&& codes.HERMES_TOTAL_ERROR_MASK = codes.HERMES_TOTAL_ERROR_ABS →
      ∀ i, i < st.core.num → component_norm st.error_form st.core.num leaves i ≠ 0) :
    ∃ value comps st',
      calc_err_internal c codes sort_queue leaves st slns rslns want sfa error_flags
        = ErrorPassOutcome.returned value comps st'
      ∧ (sfa = false → st'.non_finite = false)
      ∧ (error_flags &&& codes.HERMES_TOTAL_ERROR_MASK = codes.HERMES_TOTAL_ERROR_ABS →
          value = c.sqrt (total_error_sum st.error_form st.core.num leaves))
      ∧ (¬ error_flags &&& codes.HERMES_TOTAL_ERROR_MASK = codes.HERMES_TOTAL_ERROR_ABS →
          value = c.sqrt (total_error_sum st.error_form st.core.num leaves
            / total_norm_sum st.error_form st.core.num leaves))
      ∧ (want = false → comps = none)
      ∧ (want = true → ∃ L, comps = some L ∧ L.length = st.core.num
          ∧ (∀ i, i < st.core.num →
              (error_flags &&& codes.HERMES_TOTAL_ERROR_MASK = codes.HERMES_TOTAL_ERROR_ABS →
                L.getD i 0 = c.sqrt (component_error st.error_form st.core.num leaves i))
              ∧ (¬ error_flags &&& codes.HERMES_TOTAL_ERROR_MASK
                    = codes.HERMES_TOTAL_ERROR_ABS →
                L.getD i 0 = c.sqrt (component_error st.error_form st.core.num leaves i
                  / component_norm st.error_form st.core.num leaves i)))
          ∧ (error_flags &&& codes.HERMES_TOTAL_ERROR_MASK = codes.HERMES_TOTAL_ERROR_ABS →
              c.sqrt (total_error_sum st.error_form st.core.num leaves)
                  * c.sqrt (total_error_sum st.error_form st.core.num leaves)
                = total_error_sum st.error_form st.core.num leaves →
              (∀ i, i < st.core.num →
                c.sqrt (component_error st.error_form st.core.num leaves i)
                    * c.sqrt (component_error st.error_form st.core.num leaves i)
                  = component_error st.error_form st.core.num leaves i) →
              value * value = (L.map (fun x => x * x)).sum))
      ∧ total_error_sum st.error_form st.core.num leaves
          = ((List.range st.core.num).map
              (component_error st.error_form st.core.num leaves)).sum := by
  obtain ⟨st', hcall, _⟩ :=
    calc_err_internal_returns c codes sort_queue leaves st slns rslns want sfa error_flags
      hn hr hmode hact
  have hflag := calc_err_internal_non_finite c codes sort_queue leaves st slns rslns want sfa
    error_flags _ _ st' hcall
  refine ⟨_, _, st', hcall, ?_, ?_, ?_, ?_, ?_, total_error_sum_eq _ _ _⟩
  · intro hs
    cases hnf : st'.non_finite with
    | false => rfl
    | true =>
      exfalso
      rcases hflag.mp hnf with ⟨hw, ha, _, i, hi, h0⟩ | ⟨h1, _⟩ | ⟨h1, _⟩ | ⟨ha, _, h0⟩
      · exact hnorms hw ha i hi h0
      · rw [hs] at h1; cases h1
      · rw [hs] at h1; cases h1
      · exact hnorm ha h0
  · intro ha
    rw [if_pos ha]
  · intro ha
    rw [if_neg ha]
  · intro hw
    rw [hw]
    rfl
  · intro hw
    rw [if_pos hw]
    refine ⟨_, rfl, ?_, ?_, ?_⟩
    · rw [List.length_map, List.length_range]
    · intro i hi
      have hget : ∀ (g : Nat → α), ((List.range st.core.num).map g).getD i 0 = g i := by
        intro g
        rw [List.getD_eq_getElem _ _ (by rw [List.length_map, List.length_range]; exact hi),
          List.getElem_map, List.getElem_range]
      rw [hget]
      constructor
      · intro ha
        rw [if_pos ha]
      · intro ha
        rw [if_neg ha]
    · intro ha hsq hsqi
      rw [if_pos ha, hsq, total_error_sum_eq, List.map_map]
      congr 1
      apply List.map_congr_left
      intro i hi
      show _ = (fun x => x * x) (if _ then _ else _)
      rw [if_pos ha]
      exact (hsqi i (List.mem_range.mp hi)).symm

/-- The sums of the scenario `pair_leaves`: component errors 9 and 16, total
error 25. -/
theorem pair_pass_sums :
    total_error_sum pair_pass_state.error_form 2 pair_leaves = 25
    ∧ component_error pair_pass_state.error_form 2 pair_leaves 0 = 9
    ∧ component_error pair_pass_state.error_form 2 pair_leaves 1 = 16 := by
  refine ⟨?_, ?_, ?_⟩ <;>
    norm_num [total_error_sum, component_error, leaf_error, eval_error, pair_leaves,
      pair_pass_state, demo_pass_state, List.range_succ, abs_of_nonneg]

/-- A non-storing pass in relative total-error mode (flags 16) on the demo
mesh, whose component has the error 1 and the norm 4: the norms are not zero,
the call returns sqrt(1/4) = 1/2 and the component error 1/2, and no division
by zero was executed.  A non-storing pass in absolute mode (flags 17) on two
components with the errors 9 and 16: the call returns 5 and the component
errors 3 and 4, and 5 * 5 = 3 * 3 + 4 * 4. -/
theorem calc_err_internal_value_witness :
    (total_norm_sum demo_pass_state.error_form demo_pass_state.core.num demo_leaves ≠ 0
    ∧ (∀ i, i < demo_pass_state.core.num →
        component_norm demo_pass_state.error_form demo_pass_state.core.num demo_leaves i ≠ 0)
    ∧ ∃ st',
      calc_err_internal demo_collaborators demo_codes demo_sort_queue demo_leaves
          demo_pass_state [⟨0⟩] [⟨0⟩] true false 16
        = ErrorPassOutcome.returned (1 / 2) (some [1 / 2]) st'
      ∧ st'.non_finite = false)
    ∧ ∃ value comps st',
      calc_err_internal square_collaborators demo_codes demo_sort_queue pair_leaves
          pair_pass_state [⟨0⟩, ⟨0⟩] [⟨0⟩, ⟨0⟩] true false 17
        = ErrorPassOutcome.returned value comps st'
      ∧ value = 5
      ∧ ∃ L, comps = some L ∧ L.length = 2 ∧ L.getD 0 0 = 3 ∧ L.getD 1 0 = 4
          ∧ value * value = (L.map (fun x => x * x)).sum := by
  have hT : total_norm_sum demo_pass_state.error_form demo_pass_state.core.num demo_leaves ≠ 0 := by
    show total_norm_sum demo_pass_state.error_form 1 demo_leaves ≠ 0
    rw [demo_pass_sums.2.1]
    norm_num
  have hC : ∀ i, i < demo_pass_state.core.num →
      component_norm demo_pass_state.error_form demo_pass_state.core.num demo_leaves i ≠ 0 :=
    fun i hi => ne_of_gt (demo_pass_norm_pos i hi)
  refine ⟨⟨hT, hC, ?_⟩, ?_⟩
  · obtain ⟨value, comps, st', hcall, hflag, _, hv, _, hL, _⟩ :=
      calc_err_internal_value demo_collaborators demo_codes demo_sort_queue demo_leaves
        demo_pass_state [⟨0⟩] [⟨0⟩] true false 16 rfl (by decide) (Or.inr (by decide))
        (fun h => by cases h) (fun _ => hT) (fun _ _ => hC)
    obtain ⟨L, hc, hlen, hget, _⟩ := hL rfl
    have hval : value = 1 / 2 := by
      rw [hv (by decide)]
      show demo_collaborators.sqrt (total_error_sum demo_pass_state.error_form 1 demo_leaves
        / total_norm_sum demo_pass_state.error_form 1 demo_leaves) = 1 / 2
      rw [demo_pass_sums.1, demo_pass_sums.2.1]
      norm_num [demo_collaborators]
    have h0 : L.getD 0 0 = 1 / 2 := by
      rw [(hget 0 (by decide)).2 (by decide)]
      show demo_collaborators.sqrt (component_error demo_pass_state.error_form 1 demo_leaves 0
        / component_norm demo_pass_state.error_form 1 demo_leaves 0) = 1 / 2
      rw [demo_pass_sums.2.2.1, demo_pass_sums.2.2.2]
      norm_num [demo_collaborators]
    have hL1 : L = [1 / 2] := by
      match L, hlen, h0 with
      | [x], _, h0 => exact congrArg (fun y => [y]) h0
    refine ⟨st', ?_, hflag rfl⟩
    rw [hcall, hval, hc, hL1]
  · obtain ⟨value, comps, st', hcall, _, hv, _, _, hL, _⟩ :=
      calc_err_internal_value square_collaborators demo_codes demo_sort_queue pair_leaves
        pair_pass_state [⟨0⟩, ⟨0⟩] [⟨0⟩, ⟨0⟩] true false 17 rfl (by decide)
        (Or.inl (by decide)) (fun h => by cases h) (fun h => absurd (by decide) h)
        (fun _ h => absurd (by decide) h)
    obtain ⟨L, hc, hlen, hget, hsq⟩ := hL rfl
    have e : total_error_sum pair_pass_state.error_form pair_pass_state.core.num pair_leaves
        = 25 := pair_pass_sums.1
    have e0 : component_error pair_pass_state.error_form pair_pass_state.core.num pair_leaves 0
        = 9 := pair_pass_sums.2.1
    have e1 : component_error pair_pass_state.error_form pair_pass_state.core.num pair_leaves 1
        = 16 := pair_pass_sums.2.2
    refine ⟨value, comps, st', hcall, ?_, L, hc, hlen, ?_, ?_, ?_⟩
    · rw [hv (by decide), e]
      norm_num [square_collaborators]
    · rw [(hget 0 (by decide)).1 (by decide), e0]
      norm_num [square_collaborators]
    · rw [(hget 1 (by decide)).1 (by decide), e1]
      norm_num [square_collaborators]
    · apply hsq (by decide)
      · rw [e]
        norm_num [square_collaborators]
      · intro i hi
        have hi2 : i < 2 := hi
        interval_cases i
        · rw [e0]
          norm_num [square_collaborators]
        · rw [e1]
          norm_num [square_collaborators]

/-- C21: `calc_err_internal` called with a number of coarse solutions other
than `num` aborts with the fatal error "Wrong number of solutions." in the
state of the call: the stored solutions, the error arrays, the queue,
`num_act_elems` and `have_errors` are those from before the call. -/
theorem calc_err_internal_wrong_count (c : Collaborators α) (codes : ErrorFlagCodes)
    (sort_queue : (Nat → Nat → α) → List ElementReference → List ElementReference)
    (leaves : List (TraverseState α)) (st : ErrorPassState α) (slns rslns : List Solution)
    (want sfa : Bool) (error_flags : Nat) (hn : slns.length ≠ st.core.num) :
    calc_err_internal c codes sort_queue leaves st slns rslns want sfa error_flags
      = ErrorPassOutcome.fatal "Wrong number of solutions." st := by
  unfold calc_err_internal
  dsimp only
  rw [if_pos hn]

/-- Two solutions handed to the one-component demo engine: the call is fatal
and carries the engine as it was. -/
theorem calc_err_internal_wrong_count_witness :
    calc_err_internal demo_collaborators demo_codes demo_sort_queue demo_leaves
        demo_pass_state [⟨0⟩, ⟨0⟩] [⟨0⟩, ⟨0⟩] true true 17
      = ErrorPassOutcome.fatal "Wrong number of solutions." demo_pass_state :=
  calc_err_internal_wrong_count demo_collaborators demo_codes demo_sort_queue demo_leaves
    demo_pass_state [⟨0⟩, ⟨0⟩] [⟨0⟩, ⟨0⟩] true true 17 (by decide)

/-- With an unknown total-error mode there is no value to return. -/
theorem total_error_value_unknown (c : Collaborators α) (codes : ErrorFlagCodes)
    (error_flags : Nat) (acc : Accumulators α)
    (ha : error_flags &&& codes.HERMES_TOTAL_ERROR_MASK ≠ codes.HERMES_TOTAL_ERROR_ABS)
    (hr : error_flags &&& codes.HERMES_TOTAL_ERROR_MASK ≠ codes.HERMES_TOTAL_ERROR_REL) :
    total_error_value c codes error_flags acc = none := by
  unfold total_error_value
  rw [if_neg ha, if_neg hr]

/-- With the matching number of solutions and an unknown total-error mode the
pass ends in a fatal error, whatever the other arguments are. -/
theorem calc_err_internal_unknown_total (c : Collaborators α) (codes : ErrorFlagCodes)
    (sort_queue : (Nat → Nat → α) → List ElementReference → List ElementReference)
    (leaves : List (TraverseState α)) (st : ErrorPassState α) (slns rslns : List Solution)
    (want sfa : Bool) (error_flags : Nat)
    (hn : slns.length = st.core.num) (hr : st.core.num ≤ rslns.length)
    (ha : error_flags &&& codes.HERMES_TOTAL_ERROR_MASK ≠ codes.HERMES_TOTAL_ERROR_ABS)
    (hrel : error_flags &&& codes.HERMES_TOTAL_ERROR_MASK ≠ codes.HERMES_TOTAL_ERROR_REL) :
    ∃ st', calc_err_internal c codes sort_queue leaves st slns rslns want sfa error_flags
          = ErrorPassOutcome.fatal "Unknown total error type (0x%x)." st'
      ∨ calc_err_internal c codes sort_queue leaves st slns rslns want sfa error_flags
          = ErrorPassOutcome.fatal "Number of active elements (%d) is invalid." st' := by
  unfold calc_err_internal
  dsimp only
  rw [if_neg (fun h => h hn), if_neg (by omega)]
  simp only [total_error_value_unknown c codes error_flags _ ha hrel]
  split
  · exact ⟨_, Or.inl rfl⟩
  · split
    · exact ⟨_, Or.inr rfl⟩
    · exact ⟨_, Or.inl rfl⟩

/-- C22, amended: with the matching number of solutions, `calc_err_internal`
called with flags whose total-error mode is neither absolute nor relative ends
in a fatal error instead of returning a value; the element-error bits are
never validated: with a recognized total-error mode (and, when storing, at
least one active element) the call returns for every value of the
element-error bits, any value other than the relative code acting as the
absolute mode. -/
theorem unknown_total_mode_is_fatal (c : Collaborators α) (codes : ErrorFlagCodes)
    (sort_queue : (Nat → Nat → α) → List ElementReference → List ElementReference)
    (leaves : List (TraverseState α)) (st : ErrorPassState α) (slns rslns : List Solution)
    (want sfa : Bool) (error_flags : Nat)
    (hn : slns.length = st.core.num) (hr : st.core.num ≤ rslns.length) :
    (error_flags &&& codes.HERMES_TOTAL_ERROR_MASK ≠ codes.HERMES_TOTAL_ERROR_ABS →
      error_flags &&& codes.HERMES_TOTAL_ERROR_MASK ≠ codes.HERMES_TOTAL_ERROR_REL →
      ∃ st', calc_err_internal c codes sort_queue leaves st slns rslns want sfa error_flags
            = ErrorPassOutcome.fatal "Unknown total error type (0x%x)." st'
        ∨ calc_err_internal c codes sort_queue leaves st slns rslns want sfa error_flags
            = ErrorPassOutcome.fatal "Number of active elements (%d) is invalid." st')
    ∧ ((error_flags &&& codes.HERMES_TOTAL_ERROR_MASK = codes.HERMES_TOTAL_ERROR_ABS
          ∨ error_flags &&& codes.HERMES_TOTAL_ERROR_MASK = codes.HERMES_TOTAL_ERROR_REL) →
        (sfa = true →
          0 < total_active_elements st.core (fun i => (slns.getD i default).mesh)) →
        ∃ value comps st',
          calc_err_internal c codes sort_queue leaves st slns rslns want sfa error_flags
            = ErrorPassOutcome.returned value comps st'
          ∧ (sfa = true → ∀ k id, k < st.core.num →
              ¬ error_flags &&& codes.HERMES_ELEMENT_ERROR_MASK
                  = codes.HERMES_ELEMENT_ERROR_REL →
              st'.core.errors k id = element_error st.error_form st.core.num leaves k id)) := by
  constructor
  · intro ha hrel
    exact calc_err_internal_unknown_total c codes sort_queue leaves st slns rslns want sfa
      error_flags hn hr ha hrel
  · intro hmode hact
    obtain ⟨st', hcall, _, _, _, _, _, _, _, _, hst, _⟩ :=
      calc_err_internal_returns c codes sort_queue leaves st slns rslns want sfa error_flags
        hn hr hmode hact
    refine ⟨_, _, st', hcall, ?_⟩
    intro hs k id hk he
    obtain ⟨_, _, herr, _, _⟩ := hst hs
    rw [herr k id hk, if_neg (fun h => he h.1)]

/-- The demo pass with the total-error bits 2 (neither absolute 1 nor relative
0) is fatal; with the flags 33 (total mode absolute, element bits 32) it
returns. -/
theorem unknown_total_mode_is_fatal_witness :
    (∃ st', calc_err_internal demo_collaborators demo_codes demo_sort_queue demo_leaves
            demo_pass_state [⟨0⟩] [⟨0⟩] true true 2
          = ErrorPassOutcome.fatal "Unknown total error type (0x%x)." st'
        ∨ calc_err_internal demo_collaborators demo_codes demo_sort_queue demo_leaves
            demo_pass_state [⟨0⟩] [⟨0⟩] true true 2
          = ErrorPassOutcome.fatal "Number of active elements (%d) is invalid." st')
    ∧ ∃ value comps st',
        calc_err_internal demo_collaborators demo_codes demo_sort_queue demo_leaves
            demo_pass_state [⟨0⟩] [⟨0⟩] true true 33
          = ErrorPassOutcome.returned value comps st' := by
  constructor
  · exact (unknown_total_mode_is_fatal demo_collaborators demo_codes demo_sort_queue
      demo_leaves demo_pass_state [⟨0⟩] [⟨0⟩] true true 2 rfl (by decide)).1
      (by decide) (by decide)
  · obtain ⟨value, comps, st', hcall, _⟩ :=
      (unknown_total_mode_is_fatal demo_collaborators demo_codes demo_sort_queue
        demo_leaves demo_pass_state [⟨0⟩] [⟨0⟩] true true 33 rfl (by decide)).2
        (Or.inl (by decide)) (fun _ => by decide)
    exact ⟨value, comps, st', hcall⟩

/-- Counterexample to C22 as stated: the flags 1, 17 and 33 carry three
different element-error modes (bits 0, 16 and 32), of which at most two can be
the recognized ones, and the storing pass on the demo mesh returns a value for
each of them. -/
theorem element_mode_is_not_validated :
    (1 &&& demo_codes.HERMES_ELEMENT_ERROR_MASK = 0
      ∧ 17 &&& demo_codes.HERMES_ELEMENT_ERROR_MASK = 16
      ∧ 33 &&& demo_codes.HERMES_ELEMENT_ERROR_MASK = 32)
    ∧ (∃ value comps st',
        calc_err_internal demo_collaborators demo_codes demo_sort_queue demo_leaves
            demo_pass_state [⟨0⟩] [⟨0⟩] true true 1
          = ErrorPassOutcome.returned value comps st')
    ∧ (∃ value comps st',
        calc_err_internal demo_collaborators demo_codes demo_sort_queue demo_leaves
            demo_pass_state [⟨0⟩] [⟨0⟩] true true 17
          = ErrorPassOutcome.returned value comps st')
    ∧ (∃ value comps st',
        calc_err_internal demo_collaborators demo_codes demo_sort_queue demo_leaves
            demo_pass_state [⟨0⟩] [⟨0⟩] true true 33
          = ErrorPassOutcome.returned value comps st') := by
  refine ⟨by decide, ?_, ?_, ?_⟩
  · obtain ⟨st', h, _⟩ := calc_err_internal_returns demo_collaborators demo_codes
      demo_sort_queue demo_leaves demo_pass_state [⟨0⟩] [⟨0⟩] true true 1 rfl (by decide)
      (Or.inl (by decide)) (fun _ => by decide)
    exact ⟨_, _, st', h⟩
  · obtain ⟨st', h, _⟩ := calc_err_internal_returns demo_collaborators demo_codes
      demo_sort_queue demo_leaves demo_pass_state [⟨0⟩] [⟨0⟩] true true 17 rfl (by decide)
      (Or.inl (by decide)) (fun _ => by decide)
    exact ⟨_, _, st', h⟩
  · obtain ⟨st', h, _⟩ := calc_err_internal_returns demo_collaborators demo_codes
      demo_sort_queue demo_leaves demo_pass_state [⟨0⟩] [⟨0⟩] true true 33 rfl (by decide)
      (Or.inl (by decide)) (fun _ => by decide)
    exact ⟨_, _, st', h⟩

end ErrorPass

/-! ## The regular queue -/

section RegularQueue

variable {α : Type} [LinearOrderedField α]

/-- The method `fill_regular_queue` with a positive element count: the queue
becomes the sorted filled queue, nothing else changes. -/
theorem fill_regular_queue_eq {β : Type}
    (sort_queue : (Nat → Nat → β) → List ElementReference → List ElementReference)
    (st : AdaptState β) (meshes : Nat → Nat) (hpos : 0 < st.num_act_elems) :
    fill_regular_queue sort_queue st meshes
      = some { st with regular_queue := (sort_queue st.errors (filled_queue st meshes)) } := by
  unfold fill_regular_queue
  rw [if_pos hpos]
  rfl

/-- The push loop over the elements of one component. -/
theorem push_entries (i : Nat) (A : List Nat) (q : List ElementReference) :
    A.foldl (fun (q1 : List ElementReference) id => q1 ++ [⟨id, i⟩]) q
      = q ++ A.map (fun id => (⟨id, i⟩ : ElementReference)) := by
  induction A generalizing q with
  | nil => simp
  | cons a A ih => rw [List.foldl_cons, ih, List.map_cons, List.append_assoc]; rfl

/-- The filled queue after the first `n` components. -/
theorem filled_upto_succ (A : Nat → List Nat) (n : Nat) :
    (List.range (n + 1)).foldl
        (fun (q : List ElementReference) i =>
          (A i).foldl (fun q1 id => q1 ++ [⟨id, i⟩]) q) []
      = (List.range n).foldl
          (fun (q : List ElementReference) i =>
            (A i).foldl (fun q1 id => q1 ++ [⟨id, i⟩]) q) []
        ++ (A n).map (fun id => (⟨id, n⟩ : ElementReference)) := by
  rw [List.range_succ, List.foldl_append]
  simp only [List.foldl_cons, List.foldl_nil]
  exact push_entries n (A n) _

/-- Content of the filled queue: membership, absence of duplicates, length
and the number of entries of one element on one mesh. -/
theorem filled_upto_spec (A : Nat → List Nat) (hA : ∀ i, (A i).Nodup) (meshes : Nat → Nat)
    (n : Nat) :
    (∀ r : ElementReference, r ∈ (List.range n).foldl
        (fun (q : List ElementReference) i =>
          (A i).foldl (fun q1 id => q1 ++ [⟨id, i⟩]) q) []
        ↔ r.comp < n ∧ r.id ∈ A r.comp)
    ∧ ((List.range n).foldl
        (fun (q : List ElementReference) i =>
          (A i).foldl (fun q1 id => q1 ++ [⟨id, i⟩]) q) []).Nodup
    ∧ (((List.range n).foldl
        (fun (q : List ElementReference) i =>
          (A i).foldl (fun q1 id => q1 ++ [⟨id, i⟩]) q) []).length : Int)
        = ((List.range n).map (fun i => ((A i).length : Int))).sum
    ∧ (∀ e g, ((List.range n).foldl
        (fun (q : List ElementReference) i =>
          (A i).foldl (fun q1 id => q1 ++ [⟨id, i⟩]) q) []).countP
          (fun r => decide (r.id = e ∧ meshes r.comp = g))
        = ((List.range n).filter (fun i => decide (meshes i = g ∧ e ∈ A i))).length) := by
  induction n with
  | zero => simp
  | succ n ih =>
    obtain ⟨h1, h2, h3, h4⟩ := ih
    rw [filled_upto_succ]
    refine ⟨?_, ?_, ?_, ?_⟩
    · intro r
      rw [List.mem_append, h1, List.mem_map]
      constructor
      · rintro (⟨hc, hi⟩ | ⟨id, hid, rfl⟩)
        · exact ⟨by omega, hi⟩
        · exact ⟨by simp, hid⟩
      · rintro ⟨hc, hi⟩
        by_cases hn : r.comp = n
        · right
          refine ⟨r.id, by rw [← hn]; exact hi, ?_⟩
          cases r
          simp at hn ⊢
          exact hn.symm
        · left
          exact ⟨by omega, hi⟩
    · rw [List.nodup_append]
      refine ⟨h2, ?_, ?_⟩
      · apply List.Nodup.map _ (hA n)
        intro a b hab
        simpa using hab
      · intro r hr1 hr2
        obtain ⟨hc, _⟩ := (h1 r).mp hr1
        obtain ⟨id, _, rfl⟩ := List.mem_map.mp hr2
        simp at hc
    · rw [List.length_append, List.length_map, List.range_succ, List.map_append,
        List.sum_append]
      push_cast
      rw [h3]
      simp
    · intro e g
      rw [List.countP_append, h4, List.range_succ, List.filter_append, List.length_append,
        List.countP_map]
      congr 1
      by_cases hg : meshes n = g
      · have e1 : (A n).countP ((fun r : ElementReference =>
            decide (r.id = e ∧ meshes r.comp = g)) ∘ fun id => ⟨id, n⟩)
            = (A n).count e := by
          rw [List.count, List.countP_eq_length_filter, List.countP_eq_length_filter]
          congr 1
          apply List.filter_congr
          intro x _
          by_cases hx : x = e
          · simp [hg, hx]
          · simp [hg, hx]
        rw [e1, List.count_eq_of_nodup (hA n)]
        by_cases he : e ∈ A n
        · simp [hg, he]
        · simp [hg, he]
      · have e1 : (A n).countP ((fun r : ElementReference =>
            decide (r.id = e ∧ meshes r.comp = g)) ∘ fun id => ⟨id, n⟩) = 0 := by
          rw [List.countP_eq_zero]
          intro x _
          simp [hg]
        rw [e1]
        simp [hg]

/-- The insertion sort of the scenarios meets the contract of the sort. -/
theorem demo_sort_queue_sorts : sorts_by_compare_elements demo_sort_queue := by
  intro errors q
  haveI : IsTotal ElementReference (fun a b => errors a.comp a.id ≥ errors b.comp b.id) :=
    ⟨fun a b => le_total _ _⟩
  haveI : IsTrans ElementReference (fun a b => errors a.comp a.id ≥ errors b.comp b.id) :=
    ⟨fun a b c hab hbc => le_trans hbc hab⟩
  refine ⟨List.perm_insertionSort _ q, ?_⟩
  have hs := List.sorted_insertionSort
    (fun (a b : ElementReference) => errors a.comp a.id ≥ errors b.comp b.id) q
  apply List.Chain'.imp _ (List.Pairwise.chain' hs)
  intro a b hab
  unfold compare_elements
  exact decide_eq_false (not_lt.mpr hab)

/-- C23: for a sort that meets the contract of `std::sort` with the comparison
of `CompareElements` ("larger stored error first"), `fill_regular_queue` with a
positive element count ends, leaves the stored errors as they are, and every
entry of the queue has a stored error at least as large as the entry directly
behind it. -/
theorem regular_queue_sorted
    (sort_queue : (Nat → Nat → α) → List ElementReference → List ElementReference)
    (hsort : sorts_by_compare_elements sort_queue) (st : AdaptState α) (meshes : Nat → Nat)
    (hpos : 0 < st.num_act_elems) :
    ∃ st', fill_regular_queue sort_queue st meshes = some st' ∧ st'.errors = st.errors
      ∧ ∀ k, k + 1 < st'.regular_queue.length →
          st'.errors (st'.regular_queue.getD k default).comp
              (st'.regular_queue.getD k default).id
            ≥ st'.errors (st'.regular_queue.getD (k + 1) default).comp
                (st'.regular_queue.getD (k + 1) default).id := by
  refine ⟨_, fill_regular_queue_eq sort_queue st meshes hpos, rfl, ?_⟩
  intro k hk
  have hch := (hsort st.errors (filled_queue st meshes)).2
  have hk2 : k + 1 < (sort_queue st.errors (filled_queue st meshes)).length := hk
  have h := List.chain'_iff_get.mp hch k (by omega)
  unfold compare_elements at h
  have h2 := of_decide_eq_false h
  show st.errors ((sort_queue st.errors (filled_queue st meshes)).getD k default).comp
      ((sort_queue st.errors (filled_queue st meshes)).getD k default).id
    ≥ st.errors ((sort_queue st.errors (filled_queue st meshes)).getD (k + 1) default).comp
      ((sort_queue st.errors (filled_queue st meshes)).getD (k + 1) default).id
  rw [List.getD_eq_getElem _ _ (by omega), List.getD_eq_getElem _ _ hk2]
  exact not_lt.mp h2

/-- The queue of the demo state (errors 5, 1, 1/2, 1/4) after
`fill_regular_queue` with the insertion sort. -/
theorem regular_queue_sorted_witness :
    ∃ st', fill_regular_queue demo_sort_queue demo_state demo_state.mesh_of = some st'
      ∧ st'.errors = demo_state.errors
      ∧ ∀ k, k + 1 < st'.regular_queue.length →
          st'.errors (st'.regular_queue.getD k default).comp
              (st'.regular_queue.getD k default).id
            ≥ st'.errors (st'.regular_queue.getD (k + 1) default).comp
                (st'.regular_queue.getD (k + 1) default).id :=
  regular_queue_sorted demo_sort_queue demo_sort_queue_sorts demo_state demo_state.mesh_of
    (by decide)

/-- Content of `filled_queue`: membership, absence of duplicates, length and
the number of entries of an active element of a mesh. -/
theorem filled_queue_spec {β : Type} (st : AdaptState β) (meshes : Nat → Nat) :
    (∀ r : ElementReference, r ∈ filled_queue st meshes
        ↔ r.comp < st.num ∧ r.id ∈ (st.meshes (meshes r.comp)).active_ids)
    ∧ (filled_queue st meshes).Nodup
    ∧ ((filled_queue st meshes).length : Int) = total_active_elements st meshes
    ∧ (∀ e g, e ∈ (st.meshes g).active_ids →
        (filled_queue st meshes).countP (fun r => decide (r.id = e ∧ meshes r.comp = g))
          = ((List.range st.num).filter (fun i => decide (meshes i = g))).length) := by
  obtain ⟨h1, h2, h3, h4⟩ := filled_upto_spec (fun i => (st.meshes (meshes i)).active_ids)
    (fun i => List.Nodup.filter _ (List.nodup_range _)) meshes st.num
  refine ⟨h1, h2, h3, ?_⟩
  intro e g he
  have h := h4 e g
  unfold filled_queue
  rw [h]
  congr 1
  apply List.filter_congr
  intro i _
  by_cases hg : meshes i = g
  · have : e ∈ (st.meshes (meshes i)).active_ids := by rw [hg]; exact he
    simp [hg, he]
  · simp [hg]

/-- C24: for a sort that rearranges its input, `fill_regular_queue` with a
positive element count ends with a queue that does not depend on the previous
one and holds exactly the entries `(id, c)` with `c < num` and `id` an active
element of the mesh of `c`, each once: the queue has no duplicates, its length
is the number of active elements summed over the components, which is the
value of `num_act_elems` that the error pass computes, and an active element
of a mesh shared by `k` components has `k` entries on that mesh. -/
theorem regular_queue_content
    (sort_queue : (Nat → Nat → α) → List ElementReference → List ElementReference)
    (hperm : ∀ errors q, (sort_queue errors q).Perm q) (st : AdaptState α)
    (meshes : Nat → Nat) (hpos : 0 < st.num_act_elems) :
    ∃ st', fill_regular_queue sort_queue st meshes = some st'
      ∧ (∀ q0, fill_regular_queue sort_queue { st with regular_queue := q0 } meshes = some st')
      ∧ (∀ r : ElementReference, r ∈ st'.regular_queue
          ↔ r.comp < st.num ∧ r.id ∈ (st.meshes (meshes r.comp)).active_ids)
      ∧ st'.regular_queue.Nodup
      ∧ (st'.regular_queue.length : Int) = total_active_elements st meshes
      ∧ (∀ sfa, (prepare_arrays sfa meshes st).num_act_elems
          = (st'.regular_queue.length : Int))
      ∧ (∀ e g, e ∈ (st.meshes g).active_ids →
          st'.regular_queue.countP (fun r => decide (r.id = e ∧ meshes r.comp = g))
            = ((List.range st.num).filter (fun i => decide (meshes i = g))).length) := by
  obtain ⟨h1, h2, h3, h4⟩ := filled_queue_spec st meshes
  have hp := hperm st.errors (filled_queue st meshes)
  refine ⟨_, fill_regular_queue_eq sort_queue st meshes hpos, ?_, ?_, ?_, ?_, ?_, ?_⟩
  · intro q0
    exact fill_regular_queue_eq sort_queue { st with regular_queue := q0 } meshes hpos
  · intro r
    show r ∈ sort_queue st.errors (filled_queue st meshes) ↔ _
    rw [hp.mem_iff]
    exact h1 r
  · exact hp.nodup_iff.mpr h2
  · show ((sort_queue st.errors (filled_queue st meshes)).length : Int) = _
    rw [hp.length_eq]
    exact h3
  · intro sfa
    show _ = ((sort_queue st.errors (filled_queue st meshes)).length : Int)
    rw [hp.length_eq, h3]
    exact (prepare_arrays_spec sfa meshes st).2.2.2.2.2.2.2.2.2.1
  · intro e g he
    show (sort_queue st.errors (filled_queue st meshes)).countP _ = _
    rw [hp.countP_eq]
    exact h4 e g he

/-- The queue of `mixed_state` (components 0 and 1 on mesh 0, component 2 on
mesh 1, four active elements each): twelve entries without duplicates, two of
them for element 3 on mesh 0. -/
theorem regular_queue_content_witness :
    ∃ st', fill_regular_queue demo_sort_queue mixed_state mixed_state.mesh_of = some st'
      ∧ st'.regular_queue.Nodup
      ∧ (st'.regular_queue.length : Int) = 12
      ∧ (⟨3, 1⟩ : ElementReference) ∈ st'.regular_queue
      ∧ st'.regular_queue.countP
          (fun r => decide (r.id = 3 ∧ mixed_state.mesh_of r.comp = 0)) = 2 := by
  obtain ⟨st', h, _, hmem, hnd, hlen, _, hcount⟩ :=
    regular_queue_content demo_sort_queue (fun errors q => (demo_sort_queue_sorts errors q).1)
      mixed_state mixed_state.mesh_of (by decide)
  refine ⟨st', h, hnd, ?_, ?_, ?_⟩
  · rw [hlen]; decide
  · exact (hmem ⟨3, 1⟩).mpr (by decide)
  · rw [hcount 3 0 (by decide)]; decide

end RegularQueue

/-! ## Mesh regularization in `adapt` -/

section Regularize

variable {α : Type} [LinearOrderedField α]

/-- The regularization loop over the components below `n` does what the
specification says. -/
theorem regularize_loop_spec {β : Type} (c : Collaborators β) (meshes : Nat → Nat)
    (level : Int) (s : AdaptState β) (n : Nat) :
    regularized_as_specified c meshes n level s
      ((List.range n).foldl (regularize_component c meshes level) s) := by
  induction n with
  | zero =>
    refine ⟨fun h => rfl, fun i hi => absurd hi (Nat.not_lt_zero i), fun i _ => rfl⟩
  | succ n ih =>
    obtain ⟨hm, ho, hr⟩ := ih
    rw [List.range_succ, List.foldl_append]
    refine ⟨?_, ?_, ?_⟩
    · intro h
      show (if h = meshes n then _ else _) = _
      rw [List.range_succ, List.countP_append]
      by_cases hh : h = meshes n
      · rw [if_pos hh, hm (meshes n), hh]
        simp [Function.iterate_succ_apply']
      · rw [if_neg hh, hm h]
        have : ¬ meshes n = h := fun e => hh e.symm
        simp [this]
    · intro i hi
      show (if i = n then _ else _) = _
      by_cases hin : i = n
      · rw [if_pos hin, hin, hr n (le_refl n), hm (meshes n)]
      · rw [if_neg hin]
        exact ho i (by omega)
    · intro i hi
      show (if i = n then _ else _) = _
      rw [if_neg (by omega)]
      exact hr i (by omega)

/-- The regularization phase of `adapt`: the argument 0 and the argument 1 run
the loop with the level 1, an argument `k >= 1` with the level `k`, and a
negative argument skips the loop. -/
theorem regularize_meshes_spec {β : Type} (c : Collaborators β) (s : AdaptState β)
    (meshes : Nat → Nat) (regularize : Int) :
    (regularize = 0 → regularized_as_specified c meshes s.num 1 s
        (regularize_meshes c s meshes regularize))
    ∧ (1 ≤ regularize → regularized_as_specified c meshes s.num regularize s
        (regularize_meshes c s meshes regularize))
    ∧ (regularize < 0 → regularize_meshes c s meshes regularize = s) := by
  refine ⟨?_, ?_, ?_⟩
  · intro h0
    have e : regularize_meshes c s meshes regularize
        = (List.range s.num).foldl (regularize_component c meshes 1) s := by
      rw [h0]
      unfold regularize_meshes
      rw [if_pos (le_refl _)]
      rfl
    rw [e]
    exact regularize_loop_spec c meshes 1 s s.num
  · intro hk
    have e : regularize_meshes c s meshes regularize
        = (List.range s.num).foldl (regularize_component c meshes regularize) s := by
      unfold regularize_meshes
      rw [if_pos (by omega)]
      dsimp only
      rw [if_neg (by omega)]
      rfl
    rw [e]
    exact regularize_loop_spec c meshes regularize s s.num
  · intro hneg
    unfold regularize_meshes
    rw [if_neg (by omega)]

/-- Setting the degree of a son changes neither the number of components nor
a mesh. -/
theorem set_son_order_keeps {β : Type} (s s2 : AdaptState β) (comp id slot : Nat) (o : Int)
    (h : set_son_order s comp id slot o = some s2) :
    s2.num = s.num ∧ s2.meshes = s.meshes := by
  unfold set_son_order at h
  cases hs : ((s.meshes (s.mesh_of comp)).get_element id).sons.getD slot none with
  | none => rw [hs] at h; cases h
  | some son =>
    rw [hs] at h
    cases h
    exact ⟨rfl, rfl⟩

/-- A loop of assignments to sons changes neither the number of components
nor a mesh. -/
theorem set_son_orders_keep {β : Type} (f : Nat → Nat × Int) (comp id : Nat) (L : List Nat)
    (s s2 : AdaptState β)
    (h : L.foldlM (fun t j => set_son_order t comp id (f j).1 (f j).2) s = some s2) :
    s2.num = s.num ∧ s2.meshes = s.meshes := by
  induction L generalizing s with
  | nil =>
    cases h
    exact ⟨rfl, rfl⟩
  | cons j L ih =>
    rw [List.foldlM_cons] at h
    cases h1 : set_son_order s comp id (f j).1 (f j).2 with
    | none => rw [h1] at h; cases h
    | some t =>
      rw [h1] at h
      obtain ⟨a, b⟩ := set_son_order_keeps s t comp id _ _ h1
      obtain ⟨a2, b2⟩ := ih t h
      exact ⟨a2.trans a, b2.trans b⟩

/-- Applying one decision keeps the number of components, and keeps every mesh
when the mesh primitive `refine_element_id` returns its mesh. -/
theorem apply_refinement_keeps {β : Type} (c : Collaborators β) (st st2 : AdaptState β)
    (elem_ref : ElementToRefine) (h : apply_refinement c st elem_ref = some st2) :
    st2.num = st.num
    ∧ ((∀ m id r, c.refine_element_id m id r = m) → ∀ k, st2.meshes k = st.meshes k) := by
  have hrm : ∀ (r : Int),
      (if ((st.meshes (st.mesh_of elem_ref.comp)).get_element elem_ref.id).active = true then
          refine_mesh c st (st.mesh_of elem_ref.comp) elem_ref.id r else st).num = st.num
      ∧ ((∀ m id r, c.refine_element_id m id r = m) → ∀ k,
          (if ((st.meshes (st.mesh_of elem_ref.comp)).get_element elem_ref.id).active = true then
            refine_mesh c st (st.mesh_of elem_ref.comp) elem_ref.id r else st).meshes k
            = st.meshes k) := by
    intro r
    split_ifs
    · refine ⟨rfl, ?_⟩
      intro hid k
      show (if k = st.mesh_of elem_ref.comp then _ else _) = _
      split_ifs with hk
      · rw [hid, hk]
      · rfl
    · exact ⟨rfl, fun _ _ => rfl⟩
  unfold apply_refinement at h
  dsimp only at h
  by_cases hP : elem_ref.split = H2D_REFINEMENT_P
  · rw [if_pos hP] at h
    cases h
    exact ⟨rfl, fun _ _ => rfl⟩
  · rw [if_neg hP] at h
    by_cases hH : elem_ref.split = H2D_REFINEMENT_H
    · rw [if_pos hH] at h
      obtain ⟨a, b⟩ := set_son_orders_keep (fun j => (j, elem_ref.p.getD j 0)) _ _ _ _ _ h
      exact ⟨a.trans (hrm 0).1, fun hid k => by rw [b]; exact (hrm 0).2 hid k⟩
    · rw [if_neg hH] at h
      obtain ⟨a, b⟩ := set_son_orders_keep
        (fun j => (if elem_ref.split = 1 then j else j + 2, elem_ref.p.getD j 0)) _ _ _ _ _ h
      exact ⟨a.trans (hrm elem_ref.split).1,
        fun hid k => by rw [b]; exact (hrm elem_ref.split).2 hid k⟩

/-- Applying the decisions keeps the number of components, and keeps every
mesh when the mesh primitive `refine_element_id` returns its mesh. -/
theorem apply_refinements_keep {β : Type} (c : Collaborators β) (elems : List ElementToRefine)
    (st st2 : AdaptState β) (h : apply_refinements c st elems = some st2) :
    st2.num = st.num
    ∧ ((∀ m id r, c.refine_element_id m id r = m) → ∀ k, st2.meshes k = st.meshes k) := by
  unfold apply_refinements at h
  induction elems generalizing st with
  | nil =>
    cases h
    exact ⟨rfl, fun _ _ => rfl⟩
  | cons e elems ih =>
    rw [List.foldlM_cons] at h
    cases h1 : apply_refinement c st e with
    | none => rw [h1] at h; cases h
    | some t =>
      rw [h1] at h
      obtain ⟨a, b⟩ := apply_refinement_keeps c st t e h1
      obtain ⟨a2, b2⟩ := ih t h
      exact ⟨a2.trans a, fun hid k => (b2 hid k).trans (b hid k)⟩

/-- Homogenizing the degrees changes neither the number of components nor a
mesh. -/
theorem homogenize_keeps {β : Type} (c : Collaborators β) (st : AdaptState β)
    (meshes : Nat → Nat) :
    (homogenize_shared_mesh_orders c st meshes).num = st.num
    ∧ (homogenize_shared_mesh_orders c st meshes).meshes = st.meshes := by
  have hrow : ∀ (i : Nat) (L : List Nat) (s : AdaptState β),
      (L.foldl (fun s1 id =>
        set_element_order_internal s1 i id (homogenized_order c s1 meshes i id)) s).num = s.num
      ∧ (L.foldl (fun s1 id =>
        set_element_order_internal s1 i id (homogenized_order c s1 meshes i id)) s).meshes
          = s.meshes := by
    intro i L
    induction L with
    | nil => exact fun s => ⟨rfl, rfl⟩
    | cons id L ih =>
      intro s
      rw [List.foldl_cons]
      obtain ⟨a, b⟩ := ih (set_element_order_internal s i id (homogenized_order c s meshes i id))
      exact ⟨a, b⟩
  have hall : ∀ (L : List Nat) (s : AdaptState β),
      (L.foldl (fun s i =>
        (s.meshes (meshes i)).active_ids.foldl
          (fun s1 id => set_element_order_internal s1 i id (homogenized_order c s1 meshes i id))
          s) s).num = s.num
      ∧ (L.foldl (fun s i =>
        (s.meshes (meshes i)).active_ids.foldl
          (fun s1 id => set_element_order_internal s1 i id (homogenized_order c s1 meshes i id))
          s) s).meshes = s.meshes := by
    intro L
    induction L with
    | nil => exact fun s => ⟨rfl, rfl⟩
    | cons i L ih =>
      intro s
      rw [List.foldl_cons]
      obtain ⟨a, b⟩ := ih ((s.meshes (meshes i)).active_ids.foldl
        (fun s1 id => set_element_order_internal s1 i id (homogenized_order c s1 meshes i id)) s)
      obtain ⟨a2, b2⟩ := hrow i (s.meshes (meshes i)).active_ids s
      exact ⟨a.trans a2, b.trans b2⟩
  exact hall (List.range st.num) st

/-- C25: when `adapt` returns, the loop has ended in locals `v`, the
reconciliation has produced the decisions `elems`, these have been applied
(state `st1`) and the degrees homogenized.  The meshes and degrees of the state
returned are then: for the regularization argument 0, those after every
component's mesh has been regularized with the level 1 and the degrees of the
component redistributed (a mesh once for every component that uses it, one
component after the other); for an argument `k >= 1`, the same with exactly the
level `k`; for a negative argument, the meshes and degrees as the
homogenization left them: no mesh is regularized and no degree
redistributed. -/
theorem adapt_regularizes_by_level (c : Collaborators α) (st : AdaptState α)
    (num_selectors : Nat) (thr : α) (strat regularize : Int) (to_be_processed : α)
    (done : Bool) (st' : AdaptState α)
    (h : adapt c st num_selectors thr strat regularize to_be_processed
          = Outcome.returned done st') :
    ∃ v elems st1,
      adapt_loop c st thr strat to_be_processed (loop_measure st (LoopVars.init st))
          (LoopVars.init st) = LoopExit.finished v
      ∧ fix_shared_mesh_refinements c st st.mesh_of v.elem_inx_to_proc v.idx
          (max st.num_act_elems.toNat v.elem_inx_to_proc.length) = some elems
      ∧ apply_refinements c st elems = some st1
      ∧ (regularize = 0 →
          regularized_as_specified c st.mesh_of st.num 1
            (homogenize_shared_mesh_orders c st1 st.mesh_of) st')
      ∧ (1 ≤ regularize →
          regularized_as_specified c st.mesh_of st.num regularize
            (homogenize_shared_mesh_orders c st1 st.mesh_of) st')
      ∧ (regularize < 0 →
          st'.meshes = (homogenize_shared_mesh_orders c st1 st.mesh_of).meshes
          ∧ st'.orders = (homogenize_shared_mesh_orders c st1 st.mesh_of).orders) := by
  unfold adapt at h
  by_cases h1 : st.have_errors = true
  · by_cases h2 : num_selectors = 0
    · simp [h1, h2] at h
    · by_cases h3 : st.num = num_selectors
      · simp only [h1, h2, h3, Bool.not_true, Bool.false_eq_true, if_false, ne_eq,
          not_true_eq_false] at h
        cases hl : adapt_loop c st thr strat to_be_processed (loop_measure st (LoopVars.init st))
            (LoopVars.init st) with
        | invalid => rw [hl] at h; simp at h
        | out_of_fuel => rw [hl] at h; simp at h
        | finished v =>
          rw [hl] at h
          simp only at h
          cases hx : fix_shared_mesh_refinements c st st.mesh_of v.elem_inx_to_proc v.idx
              (max st.num_act_elems.toNat v.elem_inx_to_proc.length) with
          | none => rw [hx] at h; simp at h
          | some elems =>
            rw [hx] at h
            simp only at h
            cases ha : apply_refinements c st elems with
            | none => rw [ha] at h; simp at h
            | some st1 =>
              rw [ha] at h
              simp only [Outcome.returned.injEq] at h
              obtain ⟨_, hs⟩ := h
              have hnum : (homogenize_shared_mesh_orders c st1 st.mesh_of).num = st.num :=
                (homogenize_keeps c st1 st.mesh_of).1.trans (apply_refinements_keep c elems st st1 ha).1
              obtain ⟨r0, rk, rneg⟩ := regularize_meshes_spec c
                (homogenize_shared_mesh_orders c st1 st.mesh_of) st.mesh_of regularize
              rw [hnum] at r0 rk
              refine ⟨v, elems, st1, rfl, hx, ha, ?_, ?_, ?_⟩
              · intro hr
                rw [← hs]
                exact r0 hr
              · intro hr
                rw [← hs]
                exact rk hr
              · intro hr
                rw [← hs]
                show (regularize_meshes c _ st.mesh_of regularize).meshes = _
                  ∧ (regularize_meshes c _ st.mesh_of regularize).orders = _
                rw [rneg hr]
                exact ⟨rfl, rfl⟩
      · simp [h1, h2, h3] at h
  · simp [h1] at h

/-- The demo step with strategy 1 and threshold 0.3 under collaborators whose
`regularize` marks the mesh returns, whatever the regularization argument. -/
theorem marking_step (regularize : Int) :
    ∃ st', adapt marking_collaborators demo_state 1 (3 / 10) 1 regularize 0
      = Outcome.returned false st' := by
  norm_num [adapt, demo_state, demo_collaborators, marking_collaborators, adapt_loop,
    loop_measure, LoopVars.init,
    loop_condition, adapt_iteration, examine, prepare_threshold, stopping_rule,
    refinement_suggestion, fix_shared_mesh_refinements, fix_iteration_checked,
    update_step_checked, apply_refinements, apply_refinement,
    fix_iteration, selected_refinement, selected_refinement_over, ElementToRefine.init,
    H2D_REFINEMENT_P, H2D_REFINEMENT_H, List.range, List.range.loop, select_step]

/-- The demo step on the mesh of four element slots under collaborators whose
`regularize(level)` appends `level` slots: with the argument 0 the mesh of the
state returned has five slots, as with the argument 1; with the argument 2 it
has six; with the argument -1 it has the four slots it had. -/
theorem adapt_regularizes_by_level_witness :
    (∃ st', adapt marking_collaborators demo_state 1 (3 / 10) 1 0 0
        = Outcome.returned false st' ∧ (st'.meshes 0).elements.length = 5)
    ∧ (∃ st', adapt marking_collaborators demo_state 1 (3 / 10) 1 1 0
        = Outcome.returned false st' ∧ (st'.meshes 0).elements.length = 5)
    ∧ (∃ st', adapt marking_collaborators demo_state 1 (3 / 10) 1 2 0
        = Outcome.returned false st' ∧ (st'.meshes 0).elements.length = 6)
    ∧ (∃ st', adapt marking_collaborators demo_state 1 (3 / 10) 1 (-1) 0
        = Outcome.returned false st' ∧ (st'.meshes 0).elements.length = 4) := by
  have hkeep : ∀ (elems : List ElementToRefine) (st1 : AdaptState ℚ),
      apply_refinements marking_collaborators demo_state elems = some st1 →
      (homogenize_shared_mesh_orders marking_collaborators st1 demo_state.mesh_of).meshes 0
        = demo_state.meshes 0 := by
    intro elems st1 ha
    rw [(homogenize_keeps marking_collaborators st1 demo_state.mesh_of).2]
    exact (apply_refinements_keep marking_collaborators elems demo_state st1 ha).2
      (fun _ _ _ => rfl) 0
  refine ⟨?_, ?_, ?_, ?_⟩
  · obtain ⟨st', e⟩ := marking_step 0
    obtain ⟨v, elems, st1, _, _, ha, r0, _, _⟩ :=
      adapt_regularizes_by_level marking_collaborators demo_state 1 (3 / 10) 1 0 0 false st' e
    refine ⟨st', e, ?_⟩
    rw [(r0 rfl).1 0, hkeep elems st1 ha]
    decide
  · obtain ⟨st', e⟩ := marking_step 1
    obtain ⟨v, elems, st1, _, _, ha, _, rk, _⟩ :=
      adapt_regularizes_by_level marking_collaborators demo_state 1 (3 / 10) 1 1 0 false st' e
    refine ⟨st', e, ?_⟩
    rw [(rk (by decide)).1 0, hkeep elems st1 ha]
    decide
  · obtain ⟨st', e⟩ := marking_step 2
    obtain ⟨v, elems, st1, _, _, ha, _, rk, _⟩ :=
      adapt_regularizes_by_level marking_collaborators demo_state 1 (3 / 10) 1 2 0 false st' e
    refine ⟨st', e, ?_⟩
    rw [(rk (by decide)).1 0, hkeep elems st1 ha]
    decide
  · obtain ⟨st', e⟩ := marking_step (-1)
    obtain ⟨v, elems, st1, _, _, ha, _, _, rneg⟩ :=
      adapt_regularizes_by_level marking_collaborators demo_state 1 (3 / 10) 1 (-1) 0 false st' e
    refine ⟨st', e, ?_⟩
    rw [(rneg (by decide)).1, hkeep elems st1 ha]
    decide

end Regularize

/-! ## Construction of the engine -/

section Construction

variable {α : Type} [LinearOrderedField α]

/-- The default norms exist when every space has one of the four known
types; there is one norm per space. -/
theorem fill_default_norms_some (spaces : List Space) (proj_norms : List ProjNormType)
    (h : proj_norms.length = 0 → ∀ sp, sp ∈ spaces → ∃ n, default_norm sp.type = some n) :
    ∃ norms, fill_default_norms spaces proj_norms = some norms := by
  unfold fill_default_norms
  by_cases hp : proj_norms.length = 0
  · rw [if_pos hp]
    have hk := h hp
    clear h hp
    induction spaces generalizing proj_norms with
    | nil => exact ⟨proj_norms, rfl⟩
    | cons sp spaces ih =>
      obtain ⟨n, hn⟩ := hk sp (List.mem_cons_self _ _)
      obtain ⟨norms, e⟩ := ih (proj_norms ++ [n])
        (fun s hs => hk s (List.mem_cons_of_mem _ hs))
      refine ⟨norms, ?_⟩
      rw [List.foldlM_cons, hn]
      exact e
  · rw [if_neg hp]
    exact ⟨proj_norms, rfl⟩

/-- C26: the constructor fails with a fatal error when the vector of spaces
is empty, when it has more than `H2D_MAX_COMPONENTS` entries, and when a
non-empty vector of norms has another length; with between 1 and
`H2D_MAX_COMPONENTS` spaces, norms that are absent or as many as the spaces,
and (when the norms are absent) spaces of known types, it succeeds; and
whenever it succeeds, `num` is the number of spaces, `error_form[i][i]` is
defined for every `i < num`, `error_form[i][j]` is absent for all different
`i, j < num`, and `have_errors` is false. -/
theorem constructor_checks_and_forms (meshes : Nat → Mesh) (raw : ErrorPassState α)
    (spaces : List Space) (proj_norms : List ProjNormType) :
    (spaces = [] → ∃ msg, Adapt_Adapt meshes raw spaces proj_norms = Except.error msg)
    ∧ (H2D_MAX_COMPONENTS < spaces.length →
        ∃ msg, Adapt_Adapt meshes raw spaces proj_norms = Except.error msg)
    ∧ (proj_norms ≠ [] → proj_norms.length ≠ spaces.length →
        Adapt_Adapt meshes raw spaces proj_norms
          = Except.error "Mismatched numbers of spaces and projection types in Adapt::Adapt().")
    ∧ (spaces ≠ [] → spaces.length ≤ H2D_MAX_COMPONENTS →
        (proj_norms = [] ∨ proj_norms.length = spaces.length) →
        (proj_norms = [] → ∀ sp, sp ∈ spaces → ∃ n, default_norm sp.type = some n) →
        ∃ r, Adapt_Adapt meshes raw spaces proj_norms = Except.ok r)
    ∧ (∀ r, Adapt_Adapt meshes raw spaces proj_norms = Except.ok r →
        r.1.core.num = spaces.length ∧ 0 < r.1.core.num ∧ r.1.core.num ≤ H2D_MAX_COMPONENTS
        ∧ (∀ i, i < r.1.core.num → r.1.error_form i i = true)
        ∧ (∀ i j, i < r.1.core.num → j < r.1.core.num → i ≠ j → r.1.error_form i j = false)
        ∧ r.1.core.have_errors = false) := by
  refine ⟨?_, ?_, ?_, ?_, ?_⟩
  · intro hs
    unfold Adapt_Adapt
    subst hs
    by_cases h1 : proj_norms.length > 0 ∧ ([] : List Space).length ≠ proj_norms.length
    · rw [if_pos h1]
      exact ⟨_, rfl⟩
    · rw [if_neg h1]
      exact ⟨_, rfl⟩
  · intro hl
    unfold Adapt_Adapt
    split_ifs
    · exact ⟨_, rfl⟩
    · exact ⟨_, rfl⟩
    · exact ⟨_, rfl⟩
  · intro hp hl
    unfold Adapt_Adapt
    rw [if_pos ⟨List.length_pos.mpr hp, fun h => hl h.symm⟩]
  · intro hs hl hp hk
    have hpos : 0 < spaces.length := List.length_pos.mpr hs
    obtain ⟨norms, hn⟩ := fill_default_norms_some spaces proj_norms
      (fun h sp hsp => hk (List.length_eq_zero.mp h) sp hsp)
    unfold Adapt_Adapt
    rw [if_neg, if_neg (by omega), if_neg (by omega), hn]
    · exact ⟨_, rfl⟩
    · rintro ⟨h1, h2⟩
      rcases hp with hp | hp
      · rw [hp] at h1
        simp at h1
      · exact h2 hp.symm
  · intro r hr
    unfold Adapt_Adapt at hr
    split_ifs at hr with h1 h2 h3
    cases hn : fill_default_norms spaces proj_norms with
    | none => rw [hn] at hr; cases hr
    | some norms =>
      rw [hn] at hr
      cases hr
      refine ⟨rfl, by show 0 < spaces.length; omega, by show spaces.length ≤ _; omega, ?_, ?_,
        rfl⟩
      · intro i hi
        have hi2 : i < spaces.length := hi
        simp [hi2]
      · intro i j hi hj hij
        have hi2 : i < spaces.length := hi
        have hj2 : j < spaces.length := hj
        simp [hi2, hj2, hij]

/-- The constructor on no space, on eleven spaces, on one space with two
norms, and on two H1 spaces without norms, where it yields two components with
the diagonal error forms. -/
theorem constructor_checks_and_forms_witness :
    (∃ msg, Adapt_Adapt (fun _ => default) demo_pass_state [] [] = Except.error msg)
    ∧ (∃ msg, Adapt_Adapt (fun _ => default) demo_pass_state (List.replicate 11 h1_space) []
        = Except.error msg)
    ∧ Adapt_Adapt (fun _ => default) demo_pass_state [h1_space]
          [ProjNormType.HERMES_H1_NORM, ProjNormType.HERMES_L2_NORM]
        = Except.error "Mismatched numbers of spaces and projection types in Adapt::Adapt()."
    ∧ ∃ r, Adapt_Adapt (fun _ => default) demo_pass_state [h1_space, h1_space] [] = Except.ok r
        ∧ r.1.core.num = 2 ∧ r.1.error_form 0 0 = true ∧ r.1.error_form 1 1 = true
        ∧ r.1.error_form 0 1 = false ∧ r.1.error_form 1 0 = false
        ∧ r.1.core.have_errors = false := by
  refine ⟨?_, ?_, ?_, ?_⟩
  · exact (constructor_checks_and_forms (fun _ => default) demo_pass_state [] []).1 rfl
  · exact (constructor_checks_and_forms (fun _ => default) demo_pass_state
      (List.replicate 11 h1_space) []).2.1 (by decide)
  · exact (constructor_checks_and_forms (fun _ => default) demo_pass_state [h1_space]
      [ProjNormType.HERMES_H1_NORM, ProjNormType.HERMES_L2_NORM]).2.2.1 (by decide) (by decide)
  · obtain ⟨_, _, _, hok, hforms⟩ :=
      constructor_checks_and_forms (fun _ => default) demo_pass_state [h1_space, h1_space] []
    obtain ⟨r, hr⟩ := hok (List.cons_ne_nil _ _) (by decide) (Or.inl rfl)
      (by
        intro _ sp hsp
        simp only [List.mem_cons, List.mem_singleton, List.not_mem_nil, or_false] at hsp
        rcases hsp with rfl | rfl <;> exact ⟨_, rfl⟩)
    obtain ⟨hnum, _, _, hd, ho, hh⟩ := hforms r hr
    have hn2 : r.1.core.num = 2 := hnum
    exact ⟨r, hr, hn2, hd 0 (by omega), hd 1 (by omega), ho 0 1 (by omega) (by omega) (by decide),
      ho 1 0 (by omega) (by omega) (by decide), hh⟩

end Construction

/-! ## What the reconciliation appends -/

section Synthesis

variable {α : Type}

/-- The operation `set_split` at a position of the front part of a list acts
on the front part. -/
theorem set_split_append (body app : List ElementToRefine) (i : Nat) (U : Int)
    (g : List Int → List Int) (h : i < body.length) :
    set_split (body ++ app) i U g = set_split body i U g ++ app := by
  unfold set_split
  dsimp only
  rw [List.getD_append _ _ _ _ h]
  split_ifs
  · rw [List.set_append_left _ _ h]
  · rfl

/-- One pass of the update loop on a list whose front part `body` holds the
visited decision and everything `idx` points to: the front part keeps its
length, ids and components, the rest `app` is untouched, and one synthesized
decision is appended exactly when the component shares the mesh and has no
entry in `idx`. -/
theorem update_step_append (c : Collaborators α) (meshes : Nat → Nat)
    (idx : Nat → Nat → Int) (inx : Nat) (U : Int) (sug : Option (List Int)) (cqo : Int)
    (body app : List ElementToRefine) (j gid gcomp : Nat)
    (hinx : inx < body.length)
    (hid : (body.getD inx default).id = gid) (hcomp : (body.getD inx default).comp = gcomp)
    (hidx : ∀ k, 0 ≤ idx gid k → (idx gid k).toNat < body.length) :
    ∃ body', body'.length = body.length
      ∧ (∀ k, (body'.getD k default).id = (body.getD k default).id
          ∧ (body'.getD k default).comp = (body.getD k default).comp)
      ∧ update_step c meshes idx inx U sug cqo (body ++ app) j
          = body' ++ (app ++
              (if j ≠ gcomp ∧ meshes j = meshes gcomp ∧ idx gid j < 0
                then [synthesized_decision c cqo U sug gid j] else [])) := by
  unfold update_step
  dsimp only
  rw [List.getD_append _ _ _ _ hinx, hid, hcomp]
  by_cases hshare : j ≠ gcomp ∧ meshes j = meshes gcomp
  · rw [if_pos hshare]
    by_cases hii : idx gid j ≥ 0
    · have hlen := set_split_length body inx U
        (fun p => c.generate_shared_mesh_orders j gid cqo U p sug)
      rw [if_pos hii, set_split_append _ _ _ _ _ hinx,
        set_split_append _ _ _ _ _ (by rw [hlen]; exact hidx j hii)]
      refine ⟨set_split (set_split body inx U
          (fun p => c.generate_shared_mesh_orders j gid cqo U p sug)) (idx gid j).toNat U
          (fun p => c.generate_shared_mesh_orders j gid cqo U p sug),
        by rw [set_split_length, hlen], ?_, ?_⟩
      · intro k
        obtain ⟨a1, a2, _⟩ := set_split_getD (set_split body inx U
          (fun p => c.generate_shared_mesh_orders j gid cqo U p sug)) (idx gid j).toNat U
          (fun p => c.generate_shared_mesh_orders j gid cqo U p sug) k
        obtain ⟨b1, b2, _⟩ := set_split_getD body inx U
          (fun p => c.generate_shared_mesh_orders j gid cqo U p sug) k
        exact ⟨a1.trans b1, a2.trans b2⟩
      · rw [if_neg (fun h => by omega), List.append_nil]
    · rw [if_neg hii, set_split_append _ _ _ _ _ hinx]
      refine ⟨set_split body inx U
          (fun p => c.generate_shared_mesh_orders j gid cqo U p sug),
        set_split_length _ _ _ _, ?_, ?_⟩
      · intro k
        obtain ⟨b1, b2, _⟩ := set_split_getD body inx U
          (fun p => c.generate_shared_mesh_orders j gid cqo U p sug) k
        exact ⟨b1, b2⟩
      · rw [if_pos ⟨hshare.1, hshare.2, by omega⟩, List.append_assoc]
        rfl
  · rw [if_neg hshare]
    refine ⟨body, rfl, fun k => ⟨rfl, rfl⟩, ?_⟩
    rw [if_neg (fun h => hshare ⟨h.1, h.2.1⟩), List.append_nil]

/-- The update loop over the components `js`: the front part keeps its length,
ids and components, and the synthesized decisions of the components without an
entry in `idx` are appended behind the rest, in the order of `js`. -/
theorem update_fold_append (c : Collaborators α) (meshes : Nat → Nat)
    (idx : Nat → Nat → Int) (inx : Nat) (U : Int) (sug : Option (List Int)) (cqo : Int)
    (gid gcomp : Nat) :
    ∀ (js : List Nat) (body app : List ElementToRefine), inx < body.length →
      (body.getD inx default).id = gid → (body.getD inx default).comp = gcomp →
      (∀ k, 0 ≤ idx gid k → (idx gid k).toNat < body.length) →
      ∃ body', body'.length = body.length
        ∧ (∀ k, (body'.getD k default).id = (body.getD k default).id
            ∧ (body'.getD k default).comp = (body.getD k default).comp)
        ∧ js.foldl (update_step c meshes idx inx U sug cqo) (body ++ app)
            = body' ++ (app ++
                (js.filter (fun j => decide (j ≠ gcomp ∧ meshes j = meshes gcomp
                  ∧ idx gid j < 0))).map (synthesized_decision c cqo U sug gid)) := by
  intro js
  induction js with
  | nil =>
    intro body app _ _ _ _
    exact ⟨body, rfl, fun k => ⟨rfl, rfl⟩, by simp⟩
  | cons j js ih =>
    intro body app hinx hid hcomp hidx
    obtain ⟨b1, hl1, hk1, e1⟩ := update_step_append c meshes idx inx U sug cqo body app j gid
      gcomp hinx hid hcomp hidx
    obtain ⟨b2, hl2, hk2, e2⟩ := ih b1
      (app ++ (if j ≠ gcomp ∧ meshes j = meshes gcomp ∧ idx gid j < 0
        then [synthesized_decision c cqo U sug gid j] else []))
      (by rw [hl1]; exact hinx) ((hk1 inx).1.trans hid) ((hk1 inx).2.trans hcomp)
      (fun k hk => by rw [hl1]; exact hidx k hk)
    refine ⟨b2, hl2.trans hl1, fun k => ⟨(hk2 k).1.trans (hk1 k).1, (hk2 k).2.trans (hk1 k).2⟩,
      ?_⟩
    rw [List.foldl_cons, e1, e2, List.filter_cons]
    by_cases hj : j ≠ gcomp ∧ meshes j = meshes gcomp ∧ idx gid j < 0
    · rw [if_pos hj, if_pos (decide_eq_true hj), List.map_cons, List.append_assoc]
      rfl
    · rw [if_neg hj, if_neg (by simpa using hj), List.append_nil]

/-- The visit of a position of the front part `body` of a list, when `idx`
points below the length of `body`: the front part keeps its length, ids and
components, the rest `app` is untouched, and `appended_at` is appended. -/
theorem fix_iteration_append (c : Collaborators α) (st : AdaptState α) (meshes : Nat → Nat)
    (idx : Nat → Nat → Int) (body app : List ElementToRefine) (inx : Nat)
    (hinx : inx < body.length)
    (hidx : ∀ id k, 0 ≤ idx id k → (idx id k).toNat < body.length) :
    ∃ body', body'.length = body.length
      ∧ (∀ k, (body'.getD k default).id = (body.getD k default).id
          ∧ (body'.getD k default).comp = (body.getD k default).comp)
      ∧ fix_iteration c st meshes idx (body ++ app) inx
          = body' ++ (app ++ appended_at c st meshes idx (body ++ app) inx) := by
  unfold fix_iteration appended_at missing_components
  dsimp only
  by_cases hU : selected_refinement st.num meshes idx (body ++ app)
      ((body ++ app).getD inx default) ≠ H2D_REFINEMENT_P
  · rw [if_pos hU, if_pos hU]
    have hget : (body ++ app).getD inx default = body.getD inx default :=
      List.getD_append _ _ _ _ hinx
    obtain ⟨body', h1, h2, h3⟩ := update_fold_append c meshes idx inx
      (selected_refinement st.num meshes idx (body ++ app) ((body ++ app).getD inx default))
      (if selected_refinement st.num meshes idx (body ++ app) ((body ++ app).getD inx default)
          = H2D_REFINEMENT_H then some ((body ++ app).getD inx default).q else none)
      (st.orders ((body ++ app).getD inx default).comp ((body ++ app).getD inx default).id)
      ((body ++ app).getD inx default).id ((body ++ app).getD inx default).comp
      (List.range st.num) body app hinx (by rw [hget]) (by rw [hget])
      (fun k hk => hidx _ k hk)
    exact ⟨body', h1, h2, h3⟩
  · rw [if_neg hU, if_neg hU, List.append_nil]
    exact ⟨body, rfl, fun k => ⟨rfl, rfl⟩, rfl⟩

/-- What `appended_at` holds: a decision for the element of the visited
decision and for a component below `num`, other than the visited one, that
shares its mesh and has no entry in `idx`; its split is the selected one,
which is not P-only. -/
theorem appended_at_mem (c : Collaborators α) (st : AdaptState α) (meshes : Nat → Nat)
    (idx : Nat → Nat → Int) (l : List ElementToRefine) (inx : Nat) (d : ElementToRefine)
    (hd : d ∈ appended_at c st meshes idx l inx) :
    d.id = (l.getD inx default).id ∧ d.comp < st.num ∧ d.comp ≠ (l.getD inx default).comp
    ∧ meshes d.comp = meshes (l.getD inx default).comp
    ∧ idx d.id d.comp < 0
    ∧ d.split = selected_refinement st.num meshes idx l (l.getD inx default)
    ∧ d.split ≠ H2D_REFINEMENT_P := by
  unfold appended_at at hd
  dsimp only at hd
  by_cases hU : selected_refinement st.num meshes idx l (l.getD inx default) ≠ H2D_REFINEMENT_P
  · rw [if_pos hU] at hd
    obtain ⟨j, hj, rfl⟩ := List.mem_map.mp hd
    unfold missing_components at hj
    obtain ⟨hj1, hj2⟩ := List.mem_filter.mp hj
    have hj3 := of_decide_eq_true hj2
    exact ⟨rfl, List.mem_range.mp hj1, hj3.1, hj3.2.1, hj3.2.2, rfl, hU⟩
  · rw [if_neg hU] at hd
    cases hd

/-- The pass after the first `k` visits: the given decisions form the front
part, with their ids and components, and every decision behind them was
synthesized at one of the visits. -/
theorem pass_decomposition (c : Collaborators α) (st : AdaptState α) (meshes : Nat → Nat)
    (idx : Nat → Nat → Int) (elems : List ElementToRefine)
    (hidx : ∀ id k, 0 ≤ idx id k → (idx id k).toNat < elems.length) :
    ∀ k, k ≤ elems.length →
      ∃ body app, (List.range k).foldl (fix_iteration c st meshes idx) elems = body ++ app
        ∧ body.length = elems.length
        ∧ (∀ i, (body.getD i default).id = (elems.getD i default).id
            ∧ (body.getD i default).comp = (elems.getD i default).comp)
        ∧ ∀ d, d ∈ app → ∃ inx, inx < k ∧ d.id = (elems.getD inx default).id
            ∧ d.comp < st.num ∧ d.comp ≠ (elems.getD inx default).comp
            ∧ meshes d.comp = meshes (elems.getD inx default).comp
            ∧ idx d.id d.comp < 0 ∧ d.split ≠ H2D_REFINEMENT_P := by
  intro k
  induction k with
  | zero =>
    intro _
    exact ⟨elems, [], by simp, rfl, fun i => ⟨rfl, rfl⟩, fun d hd => by cases hd⟩
  | succ k ih =>
    intro hk
    obtain ⟨body, app, e, hl, hids, happ⟩ := ih (by omega)
    obtain ⟨body', h1, h2, h3⟩ := fix_iteration_append c st meshes idx body app k
      (by rw [hl]; omega) (fun id j hj => by rw [hl]; exact hidx id j hj)
    refine ⟨body', app ++ appended_at c st meshes idx (body ++ app) k, ?_, h1.trans hl,
      fun i => ⟨(h2 i).1.trans (hids i).1, (h2 i).2.trans (hids i).2⟩, ?_⟩
    · rw [List.range_succ, List.foldl_append]
      simp only [List.foldl_cons, List.foldl_nil]
      rw [e, h3]
    · intro d hd
      rcases List.mem_append.mp hd with hd | hd
      · obtain ⟨inx, hi, rest⟩ := happ d hd
        exact ⟨inx, by omega, rest⟩
      · obtain ⟨a1, a2, a3, a4, a5, _, a7⟩ := appended_at_mem c st meshes idx _ k d hd
        have hget : (body ++ app).getD k default = body.getD k default :=
          List.getD_append _ _ _ _ (by rw [hl]; omega)
        rw [hget, (hids k).1] at a1
        rw [hget, (hids k).2] at a3 a4
        exact ⟨k, by omega, a1, a2, a3, a4, a5, a7⟩

/-- The entries `reconciliation_values` keep the n given decisions at their
positions with their (id, component); only those n positions are visited and
entries are only appended.  Every appended decision carries the element id
of a visited given decision, a component below `num`, other than the visited
one, that shares its mesh and has no entry in `idx` for that element, and a
split that is not P-only.  At each visit whose selected split is not P-only,
exactly one decision is appended for each component of `missing_components`,
with that element id, that component and the selected split; the decisions
appended earlier are left untouched by the visit.  The table `idx` is not
written, so the count is one per visited given decision of the element, not
one per element. -/
theorem reconciliation_appends_per_visit (c : Collaborators α) (st : AdaptState α)
    (meshes : Nat → Nat) (idx : Nat → Nat → Int) (elems : List ElementToRefine)
    (hidx : ∀ id k, 0 ≤ idx id k → (idx id k).toNat < elems.length) :
    (∃ body app, reconciliation_values c st meshes elems idx = body ++ app
        ∧ body.length = elems.length
        ∧ (∀ i, (body.getD i default).id = (elems.getD i default).id
            ∧ (body.getD i default).comp = (elems.getD i default).comp)
        ∧ ∀ d, d ∈ app → ∃ inx, inx < elems.length ∧ d.id = (elems.getD inx default).id
            ∧ d.comp < st.num ∧ d.comp ≠ (elems.getD inx default).comp
            ∧ meshes d.comp = meshes (elems.getD inx default).comp
            ∧ idx d.id d.comp < 0 ∧ d.split ≠ H2D_REFINEMENT_P)
    ∧ (∀ body app inx, body.length = elems.length → inx < elems.length →
        ∃ body', body'.length = body.length
          ∧ (∀ k, (body'.getD k default).id = (body.getD k default).id
              ∧ (body'.getD k default).comp = (body.getD k default).comp)
          ∧ fix_iteration c st meshes idx (body ++ app) inx
              = body' ++ (app ++ appended_at c st meshes idx (body ++ app) inx))
    ∧ (∀ l inx,
        (appended_at c st meshes idx l inx).map (fun d => d.comp)
          = (if selected_refinement st.num meshes idx l (l.getD inx default) ≠ H2D_REFINEMENT_P
              then missing_components st.num meshes idx (l.getD inx default) else [])
        ∧ (missing_components st.num meshes idx (l.getD inx default)).Nodup
        ∧ ∀ d, d ∈ appended_at c st meshes idx l inx →
            d.id = (l.getD inx default).id
            ∧ d.split = selected_refinement st.num meshes idx l (l.getD inx default)) := by
  refine ⟨?_, ?_, ?_⟩
  · exact pass_decomposition c st meshes idx elems hidx elems.length (Nat.le_refl _)
  · intro body app inx hl hinx
    exact fix_iteration_append c st meshes idx body app inx (by rw [hl]; exact hinx)
      (fun id k hk => by rw [hl]; exact hidx id k hk)
  · intro l inx
    refine ⟨?_, ?_, ?_⟩
    · unfold appended_at
      dsimp only
      by_cases hU : selected_refinement st.num meshes idx l (l.getD inx default)
          ≠ H2D_REFINEMENT_P
      · rw [if_pos hU, if_pos hU, List.map_map]
        exact (List.map_congr_left (fun j _ => rfl)).trans (List.map_id _)
      · rw [if_neg hU, if_neg hU]
        rfl
    · unfold missing_components
      exact List.Nodup.filter _ (List.nodup_range _)
    · intro d hd
      obtain ⟨a1, _, _, _, _, a6, _⟩ := appended_at_mem c st meshes idx l inx d hd
      exact ⟨a1, a6⟩

/-- The components without an entry in `idx` depend on the element id and
the component of the decision only. -/
theorem missing_components_congr (num : Nat) (meshes : Nat → Nat) (idx : Nat → Nat → Int)
    (d e : ElementToRefine) (hid : d.id = e.id) (hcomp : d.comp = e.comp) :
    missing_components num meshes idx d = missing_components num meshes idx e := by
  unfold missing_components
  rw [hid, hcomp]

/-- A visit appends at most one decision per component without an entry in
`idx`. -/
theorem appended_at_length_le (c : Collaborators α) (st : AdaptState α) (meshes : Nat → Nat)
    (idx : Nat → Nat → Int) (l : List ElementToRefine) (inx : Nat) :
    (appended_at c st meshes idx l inx).length
      ≤ (missing_components st.num meshes idx (l.getD inx default)).length := by
  unfold appended_at
  dsimp only
  by_cases hU : selected_refinement st.num meshes idx l (l.getD inx default) ≠ H2D_REFINEMENT_P
  · rw [if_pos hU, List.length_map]
  · rw [if_neg hU]
    exact Nat.zero_le _

/-- The number of entries after the first `k` visits is at most the number of
given decisions plus, for each visited decision, the number of components
sharing its mesh that have no entry in `idx` for its element. -/
theorem pass_length_le (c : Collaborators α) (st : AdaptState α) (meshes : Nat → Nat)
    (idx : Nat → Nat → Int) (elems : List ElementToRefine)
    (hidx : ∀ id k, 0 ≤ idx id k → (idx id k).toNat < elems.length) :
    ∀ k, k ≤ elems.length →
      ∃ body app, (List.range k).foldl (fix_iteration c st meshes idx) elems = body ++ app
        ∧ body.length = elems.length
        ∧ (∀ i, (body.getD i default).id = (elems.getD i default).id
            ∧ (body.getD i default).comp = (elems.getD i default).comp)
        ∧ app.length ≤ ((List.range k).map (fun i =>
            (missing_components st.num meshes idx (elems.getD i default)).length)).sum := by
  intro k
  induction k with
  | zero =>
    intro _
    exact ⟨elems, [], by simp, rfl, fun i => ⟨rfl, rfl⟩, by simp⟩
  | succ k ih =>
    intro hk
    obtain ⟨body, app, e, hl, hids, happ⟩ := ih (by omega)
    obtain ⟨body', h1, h2, h3⟩ := fix_iteration_append c st meshes idx body app k
      (by rw [hl]; omega) (fun id j hj => by rw [hl]; exact hidx id j hj)
    refine ⟨body', app ++ appended_at c st meshes idx (body ++ app) k, ?_, h1.trans hl,
      fun i => ⟨(h2 i).1.trans (hids i).1, (h2 i).2.trans (hids i).2⟩, ?_⟩
    · rw [List.range_succ, List.foldl_append]
      simp only [List.foldl_cons, List.foldl_nil]
      rw [e, h3]
    · have hget : (body ++ app).getD k default = body.getD k default :=
        List.getD_append _ _ _ _ (by rw [hl]; omega)
      have hle := appended_at_length_le c st meshes idx (body ++ app) k
      rw [hget, missing_components_congr st.num meshes idx _ _ (hids k).1 (hids k).2] at hle
      rw [List.range_succ, List.map_append, List.sum_append, List.length_append]
      simp only [List.map_cons, List.map_nil, List.sum_cons, List.sum_nil, Nat.add_zero]
      omega

/-- The entries after the pass are at most the given decisions plus one per
given decision and component that shares its mesh without an entry in `idx`. -/
theorem reconciliation_values_length_le (c : Collaborators α) (st : AdaptState α)
    (meshes : Nat → Nat) (idx : Nat → Nat → Int) (elems : List ElementToRefine)
    (hidx : ∀ id k, 0 ≤ idx id k → (idx id k).toNat < elems.length) :
    (reconciliation_values c st meshes elems idx).length
      ≤ elems.length + ((List.range elems.length).map (fun i =>
          (missing_components st.num meshes idx (elems.getD i default)).length)).sum := by
  obtain ⟨body, app, e, hl, _, happ⟩ :=
    pass_length_le c st meshes idx elems hidx elems.length (Nat.le_refl _)
  unfold reconciliation_values
  rw [e, List.length_append, hl]
  omega

/-- C10: let `idx` be the position table of the decisions handed to
`fix_shared_mesh_refinements`, all of components below `num`.  The call is
defined (no read through a reference that a `push_back` may have invalidated)
when the capacity of the vector holds the given decisions and one more
decision for every given decision and every component that shares its mesh
without an entry in `idx` for its element.  Whenever the call is defined, in
the list it leaves all decisions for one element id held by components on one
mesh carry the same split; every decision whose split is not P-only has beside
it a decision for the same element of every component sharing its mesh; a
second pass over the result, with the same table or any table pointing into
the result, changes no split where it is defined; and, on codes of the enum,
the split a given decision ends with is the unified one: the least upper bound
of the splits given for its element on its mesh. -/
theorem reconciliation_unifies_and_mirrors (c : Collaborators α) (st : AdaptState α)
    (meshes : Nat → Nat) (elems : List ElementToRefine) (idx : Nat → Nat → Int)
    (capacity : Nat)
    (htab : idx_position_table idx elems)
    (hcomp : ∀ d ∈ elems, d.comp < st.num) :
    (elems.length + ((List.range elems.length).map (fun i =>
          (missing_components st.num meshes idx (elems.getD i default)).length)).sum ≤ capacity →
      ∃ l, fix_shared_mesh_refinements c st meshes elems idx capacity = some l)
    ∧ ∀ l, fix_shared_mesh_refinements c st meshes elems idx capacity = some l →
        unified meshes l
        ∧ mirrored st.num meshes l
        ∧ (∀ capacity2 l2, fix_shared_mesh_refinements c st meshes l idx capacity2 = some l2 →
            ∀ i, i < l.length → (l2.getD i default).split = (l.getD i default).split)
        ∧ (∀ (idx' : Nat → Nat → Int) capacity2 l2, idx_points_into idx' l →
            fix_shared_mesh_refinements c st meshes l idx' capacity2 = some l2 →
            ∀ i, i < l.length → (l2.getD i default).split = (l.getD i default).split)
        ∧ ((∀ d ∈ elems, valid_split d.split) →
            ∀ i, i < elems.length → group_lub meshes elems i (l.getD i default).split) := by
  constructor
  · intro hfit
    refine ⟨_, fix_shared_mesh_refinements_some c st meshes elems idx capacity ?_⟩
    exact Nat.le_trans
      (reconciliation_values_length_le c st meshes idx elems (fun id k hk => (htab.1 id k hk).1))
      hfit
  · intro l hl
    have hval := fix_shared_mesh_refinements_values c st meshes elems idx capacity l hl
    obtain ⟨hU, hM, h2, h3, h4⟩ :=
      reconciliation_values_consistent c st meshes elems idx htab hcomp
    rw [← hval] at hU hM h2 h3 h4
    refine ⟨hU, hM, ?_, ?_, h4⟩
    · intro capacity2 l2 hl2 i hi
      rw [fix_shared_mesh_refinements_values c st meshes l idx capacity2 l2 hl2]
      exact h2 i hi
    · intro idx' capacity2 l2 hp hl2 i hi
      rw [fix_shared_mesh_refinements_values c st meshes l idx' capacity2 l2 hl2]
      exact h3 idx' hp i hi

/-- The table `shared_idx` is the position table of `shared_elems`. -/
theorem shared_idx_is_position_table : idx_position_table shared_idx shared_elems := by
  constructor
  · intro id j h0
    unfold shared_idx at *
    by_cases h1 : id = 5 ∧ j = 0
    · obtain ⟨rfl, rfl⟩ := h1
      simp [shared_elems]
    · by_cases h2 : id = 5 ∧ j = 1
      · obtain ⟨rfl, rfl⟩ := h2
        simp [shared_elems]
      · simp [h1, h2] at h0
  · intro i hi
    have : i = 0 ∨ i = 1 := by
      simp only [shared_elems, List.length_cons, List.length_nil] at hi
      omega
    rcases this with rfl | rfl <;> simp [shared_elems, shared_idx]

/-- Witness of C10: the two components of `shared_state` asking for the two
anisotropic splits of element 5, in a vector of capacity 8 (the number of
active elements of the two components): the call is defined and leaves a
unified and mirrored list. -/
theorem reconciliation_unifies_and_mirrors_witness :
    idx_position_table shared_idx shared_elems
    ∧ (∀ d ∈ shared_elems, d.comp < shared_state.num)
    ∧ ∃ l, fix_shared_mesh_refinements demo_collaborators shared_state (fun _ => 0)
          shared_elems shared_idx 8 = some l
        ∧ unified (fun _ => 0) l ∧ mirrored 2 (fun _ => 0) l := by
  have T := reconciliation_unifies_and_mirrors demo_collaborators shared_state (fun _ => 0)
    shared_elems shared_idx 8 shared_idx_is_position_table (by decide)
  obtain ⟨l, hl⟩ := T.1 (by decide)
  exact ⟨shared_idx_is_position_table, by decide, l, hl, (T.2 l hl).1, (T.2 l hl).2.1⟩

/-- The table `triple_idx` is the position table of `triple_elems`. -/
theorem triple_idx_is_position_table : idx_position_table triple_idx triple_elems := by
  constructor
  · intro id j h
    unfold triple_idx at h ⊢
    by_cases h0 : id = 0 ∧ j = 1
    · rw [if_pos h0]
      obtain ⟨rfl, rfl⟩ := h0
      decide
    · rw [if_neg h0] at h ⊢
      by_cases h1 : id = 0 ∧ j = 0
      · rw [if_pos h1]
        obtain ⟨rfl, rfl⟩ := h1
        decide
      · rw [if_neg h1] at h
        exact absurd h (by decide)
  · intro i hi
    have hi2 : i < 2 := hi
    interval_cases i <;> decide

/-- The loop of `adapt` on `triple_state` (selectors asking for H splits,
strategy 1, threshold 0.3) records the decisions `triple_elems` and the table
`triple_idx` and stops at the third queue entry. -/
theorem triple_loop :
    ∃ v, adapt_loop splitting_collaborators triple_state (3 / 10) 1 0
          (loop_measure triple_state (LoopVars.init triple_state)) (LoopVars.init triple_state)
        = LoopExit.finished v
      ∧ v.elem_inx_to_proc = triple_elems ∧ v.idx = triple_idx := by
  norm_num [triple_state, demo_state, splitting_collaborators, refining_collaborators,
    demo_collaborators, adapt_loop, loop_measure, LoopVars.init, loop_condition,
    adapt_iteration, examine, prepare_threshold, stopping_rule, refinement_suggestion,
    ElementToRefine.init, H2D_REFINEMENT_H, triple_elems]
  rfl

/-- The loop of `adapt` on `crowded_state` (selectors asking for H splits,
strategy 1, threshold 0.3) records the decisions `crowded_elems` and the table
`crowded_idx` and stops at the third queue entry. -/
theorem crowded_loop :
    ∃ v, adapt_loop splitting_collaborators crowded_state (3 / 10) 1 0
          (loop_measure crowded_state (LoopVars.init crowded_state))
          (LoopVars.init crowded_state)
        = LoopExit.finished v
      ∧ v.elem_inx_to_proc = crowded_elems ∧ v.idx = crowded_idx := by
  norm_num [crowded_state, splitting_collaborators, refining_collaborators,
    demo_collaborators, adapt_loop, loop_measure, LoopVars.init, loop_condition,
    adapt_iteration, examine, prepare_threshold, stopping_rule, refinement_suggestion,
    ElementToRefine.init, H2D_REFINEMENT_H, crowded_elems]
  rfl

/-- C27, the code at the failing input.  Three components share one mesh of
four active elements (`num_act_elems = 12`); the loop of `adapt` records an H
decision for element 0 in the components 0 and 1 and none in component 2
(`triple_elems` with the position table `triple_idx`).  The unified split of
element 0 is H and component 2 has no pending decision for it, but
`fix_shared_mesh_refinements` appends two decisions for (element 0, component
2), one at each of the two visits, instead of exactly one.  On the mesh with a
single active element (`crowded_state`, `num_act_elems = 3`, decisions in the
components 1 and 2) the second of the two appended decisions for component 0
no longer fits into the reserved vector, the next pass of the update loop
reads through the invalidated reference, and `adapt` has no defined result. -/
theorem reconciliation_appends_twice :
    idx_position_table triple_idx triple_elems
    ∧ (∃ v, adapt_loop splitting_collaborators triple_state (3 / 10) 1 0
            (loop_measure triple_state (LoopVars.init triple_state))
            (LoopVars.init triple_state)
          = LoopExit.finished v
        ∧ v.elem_inx_to_proc = triple_elems ∧ v.idx = triple_idx)
    ∧ triple_idx 0 2 < 0
    ∧ triple_state.mesh_of 2 = triple_state.mesh_of 0
    ∧ selected_refinement triple_state.num triple_state.mesh_of triple_idx triple_elems
        (triple_elems.getD 0 default) = H2D_REFINEMENT_H
    ∧ H2D_REFINEMENT_H ≠ H2D_REFINEMENT_P
    ∧ fix_shared_mesh_refinements splitting_collaborators triple_state triple_state.mesh_of
        triple_elems triple_idx (max triple_state.num_act_elems.toNat triple_elems.length)
        = some (triple_elems ++
          [{ id := 0, comp := 2, split := H2D_REFINEMENT_H, p := [], q := [] },
           { id := 0, comp := 2, split := H2D_REFINEMENT_H, p := [], q := [] }])
    ∧ fix_shared_mesh_refinements splitting_collaborators crowded_state crowded_state.mesh_of
        crowded_elems crowded_idx (max crowded_state.num_act_elems.toNat crowded_elems.length)
        = none
    ∧ adapt splitting_collaborators crowded_state 3 (3 / 10) 1 (-1) 0
        = Outcome.invalid_access := by
  refine ⟨triple_idx_is_position_table, triple_loop, by decide, rfl, by decide, by decide,
    by decide, by decide, ?_⟩
  norm_num [adapt, crowded_state, splitting_collaborators, refining_collaborators,
    demo_collaborators, adapt_loop, loop_measure, LoopVars.init,
    loop_condition, adapt_iteration, examine, prepare_threshold, stopping_rule,
    refinement_suggestion, fix_shared_mesh_refinements, fix_iteration_checked,
    update_step_checked, update_step, update_step_appends, set_split,
    selected_refinement, selected_refinement_over, ElementToRefine.init,
    H2D_REFINEMENT_P, H2D_REFINEMENT_H, List.range, List.range.loop, select_step]

end Synthesis

/-! ## The active-element count after a pass that does not store -/

section StaleCount

/-- A step of `adapt` with strategy 1 on a state whose regular queue holds one
entry while `num_act_elems` is 2: the entry is examined without a `break`, the
loop condition still holds and the second read of the queue is past its end. -/
theorem adapt_overruns_single_entry {α : Type} [LinearOrderedField α] (c : Collaborators α)
    (st : AdaptState α) (thr to_be_processed : α) (regularize : Int) (r : ElementReference)
    (he : st.have_errors = true) (hnum : st.num = 1) (hq : st.regular_queue = [r])
    (hp : st.priority_queue = []) (hn : st.num_act_elems = 2)
    (hign : c.should_ignore_element 0 (st.mesh_of r.comp) r.id = false)
    (hthr : ¬ st.errors r.comp r.id < thr * st.errors r.comp r.id) :
    adapt c st 1 thr 1 regularize to_be_processed = Outcome.invalid_access := by
  have hm : loop_measure st (LoopVars.init st) = 2 := by
    simp [loop_measure, LoopVars.init, hn, hp]
  unfold adapt
  rw [hm]
  simp only [he, hnum]
  by_cases hc : c.can_refine_element (st.mesh_of r.comp) r.id
      (c.select_refinement r.comp r.id (st.orders r.comp r.id)
        (ElementToRefine.init r.id r.comp)).1
      (c.select_refinement r.comp r.id (st.orders r.comp r.id)
        (ElementToRefine.init r.id r.comp)).2 = true
  · simp [adapt_loop, loop_condition, adapt_iteration, examine, LoopVars.init, hq, hp, hn, hign,
      prepare_threshold, stopping_rule, hthr, refinement_suggestion, hc]
  · simp [adapt_loop, loop_condition, adapt_iteration, examine, LoopVars.init, hq, hp, hn, hign,
      prepare_threshold, stopping_rule, hthr, refinement_suggestion, hc]

/-- C28, the code at the failing input: an engine with one component whose
mesh has one active element runs a storing error pass, after which
`have_errors` holds and `num_act_elems` is the size 1 of the regular queue.
A second error pass with `solutions_for_adapt = false`, on a solution whose
mesh has two active elements, returns with `have_errors` still true and the
queue as it was, but with `num_act_elems = 2`.  The next call of `adapt`
(strategy 1, threshold 0.3) examines the one queue entry and then reads
`regular_queue[1]`, past the end of the queue. -/
theorem nonstoring_pass_leaves_stale_count :
    ∃ value comps st1,
      calc_err_internal demo_collaborators demo_codes demo_sort_queue coarse_leaves
          stale_pass_state [⟨0⟩] [⟨0⟩] false true 1
        = ErrorPassOutcome.returned value comps st1
      ∧ st1.core.have_errors = true
      ∧ st1.core.num_act_elems = 1 ∧ st1.core.regular_queue = [⟨0, 0⟩]
      ∧ ∃ value2 comps2 st2,
          calc_err_internal demo_collaborators demo_codes demo_sort_queue fine_leaves
              st1 [⟨1⟩] [⟨1⟩] false false 1
            = ErrorPassOutcome.returned value2 comps2 st2
          ∧ st2.core.have_errors = true
          ∧ st2.core.num_act_elems = 2 ∧ st2.core.regular_queue = [⟨0, 0⟩]
          ∧ (st2.core.num_act_elems ≠ (st2.core.regular_queue.length : Int))
          ∧ adapt demo_collaborators st2.core 1 (3 / 10) 1 (-1) 0 = Outcome.invalid_access := by
  obtain ⟨st1, h1, _, hnum, hmo, hmeshes, _, hpq, _, hact, hs, _⟩ :=
    calc_err_internal_returns demo_collaborators demo_codes demo_sort_queue coarse_leaves
      stale_pass_state [⟨0⟩] [⟨0⟩] false true 1 rfl (by decide) (Or.inl (by decide))
      (fun _ => by decide)
  obtain ⟨hhe, _, herr, _, hqueue⟩ := hs rfl
  have hq1 : st1.core.regular_queue = [⟨0, 0⟩] := by
    rw [hqueue]
    rfl
  have hn1 : st1.core.num_act_elems = 1 := by
    rw [hact]
    decide
  have hnum1 : st1.core.num = 1 := hnum
  obtain ⟨st2, h2, _, hnum2, hmo2, _, _, hpq2, _, hact2, _, hf⟩ :=
    calc_err_internal_returns demo_collaborators demo_codes demo_sort_queue fine_leaves
      st1 [⟨1⟩] [⟨1⟩] false false 1 (by rw [hnum1]; rfl) (by rw [hnum1]; decide)
      (Or.inl (by decide)) (fun h => by cases h)
  obtain ⟨hhe2, _, herr2, hq2, _⟩ := hf rfl
  have hn2 : st2.core.num_act_elems = 2 := by
    rw [hact2]
    unfold total_active_elements
    rw [hnum1, hmeshes]
    decide
  have he00 : st2.core.errors 0 0 = 1 / 4 := by
    rw [herr2, herr 0 0 (by decide)]
    norm_num [element_error, component_norm, leaf_error, leaf_norm, eval_error, eval_error_norm,
      coarse_leaves, stale_pass_state, demo_codes, List.range_succ, abs_of_nonneg,
      Mesh.active_ids, Mesh.get_max_element_id, Mesh.get_element, fresh_element]
  refine ⟨_, _, st1, h1, hhe, hn1, hq1, _, _, st2, h2, hhe2.trans hhe, hn2, hq2.trans hq1,
    ?_, ?_⟩
  · rw [hn2, hq2, hq1]
    decide
  · apply adapt_overruns_single_entry demo_collaborators st2.core (3 / 10) 0 (-1) ⟨0, 0⟩
      (hhe2.trans hhe) (hnum2.trans hnum1) (hq2.trans hq1) (hpq2.trans hpq) hn2 rfl
    rw [he00]
    norm_num

end StaleCount

/-! ## Termination and counters of the examination loop -/

section LoopCounters

variable {α : Type} [LinearOrderedField α]

/-- Preparing the threshold leaves the counters alone. -/
theorem prepare_threshold_counts (thr : α) (v : LoopVars α) (err : α) :
    (prepare_threshold thr v err).num_ignored_elem = v.num_ignored_elem
    ∧ (prepare_threshold thr v err).num_not_changed = v.num_not_changed := by
  unfold prepare_threshold
  split_ifs <;> simp

/-- The selector step either records one decision and adds the stored error
of the element to the processed error, or counts the element as not changed. -/
theorem refinement_suggestion_counts (c : Collaborators α) (st : AdaptState α)
    (hsel : ∀ (k i : Nat) (cur : Int) (e : ElementToRefine),
      (c.select_refinement k i cur e).2.id = e.id ∧ (c.select_refinement k i cur e).2.comp = e.comp)
    (v : LoopVars α) (id comp : Nat) :
    (refinement_suggestion c st v id comp).num_ignored_elem = v.num_ignored_elem
    ∧ (refinement_suggestion c st v id comp).num_not_changed
        + (refinement_suggestion c st v id comp).elem_inx_to_proc.length
        = v.num_not_changed + v.elem_inx_to_proc.length + 1
    ∧ (v.processed_error_squared
          = (v.elem_inx_to_proc.map (fun d => st.errors d.comp d.id)).sum →
        (refinement_suggestion c st v id comp).processed_error_squared
          = ((refinement_suggestion c st v id comp).elem_inx_to_proc.map
              (fun d => st.errors d.comp d.id)).sum) := by
  unfold refinement_suggestion
  dsimp only
  split_ifs
  · refine ⟨rfl, ?_, ?_⟩
    · simp only [List.length_append, List.length_singleton]
      omega
    · intro h
      have h1 : (c.select_refinement comp id (st.orders comp id)
          (ElementToRefine.init id comp)).2.id = id :=
        (hsel comp id (st.orders comp id) (ElementToRefine.init id comp)).1
      have h2 : (c.select_refinement comp id (st.orders comp id)
          (ElementToRefine.init id comp)).2.comp = comp :=
        (hsel comp id (st.orders comp id) (ElementToRefine.init id comp)).2
      simp only [List.map_append, List.sum_append, List.map_cons, List.map_nil, List.sum_cons,
        List.sum_nil, add_zero, h1, h2, h]
  · refine ⟨rfl, ?_, ?_⟩
    · simp only
      omega
    · intro h
      exact h

/-- A completed examination counts the element once: as ignored, as not
changed or as a recorded decision. -/
theorem examine_next_counts (c : Collaborators α) (st : AdaptState α) (thr : α) (strat : Int)
    (to_be_processed : α)
    (hsel : ∀ (k i : Nat) (cur : Int) (e : ElementToRefine),
      (c.select_refinement k i cur e).2.id = e.id ∧ (c.select_refinement k i cur e).2.comp = e.comp)
    (v w : LoopVars α) (id comp : Nat) (inx_element : Int)
    (h : examine c st thr strat to_be_processed v id comp inx_element = Step.next w) :
    w.num_exam_elem = v.num_exam_elem + 1
    ∧ w.num_ignored_elem + w.num_not_changed + w.elem_inx_to_proc.length
        = v.num_ignored_elem + v.num_not_changed + v.elem_inx_to_proc.length + 1
    ∧ (v.processed_error_squared
          = (v.elem_inx_to_proc.map (fun d => st.errors d.comp d.id)).sum →
        w.processed_error_squared
          = (w.elem_inx_to_proc.map (fun d => st.errors d.comp d.id)).sum) := by
  cases hi : c.should_ignore_element inx_element (st.mesh_of comp) id with
  | true =>
    rw [examine_ignored c st thr strat to_be_processed v id comp inx_element hi] at h
    cases h
    refine ⟨rfl, ?_, fun h => h⟩
    simp only
    omega
  | false =>
    by_cases hx : 0 ≤ inx_element
    · rw [examine_regular c st thr strat to_be_processed v id comp inx_element hi hx] at h
      split_ifs at h
      cases h
      obtain ⟨_, _, p3, p4, p5, _⟩ :=
        prepare_threshold_frame thr { v with num_exam_elem := v.num_exam_elem + 1 }
          (st.errors comp id)
      obtain ⟨p7, p8⟩ :=
        prepare_threshold_counts thr { v with num_exam_elem := v.num_exam_elem + 1 }
          (st.errors comp id)
      obtain ⟨r1, r2, r3⟩ := refinement_suggestion_counts c st hsel
        (prepare_threshold thr { v with num_exam_elem := v.num_exam_elem + 1 }
          (st.errors comp id)) id comp
      have r5 := (refinement_suggestion_frame c st
        (prepare_threshold thr { v with num_exam_elem := v.num_exam_elem + 1 }
          (st.errors comp id)) id comp).2.2.2.2
      refine ⟨by rw [r5, p3], ?_, ?_⟩
      · rw [r1, p7, Nat.add_assoc, r2, p8, p4]
        simp only
        omega
      · intro h0
        apply r3
        rw [p5, p4]
        exact h0
    · rw [examine_priority c st thr strat to_be_processed v id comp inx_element hi
        (by omega)] at h
      cases h
      obtain ⟨r1, r2, r3⟩ := refinement_suggestion_counts c st hsel
        { v with num_exam_elem := v.num_exam_elem + 1 } id comp
      have r5 := (refinement_suggestion_frame c st
        { v with num_exam_elem := v.num_exam_elem + 1 } id comp).2.2.2.2
      refine ⟨r5, ?_, fun h0 => r3 h0⟩
      rw [r1, Nat.add_assoc, r2]
      simp only
      omega

/-- An examination that ends in a `break` counts the element as examined and
as nothing else; it is an element of the regular queue. -/
theorem examine_stop_counts (c : Collaborators α) (st : AdaptState α) (thr : α) (strat : Int)
    (to_be_processed : α) (v w : LoopVars α) (id comp : Nat) (inx_element : Int)
    (h : examine c st thr strat to_be_processed v id comp inx_element = Step.stop w) :
    w.num_exam_elem = v.num_exam_elem + 1
    ∧ w.num_ignored_elem = v.num_ignored_elem ∧ w.num_not_changed = v.num_not_changed
    ∧ w.elem_inx_to_proc = v.elem_inx_to_proc
    ∧ w.processed_error_squared = v.processed_error_squared
    ∧ 0 ≤ inx_element := by
  cases hi : c.should_ignore_element inx_element (st.mesh_of comp) id with
  | true =>
    rw [examine_ignored c st thr strat to_be_processed v id comp inx_element hi] at h
    cases h
  | false =>
    by_cases hx : 0 ≤ inx_element
    · rw [examine_regular c st thr strat to_be_processed v id comp inx_element hi hx] at h
      split_ifs at h
      cases h
      obtain ⟨_, _, p3, p4, p5, _⟩ :=
        prepare_threshold_frame thr { v with num_exam_elem := v.num_exam_elem + 1 }
          (st.errors comp id)
      obtain ⟨p7, p8⟩ :=
        prepare_threshold_counts thr { v with num_exam_elem := v.num_exam_elem + 1 }
          (st.errors comp id)
      exact ⟨p3, p7, p8, p4, p5, hx⟩
    · rw [examine_priority c st thr strat to_be_processed v id comp inx_element hi
        (by omega)] at h
      cases h

/-- A completed pass through the loop body: one element more is examined and
counted once, the loop measure drops by one, and either the regular-queue
index advances or one priority entry is popped; nothing is pushed. -/
theorem adapt_iteration_next_counts (c : Collaborators α) (st : AdaptState α) (thr : α)
    (strat : Int) (to_be_processed : α)
    (hsel : ∀ (k i : Nat) (cur : Int) (e : ElementToRefine),
      (c.select_refinement k i cur e).2.id = e.id ∧ (c.select_refinement k i cur e).2.comp = e.comp)
    (v w : LoopVars α) (hc : loop_condition st v = true)
    (h : adapt_iteration c st thr strat to_be_processed v = Step.next w) :
    w.num_exam_elem = v.num_exam_elem + 1
    ∧ w.num_ignored_elem + w.num_not_changed + w.elem_inx_to_proc.length
        = v.num_ignored_elem + v.num_not_changed + v.elem_inx_to_proc.length + 1
    ∧ (v.processed_error_squared
          = (v.elem_inx_to_proc.map (fun d => st.errors d.comp d.id)).sum →
        w.processed_error_squared
          = (w.elem_inx_to_proc.map (fun d => st.errors d.comp d.id)).sum)
    ∧ loop_measure st w + 1 = loop_measure st v
    ∧ ((v.priority_queue = [] ∧ w.priority_queue = []
          ∧ w.inx_regular_element = v.inx_regular_element + 1)
        ∨ (∃ front, v.priority_queue = front :: w.priority_queue
            ∧ w.inx_regular_element = v.inx_regular_element)) := by
  unfold adapt_iteration at h
  cases hq : v.priority_queue with
  | nil =>
    rw [hq] at h
    simp only at h
    cases hr : st.regular_queue[v.inx_regular_element]? with
    | none => rw [hr] at h; simp at h
    | some r =>
      rw [hr] at h
      simp only at h
      obtain ⟨h1, h2⟩ := (examine_frame c st thr strat to_be_processed _ r.id r.comp _).1 w h
      obtain ⟨e1, e2, e3⟩ :=
        examine_next_counts c st thr strat to_be_processed hsel _ w r.id r.comp _ h
      simp only [loop_condition, hq, List.isEmpty_nil, Bool.not_true, Bool.or_false,
        decide_eq_true_eq] at hc
      simp only at h1 h2 e1 e2 e3
      refine ⟨e1, e2, e3, ?_, Or.inl ⟨rfl, h2, h1⟩⟩
      simp only [loop_measure, h1, h2, hq, List.length_nil]
      omega
  | cons front rest =>
    rw [hq] at h
    simp only at h
    obtain ⟨h1, h2⟩ := (examine_frame c st thr strat to_be_processed _ front.id front.comp _).1 w h
    obtain ⟨e1, e2, e3⟩ :=
      examine_next_counts c st thr strat to_be_processed hsel _ w front.id front.comp _ h
    simp only at h1 h2 e1 e2 e3
    refine ⟨e1, e2, e3, ?_, Or.inr ⟨front, by rw [h2], h1⟩⟩
    simp only [loop_measure, h1, h2, hq, List.length_cons]
    omega

/-- A pass that ends in a `break`: the element came from the regular queue,
whose index has advanced; it is counted as examined and as nothing else. -/
theorem adapt_iteration_stop_counts (c : Collaborators α) (st : AdaptState α) (thr : α)
    (strat : Int) (to_be_processed : α)
    (v w : LoopVars α) (hc : loop_condition st v = true)
    (h : adapt_iteration c st thr strat to_be_processed v = Step.stop w) :
    w.num_exam_elem = v.num_exam_elem + 1
    ∧ w.num_ignored_elem = v.num_ignored_elem ∧ w.num_not_changed = v.num_not_changed
    ∧ w.elem_inx_to_proc = v.elem_inx_to_proc
    ∧ w.processed_error_squared = v.processed_error_squared
    ∧ loop_measure st w + 1 = loop_measure st v
    ∧ v.priority_queue = [] ∧ w.priority_queue = []
    ∧ w.inx_regular_element = v.inx_regular_element + 1 := by
  unfold adapt_iteration at h
  cases hq : v.priority_queue with
  | nil =>
    rw [hq] at h
    simp only at h
    cases hr : st.regular_queue[v.inx_regular_element]? with
    | none => rw [hr] at h; simp at h
    | some r =>
      rw [hr] at h
      simp only at h
      obtain ⟨h1, h2⟩ := (examine_frame c st thr strat to_be_processed _ r.id r.comp _).2.1 w h
      obtain ⟨e1, e2, e3, e4, e5, _⟩ :=
        examine_stop_counts c st thr strat to_be_processed _ w r.id r.comp _ h
      simp only [loop_condition, hq, List.isEmpty_nil, Bool.not_true, Bool.or_false,
        decide_eq_true_eq] at hc
      simp only at h1 h2 e1 e2 e3 e4 e5
      refine ⟨e1, e2, e3, e4, e5, ?_, rfl, h2, h1⟩
      simp only [loop_measure, h1, h2, hq, List.length_nil]
      omega
  | cons front rest =>
    rw [hq] at h
    simp only at h
    have := (examine_stop_counts c st thr strat to_be_processed _ w front.id front.comp _ h).2.2.2.2.2
    omega

/-- In every state the loop reaches: each examined element has been counted
once, the processed error is the sum of the stored errors of the recorded
decisions, the examined elements and the loop measure add up to the initial
measure, and the priority queue is a suffix of the initial one. -/
theorem loop_counters_inv (c : Collaborators α) (st : AdaptState α) (thr : α)
    (strat : Int) (to_be_processed : α)
    (hsel : ∀ (k i : Nat) (cur : Int) (e : ElementToRefine),
      (c.select_refinement k i cur e).2.id = e.id ∧ (c.select_refinement k i cur e).2.comp = e.comp)
    (v : LoopVars α) (hv : loop_reachable c st thr strat to_be_processed v) :
    v.num_exam_elem = v.num_ignored_elem + v.num_not_changed + v.elem_inx_to_proc.length
    ∧ v.processed_error_squared
        = (v.elem_inx_to_proc.map (fun d => st.errors d.comp d.id)).sum
    ∧ v.num_exam_elem + loop_measure st v = loop_measure st (LoopVars.init st)
    ∧ v.priority_queue <:+ st.priority_queue := by
  induction hv with
  | init =>
    refine ⟨rfl, ?_, ?_, List.suffix_refl _⟩
    · simp [LoopVars.init]
    · simp [LoopVars.init]
  | step v w _ hc hs ih =>
    obtain ⟨i1, i2, i3, i4⟩ := ih
    obtain ⟨e1, e2, e3, e4, e5⟩ :=
      adapt_iteration_next_counts c st thr strat to_be_processed hsel v w hc hs
    refine ⟨by omega, e3 i2, by omega, ?_⟩
    rcases e5 with ⟨_, hw, _⟩ | ⟨front, hf, _⟩
    · rw [hw]
      exact List.nil_suffix
    · exact List.IsSuffix.trans (hf ▸ List.suffix_cons front w.priority_queue) i4

/-- How the loop is left: at its head with the loop condition false, or by a
`break` in a pass that a true loop condition started. -/
theorem adapt_loop_exit_cond (c : Collaborators α) (st : AdaptState α) (thr : α) (strat : Int)
    (to_be_processed : α) :
    ∀ (fuel : Nat) (v w : LoopVars α),
      loop_reachable c st thr strat to_be_processed v →
      adapt_loop c st thr strat to_be_processed fuel v = LoopExit.finished w →
      (loop_reachable c st thr strat to_be_processed w ∧ loop_condition st w = false)
      ∨ ∃ u, loop_reachable c st thr strat to_be_processed u
          ∧ loop_condition st u = true
          ∧ adapt_iteration c st thr strat to_be_processed u = Step.stop w := by
  intro fuel
  induction fuel with
  | zero =>
    intro v w hv h
    unfold adapt_loop at h
    by_cases hc : loop_condition st v = true
    · simp [hc] at h
    · simp only [hc] at h
      cases h
      exact Or.inl ⟨hv, by simpa using hc⟩
  | succ n ih =>
    intro v w hv h
    unfold adapt_loop at h
    by_cases hc : loop_condition st v = true
    · simp only [hc, if_true] at h
      cases hs : adapt_iteration c st thr strat to_be_processed v with
      | stop u =>
        rw [hs] at h
        cases h
        exact Or.inr ⟨v, hv, hc, hs⟩
      | next u =>
        rw [hs] at h
        exact ih u w (loop_reachable.step v u hv hc hs) h
      | invalid =>
        rw [hs] at h
        cases h
    · simp only [hc] at h
      cases h
      exact Or.inl ⟨hv, by simpa using hc⟩

/-- With a regular queue of at least `num_act_elems` entries the loop is left
regularly: no read of the queue is past its end. -/
theorem adapt_loop_finishes (c : Collaborators α) (st : AdaptState α) (thr : α) (strat : Int)
    (to_be_processed : α) (hq : st.num_act_elems ≤ (st.regular_queue.length : Int)) :
    ∀ (fuel : Nat) (v : LoopVars α), loop_measure st v ≤ fuel →
      ∃ w, adapt_loop c st thr strat to_be_processed fuel v = LoopExit.finished w := by
  intro fuel
  induction fuel with
  | zero =>
    intro v hm
    have h := adapt_loop_fuel_suffices c st thr strat to_be_processed 0 v hm
    unfold adapt_loop at h ⊢
    by_cases hc : loop_condition st v = true
    · simp [hc] at h
    · simp only [hc]
      exact ⟨v, by simp⟩
  | succ n ih =>
    intro v hm
    unfold adapt_loop
    by_cases hc : loop_condition st v = true
    · simp only [hc, if_true]
      cases hs : adapt_iteration c st thr strat to_be_processed v with
      | stop u => exact ⟨u, rfl⟩
      | next u =>
        simp only
        apply ih
        have := adapt_iteration_measure c st thr strat to_be_processed v u hc hs
        omega
      | invalid =>
        exfalso
        unfold adapt_iteration at hs
        cases hp : v.priority_queue with
        | nil =>
          rw [hp] at hs
          simp only at hs
          simp only [loop_condition, hp, List.isEmpty_nil, Bool.not_true, Bool.or_false,
            decide_eq_true_eq] at hc
          have hlt : v.inx_regular_element < st.regular_queue.length := by omega
          rw [List.getElem?_eq_getElem hlt] at hs
          simp only at hs
          exact (examine_frame c st thr strat to_be_processed _ _ _ _).2.2 hs
        | cons front rest =>
          rw [hp] at hs
          simp only at hs
          exact (examine_frame c st thr strat to_be_processed _ _ _ _).2.2 hs
    · simp only [hc]
      exact ⟨v, by simp⟩

/-- C29: the examination loop of `adapt` terminates.  Given the fuel
`num_act_elems + (initial length of the priority queue)` the loop model never
runs out of fuel, and with a regular queue of at least `num_act_elems` entries
it is left regularly.  Every pass through the body examines one element and
either advances the regular-queue index by one (the priority queue being
empty) or pops the front entry of the priority queue; nothing is pushed, the
priority queue at exit is a suffix of the initial one.  At exit the number of
examined elements is at most the fuel and equals ignored + not-changed +
recorded decisions, plus one exactly when the loop was left by a `break`, and
the processed squared error is the sum of the stored errors of the recorded
decisions (the selectors leave the element id and the component of a decision
alone). -/
theorem examination_loop_terminates (c : Collaborators α) (st : AdaptState α) (thr : α)
    (strat : Int) (to_be_processed : α)
    (hsel : ∀ (k i : Nat) (cur : Int) (e : ElementToRefine),
      (c.select_refinement k i cur e).2.id = e.id ∧ (c.select_refinement k i cur e).2.comp = e.comp) :
    adapt_loop c st thr strat to_be_processed (loop_measure st (LoopVars.init st))
        (LoopVars.init st) ≠ LoopExit.out_of_fuel
    ∧ loop_measure st (LoopVars.init st) = st.num_act_elems.toNat + st.priority_queue.length
    ∧ (st.num_act_elems ≤ (st.regular_queue.length : Int) →
        ∃ w, adapt_loop c st thr strat to_be_processed (loop_measure st (LoopVars.init st))
          (LoopVars.init st) = LoopExit.finished w)
    ∧ (∀ v w, loop_condition st v = true →
        (adapt_iteration c st thr strat to_be_processed v = Step.next w
          ∨ adapt_iteration c st thr strat to_be_processed v = Step.stop w) →
        w.num_exam_elem = v.num_exam_elem + 1
        ∧ loop_measure st w + 1 = loop_measure st v
        ∧ ((v.priority_queue = [] ∧ w.priority_queue = []
              ∧ w.inx_regular_element = v.inx_regular_element + 1)
            ∨ (∃ front, v.priority_queue = front :: w.priority_queue
                ∧ w.inx_regular_element = v.inx_regular_element)))
    ∧ (∀ w, adapt_loop c st thr strat to_be_processed (loop_measure st (LoopVars.init st))
          (LoopVars.init st) = LoopExit.finished w →
        w.num_exam_elem ≤ st.num_act_elems.toNat + st.priority_queue.length
        ∧ w.priority_queue <:+ st.priority_queue
        ∧ w.processed_error_squared
            = (w.elem_inx_to_proc.map (fun d => st.errors d.comp d.id)).sum
        ∧ ((loop_condition st w = false
              ∧ w.num_exam_elem
                  = w.num_ignored_elem + w.num_not_changed + w.elem_inx_to_proc.length)
            ∨ ((∃ u, loop_reachable c st thr strat to_be_processed u
                  ∧ loop_condition st u = true
                  ∧ adapt_iteration c st thr strat to_be_processed u = Step.stop w)
                ∧ w.num_exam_elem
                    = w.num_ignored_elem + w.num_not_changed + w.elem_inx_to_proc.length + 1))) := by
  have hm : loop_measure st (LoopVars.init st)
      = st.num_act_elems.toNat + st.priority_queue.length := by
    simp [loop_measure, LoopVars.init]
  refine ⟨adapt_loop_fuel_suffices c st thr strat to_be_processed _ _ (le_refl _), hm,
    fun hq => adapt_loop_finishes c st thr strat to_be_processed hq _ _ (le_refl _), ?_, ?_⟩
  · intro v w hc h
    rcases h with h | h
    · obtain ⟨e1, _, _, e4, e5⟩ :=
        adapt_iteration_next_counts c st thr strat to_be_processed hsel v w hc h
      exact ⟨e1, e4, e5⟩
    · obtain ⟨e1, _, _, _, _, e6, e7, e8, e9⟩ :=
        adapt_iteration_stop_counts c st thr strat to_be_processed v w hc h
      exact ⟨e1, e6, Or.inl ⟨e7, e8, e9⟩⟩
  · intro w hw
    rcases adapt_loop_exit_cond c st thr strat to_be_processed _ _ w loop_reachable.init hw with
      ⟨hr, hc⟩ | ⟨u, hu, hc, hs⟩
    · obtain ⟨i1, i2, i3, i4⟩ := loop_counters_inv c st thr strat to_be_processed hsel w hr
      exact ⟨by omega, i4, i2, Or.inl ⟨hc, i1⟩⟩
    · obtain ⟨i1, i2, i3, i4⟩ := loop_counters_inv c st thr strat to_be_processed hsel u hu
      obtain ⟨e1, e2, e3, e4, e5, e6, e7, e8, _⟩ :=
        adapt_iteration_stop_counts c st thr strat to_be_processed u w hc hs
      refine ⟨by omega, ?_, ?_, Or.inr ⟨⟨u, hu, hc, hs⟩, ?_⟩⟩
      · rw [e8]
        exact List.nil_suffix
      · rw [e5, e4]
        exact i2
      · rw [e1, e2, e3, e4]
        omega

/-- Witness of C29: the demo step (strategy 1, threshold 0.3) on four active
elements and an empty priority queue leaves the loop after at most four
passes. -/
theorem examination_loop_terminates_witness :
    (∀ (k i : Nat) (cur : Int) (e : ElementToRefine),
      (demo_collaborators.select_refinement k i cur e).2.id = e.id
      ∧ (demo_collaborators.select_refinement k i cur e).2.comp = e.comp)
    ∧ adapt_loop demo_collaborators demo_state (3 / 10) 1 0
        (loop_measure demo_state (LoopVars.init demo_state)) (LoopVars.init demo_state)
        ≠ LoopExit.out_of_fuel
    ∧ ∃ w, adapt_loop demo_collaborators demo_state (3 / 10) 1 0
          (loop_measure demo_state (LoopVars.init demo_state)) (LoopVars.init demo_state)
          = LoopExit.finished w
        ∧ w.num_exam_elem ≤ 4
        ∧ w.processed_error_squared
            = (w.elem_inx_to_proc.map (fun d => demo_state.errors d.comp d.id)).sum := by
  have T := examination_loop_terminates demo_collaborators demo_state (3 / 10) 1 0
    (fun _ _ _ _ => ⟨rfl, rfl⟩)
  obtain ⟨w, hw⟩ := T.2.2.1 (by norm_num [demo_state])
  obtain ⟨b1, _, b3, _⟩ := T.2.2.2.2 w hw
  exact ⟨fun _ _ _ _ => ⟨rfl, rfl⟩, T.1, w, hw, le_trans b1 (by norm_num [demo_state]), b3⟩

end LoopCounters

/-! ## The constructors of the essential boundary conditions -/

section EssentialBC

/-- The copy loop started on an empty member `markers`: its condition
`0 < markers.size()` fails at once, whatever the argument holds. -/
theorem copy_markers_from_empty (markers_ : List String) (fuel : Nat) :
    copy_markers markers_ fuel 0 [] = MarkerCopy.finished [] := by
  cases fuel <;> simp [copy_markers]

/-- The vector constructor of `DefaultEssentialBCNonConst` returns a condition
without markers for every vector of markers. -/
theorem nonconst_from_vector_markers {α : Type} [Zero α] (markers_ : List String)
    (exact_solution : Nat) :
    ∃ bc : EssentialBoundaryCondition α,
      DefaultEssentialBCNonConst.from_vector markers_ exact_solution = some bc
      ∧ bc.markers = [] ∧ bc.exact_solution = some exact_solution := by
  unfold DefaultEssentialBCNonConst.from_vector EssentialBoundaryCondition.from_vector
  simp only [copy_markers_from_empty]
  exact ⟨_, rfl, rfl, rfl⟩

/-- The vector constructor of `DefaultEssentialBCConst` holds the markers of
the vector, in their order, and the single-marker constructors hold the one
marker. -/
theorem const_from_vector_markers {α : Type} [Zero α] (markers : List String) (marker : String)
    (value_const : α) (exact_solution : Nat) :
    (DefaultEssentialBCConst.from_vector markers value_const).markers = markers
    ∧ (DefaultEssentialBCConst.from_marker marker value_const).markers = [marker]
    ∧ (DefaultEssentialBCNonConst.from_marker marker exact_solution
        : EssentialBoundaryCondition α).markers = [marker] :=
  ⟨rfl, rfl, rfl⟩

/-- C30, the code at the failing input: `DefaultEssentialBCNonConst`
constructed from the one-element vector of the marker "a" holds no marker,
whereas `DefaultEssentialBCConst` constructed from the same vector and the
single-marker constructor of `DefaultEssentialBCNonConst` hold the marker "a".
An `EssentialBCs` built from the condition returns `NULL` from
`get_boundary_condition` for the marker "a"; built from the condition of the
single-marker constructor it returns that condition. -/
theorem nonconst_vector_constructor_drops_markers :
    ∃ bc : EssentialBoundaryCondition ℚ,
      DefaultEssentialBCNonConst.from_vector ["a"] 7 = some bc
      ∧ bc.markers = []
      ∧ (DefaultEssentialBCConst.from_vector ["a"] (1 : ℚ)).markers = ["a"]
      ∧ (DefaultEssentialBCNonConst.from_marker "a" 7 : EssentialBoundaryCondition ℚ).markers
          = ["a"]
      ∧ (∃ bcs, EssentialBCs.from_condition bc = Except.ok bcs
          ∧ bcs.all.length = 1
          ∧ bcs.get_boundary_condition "a" = none)
      ∧ ∃ bcs1, EssentialBCs.from_condition
            (DefaultEssentialBCNonConst.from_marker "a" 7 : EssentialBoundaryCondition ℚ)
            = Except.ok bcs1
          ∧ bcs1.all.length = 1
          ∧ bcs1.get_boundary_condition "a" = some 0 := by
  refine ⟨_, rfl, rfl, rfl, rfl, ⟨_, rfl, rfl, rfl⟩, ⟨_, rfl, rfl, ?_⟩⟩
  decide

end EssentialBC

end Hermes2D
